import Mathlib

/-!
# Mount option tables of `module/zfs/zfs_vfsops.c`

A shallow embedding of the option table code (`vfs_mergecancelopts`,
`vfs_mergeopttbl`, `vfs_clearmntopt_nolock`, `vfs_setmntopt_nolock`,
`vfs_parsemntopts`, `vfs_hasopt`, `vfs_copyopt`, ...) together with theorems
about it.

Conventions of the embedding.
* A C string is the list of its characters before the terminating NUL.
* A pointer that may be `NULL` is an `Option`.
* `mntopts_t` (`mo_count`, `mo_list`) is the list of its slots; `mo_count` is
  the length of that list.
* A pointer into `mo_list` (the result of `vfs_hasopt`) is the index of the slot.
* `kmem_alloc`/`kmem_free` bookkeeping has no counterpart: values are immutable.
* Counts and indices (`uint_t`, `int`, `size_t`) are natural numbers; a table or a
  string near `2^32` entries is out of reach of the allocator.
-/

namespace ZfsVfsops

/-- A C string: the characters before the terminating NUL. -/
abbrev CStr := List Char

/-- Modelled from the spec: the flag set {SET, HAS_VALUE, NO_DISPLAY, IGNORE, EMPTY}
of a MountOption (the `MO_*` bits of `mo_flags`, whose numeric values are declared
in a header outside this file). Each named flag is one bit of its own; `rest` keeps
the bits that this file never names. -/
structure MoFlags where
  set : Bool
  nodisplay : Bool
  hasvalue : Bool
  ignore : Bool
  empty : Bool
  rest : Nat
deriving DecidableEq, Repr

/-- The value `0` of `mo_flags`. -/
def MoFlags.zero : MoFlags := ⟨false, false, false, false, false, 0⟩

/-- The value `MO_HASVALUE` of `mo_flags`. -/
def MO_HASVALUE : MoFlags := { MoFlags.zero with hasvalue := true }

/-- The value `MO_EMPTY` of `mo_flags`. -/
def MO_EMPTY : MoFlags := { MoFlags.zero with empty := true }

/-- The value `MO_NODISPLAY` of `mo_flags`. -/
def MO_NODISPLAY : MoFlags := { MoFlags.zero with nodisplay := true }

/-- Modelled from the spec: the request flags of `setOption` (NO_FORCE, CREATE and the
NO_DISPLAY toggles), i.e. the `VFS_NOFORCEOPT`, `VFS_DISPLAY`, `VFS_NODISPLAY` and
`VFS_CREATEOPT` bits of the `flags` argument, declared in a header outside this file. -/
structure SetFlags where
  noforceopt : Bool
  display : Bool
  nodisplay : Bool
  createopt : Bool
deriving DecidableEq, Repr

/-- The C struct `mntopt_t`, fields in declaration order
(`mo_name`, `mo_cancel`, `mo_arg`, `mo_flags`, `mo_data`). -/
structure mntopt_t where
  mo_name : Option CStr
  mo_cancel : Option (List CStr)
  mo_arg : Option CStr
  mo_flags : MoFlags
  mo_data : Nat
deriving DecidableEq, Repr

/-- The C struct `mntopts_t`: the slots `mo_list[0 .. mo_count-1]`. -/
abbrev mntopts_t := List mntopt_t

/-- The slot that `kmem_zalloc` hands out: every field zero or `NULL`. -/
def mntopt_zero : mntopt_t := ⟨none, none, none, MoFlags.zero, 0⟩

instance : Inhabited mntopt_t := ⟨mntopt_zero⟩

/-- Number of entries of a `NULL`-terminated cancel array (`0` for `NULL`). -/
def cancel_count : Option (List CStr) → Nat
  | none => 0
  | some l => l.length

/-- The entries of a `NULL`-terminated cancel array (none for `NULL`). -/
def cancel_list : Option (List CStr) → List CStr
  | none => []
  | some l => l

/-- `vfs_copycancelopt_extend(moc, extend)`: `NULL` when there is nothing to copy and
no room is asked for, otherwise a fresh array holding copies of the entries of `moc`
(the `extend` spare cells are `NULL`, so they do not show in the terminated list). -/
def vfs_copycancelopt_extend (moc : Option (List CStr)) (extend : Nat) :
    Option (List CStr) :=
  let i := cancel_count moc
  if i + extend = 0 then none else some (cancel_list moc)

/-- `vfs_mergecancelopts(mop1, mop2)`. -/
def vfs_mergecancelopts (mop1 mop2 : mntopt_t) : Option (List CStr) :=
  let c1 := cancel_count mop1.mo_cancel
  if c1 = 0 then vfs_copycancelopt_extend mop2.mo_cancel 0
  else
    let c2 := cancel_count mop2.mo_cancel
    let result := vfs_copycancelopt_extend mop1.mo_cancel c2
    if c2 = 0 then result
    else
      -- every `*sp2` for which the scan of `mop1->mo_cancel` reaches its `NULL`
      some (cancel_list result ++
        (cancel_list mop2.mo_cancel).filter
          (fun sp2 => !(cancel_list mop1.mo_cancel).any (fun sp1 => sp1 == sp2)))

/-- `vfs_copyopt(s, d)`: the value written to `*d`. -/
def vfs_copyopt (s : mntopt_t) : mntopt_t :=
  { mo_flags := s.mo_flags
    mo_data := s.mo_data
    mo_name := s.mo_name
    mo_cancel := vfs_copycancelopt_extend s.mo_cancel 0
    mo_arg := s.mo_arg }

/-- `vfs_hasopt(mops, opt)`: index of the first slot that is not `MO_EMPTY` and whose
name compares equal to `opt` (`strcmp(opt, mop->mo_name) == 0`), or `none` for `NULL`.
The names are pointers: `strcmp` is equality of the two strings, and a `NULL` operand,
on which the C call is undefined, compares equal to `NULL` only. -/
def vfs_hasopt : mntopts_t → Option CStr → Option Nat
  | [], _ => none
  | mop :: rest, opt =>
    if mop.mo_flags.empty then (vfs_hasopt rest opt).map (· + 1)
    else if mop.mo_name = opt then some 0
    else (vfs_hasopt rest opt).map (· + 1)

/-- First loop of `vfs_mergeopttbl`: the value of `count`. -/
def vfs_mergeopttbl_count (omo imo : mntopts_t) : Nat :=
  imo.foldl (fun count m =>
    if m.mo_flags.empty then count
    else if vfs_hasopt omo m.mo_name = none then count + 1
    else count) omo.length

/-- One round of the last loop of `vfs_mergeopttbl` on the entry `m` of `imo`. The
slots of `motbl` filled so far are `motbl[0 .. freeidx-1]`. -/
def vfs_mergeopttbl_step (omo : mntopts_t) (motbl : List mntopt_t) (m : mntopt_t) :
    List mntopt_t :=
  if m.mo_flags.empty then motbl
  else
    match vfs_hasopt omo m.mo_name with
    | some index =>
      let newcanp := vfs_mergecancelopts (omo.getD index default) (motbl.getD index default)
      motbl.set index { vfs_copyopt m with mo_cancel := newcanp }
    | none => motbl ++ [vfs_copyopt m]

/-- `vfs_mergeopttbl(omo, imo, dmo)`: the slots `dmo->mo_list[0 .. freeidx-1]`. -/
def vfs_mergeopttbl (omo imo : mntopts_t) : mntopts_t :=
  imo.foldl (vfs_mergeopttbl_step omo) (omo.map vfs_copyopt)

/-- What `vfs_clearmntopt_nolock` does to the slot it stops at:
`mop->mo_flags &= ~MO_SET; mop->mo_arg = NULL`. -/
def clear_slot (mop : mntopt_t) : mntopt_t :=
  { mop with mo_flags := { mop.mo_flags with set := false }, mo_arg := none }

/-- `vfs_clearmntopt_nolock(mops, opt, 0)`. -/
def vfs_clearmntopt_nolock : mntopts_t → CStr → mntopts_t
  | [], _ => []
  | mop :: rest, opt =>
    if mop.mo_flags.empty then mop :: vfs_clearmntopt_nolock rest opt
    else if mop.mo_name ≠ some opt then mop :: vfs_clearmntopt_nolock rest opt
    else clear_slot mop :: rest

/-- The slot at which the loop of `vfs_setmntopt_nolock` stops passing over slots:
the first slot that is `MO_EMPTY` while `VFS_CREATEOPT` is (still) requested, or that
is not `MO_EMPTY` and carries the name `opt`. -/
def vfs_setmntopt_slot : mntopts_t → CStr → Bool → Option Nat
  | [], _, _ => none
  | mop :: rest, opt, createopt =>
    if mop.mo_flags.empty then
      if createopt = false then (vfs_setmntopt_slot rest opt createopt).map (· + 1)
      else some 0
    else if mop.mo_name ≠ some opt then (vfs_setmntopt_slot rest opt createopt).map (· + 1)
    else some 0

/-- The `MO_EMPTY` branch of the loop body of `vfs_setmntopt_nolock`: the slot takes the
name `opt` and its flags become `MO_HASVALUE` or `0`. -/
def create_slot (mop : mntopt_t) (opt : CStr) (arg : Option CStr) : mntopt_t :=
  { mop with mo_name := some opt
             mo_flags := if arg.isSome then MO_HASVALUE else MoFlags.zero }

/-- The loop body of `vfs_setmntopt_nolock` from the computation of `sp` to
`mop->mo_flags |= MO_SET`. -/
def store_slot (mop : mntopt_t) (arg : Option CStr) (flags : SetFlags) : mntopt_t :=
  let sp : Option CStr := if arg.isSome && mop.mo_flags.hasvalue then arg else none
  let mop : mntopt_t := { mop with mo_arg := sp }
  let mop : mntopt_t :=
    if flags.display then { mop with mo_flags := { mop.mo_flags with nodisplay := false } }
    else mop
  let mop : mntopt_t :=
    if flags.nodisplay then { mop with mo_flags := { mop.mo_flags with nodisplay := true } }
    else mop
  { mop with mo_flags := { mop.mo_flags with set := true } }

/-- `vfs_setmntopt_nolock(mops, opt, arg, flags, 0)`. -/
def vfs_setmntopt_nolock (mops : mntopts_t) (opt : CStr) (arg : Option CStr)
    (flags : SetFlags) : mntopts_t :=
  let flags : SetFlags :=
    if flags.createopt && (vfs_hasopt mops (some opt)).isSome then
      { flags with createopt := false } else flags
  match vfs_setmntopt_slot mops opt flags.createopt with
  | none => mops
  | some i =>
    let mop := mops.getD i default
    let mop : mntopt_t := if mop.mo_flags.empty then create_slot mop opt arg else mop
    if mop.mo_flags.ignore && flags.noforceopt then mops.set i mop
    else
      let mop := store_slot mop arg flags
      let mops := mops.set i mop
      match mop.mo_cancel with
      | none => mops
      | some cancel => cancel.foldl vfs_clearmntopt_nolock mops

/-! ### The option string parser

The caller's buffer is the list of its bytes; a `char *` into it is an index. The
terminator is the character NUL, and a read past the end of the list yields NUL. -/

/-- The terminator of a C string. -/
def NUL : Char := Char.ofNat 0

/-- `strchr` on the bytes from the current position on: offset of the first `c` that
comes before the terminator, `none` for `NULL`. -/
def strchr_from : List Char → Char → Option Nat
  | [], _ => none
  | x :: rest, c =>
    if x = c then some 0
    else if x = NUL then none
    else (strchr_from rest c).map (· + 1)

/-- `strchr(s, c)` for the pointer `s` into `buf`. -/
def strchr (buf : List Char) (s : Nat) (c : Char) : Option Nat :=
  (strchr_from (buf.drop s) c).map (· + s)

/-- `strlen` on the bytes from the current position on. -/
def strlen_from : List Char → Nat
  | [] => 0
  | x :: rest => if x = NUL then 0 else strlen_from rest + 1

/-- `strlen(s)` for the pointer `s` into `buf`. -/
def strlen (buf : List Char) (s : Nat) : Nat := strlen_from (buf.drop s)

/-- The C string that the pointer `s` into `buf` denotes: the bytes before the next NUL. -/
def cstr_at (buf : List Char) (s : Nat) : CStr := (buf.drop s).takeWhile (fun x => x ≠ NUL)

/-- One round of the `while` loop of `vfs_parsemntopts`, entered with `*s != 0`:
the table, the buffer, `nextop` and `setflg` at the end of the round. -/
def vfs_parsemntopts_round (mops : mntopts_t) (buf : List Char) (s : Nat)
    (setflg : SetFlags) (create : Int) : mntopts_t × List Char × Nat × SetFlags :=
  -- p = strchr(s, ',')
  let r1 : Option Nat × Nat × List Char :=
    match strchr buf s ',' with
    | none => (none, s + strlen buf s, buf)
    | some p => (some p, p + 1, buf.set p NUL)
  let cp := r1.1
  let nextop := r1.2.1
  let buf := r1.2.2
  -- p = strchr(s, '=')
  let r2 : Option Nat × Nat × List Char :=
    match strchr buf s '=' with
    | none => (none, 0, buf)
    | some p => (some (p + 1), p, buf.set p NUL)
  let valp := r2.1
  let ep := r2.2.1
  let buf := r2.2.2
  let setflg : SetFlags := if create ≠ 0 then { setflg with createopt := true } else setflg
  let mops := vfs_setmntopt_nolock mops (cstr_at buf s) (valp.map (cstr_at buf)) setflg
  let buf := match cp with
    | some c => buf.set c ','
    | none => buf
  let buf := if valp.isSome then buf.set ep '=' else buf
  (mops, buf, nextop, setflg)

/-- The `while (*s != 0)` loop of `vfs_parsemntopts`; `fuel` bounds the number of rounds. -/
def vfs_parsemntopts_loop : Nat → mntopts_t → List Char → Nat → SetFlags → Int →
    mntopts_t × List Char
  | 0, mops, buf, _, _, _ => (mops, buf)
  | fuel + 1, mops, buf, s, setflg, create =>
    if buf.getD s NUL = NUL then (mops, buf)
    else
      let r := vfs_parsemntopts_round mops buf s setflg create
      vfs_parsemntopts_loop fuel r.1 r.2.1 r.2.2.1 r.2.2.2 create

/-- `vfs_parsemntopts(mops, osp, create)`: the table and the caller's buffer on return.
Every round moves `s` forward by at least one byte, so `length + 1` rounds are enough. -/
def vfs_parsemntopts (mops : mntopts_t) (osp : Option (List Char)) (create : Int) :
    mntopts_t × Option (List Char) :=
  match osp with
  | none => (mops, none)
  | some buf =>
    let r := vfs_parsemntopts_loop (buf.length + 1) mops buf 0 ⟨true, false, false, false⟩ create
    (r.1, some r.2)

/-! ### Copying a table, querying an option, building the option string -/

/-- Modelled from the spec: the error classes that the functions of this file report
(`Overflow`, the IO-class error, invalid argument, unsupported operation, unsupported
version); the numeric values of the `E*` macros are declared in a header outside this
file. `code n` is any other non-zero error number handed up by a collaborator. A return
value of `0` is `none : Option Errno`. -/
inductive Errno where
  | EOVERFLOW
  | EINVAL
  | EIO
  | EOPNOTSUPP
  | ENOTSUP
  | code (n : Nat)
deriving DecidableEq, Repr

/-- `vfs_freeopttbl(mp)`: the table afterwards (`mo_count = 0`, `mo_list = NULL`). -/
def vfs_freeopttbl (_mp : mntopts_t) : mntopts_t := []

/-- The slot `motbl[i]` of `vfs_copyopttbl_extend` for `i >= count`: zeroed by
`kmem_zalloc`, then `mo_flags = MO_EMPTY`. -/
def empty_placeholder : mntopt_t := { mntopt_zero with mo_flags := MO_EMPTY }

/-- `vfs_copyopttbl_extend(smo, dmo, extra)`: the table `*dmo` afterwards; `smo` may be
`NULL`, `extra` is not negative. -/
def vfs_copyopttbl_extend (smo : Option mntopts_t) (dmo : mntopts_t) (extra : Nat) :
    mntopts_t :=
  let dmo := vfs_freeopttbl dmo
  let count := match smo with
    | none => 0
    | some t => t.length
  if count + extra = 0 then dmo
  else
    (match smo with
      | none => []
      | some t => t.map vfs_copyopt) ++ List.replicate extra empty_placeholder

/-- `vfs_copyopttbl(smo, dmo)`. -/
def vfs_copyopttbl (smo : Option mntopts_t) (dmo : mntopts_t) : mntopts_t :=
  vfs_copyopttbl_extend smo dmo 0

/-- `vfs_optionisset_nolock(mops, opt, argp)` for `argp != NULL`: whether the result is
non-zero, and the pointer stored in `*argp` if one is stored (`none`: `*argp` is left
alone). With `argp == NULL` only the first component is meaningful. -/
def vfs_optionisset_nolock : mntopts_t → CStr → Bool × Option (Option CStr)
  | [], _ => (false, none)
  | mop :: rest, opt =>
    if mop.mo_flags.empty then vfs_optionisset_nolock rest opt
    else if mop.mo_name ≠ some opt then vfs_optionisset_nolock rest opt
    else if mop.mo_flags.set = false then (false, none)
    else if mop.mo_flags.hasvalue then (true, some mop.mo_arg)
    else (true, none)

/-- `strlen(mop->mo_name)`, `strcpy(cp, mop->mo_name)`: the characters of the name. For a
`NULL` name the C calls are undefined; the model takes the empty string. -/
def name_chars (mop : mntopt_t) : CStr := mop.mo_name.getD []

/-- The `for` loop of `vfs_buildoptionstr` from slot `i` on. `buf` is the string in the
buffer (`cp` points at its terminator), `len` the capacity. The result is the return
value and the string left in the buffer. -/
def vfs_buildoptionstr_loop : List mntopt_t → CStr → Nat → Option Errno × CStr
  | [], buf, _ => (none, buf)
  | mop :: rest, buf, len =>
    if mop.mo_flags.set then
      let comma : Nat := if buf ≠ [] then 1 else 0
      let optlen := (name_chars mop).length
      if buf.length + comma + optlen + 1 > len then (some Errno.EOVERFLOW, buf)
      else
        let buf := (if comma = 1 then buf ++ [','] else buf) ++ name_chars mop
        match mop.mo_arg with
        | some arg =>
          let arglen := arg.length
          if buf.length + arglen + 2 > len then (some Errno.EOVERFLOW, buf)
          else vfs_buildoptionstr_loop rest (buf ++ '=' :: arg) len
        | none => vfs_buildoptionstr_loop rest buf len
    else vfs_buildoptionstr_loop rest buf len

/-- `vfs_buildoptionstr(mp, buf, len)` for a capacity `len` that is not negative: the
return value and the string left in `buf` (`buf[0] = 0` comes first). -/
def vfs_buildoptionstr (mp : mntopts_t) (len : Nat) : Option Errno × CStr :=
  vfs_buildoptionstr_loop mp [] len

/-! ### The prototype tables

Modelled from the spec: the option names. The `MNTOPT_*` macros used by the tables are
declared in a header outside this file, except `MNTOPT_OWNERS` and `MNTOPT_NOOWNERS`;
the specification and its test strings spell the names "ro", "rw", "nosuid", "atime",
"noatime" and so on, each the lower-case text of its macro. -/

/-- Modelled from the spec: the option name `remount`. -/
def MNTOPT_REMOUNT : CStr := "remount".toList

/-- Modelled from the spec: the option name `ro`. -/
def MNTOPT_RO : CStr := "ro".toList

/-- Modelled from the spec: the option name `rw`. -/
def MNTOPT_RW : CStr := "rw".toList

/-- Modelled from the spec: the option name `suid`. -/
def MNTOPT_SUID : CStr := "suid".toList

/-- Modelled from the spec: the option name `nosuid`. -/
def MNTOPT_NOSUID : CStr := "nosuid".toList

/-- Modelled from the spec: the option name `devices`. -/
def MNTOPT_DEVICES : CStr := "devices".toList

/-- Modelled from the spec: the option name `nodevices`. -/
def MNTOPT_NODEVICES : CStr := "nodevices".toList

/-- Modelled from the spec: the option name `setuid`. -/
def MNTOPT_SETUID : CStr := "setuid".toList

/-- Modelled from the spec: the option name `nosetuid`. -/
def MNTOPT_NOSETUID : CStr := "nosetuid".toList

/-- Modelled from the spec: the option name `nbmand`. -/
def MNTOPT_NBMAND : CStr := "nbmand".toList

/-- Modelled from the spec: the option name `nonbmand`. -/
def MNTOPT_NONBMAND : CStr := "nonbmand".toList

/-- Modelled from the spec: the option name `exec`. -/
def MNTOPT_EXEC : CStr := "exec".toList

/-- Modelled from the spec: the option name `noexec`. -/
def MNTOPT_NOEXEC : CStr := "noexec".toList

/-- Modelled from the spec: the option name `xattr`. -/
def MNTOPT_XATTR : CStr := "xattr".toList

/-- Modelled from the spec: the option name `noxattr`. -/
def MNTOPT_NOXATTR : CStr := "noxattr".toList

/-- Modelled from the spec: the option name `atime`. -/
def MNTOPT_ATIME : CStr := "atime".toList

/-- Modelled from the spec: the option name `noatime`. -/
def MNTOPT_NOATIME : CStr := "noatime".toList

/-- Modelled from the spec: the option name `browse`. -/
def MNTOPT_BROWSE : CStr := "browse".toList

/-- Modelled from the spec: the option name `nobrowse`. -/
def MNTOPT_NOBROWSE : CStr := "nobrowse".toList

/-- `#define MNTOPT_OWNERS "owners"`. -/
def MNTOPT_OWNERS : CStr := "owners".toList

/-- `#define MNTOPT_NOOWNERS "noowners"`. -/
def MNTOPT_NOOWNERS : CStr := "noowners".toList

/-- The table `mntopts[]` of generic options (`vfs_mntopts`), with its cancel arrays
`ro_cancel`, `rw_cancel`, ..., `noexec_cancel`. -/
def mntopts : mntopts_t :=
  [ ⟨some MNTOPT_REMOUNT, none, none, MO_NODISPLAY, 0⟩,
    ⟨some MNTOPT_RO, some [MNTOPT_RW], none, MoFlags.zero, 0⟩,
    ⟨some MNTOPT_RW, some [MNTOPT_RO], none, MoFlags.zero, 0⟩,
    ⟨some MNTOPT_SUID, some [MNTOPT_NOSUID], none, MoFlags.zero, 0⟩,
    ⟨some MNTOPT_NOSUID,
      some [MNTOPT_SUID, MNTOPT_DEVICES, MNTOPT_NODEVICES, MNTOPT_NOSETUID, MNTOPT_SETUID],
      none, MoFlags.zero, 0⟩,
    ⟨some MNTOPT_DEVICES, some [MNTOPT_NODEVICES], none, MoFlags.zero, 0⟩,
    ⟨some MNTOPT_NODEVICES, some [MNTOPT_DEVICES], none, MoFlags.zero, 0⟩,
    ⟨some MNTOPT_SETUID, some [MNTOPT_NOSETUID], none, MoFlags.zero, 0⟩,
    ⟨some MNTOPT_NOSETUID, some [MNTOPT_SETUID], none, MoFlags.zero, 0⟩,
    ⟨some MNTOPT_NBMAND, some [MNTOPT_NONBMAND], none, MoFlags.zero, 0⟩,
    ⟨some MNTOPT_NONBMAND, some [MNTOPT_NBMAND], none, MoFlags.zero, 0⟩,
    ⟨some MNTOPT_EXEC, some [MNTOPT_NOEXEC], none, MoFlags.zero, 0⟩,
    ⟨some MNTOPT_NOEXEC, some [MNTOPT_EXEC], none, MoFlags.zero, 0⟩ ]

/-- The table `vfs_mntopts`: the `sizeof (mntopts) / sizeof (mntopt_t)` slots of `mntopts`. -/
def vfs_mntopts : mntopts_t := mntopts

/-- The table `zmntopts[]` of the options of this file system (the `__APPLE__` build),
with its cancel arrays. -/
def zmntopts : mntopts_t :=
  [ ⟨some MNTOPT_NOXATTR, some [MNTOPT_XATTR], none, MoFlags.zero, 0⟩,
    ⟨some MNTOPT_XATTR, some [MNTOPT_NOXATTR], none, MoFlags.zero, 0⟩,
    ⟨some MNTOPT_NOATIME, some [MNTOPT_ATIME], none, MoFlags.zero, 0⟩,
    ⟨some MNTOPT_ATIME, some [MNTOPT_NOATIME], none, MoFlags.zero, 0⟩,
    ⟨some MNTOPT_NOBROWSE, some [MNTOPT_BROWSE], none, MoFlags.zero, 0⟩,
    ⟨some MNTOPT_BROWSE, some [MNTOPT_NOBROWSE], none, MoFlags.zero, 0⟩,
    ⟨some MNTOPT_NOOWNERS, some [MNTOPT_OWNERS], none, MoFlags.zero, 0⟩,
    ⟨some MNTOPT_OWNERS, some [MNTOPT_NOOWNERS], none, MoFlags.zero, 0⟩ ]

/-- The table `zfs_mntopts` (`vfw.optproto`). -/
def zfs_mntopts : mntopts_t := zmntopts

/-! ### File handles

`uint64_t` values are natural numbers below `2^64`, bytes natural numbers below `256`;
the handle `fhp` is the list of its bytes. -/

/-- `sizeof (zfs_zfid_t)`: the arrays `zf_object[8]` and `zf_gen[8]` of bytes. -/
def sizeof_zfs_zfid_t : Nat := 16

/-- An `int` converted to `size_t` for the comparison with a `sizeof`. -/
def size_t_of_int (n : Int) : Nat := (n % 2 ^ 64).toNat

/-- The fields of `znode_t` that the file handle code reads; the vnode `ZTOV(zp)` is
identified with its znode. -/
structure znode_t where
  z_id : Nat
  z_gen : Nat
  z_unlinked : Bool
deriving DecidableEq, Repr

/-- Modelled from the spec: `ZFS_ENTER(zfsvfs)`, a macro declared in a header outside this
file. It takes the teardown lock as a reader, and a reader that arrives after the instance
was marked unmounted fails with the IO-class error: the macro releases the lock and makes
the calling function return `EIO` (`ZFS_ENTER_NOERROR` is the variant without that
return). The argument is `zfsvfs->z_unmounted`; `none` means the function goes on. -/
def ZFS_ENTER (z_unmounted : Bool) : Option Errno :=
  if z_unmounted then some Errno.EIO else none

/-- The store loop `for (i = 0; i < 8; i++) a[i] = (uint8_t)(x >> (8 * i))`. -/
def fid_store (x : Nat) : List Nat :=
  (List.range 8).map (fun i => (x >>> (8 * i)) % 256)

/-- The load loop `for (i = 0; i < 8; i++) x |= ((uint64_t)a[i]) << (8 * i)`, `x`
starting at 0. -/
def fid_load (a : List Nat) : Nat :=
  (List.range 8).foldl (fun x i => x ||| ((a.getD i 0) <<< (8 * i)) % 2 ^ 64) 0

/-- `zfs_vfs_vptofh(vp, fhlenp, fhp, context)` for the znode `zp = VTOZ(vp)` of an
instance with the given `z_unmounted`: the return value, `*fhlenp` and the bytes at `fhp`
afterwards. -/
def zfs_vfs_vptofh (z_unmounted : Bool) (zp : znode_t) (fhlen : Int) (fhp : List Nat) :
    Option Errno × Int × List Nat :=
  if size_t_of_int fhlen < sizeof_zfs_zfid_t then (some Errno.EOVERFLOW, fhlen, fhp)
  else
    match ZFS_ENTER z_unmounted with
    | some e => (some e, fhlen, fhp)
    | none =>
      let obj_num := zp.z_id
      let zp_gen := if zp.z_gen = 0 then 1 else zp.z_gen
      (none, (sizeof_zfs_zfid_t : Int),
        fid_store obj_num ++ fid_store zp_gen ++ fhp.drop sizeof_zfs_zfid_t)

/-- `zfs_vfs_fhtovp(mp, fhlen, fhp, vpp, context)`: the return value and `*vpp`.
`zfs_zget` is the lookup of a node by object id in the node registry, a collaborator
outside this file: it yields the node or a non-zero error. -/
def zfs_vfs_fhtovp (zfs_zget : Nat → Except Errno znode_t) (z_unmounted : Bool)
    (fhlen : Int) (fhp : List Nat) : Option Errno × Option znode_t :=
  -- *vpp = NULL
  match ZFS_ENTER z_unmounted with
  | some e => (some e, none)
  | none =>
    if size_t_of_int fhlen < sizeof_zfs_zfid_t then (some Errno.EINVAL, none)
    else
      let obj_num := fid_load fhp
      let fid_gen := fid_load (fhp.drop 8)
      match zfs_zget obj_num with
      | Except.error e => (some e, none)
      | Except.ok zp =>
        let zp_gen := if zp.z_gen = 0 then 1 else zp.z_gen
        if zp.z_unlinked || zp_gen != fid_gen then (some Errno.EINVAL, none)
        else (none, some zp)

/-! ### The instance and its property callbacks

`zfsvfs_t` is declared in a header outside this file; the fields below are the ones that
the callbacks and `zfs_register_callbacks` read or write. -/

/-- `TRUE` (and `B_TRUE` of `boolean_t`), declared in a header outside this file. -/
def TRUE : Nat := 1

/-- `FALSE` (and `B_FALSE` of `boolean_t`), declared in a header outside this file. -/
def FALSE : Nat := 0

/-- The `MNT_*` bits of the mount flags that this file sets or clears. -/
inductive MntFlag where
  | MNT_RDONLY
  | MNT_NODEV
  | MNT_NOSUID
  | MNT_NOEXEC
  | MNT_NOUSERXATTR
  | MNT_NOATIME
  | MNT_DONTBROWSE
  | MNT_IGNORE_OWNERSHIP
  | MNT_AUTOMOUNTED
deriving DecidableEq, Repr

/-- Modelled from the spec: the mount of the operating system (`struct mount`, declared
outside this repository) with its OS-visible flags, kept as the list of the `MNT_*` bits
that are on. `mnt_overlay` is the option table that `vfs_clearmntopt` and `vfs_setmntopt`
reach when they are handed the mount in place of the instance (they take a `zfsvfs_t *`
and go to its member `vfs_mntopts`): it is not the option table of the instance. -/
structure mount where
  mnt_flag : List MntFlag
  mnt_overlay : mntopts_t
deriving DecidableEq, Repr

/-- `vfs_setflags(mp, flag)` for one `MNT_*` bit. -/
def vfs_setflags (mp : mount) (flag : MntFlag) : mount :=
  { mp with mnt_flag := if flag ∈ mp.mnt_flag then mp.mnt_flag else flag :: mp.mnt_flag }

/-- `vfs_clearflags(mp, flag)` for one `MNT_*` bit. -/
def vfs_clearflags (mp : mount) (flag : MntFlag) : mount :=
  { mp with mnt_flag := mp.mnt_flag.filter (fun f => f ≠ flag) }

/-- `vfs_flags(mp) & flag` is non-zero. -/
def vfs_flags (mp : mount) (flag : MntFlag) : Bool := decide (flag ∈ mp.mnt_flag)

/-- The fields of `zfsvfs_t` that the property callbacks touch. -/
structure zfsvfs_t where
  z_vfs : mount
  vfs_mntopts : mntopts_t
  z_atime : Nat
  z_nbmand : Nat
  z_max_blksz : Nat
  z_show_ctldir : Nat
  z_acl_mode : Nat
  z_acl_inherit : Nat
deriving DecidableEq, Repr

/-- The value `0` of the `flags` argument of `vfs_setmntopt`. -/
def SetFlags.zero : SetFlags := ⟨false, false, false, false⟩

/-- `vfs_clearmntopt(zfsvfs, opt)`. -/
def vfs_clearmntopt (zfsvfs : zfsvfs_t) (opt : CStr) : zfsvfs_t :=
  { zfsvfs with vfs_mntopts := vfs_clearmntopt_nolock zfsvfs.vfs_mntopts opt }

/-- `vfs_setmntopt(zfsvfs, opt, arg, flags)`. -/
def vfs_setmntopt (zfsvfs : zfsvfs_t) (opt : CStr) (arg : Option CStr) (flags : SetFlags) :
    zfsvfs_t :=
  { zfsvfs with vfs_mntopts := vfs_setmntopt_nolock zfsvfs.vfs_mntopts opt arg flags }

/-- `vfs_clearmntopt(zfsvfs->z_vfs, opt)`: the call with the mount as its first
argument; it works on what the mount holds where an instance holds `vfs_mntopts`. -/
def vfs_clearmntopt_on_mount (mp : mount) (opt : CStr) : mount :=
  { mp with mnt_overlay := vfs_clearmntopt_nolock mp.mnt_overlay opt }

/-- `vfs_setmntopt(zfsvfs->z_vfs, opt, arg, flags)`: the call with the mount as its first
argument. -/
def vfs_setmntopt_on_mount (mp : mount) (opt : CStr) (arg : Option CStr) (flags : SetFlags) :
    mount :=
  { mp with mnt_overlay := vfs_setmntopt_nolock mp.mnt_overlay opt arg flags }

/-- `vfs_optionisset(zfsvfs, opt, NULL)` is non-zero. -/
def vfs_optionisset (zfsvfs : zfsvfs_t) (opt : CStr) : Bool :=
  (vfs_optionisset_nolock zfsvfs.vfs_mntopts opt).1

/-- `atime_changed_cb(arg, newval)`. -/
def atime_changed_cb (zfsvfs : zfsvfs_t) (newval : Nat) : zfsvfs_t :=
  if newval = TRUE then
    let zfsvfs := { zfsvfs with z_atime := TRUE }
    let zfsvfs := { zfsvfs with z_vfs := vfs_clearflags zfsvfs.z_vfs MntFlag.MNT_NOATIME }
    let zfsvfs := { zfsvfs with z_vfs := vfs_clearmntopt_on_mount zfsvfs.z_vfs MNTOPT_NOATIME }
    { zfsvfs with
      z_vfs := vfs_setmntopt_on_mount zfsvfs.z_vfs MNTOPT_ATIME none SetFlags.zero }
  else
    let zfsvfs := { zfsvfs with z_atime := FALSE }
    let zfsvfs := { zfsvfs with z_vfs := vfs_setflags zfsvfs.z_vfs MntFlag.MNT_NOATIME }
    let zfsvfs := { zfsvfs with z_vfs := vfs_clearmntopt_on_mount zfsvfs.z_vfs MNTOPT_ATIME }
    { zfsvfs with
      z_vfs := vfs_setmntopt_on_mount zfsvfs.z_vfs MNTOPT_NOATIME none SetFlags.zero }

/-- `xattr_changed_cb(arg, newval)`. -/
def xattr_changed_cb (zfsvfs : zfsvfs_t) (newval : Nat) : zfsvfs_t :=
  if newval = TRUE then
    let zfsvfs := { zfsvfs with z_vfs := vfs_clearflags zfsvfs.z_vfs MntFlag.MNT_NOUSERXATTR }
    let zfsvfs := vfs_clearmntopt zfsvfs MNTOPT_NOXATTR
    vfs_setmntopt zfsvfs MNTOPT_XATTR none SetFlags.zero
  else
    let zfsvfs := { zfsvfs with z_vfs := vfs_setflags zfsvfs.z_vfs MntFlag.MNT_NOUSERXATTR }
    let zfsvfs := vfs_clearmntopt zfsvfs MNTOPT_XATTR
    vfs_setmntopt zfsvfs MNTOPT_NOXATTR none SetFlags.zero

/-- `ISP2(x)`, a macro declared in a header outside this file: `x & (x - 1)` is zero. -/
def ISP2 (x : Nat) : Bool := x &&& (x - 1) == 0

/-- `blksz_changed_cb(arg, newval)`; the two block size limits are macros declared in a
header outside this file and are taken as parameters. -/
def blksz_changed_cb (SPA_MINBLOCKSIZE SPA_MAXBLOCKSIZE : Nat) (zfsvfs : zfsvfs_t)
    (newval : Nat) : zfsvfs_t :=
  let newval :=
    if newval < SPA_MINBLOCKSIZE || newval > SPA_MAXBLOCKSIZE || !ISP2 newval
    then SPA_MAXBLOCKSIZE else newval
  { zfsvfs with z_max_blksz := newval }

/-- `readonly_changed_cb(arg, newval)`. -/
def readonly_changed_cb (zfsvfs : zfsvfs_t) (newval : Nat) : zfsvfs_t :=
  if newval ≠ 0 then
    let zfsvfs := { zfsvfs with z_vfs := vfs_setflags zfsvfs.z_vfs MntFlag.MNT_RDONLY }
    let zfsvfs := vfs_clearmntopt zfsvfs MNTOPT_RW
    vfs_setmntopt zfsvfs MNTOPT_RO none SetFlags.zero
  else
    let zfsvfs := { zfsvfs with z_vfs := vfs_clearflags zfsvfs.z_vfs MntFlag.MNT_RDONLY }
    let zfsvfs := vfs_clearmntopt zfsvfs MNTOPT_RO
    vfs_setmntopt zfsvfs MNTOPT_RW none SetFlags.zero

/-- `devices_changed_cb(arg, newval)`. -/
def devices_changed_cb (zfsvfs : zfsvfs_t) (newval : Nat) : zfsvfs_t :=
  if newval = FALSE then
    let zfsvfs := { zfsvfs with z_vfs := vfs_setflags zfsvfs.z_vfs MntFlag.MNT_NODEV }
    let zfsvfs := vfs_clearmntopt zfsvfs MNTOPT_DEVICES
    vfs_setmntopt zfsvfs MNTOPT_NODEVICES none SetFlags.zero
  else
    let zfsvfs := { zfsvfs with z_vfs := vfs_clearflags zfsvfs.z_vfs MntFlag.MNT_NODEV }
    let zfsvfs := vfs_clearmntopt zfsvfs MNTOPT_NODEVICES
    vfs_setmntopt zfsvfs MNTOPT_DEVICES none SetFlags.zero

/-- `setuid_changed_cb(arg, newval)`. -/
def setuid_changed_cb (zfsvfs : zfsvfs_t) (newval : Nat) : zfsvfs_t :=
  if newval = FALSE then
    let zfsvfs := { zfsvfs with z_vfs := vfs_setflags zfsvfs.z_vfs MntFlag.MNT_NOSUID }
    let zfsvfs := vfs_clearmntopt zfsvfs MNTOPT_SETUID
    vfs_setmntopt zfsvfs MNTOPT_NOSETUID none SetFlags.zero
  else
    let zfsvfs := { zfsvfs with z_vfs := vfs_clearflags zfsvfs.z_vfs MntFlag.MNT_NOSUID }
    let zfsvfs := vfs_clearmntopt zfsvfs MNTOPT_NOSETUID
    vfs_setmntopt zfsvfs MNTOPT_SETUID none SetFlags.zero

/-- `exec_changed_cb(arg, newval)`. -/
def exec_changed_cb (zfsvfs : zfsvfs_t) (newval : Nat) : zfsvfs_t :=
  if newval = FALSE then
    let zfsvfs := { zfsvfs with z_vfs := vfs_setflags zfsvfs.z_vfs MntFlag.MNT_NOEXEC }
    let zfsvfs := vfs_clearmntopt zfsvfs MNTOPT_EXEC
    vfs_setmntopt zfsvfs MNTOPT_NOEXEC none SetFlags.zero
  else
    let zfsvfs := { zfsvfs with z_vfs := vfs_clearflags zfsvfs.z_vfs MntFlag.MNT_NOEXEC }
    let zfsvfs := vfs_clearmntopt zfsvfs MNTOPT_NOEXEC
    vfs_setmntopt zfsvfs MNTOPT_EXEC none SetFlags.zero

/-- `nbmand_changed_cb(arg, newval)`. -/
def nbmand_changed_cb (zfsvfs : zfsvfs_t) (newval : Nat) : zfsvfs_t :=
  if newval = FALSE then
    let zfsvfs := { zfsvfs with z_nbmand := FALSE }
    let zfsvfs := vfs_clearmntopt zfsvfs MNTOPT_NBMAND
    vfs_setmntopt zfsvfs MNTOPT_NONBMAND none SetFlags.zero
  else
    let zfsvfs := { zfsvfs with z_nbmand := TRUE }
    let zfsvfs := vfs_clearmntopt zfsvfs MNTOPT_NONBMAND
    vfs_setmntopt zfsvfs MNTOPT_NBMAND none SetFlags.zero

/-- `snapdir_changed_cb(arg, newval)`. The field `z_show_ctldir` is 4 bytes wide (its
declaration is in a header outside this file), so the 64-bit `newval` is truncated by the
assignment. -/
def snapdir_changed_cb (zfsvfs : zfsvfs_t) (newval : Nat) : zfsvfs_t :=
  { zfsvfs with z_show_ctldir := newval % 2 ^ 32 }

/-- `vscan_changed_cb(arg, newval)`: its two statements are commented out. -/
def vscan_changed_cb (zfsvfs : zfsvfs_t) (_newval : Nat) : zfsvfs_t := zfsvfs

/-- `acl_mode_changed_cb(arg, newval)`. The field `z_acl_mode` is 4 bytes wide (its
declaration is in a header outside this file), so the 64-bit `newval` is truncated by the
assignment. -/
def acl_mode_changed_cb (zfsvfs : zfsvfs_t) (newval : Nat) : zfsvfs_t :=
  { zfsvfs with z_acl_mode := newval % 2 ^ 32 }

/-- `acl_inherit_changed_cb(arg, newval)`. The field `z_acl_inherit` is 4 bytes wide (its
declaration is in a header outside this file), so the 64-bit `newval` is truncated by the
assignment. -/
def acl_inherit_changed_cb (zfsvfs : zfsvfs_t) (newval : Nat) : zfsvfs_t :=
  { zfsvfs with z_acl_inherit := newval % 2 ^ 32 }

/-- `finderbrowse_changed_cb(arg, newval)`. -/
def finderbrowse_changed_cb (zfsvfs : zfsvfs_t) (newval : Nat) : zfsvfs_t :=
  if newval = TRUE then
    let zfsvfs := { zfsvfs with z_vfs := vfs_clearflags zfsvfs.z_vfs MntFlag.MNT_DONTBROWSE }
    let zfsvfs := vfs_clearmntopt zfsvfs MNTOPT_NOBROWSE
    vfs_setmntopt zfsvfs MNTOPT_BROWSE none SetFlags.zero
  else
    let zfsvfs := { zfsvfs with z_vfs := vfs_setflags zfsvfs.z_vfs MntFlag.MNT_DONTBROWSE }
    let zfsvfs := vfs_clearmntopt zfsvfs MNTOPT_BROWSE
    vfs_setmntopt zfsvfs MNTOPT_NOBROWSE none SetFlags.zero

/-- `ignoreowner_changed_cb(arg, newval)`. -/
def ignoreowner_changed_cb (zfsvfs : zfsvfs_t) (newval : Nat) : zfsvfs_t :=
  if newval ≠ 0 then
    let zfsvfs :=
      { zfsvfs with z_vfs := vfs_setflags zfsvfs.z_vfs MntFlag.MNT_IGNORE_OWNERSHIP }
    let zfsvfs := vfs_clearmntopt zfsvfs MNTOPT_OWNERS
    vfs_setmntopt zfsvfs MNTOPT_NOOWNERS none SetFlags.zero
  else
    let zfsvfs :=
      { zfsvfs with z_vfs := vfs_clearflags zfsvfs.z_vfs MntFlag.MNT_IGNORE_OWNERSHIP }
    let zfsvfs := vfs_clearmntopt zfsvfs MNTOPT_NOOWNERS
    vfs_setmntopt zfsvfs MNTOPT_OWNERS none SetFlags.zero

/-! ### Registering the callbacks with the store -/

/-- The `ZFS_PROP_*` keys that `zfs_register_callbacks` hands to `zfs_prop_to_name`. -/
inductive zfs_prop_t where
  | ZFS_PROP_ATIME
  | ZFS_PROP_XATTR
  | ZFS_PROP_RECORDSIZE
  | ZFS_PROP_READONLY
  | ZFS_PROP_DEVICES
  | ZFS_PROP_SETUID
  | ZFS_PROP_EXEC
  | ZFS_PROP_SNAPDIR
  | ZFS_PROP_ACLINHERIT
  | ZFS_PROP_VSCAN
  | ZFS_PROP_APPLE_BROWSE
  | ZFS_PROP_APPLE_IGNOREOWNER
deriving DecidableEq, Repr

/-- The callback functions of this file, as the function pointers handed to the store. -/
inductive callback_t where
  | atime
  | xattr
  | blksz
  | readonly
  | devices
  | setuid
  | exec
  | nbmand
  | snapdir
  | vscan
  | acl_mode
  | acl_inherit
  | finderbrowse
  | ignoreowner
deriving DecidableEq, Repr

/-- Modelled from the spec: the backing store as `zfs_register_callbacks` sees it (its
functions are outside this file): whether the object set is a snapshot
(`dmu_objset_is_snapshot`), whether the pool is writable (`spa_writeable`), the two block
size limits, and for each property key the answer of the store to a subscription
(`subscribe(handle, key, callback, ctx) -> token | Err`): an error, or the persisted
value that the store delivers to the callback. -/
structure store_env where
  is_snapshot : Bool
  spa_writeable : Bool
  SPA_MINBLOCKSIZE : Nat
  SPA_MAXBLOCKSIZE : Nat
  answer : zfs_prop_t → Except Errno Nat

/-- Calling a callback through its function pointer: `cb(zfsvfs, newval)`. -/
def callback_t.call (env : store_env) : callback_t → zfsvfs_t → Nat → zfsvfs_t
  | callback_t.atime => atime_changed_cb
  | callback_t.xattr => xattr_changed_cb
  | callback_t.blksz => blksz_changed_cb env.SPA_MINBLOCKSIZE env.SPA_MAXBLOCKSIZE
  | callback_t.readonly => readonly_changed_cb
  | callback_t.devices => devices_changed_cb
  | callback_t.setuid => setuid_changed_cb
  | callback_t.exec => exec_changed_cb
  | callback_t.nbmand => nbmand_changed_cb
  | callback_t.snapdir => snapdir_changed_cb
  | callback_t.vscan => vscan_changed_cb
  | callback_t.acl_mode => acl_mode_changed_cb
  | callback_t.acl_inherit => acl_inherit_changed_cb
  | callback_t.finderbrowse => finderbrowse_changed_cb
  | callback_t.ignoreowner => ignoreowner_changed_cb

/-- What happens during `zfs_register_callbacks`, in order: a subscription request to the
store, the store delivering the persisted value to a callback, a request to drop a
subscription, and a callback called directly by `zfs_register_callbacks`. -/
inductive reg_event where
  | subscribe (prop : zfs_prop_t) (cb : callback_t)
  | notify (cb : callback_t) (newval : Nat)
  | unsubscribe (prop : zfs_prop_t) (cb : callback_t)
  | direct (cb : callback_t) (newval : Nat)
deriving DecidableEq, Repr

/-- The instance together with the store's set of subscriptions of this instance
(`ds_prop_cbs`: property key and callback; the third component, the instance, is the same
for all) and the record of what has happened so far. -/
structure reg_state where
  zfsvfs : zfsvfs_t
  ds_prop_cbs : List (zfs_prop_t × callback_t)
  trace : List reg_event
deriving DecidableEq, Repr

/-- Modelled from the spec: `dsl_prop_register(ds, zfs_prop_to_name(prop), cb, zfsvfs)`,
a function of the store outside this file. On an error nothing is subscribed; otherwise
the subscription enters the set and the store calls the callback with the persisted
value of the property. -/
def dsl_prop_register (env : store_env) (st : reg_state) (prop : zfs_prop_t)
    (cb : callback_t) : Option Errno × reg_state :=
  match env.answer prop with
  | Except.error e =>
    (some e, { st with trace := st.trace ++ [reg_event.subscribe prop cb] })
  | Except.ok newval =>
    (none,
      { zfsvfs := cb.call env st.zfsvfs newval
        ds_prop_cbs :=
          if (prop, cb) ∈ st.ds_prop_cbs then st.ds_prop_cbs else (prop, cb) :: st.ds_prop_cbs
        trace := st.trace ++ [reg_event.subscribe prop cb, reg_event.notify cb newval] })

/-- Modelled from the spec: `(void) dsl_prop_unregister(ds, zfs_prop_to_name(prop), cb,
zfsvfs)`, a function of the store outside this file: the subscription leaves the set; the
error for a subscription that is not there is ignored by the caller. -/
def dsl_prop_unregister (st : reg_state) (prop : zfs_prop_t) (cb : callback_t) : reg_state :=
  { st with
    ds_prop_cbs := st.ds_prop_cbs.filter (fun s => s ≠ (prop, cb))
    trace := st.trace ++ [reg_event.unsubscribe prop cb] }

/-- The local variables of `zfs_register_callbacks` that hold the stashed overrides. -/
structure overrides where
  nbmand : Nat
  readonly : Nat
  do_readonly : Bool
  setuid : Nat
  do_setuid : Bool
  exec : Nat
  do_exec : Bool
  devices : Nat
  do_devices : Bool
  xattr : Nat
  do_xattr : Bool
  atime : Nat
  do_atime : Bool
  finderbrowse : Nat
  do_finderbrowse : Bool
  ignoreowner : Nat
  do_ignoreowner : Bool
deriving DecidableEq, Repr

/-- The initial values of the local variables. -/
def overrides.init : overrides :=
  ⟨0, FALSE, false, FALSE, false, FALSE, false, FALSE, false, FALSE, false, FALSE, false,
    FALSE, false, FALSE, false⟩

/-- The part of `zfs_register_callbacks` that stashes the current values of the mount
options (the block for nbmand is compiled for `__LINUX__` only, so `nbmand` stays 0). -/
def stash_overrides (env : store_env) (zfsvfs : zfsvfs_t) : overrides :=
  let o := overrides.init
  let o :=
    if vfs_optionisset zfsvfs MNTOPT_RO || !env.spa_writeable then
      { o with readonly := TRUE, do_readonly := true }
    else if vfs_optionisset zfsvfs MNTOPT_RW then
      { o with readonly := FALSE, do_readonly := true }
    else o
  let o :=
    if vfs_optionisset zfsvfs MNTOPT_NOSUID then
      { o with devices := FALSE, setuid := FALSE, do_devices := true, do_setuid := true }
    else
      let o :=
        if vfs_optionisset zfsvfs MNTOPT_NODEVICES then
          { o with devices := FALSE, do_devices := true }
        else if vfs_optionisset zfsvfs MNTOPT_DEVICES then
          { o with devices := TRUE, do_devices := true }
        else o
      if vfs_optionisset zfsvfs MNTOPT_NOSETUID then
        { o with setuid := FALSE, do_setuid := true }
      else if vfs_optionisset zfsvfs MNTOPT_SETUID then
        { o with setuid := TRUE, do_setuid := true }
      else o
  let o :=
    if vfs_optionisset zfsvfs MNTOPT_NOEXEC then { o with exec := FALSE, do_exec := true }
    else if vfs_optionisset zfsvfs MNTOPT_EXEC then { o with exec := TRUE, do_exec := true }
    else o
  let o :=
    if vfs_optionisset zfsvfs MNTOPT_NOXATTR then { o with xattr := FALSE, do_xattr := true }
    else if vfs_optionisset zfsvfs MNTOPT_XATTR then { o with xattr := TRUE, do_xattr := true }
    else o
  let o :=
    if vfs_optionisset zfsvfs MNTOPT_NOATIME then { o with atime := FALSE, do_atime := true }
    else if vfs_optionisset zfsvfs MNTOPT_ATIME then { o with atime := TRUE, do_atime := true }
    else o
  let o :=
    if vfs_optionisset zfsvfs MNTOPT_NOBROWSE then
      { o with finderbrowse := FALSE, do_finderbrowse := true }
    else if vfs_optionisset zfsvfs MNTOPT_BROWSE then
      { o with finderbrowse := TRUE, do_finderbrowse := true }
    else o
  if vfs_optionisset zfsvfs MNTOPT_NOOWNERS then
    { o with ignoreowner := TRUE, do_ignoreowner := true }
  else if vfs_optionisset zfsvfs MNTOPT_OWNERS then
    { o with ignoreowner := FALSE, do_ignoreowner := true }
  else o

/-- The property keys and callbacks of the twelve `dsl_prop_register` calls, in the order
of the calls (the `dsl_prop_unregister` calls after `unregister:` come in the same order). -/
def registrations : List (zfs_prop_t × callback_t) :=
  [ (zfs_prop_t.ZFS_PROP_ATIME, callback_t.atime),
    (zfs_prop_t.ZFS_PROP_XATTR, callback_t.xattr),
    (zfs_prop_t.ZFS_PROP_RECORDSIZE, callback_t.blksz),
    (zfs_prop_t.ZFS_PROP_READONLY, callback_t.readonly),
    (zfs_prop_t.ZFS_PROP_DEVICES, callback_t.devices),
    (zfs_prop_t.ZFS_PROP_SETUID, callback_t.setuid),
    (zfs_prop_t.ZFS_PROP_EXEC, callback_t.exec),
    (zfs_prop_t.ZFS_PROP_SNAPDIR, callback_t.snapdir),
    (zfs_prop_t.ZFS_PROP_ACLINHERIT, callback_t.acl_inherit),
    (zfs_prop_t.ZFS_PROP_VSCAN, callback_t.vscan),
    (zfs_prop_t.ZFS_PROP_APPLE_BROWSE, callback_t.finderbrowse),
    (zfs_prop_t.ZFS_PROP_APPLE_IGNOREOWNER, callback_t.ignoreowner) ]

/-- One link of the chain `error = error ? error : dsl_prop_register(...)`. -/
def register_step (env : store_env) (acc : Option Errno × reg_state)
    (pc : zfs_prop_t × callback_t) : Option Errno × reg_state :=
  match acc.1 with
  | some e => (some e, acc.2)
  | none => dsl_prop_register env acc.2 pc.1 pc.2

/-- A callback called directly, `cb(zfsvfs, newval)`, when `cond` holds. -/
def call_direct (env : store_env) (cond : Bool) (cb : callback_t) (newval : Nat)
    (st : reg_state) : reg_state :=
  if cond then
    { st with
      zfsvfs := cb.call env st.zfsvfs newval
      trace := st.trace ++ [reg_event.direct cb newval] }
  else st

/-- The part of `zfs_register_callbacks` from "Invoke our callbacks to restore temporary
mount options" to `return (0)`. -/
def replay_overrides (env : store_env) (o : overrides) (st : reg_state) : reg_state :=
  let st := call_direct env o.do_readonly callback_t.readonly o.readonly st
  let st := call_direct env o.do_setuid callback_t.setuid o.setuid st
  let st := call_direct env o.do_exec callback_t.exec o.exec st
  let st := call_direct env o.do_devices callback_t.devices o.devices st
  let st := call_direct env o.do_xattr callback_t.xattr o.xattr st
  let st := call_direct env o.do_atime callback_t.atime o.atime st
  let st := call_direct env o.do_finderbrowse callback_t.finderbrowse o.finderbrowse st
  let st := call_direct env o.do_ignoreowner callback_t.ignoreowner o.ignoreowner st
  call_direct env true callback_t.nbmand o.nbmand st

/-- `zfs_register_callbacks(vfsp)`: the return value (`none` is 0) and the state of the
instance and of the store's subscriptions afterwards. -/
def zfs_register_callbacks (env : store_env) (st : reg_state) : Option Errno × reg_state :=
  if env.is_snapshot then (some Errno.EOPNOTSUPP, st)
  else
    let o := stash_overrides env st.zfsvfs
    let r := registrations.foldl (register_step env) (none, st)
    match r.1 with
    | some error =>
      (some error,
        registrations.foldl (fun s pc => dsl_prop_unregister s pc.1 pc.2) r.2)
    | none => (none, replay_overrides env o r.2)

/-! ### The lifecycle of an instance: teardown, suspend, resume, unmount -/

/-- How a call ends: it returns, it waits for a lock that is held, or the kernel stops
(a `VERIFY` fails or a `NULL` pointer is followed). -/
inductive outcome (α : Type) where
  | ret (a : α)
  | blocks
  | stops

/-- Modelled from the spec: a reader/writer lock (`z_teardown_lock`, an `rrwlock_t`, and
`z_teardown_inactive_lock`, a `krwlock_t`; their functions are outside this file): not
held, held by one writer, or held by `n + 1` readers. -/
inductive krwlock_t where
  | unheld
  | write_held
  | read_held (n : Nat)
deriving DecidableEq, Repr

/-- `rrw_enter(l, RW_WRITER, FTAG)`, `rw_enter(l, RW_WRITER)`: the lock afterwards, or
`none` while the caller has to wait. -/
def rw_enter_writer : krwlock_t → Option krwlock_t
  | krwlock_t.unheld => some krwlock_t.write_held
  | _ => none

/-- `rrw_exit(l, FTAG)`, `rw_exit(l)`. -/
def rw_exit : krwlock_t → krwlock_t
  | krwlock_t.read_held (n + 1) => krwlock_t.read_held n
  | _ => krwlock_t.unheld

/-- What the lifecycle functions do to the store, in order. -/
inductive life_event where
  | own (os : Nat)
  | disown (os : Nat)
  | zil_open (os : Nat)
  | zil_close
  | txg_wait_synced
  | evict_dbufs
deriving DecidableEq, Repr

/-- The fields of `zfsvfs_t` that `zfsvfs_create` fills from the format properties and the
master node of the store. -/
structure zfsvfs_fmt where
  z_norm : Nat
  z_utf8 : Bool
  z_case : Nat
  z_use_fuids : Bool
  z_use_sa : Bool
  z_root : Nat
  z_unlinkedobj : Nat
  z_userquota_obj : Nat
  z_groupquota_obj : Nat
  z_fuid_obj : Nat
  z_shares_dir : Nat
deriving DecidableEq, Repr

/-- The instance `zfsvfs_t` as the lifecycle functions see it: the part that the property
callbacks use together with the store's subscriptions (`reg`), the format fields (`fmt`),
the store handle `z_os`
(`none` is `NULL`), the open log `z_log`, `z_unmounted`, `z_version`, `z_issnap`, for each
node of `z_all_znodes` whether its `z_sa_hdl` is set, and the two locks. With it the
store's side: the object sets owned with this instance as the tag (`os_owned`), the object
set whose user pointer is this instance (`os_user_ptr`), whether the memory of the
instance is allocated, and the record of the calls into the store. -/
structure zfs_instance where
  reg : reg_state
  fmt : zfsvfs_fmt
  z_os : Option Nat
  z_log : Option Nat
  z_unmounted : Bool
  z_version : Nat
  z_issnap : Bool
  z_all_znodes : List Bool
  z_teardown_lock : krwlock_t
  z_teardown_inactive_lock : krwlock_t
  os_owned : List Nat
  os_user_ptr : Option Nat
  allocated : Bool
  events : List life_event
deriving DecidableEq, Repr

/-- Modelled from the spec: the backing store as the lifecycle functions see it (its
functions are outside this file): the store as `zfs_register_callbacks` sees it, whether
the dataset is dirty (`dsl_dataset_is_dirty`), the answer to `dmu_objset_own(osname, ...)`
(an error or the handle), to `zfs_get_zplprop(os, ZFS_PROP_VERSION, ...)`, to
`zap_lookup(os, MASTER_NODE_OBJ, ZFS_SA_ATTRS, ...)` and to `sa_setup(os, sa_obj, ...)`,
the constant `ZPL_VERSION_SA`, for each node whether `zfs_rezget` finds it again, and the
answer of `vflush`. -/
structure life_env where
  store : store_env
  dsl_dataset_is_dirty : Bool
  dmu_objset_own : Except Errno Nat
  zfs_get_zplprop_version : Except Errno Nat
  zap_lookup_sa_attrs : Except Errno Nat
  sa_setup : Nat → Option Errno
  ZPL_VERSION_SA : Nat
  zfs_rezget : Nat → Bool
  vflush : Option Errno

/-- Modelled from the spec: `dmu_objset_disown(os, zfsvfs)`, a function of the store
outside this file: the instance gives up the ownership of the object set. -/
def dmu_objset_disown (s : zfs_instance) (os : Nat) : zfs_instance :=
  { s with os_owned := s.os_owned.filter (fun o => o ≠ os)
           events := s.events ++ [life_event.disown os] }

/-- One `VERIFY(dsl_prop_unregister(ds, name, cb, zfsvfs) == 0)` of
`zfs_unregister_callbacks`: `dsl_prop_unregister` returns `ENOMSG` for a callback that is
not registered (as the comment at `unregister:` in `zfs_register_callbacks` says), and then
the `VERIFY` stops the kernel. -/
def verify_unregister (acc : outcome reg_state) (pc : zfs_prop_t × callback_t) :
    outcome reg_state :=
  match acc with
  | outcome.ret st =>
    if pc ∈ st.ds_prop_cbs then outcome.ret (dsl_prop_unregister st pc.1 pc.2)
    else outcome.stops
  | outcome.blocks => outcome.blocks
  | outcome.stops => outcome.stops

/-- `zfs_unregister_callbacks(zfsvfs)`: the property names of its twelve calls are the
names of the keys of `registrations`, in the same order. -/
def zfs_unregister_callbacks (env : life_env) (s : zfs_instance) : outcome zfs_instance :=
  match s.z_os with
  | none => outcome.stops
  | some _ =>
    if !env.store.is_snapshot then
      match registrations.foldl verify_unregister (outcome.ret s.reg) with
      | outcome.ret st => outcome.ret { s with reg := st }
      | outcome.blocks => outcome.blocks
      | outcome.stops => outcome.stops
    else outcome.ret s

/-- `vfs_isrdonly(mp)`. -/
def vfs_isrdonly (mp : mount) : Bool := vfs_flags mp MntFlag.MNT_RDONLY

/-- `zfsvfs_teardown(zfsvfs, unmounting)`. The purge of the name cache and the wait for
the iput task queue touch no field of the model. -/
def zfsvfs_teardown (env : life_env) (s : zfs_instance) (unmounting : Bool) :
    outcome (Option Errno × zfs_instance) :=
  match rw_enter_writer s.z_teardown_lock with
  | none => outcome.blocks
  | some tl =>
    let s := { s with z_teardown_lock := tl }
    let s :=
      if s.z_log.isSome then
        { s with z_log := none, events := s.events ++ [life_event.zil_close] }
      else s
    match rw_enter_writer s.z_teardown_inactive_lock with
    | none => outcome.blocks
    | some il =>
      let s := { s with z_teardown_inactive_lock := il }
      if !unmounting && (s.z_unmounted || s.z_os.isNone) then
        let s := { s with z_teardown_inactive_lock := rw_exit s.z_teardown_inactive_lock }
        let s := { s with z_teardown_lock := rw_exit s.z_teardown_lock }
        outcome.ret (some Errno.EIO, s)
      else
        let s := { s with z_all_znodes := s.z_all_znodes.map (fun _ => false) }
        let s :=
          if unmounting then
            let s := { s with z_unmounted := true }
            let s := { s with z_teardown_lock := rw_exit s.z_teardown_lock }
            { s with z_teardown_inactive_lock := rw_exit s.z_teardown_inactive_lock }
          else s
        if s.z_os.isNone then outcome.ret (none, s)
        else
          match zfs_unregister_callbacks env s with
          | outcome.blocks => outcome.blocks
          | outcome.stops => outcome.stops
          | outcome.ret s =>
            let s :=
              if env.dsl_dataset_is_dirty && !vfs_isrdonly s.reg.zfsvfs.z_vfs then
                { s with events := s.events ++ [life_event.txg_wait_synced] }
              else s
            let s := { s with events := s.events ++ [life_event.evict_dbufs] }
            outcome.ret (none, s)

/-- `zfs_suspend_fs(zfsvfs)`. -/
def zfs_suspend_fs (env : life_env) (s : zfs_instance) : outcome (Option Errno × zfs_instance) :=
  match zfsvfs_teardown env s false with
  | outcome.blocks => outcome.blocks
  | outcome.stops => outcome.stops
  | outcome.ret (some error, s) => outcome.ret (some error, s)
  | outcome.ret (none, s) =>
    match s.z_os with
    | none => outcome.stops
    | some os => outcome.ret (none, dmu_objset_disown s os)

/-- `zfsvfs_setup(zfsvfs, mounting)`. The replay or destruction of the intent log when
`mounting` is set touches no field of the model. -/
def zfsvfs_setup (env : life_env) (s : zfs_instance) (_mounting : Bool) :
    Option Errno × zfs_instance :=
  let r := zfs_register_callbacks env.store s.reg
  match r.1 with
  | some error => (some error, { s with reg := r.2 })
  | none =>
    let s := { s with reg := r.2 }
    let s := { s with os_user_ptr := s.z_os }
    let s :=
      { s with z_log := s.z_os
               events := s.events ++ (match s.z_os with
                 | some os => [life_event.zil_open os]
                 | none => []) }
    (none, s)

/-- The label `bail:` of `zfs_resume_fs`: both locks are released and `err` is returned
(the forced unmount is compiled out in the `__APPLE__` build). -/
def zfs_resume_fs_bail (s : zfs_instance) (err : Option Errno) :
    outcome (Option Errno × zfs_instance) :=
  let s := { s with z_teardown_inactive_lock := rw_exit s.z_teardown_inactive_lock }
  let s := { s with z_teardown_lock := rw_exit s.z_teardown_lock }
  outcome.ret (err, s)

/-- `zfs_resume_fs(zfsvfs, osname)`. The two `ASSERT`s on the locks are debug checks;
`zfs_set_fuid_feature` and `sa_register_update_callback` touch no field of the model. -/
def zfs_resume_fs (env : life_env) (s : zfs_instance) : outcome (Option Errno × zfs_instance) :=
  match env.dmu_objset_own with
  | Except.error err => zfs_resume_fs_bail { s with z_os := none } (some err)
  | Except.ok os =>
    let s := { s with z_os := some os
                      os_owned := os :: s.os_owned
                      events := s.events ++ [life_event.own os] }
    match env.zfs_get_zplprop_version with
    | Except.error err => zfs_resume_fs_bail s (some err)
    | Except.ok version =>
      let s := { s with z_version := version }
      let r : Option Errno × Nat :=
        match env.zap_lookup_sa_attrs with
        | Except.error err => (some err, 0)
        | Except.ok obj => (none, obj)
      let err := r.1
      let sa_obj := r.2
      if err.isSome && decide (s.z_version ≥ env.ZPL_VERSION_SA) then zfs_resume_fs_bail s err
      else
        match env.sa_setup sa_obj with
        | some err => zfs_resume_fs_bail s (some err)
        | none =>
          match zfsvfs_setup env s false with
          | (some _, _) => outcome.stops
          | (none, s) =>
            let s :=
              { s with z_all_znodes :=
                  (List.range s.z_all_znodes.length).map env.zfs_rezget }
            zfs_resume_fs_bail s none

/-- `zfs_vfs_unmount(mp, mntflags, context)` in the `__APPLE__` build; `zfsctl_create`,
`zfsctl_destroy` and the signal to the reclaim thread touch no field of the model, and
`zfs_freevfs` releases the instance. -/
def zfs_vfs_unmount (env : life_env) (s : zfs_instance) : outcome (Option Errno × zfs_instance) :=
  match env.vflush with
  | some ret => outcome.ret (some ret, s)
  | none =>
    match zfsvfs_teardown env s true with
    | outcome.blocks => outcome.blocks
    | outcome.stops => outcome.stops
    | outcome.ret (some _, _) => outcome.stops
    | outcome.ret (none, s) =>
      let s :=
        match s.z_os with
        | some os => dmu_objset_disown { s with os_user_ptr := none } os
        | none => s
      outcome.ret (none, { s with allocated := false })

/-! ### Constructing the instance at mount -/

/-- `ENOENT` with its customary number; the `E*` macros are declared in a header outside
this file. -/
def ENOENT : Errno := Errno.code 2

/-- Modelled from the spec: the backing store as `zfsvfs_create` and `zfs_domount` see it
(its functions and constants are outside this file): the part that the lifecycle shares
(`life`: `dmu_objset_own`, the version property, the lookup of `ZFS_SA_ATTRS`, `sa_setup`),
the version supported for the pool (`zfs_zpl_version_map(spa_version(...))`), the answers
to the other format properties and lookups in the master node, the macros `USE_FUIDS` and
`USE_SA` as functions of the version, the constants that `zfsvfs_create` uses, and the
answer to `dsl_prop_get_integer(osname, "xattr", ...)`. -/
structure mount_env where
  life : life_env
  zpl_version_supported : Nat
  zfs_get_zplprop_normalize : Except Errno Nat
  zfs_get_zplprop_utf8only : Except Errno Nat
  zfs_get_zplprop_case : Except Errno Nat
  USE_FUIDS : Nat → Bool
  USE_SA : Nat → Bool
  zap_lookup_root : Except Errno Nat
  zap_lookup_unlinked : Except Errno Nat
  zap_lookup_userquota : Except Errno Nat
  zap_lookup_groupquota : Except Errno Nat
  zap_lookup_fuid_tables : Except Errno Nat
  zap_lookup_shares_dir : Except Errno Nat
  ZFS_SNAPDIR_VISIBLE : Nat
  ZFS_CASE_INSENSITIVE : Nat
  ZFS_CASE_MIXED : Nat
  U8_TEXTPREP_TOUPPER : Nat
  dsl_prop_get_integer_xattr : Except Errno Nat

/-- What `*zfvp` holds when `zfsvfs_create` returns: not assigned by the function, `NULL`,
or the new instance. -/
inductive zfvp_t where
  | unassigned
  | null
  | assigned
deriving DecidableEq, Repr

/-- What `zfsvfs_create` leaves: its return value, `*zfvp`, and the instance object that
it allocated, with whether its memory is still allocated and what it still owns. -/
structure create_result where
  error : Option Errno
  zfvp : zfvp_t
  zfsvfs : zfs_instance

/-- The instance right after `kmem_zalloc`: every field zero or `NULL`. -/
def zfsvfs_zalloc : zfs_instance :=
  { reg := ⟨⟨⟨[], []⟩, [], 0, 0, 0, 0, 0, 0⟩, [], []⟩
    fmt := ⟨0, false, 0, false, false, 0, 0, 0, 0, 0, 0⟩
    z_os := none
    z_log := none
    z_unmounted := false
    z_version := 0
    z_issnap := false
    z_all_znodes := []
    z_teardown_lock := krwlock_t.unheld
    z_teardown_inactive_lock := krwlock_t.unheld
    os_owned := []
    os_user_ptr := none
    allocated := true
    events := [] }

/-- The label `out:` of `zfsvfs_create`: `dmu_objset_disown(os, zfsvfs)`, `*zfvp = NULL`,
`kmem_free(zfsvfs, ...)`, `return (error)`. -/
def zfsvfs_create_out (s : zfs_instance) (os : Nat) (error : Errno) : create_result :=
  let s := dmu_objset_disown s os
  { error := some error, zfvp := zfvp_t.null, zfsvfs := { s with allocated := false } }

/-- A `zap_lookup` of `zfsvfs_create` whose `ENOENT` is not an error: the error that leads
to `out:`, if any, and the object number (0 when it is not found). -/
def lookup_optional (r : Except Errno Nat) : Option Errno × Nat :=
  match r with
  | Except.ok obj => (none, obj)
  | Except.error e => if e ≠ ENOENT then (some e, 0) else (none, 0)

/-- `zfsvfs_create(osname, zfvp)`. The initialisation of the mutexes, lists and locks and
the start of the reclaim thread after the last lookup touch no field of the model beyond
the two locks, which start not held. -/
def zfsvfs_create (env : mount_env) : create_result :=
  let s := zfsvfs_zalloc
  match env.life.dmu_objset_own with
  | Except.error error =>
    { error := some error, zfvp := zfvp_t.unassigned, zfsvfs := { s with allocated := false } }
  | Except.ok os =>
    let s := { s with os_owned := os :: s.os_owned, events := s.events ++ [life_event.own os] }
    let s := { s with reg := { s.reg with zfsvfs := { s.reg.zfsvfs with
      z_max_blksz := env.life.store.SPA_MAXBLOCKSIZE
      z_show_ctldir := env.ZFS_SNAPDIR_VISIBLE } } }
    let s := { s with z_os := some os }
    match env.life.zfs_get_zplprop_version with
    | Except.error error => zfsvfs_create_out s os error
    | Except.ok version =>
      let s := { s with z_version := version }
      if s.z_version > env.zpl_version_supported then zfsvfs_create_out s os Errno.ENOTSUP
      else
      match env.zfs_get_zplprop_normalize with
      | Except.error error => zfsvfs_create_out s os error
      | Except.ok zval =>
      let s := { s with fmt := { s.fmt with z_norm := zval % 2 ^ 32 } }
      match env.zfs_get_zplprop_utf8only with
      | Except.error error => zfsvfs_create_out s os error
      | Except.ok zval =>
      let s := { s with fmt := { s.fmt with z_utf8 := decide (zval ≠ 0) } }
      match env.zfs_get_zplprop_case with
      | Except.error error => zfsvfs_create_out s os error
      | Except.ok zval =>
      let s := { s with fmt := { s.fmt with z_case := zval % 2 ^ 32 } }
      let s :=
        if s.fmt.z_case = env.ZFS_CASE_INSENSITIVE ∨ s.fmt.z_case = env.ZFS_CASE_MIXED then
          { s with fmt := { s.fmt with z_norm := s.fmt.z_norm ||| env.U8_TEXTPREP_TOUPPER } }
        else s
      let s := { s with fmt := { s.fmt with z_use_fuids := env.USE_FUIDS s.z_version } }
      let s := { s with fmt := { s.fmt with z_use_sa := env.USE_SA s.z_version } }
      let r : Except Errno Nat :=
        if s.fmt.z_use_sa then env.life.zap_lookup_sa_attrs else Except.ok 0
      match r with
      | Except.error error =>
        { error := some error, zfvp := zfvp_t.unassigned, zfsvfs := s }
      | Except.ok sa_obj =>
      match env.life.sa_setup sa_obj with
      | some error => zfsvfs_create_out s os error
      | none =>
      match env.zap_lookup_root with
      | Except.error error => zfsvfs_create_out s os error
      | Except.ok obj =>
      let s := { s with fmt := { s.fmt with z_root := obj } }
      match env.zap_lookup_unlinked with
      | Except.error error => zfsvfs_create_out s os error
      | Except.ok obj =>
      let s := { s with fmt := { s.fmt with z_unlinkedobj := obj } }
      match lookup_optional env.zap_lookup_userquota with
      | (some error, _) => zfsvfs_create_out s os error
      | (none, obj) =>
      let s := { s with fmt := { s.fmt with z_userquota_obj := obj } }
      match lookup_optional env.zap_lookup_groupquota with
      | (some error, _) => zfsvfs_create_out s os error
      | (none, obj) =>
      let s := { s with fmt := { s.fmt with z_groupquota_obj := obj } }
      match lookup_optional env.zap_lookup_fuid_tables with
      | (some error, _) => zfsvfs_create_out s os error
      | (none, obj) =>
      let s := { s with fmt := { s.fmt with z_fuid_obj := obj } }
      match lookup_optional env.zap_lookup_shares_dir with
      | (some error, _) => zfsvfs_create_out s os error
      | (none, obj) =>
      let s := { s with fmt := { s.fmt with z_shares_dir := obj } }
      let s := { s with z_teardown_lock := krwlock_t.unheld
                        z_teardown_inactive_lock := krwlock_t.unheld }
      { error := none, zfvp := zfvp_t.assigned, zfsvfs := s }

/-- `zfs_set_fuid_feature(zfsvfs)`. -/
def zfs_set_fuid_feature (env : mount_env) (s : zfs_instance) : zfs_instance :=
  let s := { s with fmt := { s.fmt with z_use_fuids := env.USE_FUIDS s.z_version } }
  { s with fmt := { s.fmt with z_use_sa := env.USE_SA s.z_version } }

/-- The label `out:` of `zfs_domount`: on an error the store is disowned and the instance
released by `zfsvfs_free`. -/
def zfs_domount_out (s : zfs_instance) (error : Option Errno) : Option Errno × zfs_instance :=
  match error with
  | some e =>
    match s.z_os with
    | some os => (some e, { dmu_objset_disown s os with allocated := false })
    | none => (some e, { s with allocated := false })
  | none => (none, s)

/-- `zfs_domount(vfsp, mount_dev, osname, ctx, mnt_mntopts)` in the `__APPLE__` build: the
return value and the instance. `vfs_swapopttbl` gives the instance the table
`mnt_mntopts`; the mount time, the file system id, the `os_sync` of a snapshot,
`vfs_mountedfrom`, `zfsctl_create` and the count of active file systems touch no field of
the model. -/
def zfs_domount (env : mount_env) (vfsp : mount) (mnt_mntopts : mntopts_t) :
    Option Errno × zfs_instance :=
  let r := zfsvfs_create env
  match r.error with
  | some error => (some error, r.zfsvfs)
  | none =>
    let s := r.zfsvfs
    let s := { s with reg := { s.reg with zfsvfs := { s.reg.zfsvfs with z_vfs := vfsp } } }
    let s := { s with reg := { s.reg with zfsvfs := { s.reg.zfsvfs with
      vfs_mntopts := mnt_mntopts } } }
    let s := zfs_set_fuid_feature env s
    if env.life.store.is_snapshot then
      let s := { s with reg := { s.reg with zfsvfs := { s.reg.zfsvfs with
        z_vfs := vfs_setflags s.reg.zfsvfs.z_vfs MntFlag.MNT_AUTOMOUNTED } } }
      let s := { s with reg := { s.reg with zfsvfs := atime_changed_cb s.reg.zfsvfs FALSE } }
      let s := { s with reg := { s.reg with zfsvfs := readonly_changed_cb s.reg.zfsvfs TRUE } }
      match env.dsl_prop_get_integer_xattr with
      | Except.error error => zfs_domount_out s (some error)
      | Except.ok pval =>
        let s := { s with reg := { s.reg with zfsvfs := xattr_changed_cb s.reg.zfsvfs pval } }
        let s := { s with z_issnap := true }
        let s := { s with os_user_ptr := s.z_os }
        zfs_domount_out s none
    else
      let r := zfsvfs_setup env.life s true
      zfs_domount_out r.2 r.1

/-! ### Copying a table, with the kernel memory it lives in -/

/-- The C struct `mntopt_t` as it lies in memory: `mo_name`, `mo_cancel` and `mo_arg` are
addresses (`none` is `NULL`) of a string, of an array of `char *` and of a string. -/
structure mntopt_mem where
  mo_name : Option Nat
  mo_cancel : Option Nat
  mo_arg : Option Nat
  mo_flags : MoFlags
  mo_data : Nat
deriving DecidableEq, Repr

/-- The C struct `mntopts_t` as it lies in memory: the address `mo_list` of the array of
slots and `mo_count`. -/
structure mntopts_mem where
  mo_list : Option Nat
  mo_count : Nat
deriving DecidableEq, Repr

/-- What a block of kernel memory holds: the characters of a string before its NUL, the
cells of an array of `char *`, or the slots of an array of `mntopt_t`. -/
inductive kmem_block where
  | chars (s : CStr)
  | ptrs (cells : List (Option Nat))
  | opts (slots : List mntopt_mem)
deriving DecidableEq, Repr

/-- Modelled from the spec: the kernel memory behind `kmem_alloc`, `kmem_zalloc` and
`kmem_free` (functions outside this file): the block at each address handed out so far,
the next address to hand out (every address below it has been handed out, none is handed
out twice), and the addresses released by `kmem_free`. A released block keeps its bytes. -/
structure kmem where
  mem : Nat → Option kmem_block
  next : Nat
  freed : List Nat

/-- Modelled from the spec: `kmem_alloc(size, KM_SLEEP)` (`kmem_zalloc` likewise), a
function outside this file, followed by the writes that fill the new block with `b`: the
memory afterwards and the address of the block, which was never handed out before. -/
def kmem_alloc (h : kmem) (b : kmem_block) : kmem × Nat :=
  ({ h with mem := Function.update h.mem h.next (some b), next := h.next + 1 }, h.next)

/-- Writes that leave the block at address `a` holding `b`. -/
def kmem_store (h : kmem) (a : Nat) (b : kmem_block) : kmem :=
  { h with mem := Function.update h.mem a (some b) }

/-- Modelled from the spec: `kmem_free(a, size)`, a function outside this file: the
address is recorded as released. -/
def kmem_free (h : kmem) (a : Nat) : kmem :=
  { h with freed := a :: h.freed }

/-- The string at address `p` (what `strlen(p)` measures and `strcpy(dp, p)` reads). -/
def kmem_str (h : kmem) (p : Nat) : CStr :=
  match h.mem p with
  | some (kmem_block.chars s) => s
  | _ => []

/-- The cells of the `char *` array at address `p`. -/
def kmem_ptrs (h : kmem) (p : Nat) : List (Option Nat) :=
  match h.mem p with
  | some (kmem_block.ptrs cells) => cells
  | _ => []

/-- The slots of the `mntopt_t` array at address `p`. -/
def kmem_opts (h : kmem) (p : Nat) : List mntopt_mem :=
  match h.mem p with
  | some (kmem_block.opts slots) => slots
  | _ => []

/-- The entries `moc[0], moc[1], ...` of a `char *` array before its first `NULL` cell. -/
def until_null : List (Option Nat) → List Nat
  | some p :: rest => p :: until_null rest
  | _ => []

/-- The entries of the cancel array `moc` (none for `NULL`). -/
def cancel_ptrs (h : kmem) (moc : Option Nat) : List Nat :=
  match moc with
  | none => []
  | some p => until_null (kmem_ptrs h p)

/-- `dp = kmem_alloc(strlen(sp) + 1, KM_SLEEP); (void) strcpy(dp, sp);`: the memory
afterwards and `dp`. -/
def kmem_strcpy (h : kmem) (sp : Nat) : kmem × Nat :=
  kmem_alloc h (kmem_block.chars (kmem_str h sp))

/-- The loop `for (j = 0; j < i; j++)` of `vfs_copycancelopt_extend` over the entries of
`moc`: the memory afterwards and the cells `result[0 .. i-1]`. -/
def copycancel_loop (h : kmem) : List Nat → kmem × List (Option Nat)
  | [] => (h, [])
  | sp :: rest =>
    let r := kmem_strcpy h sp
    let q := copycancel_loop r.1 rest
    (q.1, some r.2 :: q.2)

/-- `vfs_copycancelopt_extend(moc, extend)` in memory: the memory afterwards and the
pointer returned. The array `result` is allocated before the strings (its cells, not yet
written, are shown as `NULL`); after the strings are copied it is shown with its cells as
the two loops leave them (`i` copies, then `extend + 1` times `NULL`). -/
def vfs_copycancelopt_extend_mem (h : kmem) (moc : Option Nat) (extend : Nat) :
    kmem × Option Nat :=
  let src := cancel_ptrs h moc
  let i := src.length
  if i + extend = 0 then (h, none)
  else
    let a := kmem_alloc h (kmem_block.ptrs (List.replicate (i + extend + 1) none))
    let result := a.2
    let q := copycancel_loop a.1 src
    let h := kmem_store q.1 result
      (kmem_block.ptrs (q.2 ++ List.replicate (extend + 1) none))
    (h, some result)

/-- The two places of `vfs_copyopt` that copy a string, `if (sp != NULL) { dp =
kmem_alloc(strlen(sp) + 1, KM_SLEEP); (void) strcpy(dp, sp); ... = dp; } else { ... = NULL;
}`: the memory afterwards and the pointer stored. -/
def copyopt_str (h : kmem) (sp : Option Nat) : kmem × Option Nat :=
  match sp with
  | some sp => ((kmem_strcpy h sp).1, some (kmem_strcpy h sp).2)
  | none => (h, none)

/-- `vfs_copyopt(s, d)` in memory: the memory afterwards and the value written to `*d`. -/
def vfs_copyopt_mem (h : kmem) (s : mntopt_mem) : kmem × mntopt_mem :=
  let n := copyopt_str h s.mo_name
  let c := vfs_copycancelopt_extend_mem n.1 s.mo_cancel 0
  let a := copyopt_str c.1 s.mo_arg
  (a.1, { mo_flags := s.mo_flags, mo_data := s.mo_data, mo_name := n.2, mo_cancel := c.2,
          mo_arg := a.2 })

/-- `vfs_freecancelopt(moc)` in memory. -/
def vfs_freecancelopt_mem (h : kmem) (moc : Option Nat) : kmem :=
  match moc with
  | none => h
  | some p => kmem_free ((until_null (kmem_ptrs h p)).foldl kmem_free h) p

/-- `if (p != NULL) kmem_free(p, ...)`. -/
def kmem_free_ptr (h : kmem) (p : Option Nat) : kmem :=
  match p with
  | some p => kmem_free h p
  | none => h

/-- `vfs_freeopt(mop)` in memory. -/
def vfs_freeopt_mem (h : kmem) (mop : mntopt_mem) : kmem :=
  let h := kmem_free_ptr h mop.mo_name
  let h := vfs_freecancelopt_mem h mop.mo_cancel
  kmem_free_ptr h mop.mo_arg

/-- The slots `mp->mo_list[0 .. mo_count-1]`. -/
def table_slots (h : kmem) (mp : mntopts_mem) : List mntopt_mem :=
  match mp.mo_list with
  | none => []
  | some l => (kmem_opts h l).take mp.mo_count

/-- `vfs_freeopttbl(mp)` in memory: the memory and the struct `*mp` afterwards (with a
count that is not 0, `mo_list` is not `NULL`). -/
def vfs_freeopttbl_mem (h : kmem) (mp : mntopts_mem) : kmem × mntopts_mem :=
  let count := mp.mo_count
  let h := (table_slots h mp).foldl vfs_freeopt_mem h
  if count ≠ 0 then
    let h := kmem_free_ptr h mp.mo_list
    (h, { mo_list := none, mo_count := 0 })
  else (h, mp)

/-- The loop `for (i = 0; i < count; i++) vfs_copyopt(&smo->mo_list[i], &motbl[i])`: the
memory afterwards and the slots `motbl[0 .. count-1]`. -/
def copyopt_loop (h : kmem) : List mntopt_mem → kmem × List mntopt_mem
  | [] => (h, [])
  | s :: rest =>
    let r := vfs_copyopt_mem h s
    let q := copyopt_loop r.1 rest
    (q.1, r.2 :: q.2)

/-- The slot `motbl[i]` for `i >= count` in memory: zeroed by `kmem_zalloc`, then
`mo_flags = MO_EMPTY`. -/
def empty_placeholder_mem : mntopt_mem := ⟨none, none, none, MO_EMPTY, 0⟩

/-- `vfs_copyopttbl_extend(smo, dmo, extra)` in memory, with `smo` (may be `NULL`) and
`dmo` two different structs: the memory and the struct `*dmo` afterwards. The array `motbl`
is allocated (zeroed) before the copies; after the copies it is shown with its slots as the
two loops leave them. -/
def vfs_copyopttbl_extend_mem (h : kmem) (smo : Option mntopts_mem) (dmo : mntopts_mem)
    (extra : Nat) : kmem × mntopts_mem :=
  let f := vfs_freeopttbl_mem h dmo
  let count := match smo with
    | none => 0
    | some t => t.mo_count
  if count + extra = 0 then f
  else
    let a := kmem_alloc f.1
      (kmem_block.opts (List.replicate (count + extra) ⟨none, none, none, MoFlags.zero, 0⟩))
    let motbl := a.2
    let src := match smo with
      | none => []
      | some t => table_slots a.1 t
    let q := copyopt_loop a.1 src
    let h := kmem_store q.1 motbl
      (kmem_block.opts (q.2 ++ List.replicate extra empty_placeholder_mem))
    (h, { mo_list := some motbl, mo_count := count + extra })

/-! ### The option string grammar, as the specification words it -/

/-- The comma-separated pieces of a string. -/
def split_comma : List Char → List (List Char)
  | [] => [[]]
  | c :: rest =>
    if c = ',' then [] :: split_comma rest
    else
      match split_comma rest with
      | [] => [[c]]
      | t :: ts => (c :: t) :: ts

/-- The tokens of an option string: its comma-separated pieces, without the empty piece
that ends a string with a trailing comma (or an empty string). -/
def opt_tokens (str : List Char) : List (List Char) :=
  if (split_comma str).getLast? = some [] then (split_comma str).dropLast
  else split_comma str

/-- The option name of a token: the text before its first `=`. -/
def token_name (tok : List Char) : CStr := tok.takeWhile (fun x => x ≠ '=')

/-- The value of a token: the text after its first `=`, none when it has no `=`. -/
def token_value (tok : List Char) : Option CStr :=
  if '=' ∈ tok then some ((tok.dropWhile (fun x => x ≠ '=')).drop 1) else none

/-- The parser as the specification words it: `vfs_setmntopt_nolock` applied left to right
to every token, with `VFS_NOFORCEOPT`, and with `VFS_CREATEOPT` when `create` is not 0. -/
def parse_by_tokens (mops : mntopts_t) (str : List Char) (create : Int) : mntopts_t :=
  (opt_tokens str).foldl
    (fun T tok => vfs_setmntopt_nolock T (token_name tok) (token_value tok)
      ⟨true, false, false, decide (create ≠ 0)⟩) mops

/-! ## Vocabulary of the statements -/

/-- The names carried by the slots of a table that are not `MO_EMPTY`, in slot order. -/
def opt_names (T : mntopts_t) : List (Option CStr) :=
  (T.filter (fun m => !m.mo_flags.empty)).map (fun m => m.mo_name)

/-- Names are unique among the slots that are not `MO_EMPTY`. -/
def unique_names (T : mntopts_t) : Prop := (opt_names T).Nodup

instance (T : mntopts_t) : Decidable (unique_names T) :=
  inferInstanceAs (Decidable (opt_names T).Nodup)

/-- The name occurs in a slot of `T` that is not `MO_EMPTY`. -/
def name_in (T : mntopts_t) (name : Option CStr) : Bool :=
  T.any (fun o => !o.mo_flags.empty && decide (o.mo_name = name))

/-- Number of `MO_EMPTY` slots of a table. -/
def empty_slots (T : mntopts_t) : Nat := (T.filter (fun m => m.mo_flags.empty)).length

/-- The text of one option in the option string: its name, followed by `=` and its
argument when it has one. -/
def opt_entry (m : mntopt_t) : CStr :=
  name_chars m ++ (match m.mo_arg with
    | some a => '=' :: a
    | none => [])

/-- Strings joined by single commas, with no leading and no trailing comma. -/
def join_commas : List CStr → CStr
  | [] => []
  | [e] => e
  | e :: es => e ++ ',' :: join_commas es

/-- The serialization of a table: the entries of all slots with `MO_SET`, in slot order,
joined by commas. -/
def serialize_set (T : mntopts_t) : CStr :=
  join_commas ((T.filter (fun m => m.mo_flags.set)).map opt_entry)

/-- Every slot with `MO_SET` has a name, and that name is not empty. -/
def set_names_nonempty (T : mntopts_t) : Prop :=
  ∀ m ∈ T, m.mo_flags.set = true → ∃ n, m.mo_name = some n ∧ n ≠ []

/-- The entries of the slots with `MO_SET`, in slot order. -/
def set_entries (T : mntopts_t) : List CStr :=
  (T.filter (fun m => m.mo_flags.set)).map opt_entry

/-- The string in the buffer after the entries `es` have been appended to `buf` the way
the loop of `vfs_buildoptionstr` appends them when nothing overflows: a comma goes first
unless the buffer is still empty. -/
def append_entries (buf : CStr) : List CStr → CStr
  | [] => buf
  | e :: es => append_entries ((if buf = [] then buf else buf ++ [',']) ++ e) es

/-- Every string preceded by a comma, concatenated. -/
def comma_tail : List CStr → CStr
  | [] => []
  | e :: es => ',' :: e ++ comma_tail es

/-- What `vfs_clearmntopt_nolock(mops, c)` does to a slot of a table with unique names. -/
def clear_if (c : CStr) (s : mntopt_t) : mntopt_t :=
  if s.mo_flags.empty = false ∧ s.mo_name = some c then clear_slot s else s

/-- What `vfs_setmntopt_nolock(mops, opt, arg, flags)` does to a slot of a table with
unique names when the option `opt` is present, not blocked and has the cancel list `cl`:
the slot of `opt` is stored, the slots named in `cl` are cleared. -/
def set_if (opt : CStr) (arg : Option CStr) (flags : SetFlags) (cl : List CStr)
    (s : mntopt_t) : mntopt_t :=
  if s.mo_flags.empty = false ∧ s.mo_name = some opt then store_slot s arg flags
  else if s.mo_flags.empty = false ∧ ∃ c ∈ cl, s.mo_name = some c then clear_slot s
  else s

/-- No name of the list has a cancel list that contains the name itself or a name that
comes earlier in the list (`done` are the names before the list). -/
def cancel_forward (T : mntopts_t) : List CStr → List CStr → Bool
  | _, [] => true
  | done, n :: rest =>
    T.all (fun m => m.mo_flags.empty || decide (m.mo_name ≠ some n) ||
      (cancel_list m.mo_cancel).all (fun c => !(n :: done).contains c)) &&
    cancel_forward T (n :: done) rest

/-- The slot `s` is the slot `s0` of the table before parsing, after the names `done`
have been set: name, cancel list, `MO_EMPTY` and `MO_IGNORE` are those of `s0`; `s` is
`MO_SET` with no argument when it carries one of the names, and not `MO_SET` otherwise. -/
def slot_marked (done : List CStr) (s0 s : mntopt_t) : Prop :=
  s.mo_name = s0.mo_name ∧ s.mo_flags.empty = s0.mo_flags.empty ∧
    s.mo_cancel = s0.mo_cancel ∧ s.mo_flags.ignore = s0.mo_flags.ignore ∧
    (if s0.mo_flags.empty = false ∧ ∃ n ∈ done, s0.mo_name = some n then
      s.mo_flags.set = true ∧ s.mo_arg = none
    else s.mo_flags.set = false)

/-- The events of one `dsl_prop_register` call: the request, and the delivery of the
persisted value when the store accepts the request. -/
def attempt_events (env : store_env) (pc : zfs_prop_t × callback_t) : List reg_event :=
  match env.answer pc.1 with
  | Except.error _ => [reg_event.subscribe pc.1 pc.2]
  | Except.ok newval => [reg_event.subscribe pc.1 pc.2, reg_event.notify pc.2 newval]

/-- The subscription that an event requests, if it is a subscription request. -/
def subscription_of : reg_event → Option (zfs_prop_t × callback_t)
  | reg_event.subscribe prop cb => some (prop, cb)
  | _ => none

/-- The event is a callback called directly by `zfs_register_callbacks`. -/
def is_direct : reg_event → Bool
  | reg_event.direct _ _ => true
  | _ => false

/-- The store accepts the subscription to the property. -/
def accepts (env : store_env) (prop : zfs_prop_t) : Bool :=
  match env.answer prop with
  | Except.ok _ => true
  | Except.error _ => false

/-- What identifies a slot of a prototype table: its name, its cancel list and whether it
is `MO_EMPTY`. -/
def slot_shape (s : mntopt_t) : Option CStr × Option (List CStr) × Bool :=
  (s.mo_name, s.mo_cancel, s.mo_flags.empty)

/-- The option table is the merge of the generic and the ZFS prototype tables, up to what
setting, clearing and parsing have done to it since: slot by slot it has the names, the
cancel lists and the `MO_EMPTY` bits of `vfs_mergeopttbl(&vfs_mntopts, &zfs_mntopts)`. -/
def proto_shape (T : mntopts_t) : Prop :=
  T.map slot_shape = (vfs_mergeopttbl vfs_mntopts zfs_mntopts).map slot_shape

instance (T : mntopts_t) : Decidable (proto_shape T) :=
  inferInstanceAs (Decidable (T.map slot_shape = _))

/-- What `vfs_clearmntopt(zfsvfs, b)` followed by `vfs_setmntopt(zfsvfs, a, NULL, 0)` does
to a slot of such a table when `a` cancels `b`: the slot of `a` is stored, the slot of `b`
is cleared. -/
def toggle (a b : CStr) (s : mntopt_t) : mntopt_t :=
  if s.mo_flags.empty = false ∧ s.mo_name = some a then store_slot s none SetFlags.zero
  else if s.mo_flags.empty = false ∧ s.mo_name = some b then clear_slot s
  else s

/-- The option that a callback sets and the option that it clears in the option table of
the instance, for the value it is called with. -/
def cb_pair : callback_t → Nat → Option (CStr × CStr)
  | callback_t.xattr, v =>
    some (if v = TRUE then (MNTOPT_XATTR, MNTOPT_NOXATTR) else (MNTOPT_NOXATTR, MNTOPT_XATTR))
  | callback_t.readonly, v =>
    some (if v ≠ 0 then (MNTOPT_RO, MNTOPT_RW) else (MNTOPT_RW, MNTOPT_RO))
  | callback_t.devices, v =>
    some (if v = FALSE then (MNTOPT_NODEVICES, MNTOPT_DEVICES)
      else (MNTOPT_DEVICES, MNTOPT_NODEVICES))
  | callback_t.setuid, v =>
    some (if v = FALSE then (MNTOPT_NOSETUID, MNTOPT_SETUID)
      else (MNTOPT_SETUID, MNTOPT_NOSETUID))
  | callback_t.exec, v =>
    some (if v = FALSE then (MNTOPT_NOEXEC, MNTOPT_EXEC) else (MNTOPT_EXEC, MNTOPT_NOEXEC))
  | callback_t.nbmand, v =>
    some (if v = FALSE then (MNTOPT_NONBMAND, MNTOPT_NBMAND)
      else (MNTOPT_NBMAND, MNTOPT_NONBMAND))
  | callback_t.finderbrowse, v =>
    some (if v = TRUE then (MNTOPT_BROWSE, MNTOPT_NOBROWSE)
      else (MNTOPT_NOBROWSE, MNTOPT_BROWSE))
  | callback_t.ignoreowner, v =>
    some (if v ≠ 0 then (MNTOPT_NOOWNERS, MNTOPT_OWNERS) else (MNTOPT_OWNERS, MNTOPT_NOOWNERS))
  | _, _ => none

/-- The names that a callback can touch in the option table of the instance. -/
def cb_names : callback_t → List CStr
  | callback_t.xattr => [MNTOPT_XATTR, MNTOPT_NOXATTR]
  | callback_t.readonly => [MNTOPT_RO, MNTOPT_RW]
  | callback_t.devices => [MNTOPT_DEVICES, MNTOPT_NODEVICES]
  | callback_t.setuid => [MNTOPT_SETUID, MNTOPT_NOSETUID]
  | callback_t.exec => [MNTOPT_EXEC, MNTOPT_NOEXEC]
  | callback_t.nbmand => [MNTOPT_NBMAND, MNTOPT_NONBMAND]
  | callback_t.finderbrowse => [MNTOPT_BROWSE, MNTOPT_NOBROWSE]
  | callback_t.ignoreowner => [MNTOPT_OWNERS, MNTOPT_NOOWNERS]
  | _ => []

/-- The mount flag that a callback writes and whether it turns it on, for the value it is
called with. -/
def cb_flag : callback_t → Nat → Option (MntFlag × Bool)
  | callback_t.atime, v => some (MntFlag.MNT_NOATIME, decide (v ≠ TRUE))
  | callback_t.xattr, v => some (MntFlag.MNT_NOUSERXATTR, decide (v ≠ TRUE))
  | callback_t.readonly, v => some (MntFlag.MNT_RDONLY, decide (v ≠ 0))
  | callback_t.devices, v => some (MntFlag.MNT_NODEV, decide (v = FALSE))
  | callback_t.setuid, v => some (MntFlag.MNT_NOSUID, decide (v = FALSE))
  | callback_t.exec, v => some (MntFlag.MNT_NOEXEC, decide (v = FALSE))
  | callback_t.finderbrowse, v => some (MntFlag.MNT_DONTBROWSE, decide (v ≠ TRUE))
  | callback_t.ignoreowner, v => some (MntFlag.MNT_IGNORE_OWNERSHIP, decide (v ≠ 0))
  | _, _ => none

/-- The mount flag that a callback can write. -/
def cb_flagname (c : callback_t) : Option MntFlag := (cb_flag c 0).map Prod.fst

/-- The direct calls of `replay_overrides` in order: condition, callback, value. -/
def replay_list (o : overrides) : List (Bool × callback_t × Nat) :=
  [ (o.do_readonly, callback_t.readonly, o.readonly),
    (o.do_setuid, callback_t.setuid, o.setuid),
    (o.do_exec, callback_t.exec, o.exec),
    (o.do_devices, callback_t.devices, o.devices),
    (o.do_xattr, callback_t.xattr, o.xattr),
    (o.do_atime, callback_t.atime, o.atime),
    (o.do_finderbrowse, callback_t.finderbrowse, o.finderbrowse),
    (o.do_ignoreowner, callback_t.ignoreowner, o.ignoreowner),
    (true, callback_t.nbmand, o.nbmand) ]

/-- The temporary override for the option `opt` with opposite `opp` holds between the
instance on entry `z0` and the instance on return `z1`: if `opt` was SET and `opp` was not,
then `opt` is SET, `opp` is not SET and the mount flag `flag` is on exactly when `val`. -/
def override_holds (z0 z1 : zfsvfs_t) (opt opp : CStr) (flag : MntFlag) (val : Bool) : Prop :=
  vfs_optionisset z0 opt = true → vfs_optionisset z0 opp = false →
    vfs_optionisset z1 opt = true ∧ vfs_optionisset z1 opp = false ∧
      vfs_flags z1.z_vfs flag = val

/-- The branch of a property callback that turns the mount flag `flag` on (`setflag`) or
off, clears the option `b` and sets the option `a`:
`vfs_setflags`/`vfs_clearflags`, `vfs_clearmntopt(zfsvfs, b)`,
`vfs_setmntopt(zfsvfs, a, NULL, 0)`. -/
def pair_apply (setflag : Bool) (flag : MntFlag) (a b : CStr) (z : zfsvfs_t) : zfsvfs_t :=
  vfs_setmntopt
    (vfs_clearmntopt
      { z with z_vfs := if setflag then vfs_setflags z.z_vfs flag
                        else vfs_clearflags z.z_vfs flag } b)
    a none SetFlags.zero

/-- Between the instances `z` and `z1` nothing but the options `a` and `b` and the mount
flag `flag` has changed: the table has the same slots, every slot that carries neither
name is the same, every other option is SET exactly when it was, every other mount flag is
as it was, and the other fields of the instance and of the mount are the same. -/
def only_pair_changed (z z1 : zfsvfs_t) (a b : CStr) (flag : MntFlag) : Prop :=
  z1.vfs_mntopts.length = z.vfs_mntopts.length
  ∧ (∀ (i : Nat) (s : mntopt_t), z.vfs_mntopts[i]? = some s →
      s.mo_name ≠ some a → s.mo_name ≠ some b → z1.vfs_mntopts[i]? = some s)
  ∧ (∀ n : CStr, n ≠ a → n ≠ b → vfs_optionisset z1 n = vfs_optionisset z n)
  ∧ (∀ f : MntFlag, f ≠ flag → vfs_flags z1.z_vfs f = vfs_flags z.z_vfs f)
  ∧ z1.z_vfs.mnt_overlay = z.z_vfs.mnt_overlay
  ∧ z1.z_atime = z.z_atime ∧ z1.z_nbmand = z.z_nbmand ∧ z1.z_max_blksz = z.z_max_blksz
  ∧ z1.z_show_ctldir = z.z_show_ctldir ∧ z1.z_acl_mode = z.z_acl_mode
  ∧ z1.z_acl_inherit = z.z_acl_inherit

/-- The contract of a boolean property callback `cb` on the instance `z`, for the values 0
and 1: afterwards the mount flag `flag` is on exactly when the value is 1 (`flag_on`) or 0
(otherwise), the option for the value (`opt1` for 1, `opt0` for 0) is SET and the other one
is not, nothing else has changed, and a second call with the same value changes nothing. -/
def callback_contract (cb : zfsvfs_t → Nat → zfsvfs_t) (flag : MntFlag) (opt1 opt0 : CStr)
    (flag_on : Bool) (z : zfsvfs_t) : Prop :=
  (vfs_flags (cb z 1).z_vfs flag = flag_on
    ∧ vfs_optionisset (cb z 1) opt1 = true ∧ vfs_optionisset (cb z 1) opt0 = false
    ∧ only_pair_changed z (cb z 1) opt1 opt0 flag
    ∧ cb (cb z 1) 1 = cb z 1)
  ∧ (vfs_flags (cb z 0).z_vfs flag = !flag_on
    ∧ vfs_optionisset (cb z 0) opt0 = true ∧ vfs_optionisset (cb z 0) opt1 = false
    ∧ only_pair_changed z (cb z 0) opt1 opt0 flag
    ∧ cb (cb z 0) 0 = cb z 0)

/-- One call on an option table: `vfs_setmntopt_nolock(mops, opt, arg, flags, 0)`,
`vfs_clearmntopt_nolock(mops, opt, 0)` or `vfs_parsemntopts(mops, osp, create)`. -/
inductive table_call where
  | set (opt : CStr) (arg : Option CStr) (flags : SetFlags)
  | clear (opt : CStr)
  | parse (osp : Option (List Char)) (create : Int)

/-- The table after the call. -/
def table_call.run (T : mntopts_t) : table_call → mntopts_t
  | table_call.set opt arg flags => vfs_setmntopt_nolock T opt arg flags
  | table_call.clear opt => vfs_clearmntopt_nolock T opt
  | table_call.parse osp create => (vfs_parsemntopts T osp create).1

/-- The option `A` is in the table (in a slot that is not `MO_EMPTY`) and its cancel list
names `B`. -/
def opt_cancels (T : mntopts_t) (A B : CStr) : Bool :=
  match vfs_hasopt T (some A) with
  | some i => decide (B ∈ cancel_list (T.getD i default).mo_cancel)
  | none => false

/-- The pairs of opposing options of the prototype tables. -/
def opposing_pairs : List (CStr × CStr) :=
  [ (MNTOPT_RO, MNTOPT_RW), (MNTOPT_SUID, MNTOPT_NOSUID), (MNTOPT_DEVICES, MNTOPT_NODEVICES),
    (MNTOPT_SETUID, MNTOPT_NOSETUID), (MNTOPT_NBMAND, MNTOPT_NONBMAND),
    (MNTOPT_EXEC, MNTOPT_NOEXEC), (MNTOPT_ATIME, MNTOPT_NOATIME),
    (MNTOPT_XATTR, MNTOPT_NOXATTR) ]

/-- The state of two opposing options that the calls keep: names are unique, slot `i` holds
`A` and names `B` in its cancel list, slot `j` holds `B` and names `A`, and the two slots
are not both `MO_SET`. -/
def excl_inv (A B : CStr) (i j : Nat) (T : mntopts_t) : Prop :=
  unique_names T ∧ ∃ a b, T[i]? = some a ∧ T[j]? = some b ∧
    a.mo_flags.empty = false ∧ b.mo_flags.empty = false ∧
    a.mo_name = some A ∧ b.mo_name = some B ∧
    B ∈ cancel_list a.mo_cancel ∧ A ∈ cancel_list b.mo_cancel ∧
    ¬(a.mo_flags.set = true ∧ b.mo_flags.set = true)

/-! ### Reading a table out of kernel memory -/

/-- The cancel array at `moc` as a value: `NULL`, or the strings of its entries. -/
def cancel_val (h : kmem) (moc : Option Nat) : Option (List CStr) :=
  moc.map (fun p => (until_null (kmem_ptrs h p)).map (kmem_str h))

/-- The addresses of the blocks of the cancel array at `moc`: the array and its strings. -/
def cancel_addrs (h : kmem) (moc : Option Nat) : List Nat :=
  match moc with
  | none => []
  | some p => p :: until_null (kmem_ptrs h p)

/-- The slot `m` as a value: its strings in place of their addresses. -/
def slot_val (h : kmem) (m : mntopt_mem) : mntopt_t :=
  { mo_name := m.mo_name.map (kmem_str h)
    mo_cancel := cancel_val h m.mo_cancel
    mo_arg := m.mo_arg.map (kmem_str h)
    mo_flags := m.mo_flags
    mo_data := m.mo_data }

/-- The addresses of the blocks that the slot `m` points to: its name, its cancel array
with the strings of that array, and its argument. -/
def slot_addrs (h : kmem) (m : mntopt_mem) : List Nat :=
  m.mo_name.toList ++ cancel_addrs h m.mo_cancel ++ m.mo_arg.toList

/-- The table `t` as a value. -/
def table_val (h : kmem) (t : mntopts_mem) : mntopts_t :=
  (table_slots h t).map (slot_val h)

/-- The addresses of the blocks of the table `t`: its array of slots and what the slots
point to; none when `mo_count` is 0 (these are the blocks that `vfs_freeopttbl` releases). -/
def table_addrs (h : kmem) (t : mntopts_mem) : List Nat :=
  if t.mo_count = 0 then []
  else
    match t.mo_list with
    | none => []
    | some l => l :: (table_slots h t).flatMap (slot_addrs h)

/-- The table `t` is in memory: its array has `mo_count` slots, and each of its blocks
has been handed out and not released. -/
def table_ok (h : kmem) (t : mntopts_mem) : Prop :=
  (table_slots h t).length = t.mo_count ∧
    ∀ a ∈ table_addrs h t, a < h.next ∧ a ∉ h.freed

/-- The memory `h1` is `h` with more blocks handed out: no block of `h` is written and
none is released. -/
def kmem_ext (h h1 : kmem) : Prop :=
  h.next ≤ h1.next ∧ (∀ p, p < h.next → h1.mem p = h.mem p) ∧ h1.freed = h.freed

/-! ## Cancel lists -/

theorem cancel_count_eq_length (moc : Option (List CStr)) :
    cancel_count moc = (cancel_list moc).length := by
  cases moc <;> rfl

@[simp] theorem cancel_list_none : cancel_list none = [] := rfl

@[simp] theorem cancel_list_some (l : List CStr) : cancel_list (some l) = l := rfl

theorem cancel_list_copycancelopt (moc : Option (List CStr)) (extend : Nat) :
    cancel_list (vfs_copycancelopt_extend moc extend) = cancel_list moc := by
  unfold vfs_copycancelopt_extend
  by_cases h : cancel_count moc + extend = 0
  · have h0 : cancel_count moc = 0 := by omega
    rw [cancel_count_eq_length] at h0
    simp [h, List.length_eq_zero.mp h0]
  · simp [h]

theorem copycancelopt_eq_none (moc : Option (List CStr)) :
    vfs_copycancelopt_extend moc 0 = none ↔ cancel_list moc = [] := by
  unfold vfs_copycancelopt_extend
  rw [cancel_count_eq_length]
  by_cases h : (cancel_list moc).length = 0
  · simp [h, List.length_eq_zero.mp h]
  · have : cancel_list moc ≠ [] := fun hn => h (by simp [hn])
    simp [h, this]

theorem any_beq_eq_decide_mem (l : List CStr) (x : CStr) :
    (l.any (fun y => y == x)) = decide (x ∈ l) := by
  induction l with
  | nil => simp
  | cons a t ih =>
    simp only [List.any_cons, ih, List.mem_cons]
    by_cases hax : a = x
    · subst hax; simp
    · have hxa : ¬ x = a := fun h => hax h.symm
      simp [hax, hxa]

theorem cancel_list_mergecancelopts (mop1 mop2 : mntopt_t) :
    cancel_list (vfs_mergecancelopts mop1 mop2) =
      cancel_list mop1.mo_cancel ++
        (cancel_list mop2.mo_cancel).filter
          (fun n => decide (n ∉ cancel_list mop1.mo_cancel)) := by
  unfold vfs_mergecancelopts
  simp only [cancel_count_eq_length]
  by_cases h1 : (cancel_list mop1.mo_cancel).length = 0
  · have e1 : cancel_list mop1.mo_cancel = [] := List.length_eq_zero.mp h1
    simp [h1, cancel_list_copycancelopt, e1]
  · by_cases h2 : (cancel_list mop2.mo_cancel).length = 0
    · have e2 : cancel_list mop2.mo_cancel = [] := List.length_eq_zero.mp h2
      simp [h1, h2, cancel_list_copycancelopt, e2]
    · simp only [h1, h2, if_false, cancel_list_some, cancel_list_copycancelopt]
      congr 1
      apply List.filter_congr
      intro x _
      rw [any_beq_eq_decide_mem]
      simp

theorem mergecancelopts_eq_none (mop1 mop2 : mntopt_t) :
    vfs_mergecancelopts mop1 mop2 = none ↔
      cancel_list mop1.mo_cancel = [] ∧ cancel_list mop2.mo_cancel = [] := by
  unfold vfs_mergecancelopts
  simp only [cancel_count_eq_length]
  by_cases c1 : (cancel_list mop1.mo_cancel).length = 0
  · have e1 : cancel_list mop1.mo_cancel = [] := List.length_eq_zero.mp c1
    rw [if_pos c1, copycancelopt_eq_none, e1]
    simp
  · have n1 : cancel_list mop1.mo_cancel ≠ [] := fun hn => c1 (by simp [hn])
    by_cases c2 : (cancel_list mop2.mo_cancel).length = 0
    · simp only [c1, c2, if_true, if_false, n1, false_and, iff_false]
      unfold vfs_copycancelopt_extend
      rw [cancel_count_eq_length]
      simp [c1]
    · simp [c1, c2, n1]

/-- C4: for two options whose cancel lists have no repeated name,
`vfs_mergecancelopts` returns the names of `mop1` in order followed by the names of
`mop2` that `mop1` does not list, in order; every name of the union occurs exactly
once, and the result is empty (the function returns `NULL`) exactly when both lists
are empty. -/
theorem vfs_mergecancelopts_union (mop1 mop2 : mntopt_t)
    (h1 : (cancel_list mop1.mo_cancel).Nodup)
    (h2 : (cancel_list mop2.mo_cancel).Nodup) :
    cancel_list (vfs_mergecancelopts mop1 mop2) =
        cancel_list mop1.mo_cancel ++
          (cancel_list mop2.mo_cancel).filter
            (fun n => decide (n ∉ cancel_list mop1.mo_cancel))
      ∧ (∀ n, n ∈ cancel_list mop1.mo_cancel ∨ n ∈ cancel_list mop2.mo_cancel →
          (cancel_list (vfs_mergecancelopts mop1 mop2)).count n = 1)
      ∧ (∀ n, n ∈ cancel_list (vfs_mergecancelopts mop1 mop2) →
          n ∈ cancel_list mop1.mo_cancel ∨ n ∈ cancel_list mop2.mo_cancel)
      ∧ (cancel_list (vfs_mergecancelopts mop1 mop2) = [] ↔
          cancel_list mop1.mo_cancel = [] ∧ cancel_list mop2.mo_cancel = [])
      ∧ (vfs_mergecancelopts mop1 mop2 = none ↔
          cancel_list mop1.mo_cancel = [] ∧ cancel_list mop2.mo_cancel = []) := by
  have hl := cancel_list_mergecancelopts mop1 mop2
  have hnd : (cancel_list (vfs_mergecancelopts mop1 mop2)).Nodup := by
    rw [hl]
    refine List.Nodup.append h1 (h2.filter _) ?_
    intro x hx1 hx2
    have := (List.mem_filter.mp hx2).2
    simp at this
    exact this hx1
  have hmem : ∀ n, n ∈ cancel_list (vfs_mergecancelopts mop1 mop2) ↔
      n ∈ cancel_list mop1.mo_cancel ∨ n ∈ cancel_list mop2.mo_cancel := by
    intro n
    rw [hl, List.mem_append, List.mem_filter]
    by_cases hn : n ∈ cancel_list mop1.mo_cancel <;> simp [hn]
  have hnil : cancel_list (vfs_mergecancelopts mop1 mop2) = [] ↔
      cancel_list mop1.mo_cancel = [] ∧ cancel_list mop2.mo_cancel = [] := by
    constructor
    · intro h
      rw [hl, List.append_eq_nil] at h
      refine ⟨h.1, ?_⟩
      have h2f := h.2
      rw [h.1] at h2f
      simpa using h2f
    · rintro ⟨e1, e2⟩
      rw [hl, e1, e2]; rfl
  refine ⟨hl, ?_, fun n hn => (hmem n).mp hn, hnil, ?_⟩
  · intro n hn
    have hc := List.count_eq_one_of_mem hnd ((hmem n).mpr hn)
    convert hc
  · exact mergecancelopts_eq_none mop1 mop2

/-- Witness of C4: `{"rw", "suid"}` merged with `{"suid", "ro"}`. -/
theorem vfs_mergecancelopts_union_witness :
    cancel_list (vfs_mergecancelopts
        ⟨some "a".toList, some ["rw".toList, "suid".toList], none, MoFlags.zero, 0⟩
        ⟨some "a".toList, some ["suid".toList, "ro".toList], none, MoFlags.zero, 0⟩) =
      ["rw".toList, "suid".toList, "ro".toList] := by
  have h := (vfs_mergecancelopts_union
    ⟨some "a".toList, some ["rw".toList, "suid".toList], none, MoFlags.zero, 0⟩
    ⟨some "a".toList, some ["suid".toList, "ro".toList], none, MoFlags.zero, 0⟩
    (by decide) (by decide)).1
  rw [h]
  decide

/-! ## Looking up a name -/

theorem opt_names_cons (m : mntopt_t) (T : mntopts_t) :
    opt_names (m :: T) =
      if m.mo_flags.empty then opt_names T else m.mo_name :: opt_names T := by
  unfold opt_names
  cases h : m.mo_flags.empty <;> simp [List.filter_cons, h]

theorem mem_opt_names {T : mntopts_t} {n : Option CStr} :
    n ∈ opt_names T ↔ ∃ m ∈ T, m.mo_flags.empty = false ∧ m.mo_name = n := by
  unfold opt_names
  simp only [List.mem_map, List.mem_filter]
  constructor
  · rintro ⟨m, ⟨hm, he⟩, hn⟩
    exact ⟨m, hm, by simpa using he, hn⟩
  · rintro ⟨m, hm, he, hn⟩
    exact ⟨m, ⟨hm, by simp [he]⟩, hn⟩

theorem name_in_iff {T : mntopts_t} {n : Option CStr} :
    name_in T n = true ↔ n ∈ opt_names T := by
  rw [mem_opt_names]
  unfold name_in
  simp only [List.any_eq_true, Bool.and_eq_true, Bool.not_eq_true', decide_eq_true_eq]

theorem unique_names_tail {m : mntopt_t} {T : mntopts_t} (h : unique_names (m :: T)) :
    unique_names T := by
  unfold unique_names at h ⊢
  rw [opt_names_cons] at h
  split at h
  · exact h
  · exact (List.nodup_cons.mp h).2

theorem hasopt_some {T : mntopts_t} {n : Option CStr} {i : Nat}
    (h : vfs_hasopt T n = some i) :
    ∃ s, T[i]? = some s ∧ s.mo_flags.empty = false ∧ s.mo_name = n := by
  induction T generalizing i with
  | nil => simp [vfs_hasopt] at h
  | cons m T ih =>
    unfold vfs_hasopt at h
    by_cases he : m.mo_flags.empty = true
    · simp only [he, if_true, Option.map_eq_some'] at h
      obtain ⟨k, hk, rfl⟩ := h
      simpa using ih hk
    · by_cases hn : m.mo_name = n
      · simp only [he, hn, if_true, Bool.false_eq_true, if_false, Option.some.injEq] at h
        subst h
        exact ⟨m, by simp, by simpa using he, hn⟩
      · simp only [he, hn, Bool.false_eq_true, if_false, Option.map_eq_some'] at h
        obtain ⟨k, hk, rfl⟩ := h
        simpa using ih hk

theorem hasopt_lt {T : mntopts_t} {n : Option CStr} {i : Nat}
    (h : vfs_hasopt T n = some i) : i < T.length := by
  obtain ⟨s, hs, _⟩ := hasopt_some h
  exact (List.getElem?_eq_some_iff.mp hs).1

theorem hasopt_eq_none {T : mntopts_t} {n : Option CStr} :
    vfs_hasopt T n = none ↔ name_in T n = false := by
  induction T with
  | nil => simp [vfs_hasopt, name_in]
  | cons m T ih =>
    unfold vfs_hasopt
    unfold name_in at ih ⊢
    by_cases he : m.mo_flags.empty = true
    · simp [he, ih]
    · by_cases hn : m.mo_name = n
      · simp [he, hn]
      · simp [he, hn, ih]

theorem hasopt_of_unique {T : mntopts_t} (hu : unique_names T) {i : Nat} {s : mntopt_t}
    (hs : T[i]? = some s) (he : s.mo_flags.empty = false) :
    vfs_hasopt T s.mo_name = some i := by
  induction T generalizing i with
  | nil => simp at hs
  | cons m T ih =>
    unfold vfs_hasopt
    cases i with
    | zero =>
      simp only [List.getElem?_cons_zero, Option.some.injEq] at hs
      subst hs
      simp [he]
    | succ k =>
      simp only [List.getElem?_cons_succ] at hs
      have ihk := ih (unique_names_tail hu) hs
      by_cases hem : m.mo_flags.empty = true
      · simp [hem, ihk]
      · have hne : m.mo_name ≠ s.mo_name := by
          intro heq
          unfold unique_names at hu
          rw [opt_names_cons] at hu
          simp only [hem, Bool.false_eq_true, if_false] at hu
          have hmem : s.mo_name ∈ opt_names T :=
            mem_opt_names.mpr ⟨s, List.getElem?_mem hs, he, rfl⟩
          exact (List.nodup_cons.mp hu).1 (heq ▸ hmem)
        simp [hem, hne, ihk]

/-! ## Merging two tables -/

theorem mergeopttbl_step_length (omo motbl : mntopts_t) (m : mntopt_t) :
    (vfs_mergeopttbl_step omo motbl m).length =
      motbl.length + (if (!m.mo_flags.empty && !name_in omo m.mo_name) = true then 1 else 0) := by
  unfold vfs_mergeopttbl_step
  by_cases he : m.mo_flags.empty = true
  · simp [he]
  · cases hh : vfs_hasopt omo m.mo_name with
    | none =>
      have := hasopt_eq_none.mp hh
      simp [he, this]
    | some index =>
      have hn : name_in omo m.mo_name = true := by
        cases hni : name_in omo m.mo_name
        · rw [hasopt_eq_none.mpr hni] at hh; cases hh
        · rfl
      simp [he, hn]

theorem mergeopttbl_fold_length (omo imo motbl : mntopts_t) :
    (imo.foldl (vfs_mergeopttbl_step omo) motbl).length =
      motbl.length +
        (imo.filter (fun m => !m.mo_flags.empty && !name_in omo m.mo_name)).length := by
  induction imo generalizing motbl with
  | nil => simp
  | cons m imo ih =>
    rw [List.foldl_cons, ih, mergeopttbl_step_length, List.filter_cons]
    split
    · simp; omega
    · simp

theorem mergeopttbl_count_fold (omo imo : mntopts_t) (c : Nat) :
    imo.foldl (fun count m =>
        if m.mo_flags.empty then count
        else if vfs_hasopt omo m.mo_name = none then count + 1
        else count) c =
      c + (imo.filter (fun m => !m.mo_flags.empty && !name_in omo m.mo_name)).length := by
  induction imo generalizing c with
  | nil => simp
  | cons m imo ih =>
    rw [List.foldl_cons, ih, List.filter_cons]
    by_cases he : m.mo_flags.empty = true
    · simp [he]
    · cases hni : name_in omo m.mo_name
      · simp [he, hasopt_eq_none.mpr hni, hni]; omega
      · have : vfs_hasopt omo m.mo_name ≠ none := by
          intro h; rw [hasopt_eq_none.mp h] at hni; cases hni
        simp [he, this, hni]

theorem mergeopttbl_count_eq (omo imo : mntopts_t) :
    vfs_mergeopttbl_count omo imo =
      omo.length +
        (imo.filter (fun m => !m.mo_flags.empty && !name_in omo m.mo_name)).length :=
  mergeopttbl_count_fold omo imo omo.length

theorem mergeopttbl_length (omo imo : mntopts_t) :
    (vfs_mergeopttbl omo imo).length = vfs_mergeopttbl_count omo imo := by
  unfold vfs_mergeopttbl
  rw [mergeopttbl_fold_length, mergeopttbl_count_eq, List.length_map]

theorem mergeopttbl_fold_drop (omo imo motbl : mntopts_t) (hl : omo.length ≤ motbl.length) :
    (imo.foldl (vfs_mergeopttbl_step omo) motbl).drop omo.length =
      motbl.drop omo.length ++
        (imo.filter (fun m => !m.mo_flags.empty && !name_in omo m.mo_name)).map
          vfs_copyopt := by
  induction imo generalizing motbl with
  | nil => simp
  | cons m imo ih =>
    have hl2 : omo.length ≤ (vfs_mergeopttbl_step omo motbl m).length := by
      rw [mergeopttbl_step_length]; omega
    rw [List.foldl_cons, ih _ hl2, List.filter_cons]
    unfold vfs_mergeopttbl_step
    by_cases he : m.mo_flags.empty = true
    · simp [he]
    · cases hh : vfs_hasopt omo m.mo_name with
      | none =>
        have := hasopt_eq_none.mp hh
        simp [he, this, List.drop_append_of_le_length hl]
      | some index =>
        have hn : name_in omo m.mo_name = true := by
          cases hni : name_in omo m.mo_name
          · rw [hasopt_eq_none.mpr hni] at hh; cases hh
          · rfl
        simp [he, hn, List.drop_set_of_lt _ _ (hasopt_lt hh)]

theorem mergeopttbl_step_get (omo motbl : mntopts_t) (m s : mntopt_t) (i : Nat)
    (hs : motbl[i]? = some s) :
    (vfs_mergeopttbl_step omo motbl m)[i]? =
      some (if m.mo_flags.empty = false ∧ vfs_hasopt omo m.mo_name = some i then
        { vfs_copyopt m with
          mo_cancel := vfs_mergecancelopts (omo.getD i default) s }
      else s) := by
  have hi : i < motbl.length := (List.getElem?_eq_some_iff.mp hs).1
  unfold vfs_mergeopttbl_step
  by_cases he : m.mo_flags.empty = true
  · simp [he, hs]
  · cases hh : vfs_hasopt omo m.mo_name with
    | none => simp [he, List.getElem?_append_left hi, hs]
    | some index =>
      by_cases hx : index = i
      · subst hx
        simp [he, List.getElem?_set_self hi, hs]
      · simp [he, List.getElem?_set_ne hx, hs, hx]

theorem mergeopttbl_fold_slot (omo imo motbl : mntopts_t) (s : mntopt_t) (i : Nat)
    (hs : motbl[i]? = some s) :
    ∃ t, (imo.foldl (vfs_mergeopttbl_step omo) motbl)[i]? = some t ∧
      ((t = s ∧ ∀ m ∈ imo, m.mo_flags.empty = false → vfs_hasopt omo m.mo_name ≠ some i) ∨
       (∃ m ∈ imo, m.mo_flags.empty = false ∧ vfs_hasopt omo m.mo_name = some i ∧
          t.mo_name = m.mo_name ∧ t.mo_flags = m.mo_flags ∧ t.mo_arg = m.mo_arg ∧
          t.mo_data = m.mo_data)) := by
  induction imo generalizing motbl s with
  | nil => exact ⟨s, by simpa using hs, Or.inl ⟨rfl, by simp⟩⟩
  | cons m imo ih =>
    rw [List.foldl_cons]
    obtain ⟨t, ht, hcase⟩ := ih _ _ (mergeopttbl_step_get omo motbl m s i hs)
    refine ⟨t, ht, ?_⟩
    rcases hcase with ⟨hts, hno⟩ | ⟨m2, hm2, h2⟩
    · by_cases hc : m.mo_flags.empty = false ∧ vfs_hasopt omo m.mo_name = some i
      · right
        refine ⟨m, List.mem_cons_self _ _, hc.1, hc.2, ?_⟩
        rw [hts, if_pos hc]
        simp [vfs_copyopt]
      · left
        rw [if_neg hc] at hts
        refine ⟨hts, ?_⟩
        intro m2 hm2 he2
        rcases List.mem_cons.mp hm2 with rfl | hm2
        · exact fun h => hc ⟨he2, h⟩
        · exact hno m2 hm2 he2
    · exact Or.inr ⟨m2, List.mem_cons_of_mem _ hm2, h2⟩

theorem mergecancelopts_self (a b : mntopt_t)
    (h : cancel_list b.mo_cancel = cancel_list a.mo_cancel) :
    cancel_list (vfs_mergecancelopts a b) = cancel_list a.mo_cancel := by
  rw [cancel_list_mergecancelopts, h]
  have : (cancel_list a.mo_cancel).filter
      (fun n => decide (n ∉ cancel_list a.mo_cancel)) = [] := by
    rw [List.filter_eq_nil_iff]
    intro x hx
    simp [hx]
  rw [this, List.append_nil]

theorem mergeopttbl_fold_cancel (omo imo motbl : mntopts_t) (s : mntopt_t) (i : Nat)
    (hs : motbl[i]? = some s)
    (hc : cancel_list s.mo_cancel = cancel_list (omo.getD i default).mo_cancel) :
    ∃ t, (imo.foldl (vfs_mergeopttbl_step omo) motbl)[i]? = some t ∧
      cancel_list t.mo_cancel = cancel_list (omo.getD i default).mo_cancel := by
  induction imo generalizing motbl s with
  | nil => exact ⟨s, by simpa using hs, hc⟩
  | cons m imo ih =>
    rw [List.foldl_cons]
    refine ih _ _ (mergeopttbl_step_get omo motbl m s i hs) ?_
    split
    · exact mergecancelopts_self _ _ hc
    · exact hc

theorem copyopt_fields (m : mntopt_t) :
    (vfs_copyopt m).mo_name = m.mo_name ∧ (vfs_copyopt m).mo_flags = m.mo_flags ∧
      (vfs_copyopt m).mo_arg = m.mo_arg ∧ (vfs_copyopt m).mo_data = m.mo_data ∧
      cancel_list (vfs_copyopt m).mo_cancel = cancel_list m.mo_cancel :=
  ⟨rfl, rfl, rfl, rfl, cancel_list_copycancelopt _ _⟩

theorem eq_of_same_name {T : mntopts_t} (hu : unique_names T) {a b : mntopt_t}
    (ha : a ∈ T) (hb : b ∈ T) (hae : a.mo_flags.empty = false)
    (hbe : b.mo_flags.empty = false) (hn : a.mo_name = b.mo_name) : a = b := by
  unfold unique_names opt_names at hu
  exact List.inj_on_of_nodup_map hu (List.mem_filter.mpr ⟨ha, by simp [hae]⟩)
    (List.mem_filter.mpr ⟨hb, by simp [hbe]⟩) hn

/-- C1: for tables `outer` and `inner` with unique names among their slots that are not
`MO_EMPTY`, the first `|outer|` slots of `vfs_mergeopttbl(outer, inner)` keep the names
of `outer` at the same indices; such a slot carries the flags and the argument of the
`inner` entry of the same name when there is one (both not `MO_EMPTY`) and those of
`outer` otherwise; the slots after them are the copies (`vfs_copyopt`: same name, flags,
argument, data and cancel names) of exactly the entries of `inner` that are not
`MO_EMPTY` and whose name does not occur in `outer`, in the order of `inner`. -/
theorem vfs_mergeopttbl_slots (outer inner : mntopts_t)
    (ho : unique_names outer) (hi : unique_names inner) :
    (∀ (i : Nat) (o : mntopt_t), outer[i]? = some o →
      ∃ s : mntopt_t, (vfs_mergeopttbl outer inner)[i]? = some s ∧ s.mo_name = o.mo_name ∧
        (∀ m ∈ inner, o.mo_flags.empty = false → m.mo_flags.empty = false →
          m.mo_name = o.mo_name → s.mo_flags = m.mo_flags ∧ s.mo_arg = m.mo_arg) ∧
        ((o.mo_flags.empty = true ∨ name_in inner o.mo_name = false) →
          s.mo_flags = o.mo_flags ∧ s.mo_arg = o.mo_arg))
    ∧ (vfs_mergeopttbl outer inner).drop outer.length =
        (inner.filter (fun m => !m.mo_flags.empty && !name_in outer m.mo_name)).map
          vfs_copyopt
    ∧ (∀ m, (vfs_copyopt m).mo_name = m.mo_name ∧ (vfs_copyopt m).mo_flags = m.mo_flags ∧
        (vfs_copyopt m).mo_arg = m.mo_arg ∧ (vfs_copyopt m).mo_data = m.mo_data ∧
        cancel_list (vfs_copyopt m).mo_cancel = cancel_list m.mo_cancel) := by
  refine ⟨?_, ?_, copyopt_fields⟩
  · intro i o hio
    have hs : (outer.map vfs_copyopt)[i]? = some (vfs_copyopt o) := by
      simp [List.getElem?_map, hio]
    obtain ⟨t, ht, hcase⟩ := mergeopttbl_fold_slot outer inner _ _ i hs
    refine ⟨t, ht, ?_, ?_, ?_⟩
    · rcases hcase with ⟨hts, _⟩ | ⟨m2, _, _, h2, hn2, _⟩
      · rw [hts]; rfl
      · obtain ⟨s2, hs2, _, hsn⟩ := hasopt_some h2
        rw [hio] at hs2
        cases hs2
        rw [hn2, hsn]
    · intro m hm hoe hme hmn
      have hlook : vfs_hasopt outer m.mo_name = some i := by
        rw [hmn]; exact hasopt_of_unique ho hio hoe
      rcases hcase with ⟨_, hno⟩ | ⟨m2, hm2, he2, h2, _, hf2, ha2, _⟩
      · exact absurd hlook (hno m hm hme)
      · obtain ⟨s2, hs2, _, hsn⟩ := hasopt_some h2
        rw [hio] at hs2
        cases hs2
        have : m2 = m := eq_of_same_name hi hm2 hm he2 hme (by rw [← hsn, hmn])
        subst this
        exact ⟨hf2, ha2⟩
    · intro hcond
      rcases hcase with ⟨hts, _⟩ | ⟨m2, hm2, he2, h2, _⟩
      · rw [hts]; exact ⟨rfl, rfl⟩
      · exfalso
        obtain ⟨s2, hs2, hse, hsn⟩ := hasopt_some h2
        rw [hio] at hs2
        cases hs2
        rcases hcond with hoe | hni
        · rw [hoe] at hse; cases hse
        · have : name_in inner o.mo_name = true :=
            name_in_iff.mpr (mem_opt_names.mpr ⟨m2, hm2, he2, hsn.symm⟩)
          rw [hni] at this; cases this
  · unfold vfs_mergeopttbl
    rw [mergeopttbl_fold_drop _ _ _ (by simp)]
    simp

/-- Witness of C1: `outer` holds "ro", a placeholder and "rw"; `inner` sets "rw" with an
argument and brings the new option "atime". -/
theorem vfs_mergeopttbl_slots_witness :
    (vfs_mergeopttbl
        [⟨some "ro".toList, some ["rw".toList], none, MoFlags.zero, 0⟩,
         ⟨none, none, none, MO_EMPTY, 0⟩,
         ⟨some "rw".toList, some ["ro".toList], none, MoFlags.zero, 0⟩]
        [⟨some "rw".toList, none, some "x".toList, MO_HASVALUE, 0⟩,
         ⟨some "atime".toList, some ["noatime".toList], none, MoFlags.zero, 0⟩]).drop 3 =
      [⟨some "atime".toList, some ["noatime".toList], none, MoFlags.zero, 0⟩] := by
  have h := (vfs_mergeopttbl_slots
    [⟨some "ro".toList, some ["rw".toList], none, MoFlags.zero, 0⟩,
     ⟨none, none, none, MO_EMPTY, 0⟩,
     ⟨some "rw".toList, some ["ro".toList], none, MoFlags.zero, 0⟩]
    [⟨some "rw".toList, none, some "x".toList, MO_HASVALUE, 0⟩,
     ⟨some "atime".toList, some ["noatime".toList], none, MoFlags.zero, 0⟩]
    (by decide) (by decide)).2.1
  rw [show (3 : Nat) = List.length
    [(⟨some "ro".toList, some ["rw".toList], none, MoFlags.zero, 0⟩ : mntopt_t),
     ⟨none, none, none, MO_EMPTY, 0⟩,
     ⟨some "rw".toList, some ["ro".toList], none, MoFlags.zero, 0⟩] from rfl, h]
  decide

/-- C2 (evaluation of the code): `outer` declares "nosuid" with the cancel list {"suid"},
`inner` declares the same option with the cancel list {"devices"}. The merged entry lists
"suid" only: `vfs_mergeopttbl` hands `vfs_mergecancelopts` the entry of `outer` and the
copy of that same entry, so the cancel list of `inner` never reaches the result. -/
theorem vfs_mergeopttbl_cancel_of_outer_only :
    (vfs_mergeopttbl
        [⟨some "nosuid".toList, some ["suid".toList], none, MoFlags.zero, 0⟩]
        [⟨some "nosuid".toList, some ["devices".toList], none, MoFlags.zero, 0⟩]).map
      (fun m => m.mo_cancel) = [some ["suid".toList]] := by
  decide

theorem length_eq_empty_add_names (T : mntopts_t) :
    T.length = empty_slots T + (opt_names T).length := by
  unfold empty_slots opt_names
  induction T with
  | nil => rfl
  | cons m T ih =>
    simp only [List.length_map] at ih ⊢
    cases h : m.mo_flags.empty <;> simp [List.filter_cons, h] <;> omega

theorem dedup_append_length (l1 l2 : List (Option CStr))
    (h1 : l1.Nodup) (h2 : l2.Nodup) :
    (l1 ++ l2).dedup.length = l1.length + (l2.filter (fun x => decide (x ∉ l1))).length := by
  have hnd : (l1 ++ l2.filter (fun x => decide (x ∉ l1))).Nodup := by
    refine List.Nodup.append h1 (h2.filter _) ?_
    intro x hx1 hx2
    have := (List.mem_filter.mp hx2).2
    simp at this
    exact this hx1
  have hp : (l1 ++ l2).dedup.Perm (l1 ++ l2.filter (fun x => decide (x ∉ l1))) := by
    rw [List.perm_ext_iff_of_nodup (List.nodup_dedup _) hnd]
    intro a
    rw [List.mem_dedup, List.mem_append, List.mem_append, List.mem_filter]
    by_cases ha : a ∈ l1 <;> simp [ha]
  rw [hp.length_eq, List.length_append]

theorem name_in_eq_decide (T : mntopts_t) (n : Option CStr) :
    name_in T n = decide (n ∈ opt_names T) := by
  rw [Bool.eq_iff_iff]
  simp [name_in_iff]

theorem filter_names_length (B : mntopts_t) (S : List (Option CStr)) :
    ((opt_names B).filter (fun x => decide (x ∉ S))).length =
      (B.filter (fun m => !m.mo_flags.empty && decide (m.mo_name ∉ S))).length := by
  unfold opt_names
  rw [List.filter_map, List.length_map, List.filter_filter]
  congr 1
  apply List.filter_congr
  intro m _
  simp [Bool.and_comm]

theorem new_entries_length (A B : mntopts_t) :
    (B.filter (fun m => !m.mo_flags.empty && !name_in A m.mo_name)).length =
      ((opt_names B).filter (fun x => decide (x ∉ opt_names A))).length := by
  rw [filter_names_length]
  congr 1
  apply List.filter_congr
  intro m _
  rw [name_in_eq_decide]
  simp

/-- C3 (as stated, refuted): with a table `A` that consists of one `MO_EMPTY` placeholder
and an empty table `B`, `count` is 1 although no option name occurs in `A` or `B`. -/
theorem vfs_mergeopttbl_count_ne_names :
    vfs_mergeopttbl_count [⟨none, none, none, MO_EMPTY, 0⟩] [] = 1 ∧
      (opt_names [⟨none, none, none, MO_EMPTY, 0⟩] ++ opt_names []).dedup.length = 0 := by
  decide

/-- C3 (amended): for all tables `A` and `B` the slot count of `vfs_mergeopttbl(A, B)`
(the value `count`, which is also the number of slots filled) lies between `|A|` and
`|A| + |B|`, so the `ASSERT` on `count` holds; when `A` and `B` have unique names among
their slots that are not `MO_EMPTY`, it is the number of `MO_EMPTY` slots of `A` plus the
number of distinct names in the slots of `A` or `B` that are not `MO_EMPTY`. -/
theorem vfs_mergeopttbl_count_spec (A B : mntopts_t) :
    (vfs_mergeopttbl A B).length = vfs_mergeopttbl_count A B ∧
      A.length ≤ vfs_mergeopttbl_count A B ∧
      vfs_mergeopttbl_count A B ≤ A.length + B.length ∧
      (unique_names A → unique_names B →
        vfs_mergeopttbl_count A B =
          empty_slots A + (opt_names A ++ opt_names B).dedup.length) := by
  refine ⟨mergeopttbl_length A B, ?_, ?_, ?_⟩
  · rw [mergeopttbl_count_eq]; omega
  · rw [mergeopttbl_count_eq]
    have := List.length_filter_le (fun m => !m.mo_flags.empty && !name_in A m.mo_name) B
    omega
  · intro hA hB
    rw [mergeopttbl_count_eq, dedup_append_length _ _ hA hB, new_entries_length,
      length_eq_empty_add_names A]
    omega

/-- Witness of C3 (amended): "ro", a placeholder and "rw", merged with "rw" and "atime". -/
theorem vfs_mergeopttbl_count_spec_witness :
    vfs_mergeopttbl_count
        [⟨some "ro".toList, some ["rw".toList], none, MoFlags.zero, 0⟩,
         ⟨none, none, none, MO_EMPTY, 0⟩,
         ⟨some "rw".toList, some ["ro".toList], none, MoFlags.zero, 0⟩]
        [⟨some "rw".toList, none, some "x".toList, MO_HASVALUE, 0⟩,
         ⟨some "atime".toList, some ["noatime".toList], none, MoFlags.zero, 0⟩] = 1 + 3 := by
  have h := (vfs_mergeopttbl_count_spec
    [⟨some "ro".toList, some ["rw".toList], none, MoFlags.zero, 0⟩,
     ⟨none, none, none, MO_EMPTY, 0⟩,
     ⟨some "rw".toList, some ["ro".toList], none, MoFlags.zero, 0⟩]
    [⟨some "rw".toList, none, some "x".toList, MO_HASVALUE, 0⟩,
     ⟨some "atime".toList, some ["noatime".toList], none, MoFlags.zero, 0⟩]).2.2.2
    (by decide) (by decide)
  rw [h]
  decide

/-! ## Clearing an option -/

theorem clearmntopt_get (T : mntopts_t) (c : CStr) (k : Nat) :
    (vfs_clearmntopt_nolock T c)[k]? =
      (T[k]?).map (fun s => if vfs_hasopt T (some c) = some k then clear_slot s else s) := by
  induction T generalizing k with
  | nil => simp [vfs_clearmntopt_nolock]
  | cons m T ih =>
    unfold vfs_clearmntopt_nolock vfs_hasopt
    by_cases he : m.mo_flags.empty = true
    · cases k with
      | zero => simp [he]
      | succ k => simp [he, ih]
    · by_cases hn : m.mo_name = some c
      · cases k with
        | zero => simp [he, hn]
        | succ k => simp [he, hn]
      · cases k with
        | zero => simp [he, hn]
        | succ k => simp [he, hn, ih]

theorem clearmntopt_length (T : mntopts_t) (c : CStr) :
    (vfs_clearmntopt_nolock T c).length = T.length := by
  induction T with
  | nil => rfl
  | cons m T ih =>
    unfold vfs_clearmntopt_nolock
    split
    · simp [ih]
    · split <;> simp [ih]

theorem hasopt_clearmntopt (T : mntopts_t) (c : CStr) (n : Option CStr) :
    vfs_hasopt (vfs_clearmntopt_nolock T c) n = vfs_hasopt T n := by
  induction T with
  | nil => rfl
  | cons m T ih =>
    unfold vfs_clearmntopt_nolock
    by_cases he : m.mo_flags.empty = true
    · simp only [he, if_true]
      unfold vfs_hasopt
      simp [he, ih]
    · by_cases hn : m.mo_name = some c
      · simp only [he, hn, Bool.false_eq_true, if_false, ne_eq, not_true_eq_false]
        unfold vfs_hasopt
        simp [clear_slot]
      · simp only [he, hn, Bool.false_eq_true, if_false, ne_eq, not_false_eq_true, if_true]
        unfold vfs_hasopt
        simp [he, ih]

theorem clear_slot_idem (s : mntopt_t) : clear_slot (clear_slot s) = clear_slot s := rfl

theorem clearmntopt_fold_get (cancel : List CStr) (T : mntopts_t) (k : Nat) :
    (cancel.foldl vfs_clearmntopt_nolock T)[k]? =
      (T[k]?).map (fun s =>
        if cancel.any (fun c => decide (vfs_hasopt T (some c) = some k)) = true
        then clear_slot s else s) := by
  induction cancel generalizing T with
  | nil => simp
  | cons c cancel ih =>
    rw [List.foldl_cons, ih, clearmntopt_get]
    simp only [hasopt_clearmntopt, List.any_cons, Option.map_map]
    cases hT : T[k]? with
    | none => rfl
    | some s =>
      simp only [Option.map_some', Function.comp_apply, Bool.or_eq_true, decide_eq_true_eq]
      by_cases h1 : vfs_hasopt T (some c) = some k
      · by_cases h2 : cancel.any (fun c => decide (vfs_hasopt T (some c) = some k)) = true
        · simp [h1, h2, clear_slot_idem]
        · simp [h1, h2]
      · simp [h1]

theorem clearmntopt_fold_length (cancel : List CStr) (T : mntopts_t) :
    (cancel.foldl vfs_clearmntopt_nolock T).length = T.length := by
  induction cancel generalizing T with
  | nil => rfl
  | cons c cancel ih => rw [List.foldl_cons, ih, clearmntopt_length]

/-! ## Setting an option -/

theorem set_same {T : mntopts_t} {i : Nat} {a : mntopt_t} (ha : T[i]? = some a) :
    T.set i a = T := by
  apply List.ext_getElem?
  intro k
  by_cases hk : i = k
  · subst hk
    rw [List.getElem?_set_self (List.getElem?_eq_some_iff.mp ha).1, ha]
  · rw [List.getElem?_set_ne hk]

theorem setmntopt_slot_nocreate (T : mntopts_t) (opt : CStr) :
    vfs_setmntopt_slot T opt false = vfs_hasopt T (some opt) := by
  induction T with
  | nil => rfl
  | cons m T ih =>
    unfold vfs_setmntopt_slot vfs_hasopt
    by_cases he : m.mo_flags.empty = true
    · simp [he, ih]
    · by_cases hn : m.mo_name = some opt
      · simp [he, hn]
      · simp [he, hn, ih]

/-- The table after the option found at slot `i` has been stored and its cancel list
has been cleared. -/
theorem setmntopt_found (T : mntopts_t) (opt : CStr) (arg : Option CStr) (flags : SetFlags)
    (i : Nat) (a : mntopt_t) (hf : vfs_hasopt T (some opt) = some i) (ha : T[i]? = some a) :
    vfs_setmntopt_nolock T opt arg flags =
      if (a.mo_flags.ignore && flags.noforceopt) = true then T
      else (cancel_list a.mo_cancel).foldl vfs_clearmntopt_nolock
        (T.set i (store_slot a arg { flags with createopt := false })) := by
  obtain ⟨s, hs, hse, hsn⟩ := hasopt_some hf
  rw [ha] at hs
  cases hs
  have hi : i < T.length := hasopt_lt hf
  have hfl : (if (flags.createopt && (vfs_hasopt T (some opt)).isSome) = true then
      { flags with createopt := false } else flags) = { flags with createopt := false } := by
    cases flags with
    | mk nf d nd c => cases c <;> simp [hf]
  have hget : T.getD i default = a := by simp [ha]
  have hst : ∀ fl : SetFlags, (store_slot a arg fl).mo_cancel = a.mo_cancel := by
    intro fl
    unfold store_slot
    cases fl.display <;> cases fl.nodisplay <;> rfl
  simp only [vfs_setmntopt_nolock, hfl]
  simp only [setmntopt_slot_nocreate, hf, hget, hse, Bool.false_eq_true, if_false, hst]
  by_cases hb : (a.mo_flags.ignore && flags.noforceopt) = true
  · simp only [hb, if_true]
    exact set_same ha
  · simp only [hb, if_false]
    cases a.mo_cancel <;> rfl

theorem hasopt_set {T : mntopts_t} {i : Nat} {a b : mntopt_t} (n : Option CStr)
    (ha : T[i]? = some a) (he : b.mo_flags.empty = a.mo_flags.empty)
    (hn : b.mo_name = a.mo_name) : vfs_hasopt (T.set i b) n = vfs_hasopt T n := by
  induction T generalizing i with
  | nil => simp at ha
  | cons m T ih =>
    cases i with
    | zero =>
      simp only [List.getElem?_cons_zero, Option.some.injEq] at ha
      subst ha
      simp only [List.set_cons_zero]
      unfold vfs_hasopt
      rw [he, hn]
    | succ i =>
      simp only [List.getElem?_cons_succ] at ha
      simp only [List.set_cons_succ]
      unfold vfs_hasopt
      rw [ih ha]

theorem store_slot_fields (a : mntopt_t) (arg : Option CStr) (fl : SetFlags) :
    (store_slot a arg fl).mo_name = a.mo_name ∧
      (store_slot a arg fl).mo_cancel = a.mo_cancel ∧
      (store_slot a arg fl).mo_data = a.mo_data ∧
      (store_slot a arg fl).mo_flags.empty = a.mo_flags.empty ∧
      (store_slot a arg fl).mo_flags.set = true ∧
      (store_slot a arg fl).mo_flags.hasvalue = a.mo_flags.hasvalue ∧
      (store_slot a arg fl).mo_flags.ignore = a.mo_flags.ignore ∧
      (store_slot a arg fl).mo_arg =
        (if (arg.isSome && a.mo_flags.hasvalue) = true then arg else none) := by
  unfold store_slot
  cases fl.display <;> cases fl.nodisplay <;> simp

/-- Slot `k` of the table after `vfs_setmntopt_nolock` has found the option at slot `i`
and the request is not blocked. -/
theorem setmntopt_found_get (T : mntopts_t) (opt : CStr) (arg : Option CStr)
    (flags : SetFlags) (i : Nat) (a : mntopt_t)
    (hf : vfs_hasopt T (some opt) = some i) (ha : T[i]? = some a)
    (hb : (a.mo_flags.ignore && flags.noforceopt) = false) (k : Nat) :
    (vfs_setmntopt_nolock T opt arg flags)[k]? =
      ((T.set i (store_slot a arg { flags with createopt := false }))[k]?).map (fun s =>
        if (cancel_list a.mo_cancel).any
            (fun c => decide (vfs_hasopt T (some c) = some k)) = true
        then clear_slot s else s) := by
  rw [setmntopt_found T opt arg flags i a hf ha, hb]
  simp only [Bool.false_eq_true, if_false]
  rw [clearmntopt_fold_get]
  have hfields := store_slot_fields a arg { flags with createopt := false }
  have hh : ∀ c : CStr,
      vfs_hasopt (T.set i (store_slot a arg { flags with createopt := false })) (some c) =
        vfs_hasopt T (some c) :=
    fun c => hasopt_set (some c) ha hfields.2.2.2.1 hfields.1
  simp only [hh]

/-- C5: in a table with unique names, let `opt` be present (slot `i`, entry `a`), not
blocked (not `MO_IGNORE` together with `VFS_NOFORCEOPT`) and not listed in its own cancel
list. After `vfs_setmntopt_nolock` the table has the same length, slot `i` still carries
the name and is `MO_SET`; every option named in the cancel list of `a` is not `MO_SET` and
has no argument (its name unchanged); every other slot is exactly as before, so that
setting an option never clears an option outside its cancel list. -/
theorem vfs_setmntopt_nolock_cancels (T : mntopts_t) (opt : CStr) (arg : Option CStr)
    (flags : SetFlags) (i : Nat) (a : mntopt_t)
    (hu : unique_names T)
    (hf : vfs_hasopt T (some opt) = some i) (ha : T[i]? = some a)
    (hb : (a.mo_flags.ignore && flags.noforceopt) = false)
    (hself : opt ∉ cancel_list a.mo_cancel) :
    (vfs_setmntopt_nolock T opt arg flags).length = T.length
    ∧ (∃ s : mntopt_t, (vfs_setmntopt_nolock T opt arg flags)[i]? = some s ∧
        s.mo_name = some opt ∧ s.mo_flags.empty = false ∧ s.mo_flags.set = true)
    ∧ (∀ (k : Nat) (b : mntopt_t) (c : CStr), T[k]? = some b → b.mo_flags.empty = false →
        b.mo_name = some c → c ∈ cancel_list a.mo_cancel →
        ∃ s : mntopt_t, (vfs_setmntopt_nolock T opt arg flags)[k]? = some s ∧
          s.mo_name = some c ∧ s.mo_flags.set = false ∧ s.mo_arg = none)
    ∧ (∀ (k : Nat) (b : mntopt_t), T[k]? = some b → k ≠ i →
        (b.mo_flags.empty = true ∨ ∀ c ∈ cancel_list a.mo_cancel, b.mo_name ≠ some c) →
        (vfs_setmntopt_nolock T opt arg flags)[k]? = some b) := by
  obtain ⟨a2, ha2, hae, han⟩ := hasopt_some hf
  rw [ha] at ha2
  cases ha2
  have hi : i < T.length := hasopt_lt hf
  have hfields := store_slot_fields a arg { flags with createopt := false }
  refine ⟨?_, ?_, ?_, ?_⟩
  · rw [setmntopt_found T opt arg flags i a hf ha, hb]
    simp [clearmntopt_fold_length]
  · refine ⟨store_slot a arg { flags with createopt := false }, ?_, ?_, ?_, ?_⟩
    · rw [setmntopt_found_get T opt arg flags i a hf ha hb, List.getElem?_set_self hi]
      have hno : (cancel_list a.mo_cancel).any
          (fun c => decide (vfs_hasopt T (some c) = some i)) = false := by
        rw [List.any_eq_false]
        intro c hc hdec
        have hci : vfs_hasopt T (some c) = some i := by simpa using hdec
        obtain ⟨s, hs, _, hsn⟩ := hasopt_some hci
        rw [ha] at hs
        cases hs
        rw [han] at hsn
        cases hsn
        exact hself hc
      simp [hno]
    · rw [hfields.1, han]
    · rw [hfields.2.2.2.1, hae]
    · exact hfields.2.2.2.2.1
  · intro k b c hk hbe hbn hc
    have hck : vfs_hasopt T (some c) = some k := by
      rw [← hbn]; exact hasopt_of_unique hu hk hbe
    have hki : i ≠ k := by
      intro hik
      subst hik
      rw [ha] at hk
      cases hk
      rw [han] at hbn
      cases hbn
      exact hself hc
    refine ⟨clear_slot b, ?_, hbn, rfl, rfl⟩
    rw [setmntopt_found_get T opt arg flags i a hf ha hb, List.getElem?_set_ne hki, hk]
    have hany : (cancel_list a.mo_cancel).any
        (fun c => decide (vfs_hasopt T (some c) = some k)) = true := by
      rw [List.any_eq_true]
      exact ⟨c, hc, by simpa using hck⟩
    simp [hany]
  · intro k b hk hki hcond
    rw [setmntopt_found_get T opt arg flags i a hf ha hb, List.getElem?_set_ne (Ne.symm hki), hk]
    have hno : (cancel_list a.mo_cancel).any
        (fun c => decide (vfs_hasopt T (some c) = some k)) = false := by
      rw [List.any_eq_false]
      intro c hc hdec
      have hck : vfs_hasopt T (some c) = some k := by simpa using hdec
      obtain ⟨s, hs, hse, hsn⟩ := hasopt_some hck
      rw [hk] at hs
      cases hs
      rcases hcond with hbe | hbn
      · rw [hbe] at hse; cases hse
      · exact hbn c hc hsn
    simp [hno]

/-- Witness of C5: "ro" is `MO_SET`; setting "rw", or parsing the string "rw", leaves
"rw" `MO_SET` and "ro" not `MO_SET`. -/
theorem vfs_setmntopt_nolock_cancels_witness :
    (∃ s : mntopt_t,
      (vfs_setmntopt_nolock
        [⟨some "ro".toList, some ["rw".toList], none, { MoFlags.zero with set := true }, 0⟩,
         ⟨some "rw".toList, some ["ro".toList], none, MoFlags.zero, 0⟩]
        "rw".toList none ⟨true, false, false, false⟩)[1]? = some s ∧
      s.mo_name = some "rw".toList ∧ s.mo_flags.empty = false ∧ s.mo_flags.set = true)
    ∧ (∃ s : mntopt_t,
      (vfs_setmntopt_nolock
        [⟨some "ro".toList, some ["rw".toList], none, { MoFlags.zero with set := true }, 0⟩,
         ⟨some "rw".toList, some ["ro".toList], none, MoFlags.zero, 0⟩]
        "rw".toList none ⟨true, false, false, false⟩)[0]? = some s ∧
      s.mo_name = some "ro".toList ∧ s.mo_flags.set = false ∧ s.mo_arg = none)
    ∧ (vfs_parsemntopts
        [⟨some "ro".toList, some ["rw".toList], none, { MoFlags.zero with set := true }, 0⟩,
         ⟨some "rw".toList, some ["ro".toList], none, MoFlags.zero, 0⟩]
        (some ("rw".toList ++ [NUL])) 0).1.map (fun m => (m.mo_name, m.mo_flags.set)) =
      [(some "ro".toList, false), (some "rw".toList, true)] := by
  have h := vfs_setmntopt_nolock_cancels
    [⟨some "ro".toList, some ["rw".toList], none, { MoFlags.zero with set := true }, 0⟩,
     ⟨some "rw".toList, some ["ro".toList], none, MoFlags.zero, 0⟩]
    "rw".toList none ⟨true, false, false, false⟩ 1
    ⟨some "rw".toList, some ["ro".toList], none, MoFlags.zero, 0⟩
    (by decide) (by decide) (by decide) (by decide) (by decide)
  refine ⟨h.2.1, ?_, by decide⟩
  exact h.2.2.1 0
    ⟨some "ro".toList, some ["rw".toList], none, { MoFlags.zero with set := true }, 0⟩
    "ro".toList (by decide) (by decide) (by decide) (by decide)

/-- C6: when the option that `vfs_setmntopt_nolock` finds under the name carries
`MO_IGNORE` and the call carries `VFS_NOFORCEOPT`, the table is returned as it was:
nothing is set, no argument or flag is touched and no cancel peer is cleared (the
function has no error result). -/
theorem vfs_setmntopt_nolock_ignore (T : mntopts_t) (opt : CStr) (arg : Option CStr)
    (flags : SetFlags) (i : Nat) (a : mntopt_t)
    (hf : vfs_hasopt T (some opt) = some i) (ha : T[i]? = some a)
    (hig : a.mo_flags.ignore = true) (hnf : flags.noforceopt = true) :
    vfs_setmntopt_nolock T opt arg flags = T := by
  rw [setmntopt_found T opt arg flags i a hf ha]
  simp [hig, hnf]

/-- Witness of C6: "quota" carries `MO_IGNORE` and is asked for with `VFS_NOFORCEOPT`. -/
theorem vfs_setmntopt_nolock_ignore_witness :
    vfs_setmntopt_nolock
        [⟨some "ro".toList, some ["rw".toList], none, { MoFlags.zero with set := true }, 0⟩,
         ⟨some "quota".toList, some ["ro".toList], none,
           { MoFlags.zero with ignore := true }, 0⟩]
        "quota".toList (some "1".toList) ⟨true, false, false, true⟩ =
      [⟨some "ro".toList, some ["rw".toList], none, { MoFlags.zero with set := true }, 0⟩,
       ⟨some "quota".toList, some ["ro".toList], none,
         { MoFlags.zero with ignore := true }, 0⟩] :=
  vfs_setmntopt_nolock_ignore _ "quota".toList (some "1".toList) ⟨true, false, false, true⟩ 1
    ⟨some "quota".toList, some ["ro".toList], none, { MoFlags.zero with ignore := true }, 0⟩
    (by decide) (by decide) (by decide) (by decide)

/-! ## Creating an option -/

theorem setmntopt_slot_create (T : mntopts_t) (opt : CStr) (k : Nat) (e : mntopt_t)
    (hn : vfs_hasopt T (some opt) = none) (hk : T[k]? = some e)
    (he : e.mo_flags.empty = true)
    (hlow : ∀ s ∈ T.take k, s.mo_flags.empty = false) :
    vfs_setmntopt_slot T opt true = some k := by
  induction T generalizing k with
  | nil => simp at hk
  | cons m T ih =>
    cases k with
    | zero =>
      simp only [List.getElem?_cons_zero, Option.some.injEq] at hk
      subst hk
      simp [vfs_setmntopt_slot, he]
    | succ k =>
      have hm : m.mo_flags.empty = false := hlow m (by simp)
      unfold vfs_hasopt at hn
      simp only [hm, Bool.false_eq_true, if_false] at hn
      by_cases hname : m.mo_name = some opt
      · simp [hname] at hn
      · simp only [hname, if_false, Option.map_eq_none'] at hn
        have := ih k hn (by simpa using hk)
          (fun s hs => hlow s (by simp [hs]))
        simp [vfs_setmntopt_slot, hm, hname, this]

/-- The table after `vfs_setmntopt_nolock` has claimed the `MO_EMPTY` slot `k`. -/
theorem setmntopt_created (T : mntopts_t) (opt : CStr) (arg : Option CStr) (flags : SetFlags)
    (k : Nat) (e : mntopt_t)
    (hn : vfs_hasopt T (some opt) = none) (hc : flags.createopt = true)
    (hk : T[k]? = some e) (he : e.mo_flags.empty = true)
    (hlow : ∀ s ∈ T.take k, s.mo_flags.empty = false) :
    vfs_setmntopt_nolock T opt arg flags =
      (cancel_list e.mo_cancel).foldl vfs_clearmntopt_nolock
        (T.set k (store_slot (create_slot e opt arg) arg flags)) := by
  have hfl : (if (flags.createopt && (vfs_hasopt T (some opt)).isSome) = true then
      { flags with createopt := false } else flags) = flags := by
    simp [hn]
  have hget : T.getD k default = e := by simp [hk]
  have hig : (create_slot e opt arg).mo_flags.ignore = false := by
    unfold create_slot
    cases arg <;> rfl
  have hcan : (store_slot (create_slot e opt arg) arg flags).mo_cancel = e.mo_cancel :=
    (store_slot_fields _ arg flags).2.1
  simp only [vfs_setmntopt_nolock, hfl]
  simp only [hc, setmntopt_slot_create T opt k e hn hk he hlow, hget, he, if_true, hig,
    Bool.false_and, Bool.false_eq_true, if_false, hcan]
  cases e.mo_cancel <;> rfl

theorem store_create_slot (e : mntopt_t) (opt : CStr) (arg : Option CStr) (flags : SetFlags) :
    store_slot (create_slot e opt arg) arg flags =
      { e with mo_name := some opt
               mo_arg := arg
               mo_flags := ⟨true, flags.nodisplay, arg.isSome, false, false, 0⟩ } := by
  unfold store_slot create_slot
  cases arg <;> cases flags.display <;> cases flags.nodisplay <;> rfl

/-- C7 (as stated, refuted): the name "foo" is absent and slot 1 is the only `MO_EMPTY`
slot, but that slot carries the cancel list {"ro"}; creating "foo" clears "ro" in slot 0,
so a slot other than the claimed one changes. -/
theorem vfs_setmntopt_nolock_create_clears_peer :
    vfs_hasopt
        [⟨some "ro".toList, some ["rw".toList], none, { MoFlags.zero with set := true }, 0⟩,
         ⟨none, some ["ro".toList], none, MO_EMPTY, 0⟩] (some "foo".toList) = none
    ∧ (vfs_setmntopt_nolock
        [⟨some "ro".toList, some ["rw".toList], none, { MoFlags.zero with set := true }, 0⟩,
         ⟨none, some ["ro".toList], none, MO_EMPTY, 0⟩]
        "foo".toList none ⟨false, false, false, true⟩)[0]? =
      some ⟨some "ro".toList, some ["rw".toList], none, MoFlags.zero, 0⟩
    ∧ (vfs_setmntopt_nolock
        [⟨some "ro".toList, some ["rw".toList], none, { MoFlags.zero with set := true }, 0⟩,
         ⟨none, some ["ro".toList], none, MO_EMPTY, 0⟩]
        "foo".toList none ⟨false, false, false, true⟩)[0]? ≠
      [(⟨some "ro".toList, some ["rw".toList], none, { MoFlags.zero with set := true }, 0⟩ :
          mntopt_t),
        ⟨none, some ["ro".toList], none, MO_EMPTY, 0⟩][0]? := by
  decide

/-- C7 (amended): let the name be absent from the slots that are not `MO_EMPTY`, and let
the lowest `MO_EMPTY` slot `k` carry no cancel list (as every placeholder allocated by
`vfs_copyopttbl_extend`). Then `vfs_setmntopt_nolock` with `VFS_CREATEOPT` changes slot
`k` only: it gets the name, is `MO_SET`, not `MO_EMPTY`, has `MO_HASVALUE` exactly when a
value was supplied (which is then its argument), `MO_NODISPLAY` as requested.
If the name is present, every `MO_EMPTY` slot stays as it was; without `VFS_CREATEOPT`
an unknown name leaves the table unchanged. -/
theorem vfs_setmntopt_nolock_create (T : mntopts_t) (opt : CStr) (arg : Option CStr)
    (flags : SetFlags) :
    (∀ (k : Nat) (e : mntopt_t), vfs_hasopt T (some opt) = none → flags.createopt = true →
      T[k]? = some e → e.mo_flags.empty = true →
      (∀ s ∈ T.take k, s.mo_flags.empty = false) → e.mo_cancel = none →
      vfs_setmntopt_nolock T opt arg flags =
        T.set k { e with mo_name := some opt
                         mo_arg := arg
                         mo_flags := ⟨true, flags.nodisplay, arg.isSome, false, false, 0⟩ })
    ∧ (vfs_hasopt T (some opt) ≠ none →
      ∀ (k : Nat) (e : mntopt_t), T[k]? = some e → e.mo_flags.empty = true →
        (vfs_setmntopt_nolock T opt arg flags)[k]? = some e)
    ∧ (vfs_hasopt T (some opt) = none → flags.createopt = false →
      vfs_setmntopt_nolock T opt arg flags = T) := by
  refine ⟨?_, ?_, ?_⟩
  · intro k e hn hc hk he hlow hcn
    rw [setmntopt_created T opt arg flags k e hn hc hk he hlow, store_create_slot]
    simp only [hcn]
    rfl
  · intro hp k e hk he
    cases hf : vfs_hasopt T (some opt) with
    | none => exact absurd hf hp
    | some i =>
      obtain ⟨a, ha, hae, _⟩ := hasopt_some hf
      have hik : i ≠ k := by
        intro h
        subst h
        rw [hk] at ha
        cases ha
        rw [he] at hae
        cases hae
      cases hb : (a.mo_flags.ignore && flags.noforceopt) with
      | true => rw [setmntopt_found T opt arg flags i a hf ha, hb]; simpa using hk
      | false =>
        rw [setmntopt_found_get T opt arg flags i a hf ha hb, List.getElem?_set_ne hik, hk]
        have hno : (cancel_list a.mo_cancel).any
            (fun c => decide (vfs_hasopt T (some c) = some k)) = false := by
          rw [List.any_eq_false]
          intro c _ hdec
          have hck : vfs_hasopt T (some c) = some k := by simpa using hdec
          obtain ⟨s, hs, hse, _⟩ := hasopt_some hck
          rw [hk] at hs
          cases hs
          rw [he] at hse
          cases hse
        simp [hno]
  · intro hn hc
    unfold vfs_setmntopt_nolock
    simp [hc, setmntopt_slot_nocreate, hn]

/-- Witness of C7 (amended): "foo=1" is created in the first of two placeholders. -/
theorem vfs_setmntopt_nolock_create_witness :
    vfs_setmntopt_nolock
        [⟨some "ro".toList, some ["rw".toList], none, { MoFlags.zero with set := true }, 0⟩,
         ⟨none, none, none, MO_EMPTY, 0⟩, ⟨none, none, none, MO_EMPTY, 0⟩]
        "foo".toList (some "1".toList) ⟨true, false, false, true⟩ =
      [⟨some "ro".toList, some ["rw".toList], none, { MoFlags.zero with set := true }, 0⟩,
       ⟨some "foo".toList, none, some "1".toList, ⟨true, false, true, false, false, 0⟩, 0⟩,
       ⟨none, none, none, MO_EMPTY, 0⟩] :=
  (vfs_setmntopt_nolock_create
    [⟨some "ro".toList, some ["rw".toList], none, { MoFlags.zero with set := true }, 0⟩,
     ⟨none, none, none, MO_EMPTY, 0⟩, ⟨none, none, none, MO_EMPTY, 0⟩]
    "foo".toList (some "1".toList) ⟨true, false, false, true⟩).1 1
    ⟨none, none, none, MO_EMPTY, 0⟩ (by decide) (by decide) (by decide) (by decide)
    (by decide) (by decide)

/-- C8 (as stated, refuted): the option "x" declares `MO_HASVALUE`, is matched and not
blocked, and a value is supplied; but "x" lists itself in its cancel list, so the call
ends with no argument stored (and the option not `MO_SET`). -/
theorem vfs_setmntopt_nolock_arg_self_cancel :
    vfs_hasopt [⟨some "x".toList, some ["x".toList], none, MO_HASVALUE, 0⟩]
        (some "x".toList) = some 0
    ∧ vfs_setmntopt_nolock [⟨some "x".toList, some ["x".toList], none, MO_HASVALUE, 0⟩]
        "x".toList (some "1".toList) ⟨false, false, false, false⟩ =
      [⟨some "x".toList, some ["x".toList], none, MO_HASVALUE, 0⟩] := by
  decide

/-- C8 (amended): after `vfs_setmntopt_nolock` on a matched option that is not blocked and
does not list itself in its cancel list, the argument of the option is the supplied value
if a value was supplied and the option declares `MO_HASVALUE`, and the option has no
argument otherwise (a stored argument is dropped). This holds for an option found under
its name (slot `i`) and for an option created in the `MO_EMPTY` slot `k`, which declares
`MO_HASVALUE` exactly when a value was supplied. -/
theorem vfs_setmntopt_nolock_arg (T : mntopts_t) (opt : CStr) (arg : Option CStr)
    (flags : SetFlags) :
    (∀ (i : Nat) (a : mntopt_t), vfs_hasopt T (some opt) = some i → T[i]? = some a →
      (a.mo_flags.ignore && flags.noforceopt) = false → opt ∉ cancel_list a.mo_cancel →
      ∃ s : mntopt_t, (vfs_setmntopt_nolock T opt arg flags)[i]? = some s ∧
        s.mo_flags.hasvalue = a.mo_flags.hasvalue ∧
        s.mo_arg = (if (arg.isSome && a.mo_flags.hasvalue) = true then arg else none))
    ∧ (∀ (k : Nat) (e : mntopt_t), vfs_hasopt T (some opt) = none → flags.createopt = true →
      T[k]? = some e → e.mo_flags.empty = true →
      (∀ s ∈ T.take k, s.mo_flags.empty = false) → opt ∉ cancel_list e.mo_cancel →
      ∃ s : mntopt_t, (vfs_setmntopt_nolock T opt arg flags)[k]? = some s ∧
        s.mo_flags.hasvalue = arg.isSome ∧ s.mo_arg = arg) := by
  refine ⟨?_, ?_⟩
  · intro i a hf ha hb hself
    obtain ⟨a2, ha2, _, han⟩ := hasopt_some hf
    rw [ha] at ha2
    cases ha2
    have hfields := store_slot_fields a arg { flags with createopt := false }
    refine ⟨store_slot a arg { flags with createopt := false }, ?_,
      hfields.2.2.2.2.2.1, hfields.2.2.2.2.2.2.2⟩
    rw [setmntopt_found_get T opt arg flags i a hf ha hb,
      List.getElem?_set_self (hasopt_lt hf)]
    have hno : (cancel_list a.mo_cancel).any
        (fun c => decide (vfs_hasopt T (some c) = some i)) = false := by
      rw [List.any_eq_false]
      intro c hc hdec
      have hci : vfs_hasopt T (some c) = some i := by simpa using hdec
      obtain ⟨s, hs, _, hsn⟩ := hasopt_some hci
      rw [ha] at hs
      cases hs
      rw [han] at hsn
      cases hsn
      exact hself hc
    simp [hno]
  · intro k e hn hc hk he hlow hself
    have hkl : k < T.length := (List.getElem?_eq_some_iff.mp hk).1
    refine ⟨store_slot (create_slot e opt arg) arg flags, ?_, ?_, ?_⟩
    · rw [setmntopt_created T opt arg flags k e hn hc hk he hlow, clearmntopt_fold_get,
        List.getElem?_set_self hkl]
      have hno : (cancel_list e.mo_cancel).any (fun c => decide (vfs_hasopt
          (T.set k (store_slot (create_slot e opt arg) arg flags)) (some c) = some k)) =
          false := by
        rw [List.any_eq_false]
        intro c hc hdec
        have hck := of_decide_eq_true (by simpa using hdec)
        obtain ⟨s, hs, _, hsn⟩ := hasopt_some hck
        rw [List.getElem?_set_self hkl] at hs
        cases hs
        rw [store_create_slot] at hsn
        cases hsn
        exact hself hc
      simp [hno]
    · rw [store_create_slot]
    · rw [store_create_slot]

/-- Witness of C8 (amended): "x" holds the argument "old" and is set to "1". -/
theorem vfs_setmntopt_nolock_arg_witness :
    ∃ s : mntopt_t,
      (vfs_setmntopt_nolock
        [⟨some "x".toList, some ["y".toList], some "old".toList, MO_HASVALUE, 0⟩]
        "x".toList (some "1".toList) ⟨true, false, false, false⟩)[0]? = some s ∧
      s.mo_flags.hasvalue = true ∧ s.mo_arg = some "1".toList :=
  (vfs_setmntopt_nolock_arg
    [⟨some "x".toList, some ["y".toList], some "old".toList, MO_HASVALUE, 0⟩]
    "x".toList (some "1".toList) ⟨true, false, false, false⟩).1 0
    ⟨some "x".toList, some ["y".toList], some "old".toList, MO_HASVALUE, 0⟩
    (by decide) (by decide) (by decide) (by decide)

/-! ## Strings in a buffer -/

theorem split_first (c : Char) (l : List Char) :
    c ∉ l ∨ ∃ a b, l = a ++ c :: b ∧ c ∉ a := by
  induction l with
  | nil => exact Or.inl (by simp)
  | cons x l ih =>
    by_cases hx : x = c
    · exact Or.inr ⟨[], l, by simp [hx], by simp⟩
    · rcases ih with h | ⟨a, b, hl, ha⟩
      · left
        simp only [List.mem_cons, not_or]
        exact ⟨fun h' => hx h'.symm, h⟩
      · right
        refine ⟨x :: a, b, by simp [hl], ?_⟩
        simp only [List.mem_cons, not_or]
        exact ⟨fun h' => hx h'.symm, ha⟩

theorem strchr_from_hit (t r : List Char) (c : Char) (hc : c ∉ t) (hn : NUL ∉ t) :
    strchr_from (t ++ c :: r) c = some t.length := by
  induction t with
  | nil => simp [strchr_from]
  | cons x t ih =>
    simp only [List.mem_cons, not_or] at hc hn
    have hxc : ¬ x = c := fun h => hc.1 h.symm
    have hxn : ¬ x = NUL := fun h => hn.1 h.symm
    simp [strchr_from, hxc, hxn, ih hc.2 hn.2]

theorem strchr_from_miss (t r : List Char) (c : Char) (hc : c ∉ t) (hn : NUL ∉ t)
    (hcn : c ≠ NUL) : strchr_from (t ++ NUL :: r) c = none := by
  induction t with
  | nil => simp [strchr_from, hcn.symm]
  | cons x t ih =>
    simp only [List.mem_cons, not_or] at hc hn
    have hxc : ¬ x = c := fun h => hc.1 h.symm
    have hxn : ¬ x = NUL := fun h => hn.1 h.symm
    simp [strchr_from, hxc, hxn, ih hc.2 hn.2]

theorem strlen_from_eq (t r : List Char) (hn : NUL ∉ t) :
    strlen_from (t ++ NUL :: r) = t.length := by
  induction t with
  | nil => simp [strlen_from]
  | cons x t ih =>
    simp only [List.mem_cons, not_or] at hn
    have hxn : ¬ x = NUL := fun h => hn.1 h.symm
    simp [strlen_from, hxn, ih hn.2]

theorem takeWhile_nul (t r : List Char) (hn : NUL ∉ t) :
    (t ++ NUL :: r).takeWhile (fun x => x ≠ NUL) = t := by
  have hp : ∀ a ∈ t, (fun x => decide (x ≠ NUL)) a = true := by
    intro a ha
    simp only [ne_eq, decide_eq_true_eq]
    exact fun he => hn (he ▸ ha)
  rw [List.takeWhile_append_of_pos hp]
  simp

theorem strchr_hit (buf pre t r : List Char) (c : Char) (s : Nat)
    (hb : buf = pre ++ (t ++ c :: r)) (hs : s = pre.length) (hc : c ∉ t) (hn : NUL ∉ t) :
    strchr buf s c = some (t.length + s) := by
  subst hb hs
  simp [strchr, strchr_from_hit t r c hc hn]

theorem strchr_miss (buf pre t r : List Char) (c : Char) (s : Nat)
    (hb : buf = pre ++ (t ++ NUL :: r)) (hs : s = pre.length) (hc : c ∉ t) (hn : NUL ∉ t)
    (hcn : c ≠ NUL) : strchr buf s c = none := by
  subst hb hs
  simp [strchr, strchr_from_miss t r c hc hn hcn]

theorem strlen_eq (buf pre t r : List Char) (s : Nat)
    (hb : buf = pre ++ (t ++ NUL :: r)) (hs : s = pre.length) (hn : NUL ∉ t) :
    strlen buf s = t.length := by
  subst hb hs
  simp [strlen, strlen_from_eq t r hn]

theorem cstr_at_eq (buf pre t r : List Char) (s : Nat)
    (hb : buf = pre ++ (t ++ NUL :: r)) (hs : s = pre.length) (hn : NUL ∉ t) :
    cstr_at buf s = t := by
  subst hb hs
  simp only [cstr_at, List.drop_left]
  exact takeWhile_nul t r hn

theorem set_eq (buf pre r : List Char) (a b : Char) (n : Nat)
    (hb : buf = pre ++ a :: r) (hn : n = pre.length) : buf.set n b = pre ++ b :: r := by
  subst hb hn
  simp

theorem getD_eq (buf pre r : List Char) (a : Char) (n : Nat)
    (hb : buf = pre ++ a :: r) (hn : n = pre.length) : buf.getD n NUL = a := by
  subst hb hn
  rw [List.getD_eq_getElem?_getD, List.getElem?_append_right (Nat.le_refl _)]
  simp

/-! ## Tokens -/

theorem token_name_noeq (t : List Char) (h : '=' ∉ t) : token_name t = t := by
  unfold token_name
  rw [List.takeWhile_eq_self_iff]
  intro x hx
  simp only [ne_eq, decide_eq_true_eq]
  exact fun he => h (he ▸ hx)

theorem token_value_noeq (t : List Char) (h : '=' ∉ t) : token_value t = none := by
  simp [token_value, h]

theorem token_name_eq (nm val : List Char) (h : '=' ∉ nm) :
    token_name (nm ++ '=' :: val) = nm := by
  unfold token_name
  have hp : ∀ a ∈ nm, (fun x => decide (x ≠ '=')) a = true := by
    intro a ha
    simp only [ne_eq, decide_eq_true_eq]
    exact fun he => h (he ▸ ha)
  rw [List.takeWhile_append_of_pos hp]
  simp

theorem token_value_eq (nm val : List Char) (h : '=' ∉ nm) :
    token_value (nm ++ '=' :: val) = some val := by
  unfold token_value
  have hp : ∀ a ∈ nm, (fun x => decide (x ≠ '=')) a = true := by
    intro a ha
    simp only [ne_eq, decide_eq_true_eq]
    exact fun he => h (he ▸ ha)
  have hd : (nm ++ '=' :: val).dropWhile (fun x => decide (x ≠ '=')) = '=' :: val := by
    rw [List.dropWhile_append_of_pos hp]
    simp
  rw [if_pos (by simp), hd]
  rfl

theorem split_comma_ne_nil (l : List Char) : split_comma l ≠ [] := by
  cases l with
  | nil => simp [split_comma]
  | cons c rest =>
    unfold split_comma
    split
    · simp
    · split <;> simp

theorem split_comma_single (t : List Char) (h : ',' ∉ t) : split_comma t = [t] := by
  induction t with
  | nil => rfl
  | cons x t ih =>
    simp only [List.mem_cons, not_or] at h
    have hx : ¬ x = ',' := fun he => h.1 he.symm
    simp [split_comma, hx, ih h.2]

theorem split_comma_cons (t rest : List Char) (h : ',' ∉ t) :
    split_comma (t ++ ',' :: rest) = t :: split_comma rest := by
  induction t with
  | nil => simp [split_comma]
  | cons x t ih =>
    simp only [List.mem_cons, not_or] at h
    have hx : ¬ x = ',' := fun he => h.1 he.symm
    simp [split_comma, hx, ih h.2]

theorem opt_tokens_nil : opt_tokens [] = [] := by
  simp [opt_tokens, split_comma]

theorem opt_tokens_single (t : List Char) (h : ',' ∉ t) (hne : t ≠ []) :
    opt_tokens t = [t] := by
  simp [opt_tokens, split_comma_single t h, hne]

theorem opt_tokens_cons (t rest : List Char) (h : ',' ∉ t) :
    opt_tokens (t ++ ',' :: rest) = t :: opt_tokens rest := by
  unfold opt_tokens
  rw [split_comma_cons t rest h]
  cases hs : split_comma rest with
  | nil => exact absurd hs (split_comma_ne_nil rest)
  | cons a l =>
    rw [List.getLast?_cons_cons]
    split <;> simp

/-! ## One round of the parser -/

theorem parsemntopts_round_comma_noeq (mops : mntopts_t) (pre t r : List Char)
    (setflg : SetFlags) (create : Int)
    (hc : ',' ∉ t) (hn : NUL ∉ t) (he : '=' ∉ t) :
    vfs_parsemntopts_round mops (pre ++ (t ++ ',' :: r)) pre.length setflg create =
      (vfs_setmntopt_nolock mops (token_name t) (token_value t)
          (if create ≠ 0 then { setflg with createopt := true } else setflg),
        pre ++ (t ++ ',' :: r), t.length + pre.length + 1,
        if create ≠ 0 then { setflg with createopt := true } else setflg) := by
  have h1 : strchr (pre ++ (t ++ ',' :: r)) pre.length ',' = some (t.length + pre.length) :=
    strchr_hit _ pre t r ',' _ rfl rfl hc hn
  have hb1 : (pre ++ (t ++ ',' :: r)).set (t.length + pre.length) NUL =
      pre ++ (t ++ NUL :: r) := by
    rw [set_eq _ (pre ++ t) r ',' NUL _ (by simp) (by simp; omega)]
    simp
  have h2 : strchr (pre ++ (t ++ NUL :: r)) pre.length '=' = none :=
    strchr_miss _ pre t r '=' _ rfl rfl he hn (by decide)
  have hname : cstr_at (pre ++ (t ++ NUL :: r)) pre.length = t :=
    cstr_at_eq _ pre t r _ rfl rfl hn
  have hb2 : (pre ++ (t ++ NUL :: r)).set (t.length + pre.length) ',' =
      pre ++ (t ++ ',' :: r) := by
    rw [set_eq _ (pre ++ t) r NUL ',' _ (by simp) (by simp; omega)]
    simp
  unfold vfs_parsemntopts_round
  simp only [h1, hb1, h2, hname, hb2, token_name_noeq t he, token_value_noeq t he,
    Option.map_none', Option.isSome_none, Bool.false_eq_true, if_false]

theorem parsemntopts_round_comma_eq (mops : mntopts_t) (pre nm val r : List Char)
    (setflg : SetFlags) (create : Int)
    (hc : ',' ∉ nm ++ '=' :: val) (hn : NUL ∉ nm ++ '=' :: val) (he : '=' ∉ nm) :
    vfs_parsemntopts_round mops (pre ++ ((nm ++ '=' :: val) ++ ',' :: r)) pre.length
        setflg create =
      (vfs_setmntopt_nolock mops (token_name (nm ++ '=' :: val))
          (token_value (nm ++ '=' :: val))
          (if create ≠ 0 then { setflg with createopt := true } else setflg),
        pre ++ ((nm ++ '=' :: val) ++ ',' :: r), (nm ++ '=' :: val).length + pre.length + 1,
        if create ≠ 0 then { setflg with createopt := true } else setflg) := by
  have hnn : NUL ∉ nm := fun h => hn (List.mem_append_left _ h)
  have hnv : NUL ∉ val := fun h => hn (List.mem_append_right _ (List.mem_cons_of_mem _ h))
  have h1 : strchr (pre ++ ((nm ++ '=' :: val) ++ ',' :: r)) pre.length ',' =
      some ((nm ++ '=' :: val).length + pre.length) :=
    strchr_hit _ pre (nm ++ '=' :: val) r ',' _ rfl rfl hc hn
  have hb1 : (pre ++ ((nm ++ '=' :: val) ++ ',' :: r)).set
      ((nm ++ '=' :: val).length + pre.length) NUL =
      pre ++ (nm ++ '=' :: (val ++ NUL :: r)) := by
    rw [set_eq _ (pre ++ (nm ++ '=' :: val)) r ',' NUL _ (by simp) (by simp; omega)]
    simp
  have h2 : strchr (pre ++ (nm ++ '=' :: (val ++ NUL :: r))) pre.length '=' =
      some (nm.length + pre.length) :=
    strchr_hit _ pre nm (val ++ NUL :: r) '=' _ rfl rfl he hnn
  have hb2 : (pre ++ (nm ++ '=' :: (val ++ NUL :: r))).set (nm.length + pre.length) NUL =
      pre ++ (nm ++ NUL :: (val ++ NUL :: r)) := by
    rw [set_eq _ (pre ++ nm) (val ++ NUL :: r) '=' NUL _ (by simp) (by simp; omega)]
    simp
  have hname : cstr_at (pre ++ (nm ++ NUL :: (val ++ NUL :: r))) pre.length = nm :=
    cstr_at_eq _ pre nm (val ++ NUL :: r) _ rfl rfl hnn
  have hval : cstr_at (pre ++ (nm ++ NUL :: (val ++ NUL :: r)))
      (nm.length + pre.length + 1) = val :=
    cstr_at_eq _ (pre ++ (nm ++ [NUL])) val r _ (by simp) (by simp; omega) hnv
  have hb3 : (pre ++ (nm ++ NUL :: (val ++ NUL :: r))).set
      ((nm ++ '=' :: val).length + pre.length) ',' =
      pre ++ (nm ++ NUL :: (val ++ ',' :: r)) := by
    rw [set_eq _ (pre ++ (nm ++ NUL :: val)) r NUL ',' _ (by simp) (by simp; omega)]
    simp
  have hb4 : (pre ++ (nm ++ NUL :: (val ++ ',' :: r))).set (nm.length + pre.length) '=' =
      pre ++ ((nm ++ '=' :: val) ++ ',' :: r) := by
    rw [set_eq _ (pre ++ nm) (val ++ ',' :: r) NUL '=' _ (by simp) (by simp; omega)]
    simp
  unfold vfs_parsemntopts_round
  simp only [h1, hb1, h2, hb2, hname, hval, hb3, hb4, token_name_eq nm val he,
    token_value_eq nm val he, Option.map_some', Option.isSome_some, if_true]

theorem parsemntopts_round_end_noeq (mops : mntopts_t) (pre t r : List Char)
    (setflg : SetFlags) (create : Int)
    (hc : ',' ∉ t) (hn : NUL ∉ t) (he : '=' ∉ t) :
    vfs_parsemntopts_round mops (pre ++ (t ++ NUL :: r)) pre.length setflg create =
      (vfs_setmntopt_nolock mops (token_name t) (token_value t)
          (if create ≠ 0 then { setflg with createopt := true } else setflg),
        pre ++ (t ++ NUL :: r), pre.length + t.length,
        if create ≠ 0 then { setflg with createopt := true } else setflg) := by
  have h1 : strchr (pre ++ (t ++ NUL :: r)) pre.length ',' = none :=
    strchr_miss _ pre t r ',' _ rfl rfl hc hn (by decide)
  have hlen : strlen (pre ++ (t ++ NUL :: r)) pre.length = t.length :=
    strlen_eq _ pre t r _ rfl rfl hn
  have h2 : strchr (pre ++ (t ++ NUL :: r)) pre.length '=' = none :=
    strchr_miss _ pre t r '=' _ rfl rfl he hn (by decide)
  have hname : cstr_at (pre ++ (t ++ NUL :: r)) pre.length = t :=
    cstr_at_eq _ pre t r _ rfl rfl hn
  unfold vfs_parsemntopts_round
  simp only [h1, hlen, h2, hname, token_name_noeq t he, token_value_noeq t he,
    Option.map_none', Option.isSome_none, Bool.false_eq_true, if_false]

theorem parsemntopts_round_end_eq (mops : mntopts_t) (pre nm val r : List Char)
    (setflg : SetFlags) (create : Int)
    (hc : ',' ∉ nm ++ '=' :: val) (hn : NUL ∉ nm ++ '=' :: val) (he : '=' ∉ nm) :
    vfs_parsemntopts_round mops (pre ++ ((nm ++ '=' :: val) ++ NUL :: r)) pre.length
        setflg create =
      (vfs_setmntopt_nolock mops (token_name (nm ++ '=' :: val))
          (token_value (nm ++ '=' :: val))
          (if create ≠ 0 then { setflg with createopt := true } else setflg),
        pre ++ ((nm ++ '=' :: val) ++ NUL :: r), pre.length + (nm ++ '=' :: val).length,
        if create ≠ 0 then { setflg with createopt := true } else setflg) := by
  have hnn : NUL ∉ nm := fun h => hn (List.mem_append_left _ h)
  have hnv : NUL ∉ val := fun h => hn (List.mem_append_right _ (List.mem_cons_of_mem _ h))
  have h1 : strchr (pre ++ ((nm ++ '=' :: val) ++ NUL :: r)) pre.length ',' = none :=
    strchr_miss _ pre (nm ++ '=' :: val) r ',' _ rfl rfl hc hn (by decide)
  have hlen : strlen (pre ++ ((nm ++ '=' :: val) ++ NUL :: r)) pre.length =
      (nm ++ '=' :: val).length :=
    strlen_eq _ pre (nm ++ '=' :: val) r _ rfl rfl hn
  have h2 : strchr (pre ++ ((nm ++ '=' :: val) ++ NUL :: r)) pre.length '=' =
      some (nm.length + pre.length) :=
    strchr_hit _ pre nm (val ++ NUL :: r) '=' _ (by simp) rfl he hnn
  have hb2 : (pre ++ ((nm ++ '=' :: val) ++ NUL :: r)).set (nm.length + pre.length) NUL =
      pre ++ (nm ++ NUL :: (val ++ NUL :: r)) := by
    rw [set_eq _ (pre ++ nm) (val ++ NUL :: r) '=' NUL _ (by simp) (by simp; omega)]
    simp
  have hname : cstr_at (pre ++ (nm ++ NUL :: (val ++ NUL :: r))) pre.length = nm :=
    cstr_at_eq _ pre nm (val ++ NUL :: r) _ rfl rfl hnn
  have hval : cstr_at (pre ++ (nm ++ NUL :: (val ++ NUL :: r)))
      (nm.length + pre.length + 1) = val :=
    cstr_at_eq _ (pre ++ (nm ++ [NUL])) val r _ (by simp) (by simp; omega) hnv
  have hb4 : (pre ++ (nm ++ NUL :: (val ++ NUL :: r))).set (nm.length + pre.length) '=' =
      pre ++ ((nm ++ '=' :: val) ++ NUL :: r) := by
    rw [set_eq _ (pre ++ nm) (val ++ NUL :: r) NUL '=' _ (by simp) (by simp; omega)]
    simp
  unfold vfs_parsemntopts_round
  simp only [h1, hlen, h2, hb2, hname, hval, hb4, token_name_eq nm val he,
    token_value_eq nm val he, Option.map_some', Option.isSome_some, if_true]

theorem parsemntopts_round_comma (mops : mntopts_t) (pre t r : List Char)
    (setflg : SetFlags) (create : Int) (hc : ',' ∉ t) (hn : NUL ∉ t) :
    vfs_parsemntopts_round mops (pre ++ (t ++ ',' :: r)) pre.length setflg create =
      (vfs_setmntopt_nolock mops (token_name t) (token_value t)
          (if create ≠ 0 then { setflg with createopt := true } else setflg),
        pre ++ (t ++ ',' :: r), t.length + pre.length + 1,
        if create ≠ 0 then { setflg with createopt := true } else setflg) := by
  rcases split_first '=' t with he | ⟨nm, val, rfl, he⟩
  · exact parsemntopts_round_comma_noeq mops pre t r setflg create hc hn he
  · exact parsemntopts_round_comma_eq mops pre nm val r setflg create hc hn he

theorem parsemntopts_round_end (mops : mntopts_t) (pre t r : List Char)
    (setflg : SetFlags) (create : Int) (hc : ',' ∉ t) (hn : NUL ∉ t) :
    vfs_parsemntopts_round mops (pre ++ (t ++ NUL :: r)) pre.length setflg create =
      (vfs_setmntopt_nolock mops (token_name t) (token_value t)
          (if create ≠ 0 then { setflg with createopt := true } else setflg),
        pre ++ (t ++ NUL :: r), pre.length + t.length,
        if create ≠ 0 then { setflg with createopt := true } else setflg) := by
  rcases split_first '=' t with he | ⟨nm, val, rfl, he⟩
  · exact parsemntopts_round_end_noeq mops pre t r setflg create hc hn he
  · exact parsemntopts_round_end_eq mops pre nm val r setflg create hc hn he

/-! ## The parser loop -/

theorem getD_ne_nul (pre str tail : List Char) (hn : NUL ∉ str) (hne : str ≠ []) :
    (pre ++ (str ++ NUL :: tail)).getD pre.length NUL ≠ NUL := by
  cases str with
  | nil => exact absurd rfl hne
  | cons x xs =>
    rw [getD_eq _ pre (xs ++ NUL :: tail) x _ (by simp) rfl]
    intro hx
    exact hn (by simp [hx])

theorem parsemntopts_loop_spec (fuel : Nat) (mops : mntopts_t) (pre str tail : List Char)
    (setflg : SetFlags) (create : Int) (hn : NUL ∉ str) (hf : str.length + 1 ≤ fuel)
    (hflg : (if create ≠ 0 then { setflg with createopt := true } else setflg) =
      ⟨true, false, false, decide (create ≠ 0)⟩) :
    vfs_parsemntopts_loop fuel mops (pre ++ (str ++ NUL :: tail)) pre.length setflg create =
      ((opt_tokens str).foldl
        (fun T tok => vfs_setmntopt_nolock T (token_name tok) (token_value tok)
          ⟨true, false, false, decide (create ≠ 0)⟩) mops,
        pre ++ (str ++ NUL :: tail)) := by
  have hF : (if create ≠ 0 then
      { (⟨true, false, false, decide (create ≠ 0)⟩ : SetFlags) with createopt := true }
      else ⟨true, false, false, decide (create ≠ 0)⟩) =
      (⟨true, false, false, decide (create ≠ 0)⟩ : SetFlags) := by
    by_cases h : create = 0 <;> simp [h]
  induction fuel generalizing mops pre str setflg with
  | zero => omega
  | succ fuel ih =>
    unfold vfs_parsemntopts_loop
    by_cases hne : str = []
    · subst hne
      have : (pre ++ ([] ++ NUL :: tail)).getD pre.length NUL = NUL :=
        getD_eq _ pre tail NUL _ (by simp) rfl
      simp only [this, if_true, opt_tokens_nil, List.foldl_nil]
    · rw [if_neg (getD_ne_nul pre str tail hn hne)]
      rcases split_first ',' str with hc | ⟨t, rest, rfl, hc⟩
      · have hlen : 1 ≤ str.length := by
          cases str with
          | nil => exact absurd rfl hne
          | cons x xs => simp
        simp only [parsemntopts_round_end mops pre str tail setflg create hc hn, hflg]
        have := ih (vfs_setmntopt_nolock mops (token_name str) (token_value str)
            ⟨true, false, false, decide (create ≠ 0)⟩) (pre ++ str) [] _
            (by simp) (by simp; omega) hF
        simp only [List.length_append, List.append_assoc, List.nil_append,
          opt_tokens_nil, List.foldl_nil] at this
        rw [this, opt_tokens_single str hc hne]
        rfl
      · have hnt : NUL ∉ t := fun h => hn (List.mem_append_left _ h)
        have hnr : NUL ∉ rest :=
          fun h => hn (List.mem_append_right _ (List.mem_cons_of_mem _ h))
        simp only [List.append_assoc, List.cons_append,
          parsemntopts_round_comma mops pre t (rest ++ NUL :: tail) setflg create hc hnt, hflg]
        have := ih (vfs_setmntopt_nolock mops (token_name t) (token_value t)
            ⟨true, false, false, decide (create ≠ 0)⟩) (pre ++ (t ++ [','])) rest _
            hnr (by simp at hf; omega) hF
        simp only [List.length_append, List.append_assoc, List.length_cons,
          List.length_nil, List.cons_append, List.nil_append] at this
        rw [show t.length + pre.length + 1 = pre.length + (t.length + (0 + 1)) by omega,
          this, opt_tokens_cons t rest hc]
        rfl

theorem parsemntopts_spec (mops : mntopts_t) (str tail : List Char) (create : Int)
    (hn : NUL ∉ str) :
    vfs_parsemntopts mops (some (str ++ NUL :: tail)) create =
      (parse_by_tokens mops str create, some (str ++ NUL :: tail)) := by
  have h := parsemntopts_loop_spec ((str ++ NUL :: tail).length + 1) mops [] str tail
    ⟨true, false, false, false⟩ create hn (by simp)
    (by by_cases h : create = 0 <;> simp [h])
  simp only [List.nil_append, List.length_nil] at h
  simp only [vfs_parsemntopts, h, parse_by_tokens]

/-- C9: for every table, every NUL-terminated option string `str` and every `create`, the
table left by `vfs_parsemntopts` is the one obtained by applying `vfs_setmntopt_nolock`
left to right to the comma-separated tokens of `str` (without an empty final token),
the name being the text of the token before its first `=`, the value the text after it
(none without `=`), with `VFS_NOFORCEOPT` always and `VFS_CREATEOPT` exactly when
`create` is not 0; a `NULL` or empty string leaves the table unchanged. -/
theorem vfs_parsemntopts_refines (mops : mntopts_t) (str tail : List Char) (create : Int)
    (hn : NUL ∉ str) :
    (vfs_parsemntopts mops (some (str ++ NUL :: tail)) create).1 =
        parse_by_tokens mops str create
      ∧ (vfs_parsemntopts mops none create).1 = mops
      ∧ (vfs_parsemntopts mops (some (NUL :: tail)) create).1 = mops := by
  refine ⟨?_, rfl, ?_⟩
  · rw [parsemntopts_spec mops str tail create hn]
  · have h := parsemntopts_spec mops [] tail create (by simp)
    simp only [List.nil_append] at h
    rw [h]
    simp [parse_by_tokens, opt_tokens_nil]

/-- Witness of C9: "rw,x=a=b,,foo=," parsed with `create` set on a table with "ro" set,
"rw", the valued option "x" and two placeholders. -/
theorem vfs_parsemntopts_refines_witness :
    (vfs_parsemntopts
        [⟨some "ro".toList, some ["rw".toList], none, { MoFlags.zero with set := true }, 0⟩,
         ⟨some "rw".toList, some ["ro".toList], none, MoFlags.zero, 0⟩,
         ⟨some "x".toList, none, none, MO_HASVALUE, 0⟩,
         ⟨none, none, none, MO_EMPTY, 0⟩, ⟨none, none, none, MO_EMPTY, 0⟩]
        (some ("rw,x=a=b,,foo=,".toList ++ NUL :: [])) 1).1 =
      [⟨some "ro".toList, some ["rw".toList], none, MoFlags.zero, 0⟩,
       ⟨some "rw".toList, some ["ro".toList], none, { MoFlags.zero with set := true }, 0⟩,
       ⟨some "x".toList, none, some "a=b".toList, { MO_HASVALUE with set := true }, 0⟩,
       ⟨some "".toList, none, none, { MoFlags.zero with set := true }, 0⟩,
       ⟨some "foo".toList, none, some "".toList, { MO_HASVALUE with set := true }, 0⟩] := by
  rw [(vfs_parsemntopts_refines _ "rw,x=a=b,,foo=,".toList [] 1 (by decide)).1]
  decide

/-- C10: for every NUL-terminated string in the caller's buffer (whatever follows the
terminator) and every table, the buffer after `vfs_parsemntopts` is identical to the
buffer before the call: every `,` and `=` that was overwritten by a terminator is
restored. -/
theorem vfs_parsemntopts_restores_buffer (mops : mntopts_t) (str tail : List Char)
    (create : Int) (hn : NUL ∉ str) :
    (vfs_parsemntopts mops (some (str ++ NUL :: tail)) create).2 =
      some (str ++ NUL :: tail) := by
  rw [parsemntopts_spec mops str tail create hn]

/-- Witness of C10: empty tokens, a token with several `=` and a string that ends after
an `=`. -/
theorem vfs_parsemntopts_restores_buffer_witness :
    (vfs_parsemntopts
        [⟨some "ro".toList, some ["rw".toList], none, MoFlags.zero, 0⟩,
         ⟨none, none, none, MO_EMPTY, 0⟩]
        (some (",,x=a=b,ro,y=".toList ++ NUL :: "rest".toList)) 1).2 =
      some (",,x=a=b,ro,y=".toList ++ NUL :: "rest".toList) :=
  vfs_parsemntopts_restores_buffer _ ",,x=a=b,ro,y=".toList "rest".toList 1 (by decide)

/-! ## Copying a table -/

theorem copyopttbl_extend_some (src dmo : mntopts_t) (extra : Nat) :
    vfs_copyopttbl_extend (some src) dmo extra =
      src.map vfs_copyopt ++ List.replicate extra empty_placeholder := by
  unfold vfs_copyopttbl_extend vfs_freeopttbl
  by_cases h : src.length + extra = 0
  · have h1 : src = [] := List.length_eq_zero.mp (by omega)
    have h2 : extra = 0 := by omega
    simp [h1, h2]
  · simp [h]

theorem copyopttbl_extend_none (dmo : mntopts_t) (extra : Nat) :
    vfs_copyopttbl_extend none dmo extra = List.replicate extra empty_placeholder := by
  unfold vfs_copyopttbl_extend vfs_freeopttbl
  by_cases h : extra = 0
  · simp [h]
  · simp [h]

/-- The function on values: for every source table and every `extra`,
`vfs_copyopttbl_extend` yields `|src| + extra` slots; the first `|src|` are the
`vfs_copyopt` copies of the slots of `src` in order (same name, flags, argument, data and
cancel names), the last `extra` are `MO_EMPTY` placeholders with nothing else in them; a
`NULL` source yields exactly `extra` placeholders; the result does not depend on what the
destination held before. -/
theorem vfs_copyopttbl_extend_spec (src dmo : mntopts_t) (extra : Nat) :
    (vfs_copyopttbl_extend (some src) dmo extra).length = src.length + extra
    ∧ (vfs_copyopttbl_extend (some src) dmo extra).take src.length = src.map vfs_copyopt
    ∧ (∀ m, (vfs_copyopt m).mo_name = m.mo_name ∧ (vfs_copyopt m).mo_flags = m.mo_flags ∧
        (vfs_copyopt m).mo_arg = m.mo_arg ∧ (vfs_copyopt m).mo_data = m.mo_data ∧
        cancel_list (vfs_copyopt m).mo_cancel = cancel_list m.mo_cancel)
    ∧ (vfs_copyopttbl_extend (some src) dmo extra).drop src.length =
        List.replicate extra ⟨none, none, none, MO_EMPTY, 0⟩
    ∧ vfs_copyopttbl_extend none dmo extra = List.replicate extra ⟨none, none, none, MO_EMPTY, 0⟩
    ∧ vfs_copyopttbl_extend (some src) dmo extra = vfs_copyopttbl_extend (some src) [] extra
    ∧ vfs_copyopttbl_extend none dmo extra = vfs_copyopttbl_extend none [] extra := by
  have hph : empty_placeholder = ⟨none, none, none, MO_EMPTY, 0⟩ := rfl
  refine ⟨?_, ?_, copyopt_fields, ?_, ?_, ?_, ?_⟩
  · rw [copyopttbl_extend_some]; simp
  · rw [copyopttbl_extend_some, List.take_left' (by simp)]
  · rw [copyopttbl_extend_some, List.drop_left' (by simp), hph]
  · rw [copyopttbl_extend_none, hph]
  · rw [copyopttbl_extend_some, copyopttbl_extend_some]
  · rw [copyopttbl_extend_none, copyopttbl_extend_none]

/-! ## Uniqueness of names is an invariant -/

theorem opt_names_append (X Y : mntopts_t) :
    opt_names (X ++ Y) = opt_names X ++ opt_names Y := by
  simp [opt_names]

theorem opt_names_clearmntopt (T : mntopts_t) (c : CStr) :
    opt_names (vfs_clearmntopt_nolock T c) = opt_names T := by
  induction T with
  | nil => rfl
  | cons m T ih =>
    unfold vfs_clearmntopt_nolock
    by_cases he : m.mo_flags.empty = true
    · simp only [he, if_true]
      rw [opt_names_cons, opt_names_cons, ih]
    · by_cases hn : m.mo_name = some c
      · simp only [he, hn, Bool.false_eq_true, if_false, ne_eq, not_true_eq_false]
        rw [opt_names_cons, opt_names_cons]
        simp [clear_slot]
      · simp only [he, hn, Bool.false_eq_true, if_false, ne_eq, not_false_eq_true, if_true]
        rw [opt_names_cons, opt_names_cons, ih]

theorem opt_names_clearmntopt_fold (cancel : List CStr) (T : mntopts_t) :
    opt_names (cancel.foldl vfs_clearmntopt_nolock T) = opt_names T := by
  induction cancel generalizing T with
  | nil => rfl
  | cons c cancel ih => rw [List.foldl_cons, ih, opt_names_clearmntopt]

theorem opt_names_set_same {T : mntopts_t} {i : Nat} {a b : mntopt_t}
    (ha : T[i]? = some a) (he : b.mo_flags.empty = a.mo_flags.empty)
    (hn : b.mo_name = a.mo_name) : opt_names (T.set i b) = opt_names T := by
  induction T generalizing i with
  | nil => simp at ha
  | cons m T ih =>
    cases i with
    | zero =>
      simp only [List.getElem?_cons_zero, Option.some.injEq] at ha
      subst ha
      simp only [List.set_cons_zero]
      rw [opt_names_cons, opt_names_cons, he, hn]
    | succ i =>
      simp only [List.getElem?_cons_succ] at ha
      simp only [List.set_cons_succ]
      rw [opt_names_cons, opt_names_cons, ih ha]

theorem opt_names_set_create {T : mntopts_t} {k : Nat} {e b : mntopt_t}
    (hk : T[k]? = some e) (he : e.mo_flags.empty = true) (hb : b.mo_flags.empty = false) :
    (opt_names (T.set k b)).Perm (b.mo_name :: opt_names T) := by
  induction T generalizing k with
  | nil => simp at hk
  | cons m T ih =>
    cases k with
    | zero =>
      simp only [List.getElem?_cons_zero, Option.some.injEq] at hk
      subst hk
      simp only [List.set_cons_zero]
      rw [opt_names_cons, opt_names_cons]
      simp [he, hb]
    | succ k =>
      simp only [List.getElem?_cons_succ] at hk
      simp only [List.set_cons_succ]
      rw [opt_names_cons, opt_names_cons]
      by_cases hm : m.mo_flags.empty = true
      · simp only [hm, if_true]
        exact ih hk
      · simp only [hm, Bool.false_eq_true, if_false]
        exact ((ih hk).cons m.mo_name).trans (List.Perm.swap _ _ _)

theorem setmntopt_slot_some {T : mntopts_t} {opt : CStr} {c : Bool} {i : Nat}
    (h : vfs_setmntopt_slot T opt c = some i) :
    ∃ s, T[i]? = some s ∧ (s.mo_flags.empty = true → c = true) ∧
      (s.mo_flags.empty = false → s.mo_name = some opt) := by
  induction T generalizing i with
  | nil => simp [vfs_setmntopt_slot] at h
  | cons m T ih =>
    unfold vfs_setmntopt_slot at h
    by_cases he : m.mo_flags.empty = true
    · cases c with
      | false =>
        simp only [he, if_true, Option.map_eq_some'] at h
        obtain ⟨k, hk, rfl⟩ := h
        simpa using ih hk
      | true =>
        simp only [he, if_true, Bool.true_eq_false, if_false, Option.some.injEq] at h
        subst h
        exact ⟨m, by simp, fun _ => rfl, fun hf => by rw [he] at hf; cases hf⟩
    · by_cases hn : m.mo_name = some opt
      · simp only [he, hn, Bool.false_eq_true, if_false, ne_eq, not_true_eq_false,
          Option.some.injEq] at h
        subst h
        exact ⟨m, by simp, fun hf => absurd hf he, fun _ => hn⟩
      · simp only [he, hn, Bool.false_eq_true, if_false, ne_eq, not_false_eq_true, if_true,
          Option.map_eq_some'] at h
        obtain ⟨k, hk, rfl⟩ := h
        simpa using ih hk

theorem unique_names_setmntopt (T : mntopts_t) (hT : unique_names T) (opt : CStr)
    (arg : Option CStr) (flags : SetFlags) :
    unique_names (vfs_setmntopt_nolock T opt arg flags) := by
  cases hf : vfs_hasopt T (some opt) with
  | some i =>
    obtain ⟨a, ha, _, _⟩ := hasopt_some hf
    unfold unique_names
    rw [setmntopt_found T opt arg flags i a hf ha]
    split
    · exact hT
    · have hfields := store_slot_fields a arg { flags with createopt := false }
      rw [opt_names_clearmntopt_fold, opt_names_set_same ha hfields.2.2.2.1 hfields.1]
      exact hT
  | none =>
    unfold vfs_setmntopt_nolock
    simp only [hf, Option.isSome_none, Bool.and_false, Bool.false_eq_true, if_false]
    cases hs : vfs_setmntopt_slot T opt flags.createopt with
    | none => exact hT
    | some k =>
      obtain ⟨e, hk, hec, hen⟩ := setmntopt_slot_some hs
      have hee : e.mo_flags.empty = true := by
        cases hx : e.mo_flags.empty with
        | true => rfl
        | false =>
          exfalso
          have hmem : some opt ∈ opt_names T :=
            mem_opt_names.mpr ⟨e, List.getElem?_mem hk, hx, hen hx⟩
          have := hasopt_eq_none.mp hf
          rw [← Bool.not_eq_true, name_in_iff] at this
          exact this hmem
      have hnot : some opt ∉ opt_names T := by
        have := hasopt_eq_none.mp hf
        rw [← Bool.not_eq_true, name_in_iff] at this
        exact this
      have hget : T.getD k default = e := by simp [hk]
      have hcr : (create_slot e opt arg).mo_flags.empty = false := by
        unfold create_slot; cases arg <;> rfl
      have hcn : (create_slot e opt arg).mo_name = some opt := rfl
      have hu1 : unique_names (T.set k (create_slot e opt arg)) := by
        unfold unique_names
        rw [(opt_names_set_create hk hee hcr).nodup_iff, hcn]
        exact List.nodup_cons.mpr ⟨hnot, hT⟩
      have hkl : k < T.length := (List.getElem?_eq_some_iff.mp hk).1
      have hset : (T.set k (create_slot e opt arg))[k]? = some (create_slot e opt arg) :=
        List.getElem?_set_self hkl
      simp only [hget, hee, if_true]
      split
      · exact hu1
      · have hfields := store_slot_fields (create_slot e opt arg) arg flags
        have hu2 : unique_names (T.set k (store_slot (create_slot e opt arg) arg flags)) := by
          have := opt_names_set_same (b := store_slot (create_slot e opt arg) arg flags)
            hset hfields.2.2.2.1 hfields.1
          rw [List.set_set] at this
          unfold unique_names
          rw [this]
          exact hu1
        split
        · exact hu2
        · unfold unique_names
          rw [opt_names_clearmntopt_fold]
          exact hu2

theorem unique_names_parsemntopts_loop (fuel : Nat) (mops : mntopts_t) (buf : List Char)
    (s : Nat) (setflg : SetFlags) (create : Int) (hT : unique_names mops) :
    unique_names (vfs_parsemntopts_loop fuel mops buf s setflg create).1 := by
  induction fuel generalizing mops buf s setflg with
  | zero => exact hT
  | succ fuel ih =>
    unfold vfs_parsemntopts_loop
    split
    · exact hT
    · exact ih _ _ _ _ (unique_names_setmntopt mops hT _ _ _)

theorem opt_names_map_copyopt (T : mntopts_t) : opt_names (T.map vfs_copyopt) = opt_names T := by
  induction T with
  | nil => rfl
  | cons m T ih =>
    rw [List.map_cons, opt_names_cons, opt_names_cons, ih]
    rfl

theorem opt_names_replicate_placeholder (n : Nat) :
    opt_names (List.replicate n empty_placeholder) = [] := by
  induction n with
  | zero => rfl
  | succ n ih =>
    rw [List.replicate_succ, opt_names_cons, ih]
    rfl

theorem opt_names_of_keys {T U : mntopts_t}
    (h : T.map (fun m => (m.mo_flags.empty, m.mo_name)) =
      U.map (fun m => (m.mo_flags.empty, m.mo_name))) : opt_names T = opt_names U := by
  induction T generalizing U with
  | nil =>
    cases U with
    | nil => rfl
    | cons u U => simp at h
  | cons m T ih =>
    cases U with
    | nil => simp at h
    | cons u U =>
      simp only [List.map_cons, List.cons.injEq, Prod.mk.injEq] at h
      rw [opt_names_cons, opt_names_cons, h.1.1, h.1.2, ih h.2]

theorem mergeopttbl_take_keys (A B : mntopts_t) :
    ((vfs_mergeopttbl A B).take A.length).map (fun m => (m.mo_flags.empty, m.mo_name)) =
      A.map (fun m => (m.mo_flags.empty, m.mo_name)) := by
  apply List.ext_getElem?
  intro i
  rw [List.getElem?_map, List.getElem?_map, List.getElem?_take]
  by_cases hi : i < A.length
  · rw [if_pos hi]
    have hio : A[i]? = some A[i] := List.getElem?_eq_getElem hi
    have hs : (A.map vfs_copyopt)[i]? = some (vfs_copyopt A[i]) := by
      simp [List.getElem?_map, hio]
    obtain ⟨t, ht, hcase⟩ := mergeopttbl_fold_slot A B _ _ i hs
    unfold vfs_mergeopttbl
    rw [ht, hio]
    rcases hcase with ⟨hts, _⟩ | ⟨m, _, hme, hm, hn, hf, _⟩
    · rw [hts]; rfl
    · obtain ⟨o, ho, hoe, hon⟩ := hasopt_some hm
      rw [hio] at ho
      cases ho
      simp only [Option.map_some', Option.some.injEq, Prod.mk.injEq]
      exact ⟨by rw [hf, hme, hoe], by rw [hn, hon]⟩
  · rw [if_neg hi, List.getElem?_eq_none (by omega)]

theorem opt_names_mergeopttbl (A B : mntopts_t) :
    opt_names (vfs_mergeopttbl A B) =
      opt_names A ++
        (B.filter (fun m => !m.mo_flags.empty && !name_in A m.mo_name)).map
          (fun m => m.mo_name) := by
  have hsplit := List.take_append_drop A.length (vfs_mergeopttbl A B)
  rw [← hsplit, opt_names_append, opt_names_of_keys (mergeopttbl_take_keys A B)]
  congr 1
  have hdrop : (vfs_mergeopttbl A B).drop A.length =
      (B.filter (fun m => !m.mo_flags.empty && !name_in A m.mo_name)).map vfs_copyopt := by
    unfold vfs_mergeopttbl
    rw [mergeopttbl_fold_drop _ _ _ (by simp)]
    simp
  rw [hdrop, opt_names_map_copyopt]
  unfold opt_names
  rw [List.filter_filter]
  congr 1
  apply List.filter_congr
  intro m _
  cases m.mo_flags.empty <;> simp

theorem unique_names_mergeopttbl (A B : mntopts_t) (hA : unique_names A)
    (hB : unique_names B) : unique_names (vfs_mergeopttbl A B) := by
  unfold unique_names
  rw [opt_names_mergeopttbl]
  refine List.Nodup.append hA ?_ ?_
  · unfold unique_names opt_names at hB
    refine List.Nodup.sublist ?_ hB
    apply List.Sublist.map
    have : B.filter (fun m => !m.mo_flags.empty && !name_in A m.mo_name) =
        (B.filter (fun m => !m.mo_flags.empty)).filter (fun m => !name_in A m.mo_name) := by
      rw [List.filter_filter]
      apply List.filter_congr
      intro m _
      rw [Bool.and_comm]
    rw [this]
    exact List.filter_sublist _
  · intro n hn1 hn2
    rw [List.mem_map] at hn2
    obtain ⟨m, hm, rfl⟩ := hn2
    have := (List.mem_filter.mp hm).2
    have hni : name_in A m.mo_name = false := by
      cases h : name_in A m.mo_name
      · rfl
      · simp [h] at this
    rw [← Bool.not_eq_true, name_in_iff] at hni
    exact hni hn1

/-- C16: uniqueness of names among the slots that are not `MO_EMPTY` is an invariant of
the option table. It is preserved by `vfs_setmntopt_nolock` with any name, value and
flags (`VFS_CREATEOPT` included), by `vfs_clearmntopt_nolock`, by `vfs_parsemntopts` on
any buffer in either mode, and by `vfs_copyopttbl_extend` (also from a `NULL` source);
`vfs_mergeopttbl` of two tables that satisfy it satisfies it. -/
theorem unique_names_invariant (T : mntopts_t) (hT : unique_names T) :
    (∀ (opt : CStr) (arg : Option CStr) (flags : SetFlags),
      unique_names (vfs_setmntopt_nolock T opt arg flags))
    ∧ (∀ opt : CStr, unique_names (vfs_clearmntopt_nolock T opt))
    ∧ (∀ (osp : Option (List Char)) (create : Int),
      unique_names (vfs_parsemntopts T osp create).1)
    ∧ (∀ (dmo : mntopts_t) (extra : Nat),
      unique_names (vfs_copyopttbl_extend (some T) dmo extra) ∧
      unique_names (vfs_copyopttbl_extend none dmo extra))
    ∧ (∀ B : mntopts_t, unique_names B → unique_names (vfs_mergeopttbl T B)) := by
  refine ⟨unique_names_setmntopt T hT, ?_, ?_, ?_, fun B hB => unique_names_mergeopttbl T B hT hB⟩
  · intro opt
    unfold unique_names
    rw [opt_names_clearmntopt]
    exact hT
  · intro osp create
    cases osp with
    | none => exact hT
    | some buf => exact unique_names_parsemntopts_loop _ T buf 0 _ create hT
  · intro dmo extra
    constructor
    · unfold unique_names
      rw [copyopttbl_extend_some, opt_names_append, opt_names_map_copyopt,
        opt_names_replicate_placeholder, List.append_nil]
      exact hT
    · unfold unique_names
      rw [copyopttbl_extend_none, opt_names_replicate_placeholder]
      exact List.nodup_nil

/-- Witness of C16: the table "ro", "rw", placeholder keeps its names unique when
"quota=1" is created in it. -/
theorem unique_names_invariant_witness :
    unique_names (vfs_setmntopt_nolock
      [⟨some "ro".toList, some ["rw".toList], none, MoFlags.zero, 0⟩,
       ⟨some "rw".toList, some ["ro".toList], none, MoFlags.zero, 0⟩,
       ⟨none, none, none, MO_EMPTY, 0⟩]
      "quota".toList (some "1".toList) ⟨true, false, false, true⟩) :=
  (unique_names_invariant
    [⟨some "ro".toList, some ["rw".toList], none, MoFlags.zero, 0⟩,
     ⟨some "rw".toList, some ["ro".toList], none, MoFlags.zero, 0⟩,
     ⟨none, none, none, MO_EMPTY, 0⟩] (by decide)).1
    "quota".toList (some "1".toList) ⟨true, false, false, true⟩

/-! ## Building the option string -/

theorem append_entries_length_le (buf : CStr) (es : List CStr) :
    buf.length ≤ (append_entries buf es).length := by
  induction es generalizing buf with
  | nil => exact Nat.le_refl _
  | cons e es ih =>
    unfold append_entries
    refine Nat.le_trans ?_ (ih _)
    by_cases hb : buf = []
    · simp [hb]
    · simp [hb]

theorem set_entries_cons (m : mntopt_t) (T : mntopts_t) :
    set_entries (m :: T) =
      if m.mo_flags.set = true then opt_entry m :: set_entries T else set_entries T := by
  unfold set_entries
  cases h : m.mo_flags.set <;> simp [List.filter_cons, h]

theorem buildoptionstr_loop_spec (T : mntopts_t) (buf : CStr) (len : Nat) :
    ((append_entries buf (set_entries T)).length + 1 ≤ len →
      vfs_buildoptionstr_loop T buf len = (none, append_entries buf (set_entries T)))
    ∧ (buf.length + 1 ≤ len → len < (append_entries buf (set_entries T)).length + 1 →
      (vfs_buildoptionstr_loop T buf len).1 = some Errno.EOVERFLOW) := by
  induction T generalizing buf with
  | nil =>
    simp only [vfs_buildoptionstr_loop, set_entries, append_entries, List.filter_nil,
      List.map_nil, implies_true, true_and]
    intro h1 h2
    omega
  | cons m T ih =>
    unfold vfs_buildoptionstr_loop
    rw [set_entries_cons]
    by_cases hs : m.mo_flags.set = true
    · simp only [hs, if_true]
      unfold append_entries
      have hbuf : (if (if buf ≠ [] then 1 else 0) = 1 then buf ++ [','] else buf) =
          (if buf = [] then buf else buf ++ [',']) := by
        by_cases hb : buf = [] <;> simp [hb]
      have hlen : (if buf = [] then buf else buf ++ [',']).length =
          buf.length + (if buf ≠ [] then 1 else 0) := by
        by_cases hb : buf = [] <;> simp [hb]
      rw [hbuf]
      cases harg : m.mo_arg with
      | none =>
        have hent : opt_entry m = name_chars m := by simp [opt_entry, harg]
        rw [hent]
        have hmono := append_entries_length_le
          ((if buf = [] then buf else buf ++ [',']) ++ name_chars m) (set_entries T)
        have hl : ((if buf = [] then buf else buf ++ [',']) ++ name_chars m).length =
            buf.length + (if buf ≠ [] then 1 else 0) + (name_chars m).length := by
          rw [List.length_append, hlen]
        constructor
        · intro hfit
          rw [if_neg (by omega)]
          exact (ih _).1 hfit
        · intro _ hover
          by_cases h1 : buf.length + (if buf ≠ [] then 1 else 0) + (name_chars m).length + 1 > len
          · rw [if_pos h1]
          · rw [if_neg h1]
            exact (ih _).2 (by omega) hover
      | some a =>
        have hent : opt_entry m = name_chars m ++ '=' :: a := by simp [opt_entry, harg]
        rw [hent]
        have hassoc : (if buf = [] then buf else buf ++ [',']) ++ (name_chars m ++ '=' :: a) =
            ((if buf = [] then buf else buf ++ [',']) ++ name_chars m) ++ '=' :: a := by
          simp
        rw [hassoc]
        have hmono := append_entries_length_le
          (((if buf = [] then buf else buf ++ [',']) ++ name_chars m) ++ '=' :: a)
          (set_entries T)
        have hl : ((if buf = [] then buf else buf ++ [',']) ++ name_chars m).length =
            buf.length + (if buf ≠ [] then 1 else 0) + (name_chars m).length := by
          rw [List.length_append, hlen]
        have hl2 : (((if buf = [] then buf else buf ++ [',']) ++ name_chars m) ++
            '=' :: a).length =
            buf.length + (if buf ≠ [] then 1 else 0) + (name_chars m).length + a.length + 1 := by
          rw [List.length_append, hl, List.length_cons]; omega
        constructor
        · intro hfit
          rw [if_neg (by omega)]
          simp only []
          rw [if_neg (by omega)]
          exact (ih _).1 hfit
        · intro _ hover
          by_cases h1 : buf.length + (if buf ≠ [] then 1 else 0) + (name_chars m).length + 1 > len
          · rw [if_pos h1]
          · rw [if_neg h1]
            simp only []
            by_cases h2 : ((if buf = [] then buf else buf ++ [',']) ++ name_chars m).length +
                a.length + 2 > len
            · rw [if_pos h2]
            · rw [if_neg h2]
              exact (ih _).2 (by omega) hover
    · simp only [hs, Bool.false_eq_true, if_false]
      exact ih buf

theorem append_entries_of_ne_nil (buf : CStr) (es : List CStr) (hb : buf ≠ []) :
    append_entries buf es = buf ++ comma_tail es := by
  induction es generalizing buf with
  | nil => simp [append_entries, comma_tail]
  | cons e es ih =>
    unfold append_entries comma_tail
    rw [if_neg hb, ih _ (by simp)]
    simp

theorem join_commas_eq_comma_tail (e : CStr) (es : List CStr) :
    join_commas (e :: es) = e ++ comma_tail es := by
  induction es generalizing e with
  | nil => simp [join_commas, comma_tail]
  | cons f es ih =>
    rw [show join_commas (e :: f :: es) = e ++ ',' :: join_commas (f :: es) from rfl, ih f]
    simp [comma_tail]

theorem append_entries_nil_eq_join (es : List CStr) (hne : ∀ e ∈ es, e ≠ []) :
    append_entries [] es = join_commas es := by
  cases es with
  | nil => rfl
  | cons e es =>
    unfold append_entries
    simp only [if_true, List.nil_append]
    rw [append_entries_of_ne_nil e es (hne e (List.mem_cons_self _ _)),
      join_commas_eq_comma_tail]

theorem set_entries_ne_nil (T : mntopts_t) (hT : set_names_nonempty T) :
    ∀ e ∈ set_entries T, e ≠ [] := by
  intro e he
  unfold set_entries at he
  obtain ⟨m, hm, rfl⟩ := List.mem_map.mp he
  have hmf := List.mem_filter.mp hm
  obtain ⟨n, hn, hne⟩ := hT m hmf.1 (by simpa using hmf.2)
  unfold opt_entry name_chars
  rw [hn]
  cases n with
  | nil => exact absurd rfl hne
  | cons x xs => simp

theorem append_entries_eq_serialize (T : mntopts_t) (hT : set_names_nonempty T) :
    append_entries [] (set_entries T) = serialize_set T :=
  append_entries_nil_eq_join _ (set_entries_ne_nil T hT)

theorem buildoptionstr_fits (T : mntopts_t) (len : Nat)
    (h : (append_entries [] (set_entries T)).length + 1 ≤ len) :
    vfs_buildoptionstr T len = (none, append_entries [] (set_entries T)) :=
  (buildoptionstr_loop_spec T [] len).1 h

theorem buildoptionstr_overflows (T : mntopts_t) (len : Nat) (hlen : 1 ≤ len)
    (h : len < (append_entries [] (set_entries T)).length + 1) :
    (vfs_buildoptionstr T len).1 = some Errno.EOVERFLOW :=
  (buildoptionstr_loop_spec T [] len).2 (by simpa using hlen) h

/-- C12 (as stated, refuted): with the single `MO_SET` option "ro" (length 2) and the
capacity 3, `vfs_buildoptionstr` returns 0 and leaves "ro" in the buffer: the name and
its terminator need exactly 3 bytes. -/
theorem vfs_buildoptionstr_ro_fits_in_3 :
    vfs_buildoptionstr
        [⟨some "ro".toList, some ["rw".toList], none, { MoFlags.zero with set := true }, 0⟩]
        3 = (none, "ro".toList) := by
  decide

/-- C12 (amended): for a table whose only `MO_SET` option has no argument and a name of
length `n`, `vfs_buildoptionstr` returns `EOVERFLOW` for every capacity from 1 to `n`
(one byte short of the name and its terminator, or less), and returns 0 with the name in
the buffer for every capacity of `n + 1` or more. -/
theorem vfs_buildoptionstr_single (T : mntopts_t) (m : mntopt_t) (name : CStr) (len : Nat)
    (honly : T.filter (fun x => x.mo_flags.set) = [m]) (harg : m.mo_arg = none)
    (hname : m.mo_name = some name) :
    (1 ≤ len → len ≤ name.length → (vfs_buildoptionstr T len).1 = some Errno.EOVERFLOW)
    ∧ (name.length + 1 ≤ len → vfs_buildoptionstr T len = (none, name)) := by
  have hent : append_entries [] (set_entries T) = name := by
    unfold set_entries
    rw [honly]
    simp [append_entries, opt_entry, name_chars, harg, hname]
  constructor
  · intro h1 h2
    exact buildoptionstr_overflows T len h1 (by rw [hent]; omega)
  · intro h
    have := buildoptionstr_fits T len (by rw [hent]; exact h)
    rw [this, hent]

/-- Witness of C12 (amended): "ro" overflows a buffer of 2 bytes. -/
theorem vfs_buildoptionstr_single_witness :
    (vfs_buildoptionstr
        [⟨some "ro".toList, some ["rw".toList], none, { MoFlags.zero with set := true }, 0⟩,
         ⟨some "rw".toList, some ["ro".toList], none, MoFlags.zero, 0⟩]
        2).1 = some Errno.EOVERFLOW :=
  (vfs_buildoptionstr_single
    [⟨some "ro".toList, some ["rw".toList], none, { MoFlags.zero with set := true }, 0⟩,
     ⟨some "rw".toList, some ["ro".toList], none, MoFlags.zero, 0⟩]
    ⟨some "ro".toList, some ["rw".toList], none, { MoFlags.zero with set := true }, 0⟩
    "ro".toList 2 (by decide) (by decide) (by decide)).1 (by decide) (by decide)

/-- C13: for a table whose `MO_SET` options have non-empty names and a capacity
`len >= 1`, `vfs_buildoptionstr` returns `EOVERFLOW` if and only if the serialization of
the `MO_SET` options (names, `=` and argument where present, separating commas) with its
terminating NUL needs more than `len` bytes; otherwise it returns 0, the buffer holds
that serialization, and string and terminator fit in `len` bytes. -/
theorem vfs_buildoptionstr_overflow_iff (T : mntopts_t) (len : Nat)
    (hT : set_names_nonempty T) (hlen : 1 ≤ len) :
    ((vfs_buildoptionstr T len).1 = some Errno.EOVERFLOW ↔
        len < (serialize_set T).length + 1)
    ∧ (¬ len < (serialize_set T).length + 1 →
        vfs_buildoptionstr T len = (none, serialize_set T) ∧
        (vfs_buildoptionstr T len).2.length + 1 ≤ len) := by
  have hser := append_entries_eq_serialize T hT
  have hfit : ¬ len < (serialize_set T).length + 1 →
      vfs_buildoptionstr T len = (none, serialize_set T) := by
    intro h
    have := buildoptionstr_fits T len (by rw [hser]; omega)
    rw [this, hser]
  refine ⟨⟨?_, ?_⟩, ?_⟩
  · intro herr
    by_contra hno
    rw [hfit hno] at herr
    cases herr
  · intro h
    exact buildoptionstr_overflows T len hlen (by rw [hser]; exact h)
  · intro h
    refine ⟨hfit h, ?_⟩
    rw [hfit h]
    simp only []
    omega

/-- Witness of C13: "ro" and "x=12" are set; the string "ro,x=12" and its terminator
need 8 bytes, so the capacity 7 overflows. -/
theorem vfs_buildoptionstr_overflow_iff_witness :
    (vfs_buildoptionstr
        [⟨some "ro".toList, some ["rw".toList], none, { MoFlags.zero with set := true }, 0⟩,
         ⟨some "rw".toList, some ["ro".toList], none, MoFlags.zero, 0⟩,
         ⟨some "x".toList, none, some "12".toList, { MO_HASVALUE with set := true }, 0⟩]
        7).1 = some Errno.EOVERFLOW :=
  (vfs_buildoptionstr_overflow_iff
    [⟨some "ro".toList, some ["rw".toList], none, { MoFlags.zero with set := true }, 0⟩,
     ⟨some "rw".toList, some ["ro".toList], none, MoFlags.zero, 0⟩,
     ⟨some "x".toList, none, some "12".toList, { MO_HASVALUE with set := true }, 0⟩]
    7 (by
      intro m hm hs
      simp only [List.mem_cons, List.mem_singleton, List.not_mem_nil, or_false] at hm
      rcases hm with rfl | rfl | rfl
      · exact ⟨"ro".toList, rfl, by decide⟩
      · cases hs
      · exact ⟨"x".toList, rfl, by decide⟩) (by decide)).1.2 (by decide)

/-- C14: whenever `vfs_buildoptionstr` returns 0 on a table whose `MO_SET` options have
non-empty names (capacity at least 1), the buffer holds exactly the entries of the slots
with `MO_SET`, in slot order, each written as its name followed by `=` and its argument
when it has one, joined by single commas with no leading or trailing comma; the result is
a function of the table alone, and the buffer is the empty string when no option is
`MO_SET`. -/
theorem vfs_buildoptionstr_content (T : mntopts_t) (len : Nat)
    (hT : set_names_nonempty T) (hlen : 1 ≤ len)
    (hret : (vfs_buildoptionstr T len).1 = none) :
    (vfs_buildoptionstr T len).2 =
        join_commas ((T.filter (fun m => m.mo_flags.set)).map
          (fun m => m.mo_name.getD [] ++ (match m.mo_arg with
            | some a => '=' :: a
            | none => [])))
    ∧ ((∀ m ∈ T, m.mo_flags.set = false) → (vfs_buildoptionstr T len).2 = []) := by
  have hser := append_entries_eq_serialize T hT
  have hfits : ¬ len < (serialize_set T).length + 1 := by
    intro h
    have := buildoptionstr_overflows T len hlen (by rw [hser]; exact h)
    rw [hret] at this
    cases this
  have hval := buildoptionstr_fits T len (by rw [hser]; omega)
  rw [hval, hser]
  refine ⟨rfl, ?_⟩
  intro hnone
  unfold serialize_set
  have : T.filter (fun m => m.mo_flags.set) = [] := by
    rw [List.filter_eq_nil_iff]
    intro m hm
    simp [hnone m hm]
  rw [this]
  rfl

/-- Witness of C14: "x=12" was set before "ro"; the buffer reads "ro,x=12". -/
theorem vfs_buildoptionstr_content_witness :
    (vfs_buildoptionstr
        [⟨some "ro".toList, some ["rw".toList], none, { MoFlags.zero with set := true }, 0⟩,
         ⟨some "rw".toList, some ["ro".toList], none, MoFlags.zero, 0⟩,
         ⟨some "x".toList, none, some "12".toList, { MO_HASVALUE with set := true }, 0⟩]
        8).2 = "ro,x=12".toList := by
  rw [(vfs_buildoptionstr_content
    [⟨some "ro".toList, some ["rw".toList], none, { MoFlags.zero with set := true }, 0⟩,
     ⟨some "rw".toList, some ["ro".toList], none, MoFlags.zero, 0⟩,
     ⟨some "x".toList, none, some "12".toList, { MO_HASVALUE with set := true }, 0⟩]
    8 (by
      intro m hm hs
      simp only [List.mem_cons, List.mem_singleton, List.not_mem_nil, or_false] at hm
      rcases hm with rfl | rfl | rfl
      · exact ⟨"ro".toList, rfl, by decide⟩
      · cases hs
      · exact ⟨"x".toList, rfl, by decide⟩) (by decide) (by decide)).1]
  decide

/-! ## Set and clear as maps over the slots -/

theorem hasopt_iff_of_unique {T : mntopts_t} (hu : unique_names T) {k : Nat} {s : mntopt_t}
    (hs : T[k]? = some s) (n : Option CStr) :
    vfs_hasopt T n = some k ↔ s.mo_flags.empty = false ∧ s.mo_name = n := by
  constructor
  · intro h
    obtain ⟨s2, hs2, he, hn⟩ := hasopt_some h
    rw [hs] at hs2
    cases hs2
    exact ⟨he, hn⟩
  · rintro ⟨he, hn⟩
    rw [← hn]
    exact hasopt_of_unique hu hs he

theorem clearmntopt_eq_map (T : mntopts_t) (hu : unique_names T) (c : CStr) :
    vfs_clearmntopt_nolock T c = T.map (clear_if c) := by
  apply List.ext_getElem?
  intro k
  rw [clearmntopt_get, List.getElem?_map]
  cases hs : T[k]? with
  | none => rfl
  | some s =>
    simp only [Option.map_some', Option.some.injEq]
    unfold clear_if
    by_cases h : vfs_hasopt T (some c) = some k
    · rw [if_pos h, if_pos ((hasopt_iff_of_unique hu hs _).mp h)]
    · rw [if_neg h, if_neg (fun h2 => h ((hasopt_iff_of_unique hu hs _).mpr h2))]

theorem store_slot_createopt (a : mntopt_t) (arg : Option CStr) (flags : SetFlags) :
    store_slot a arg { flags with createopt := false } = store_slot a arg flags := rfl

theorem setmntopt_eq_map (T : mntopts_t) (hu : unique_names T) (opt : CStr)
    (arg : Option CStr) (flags : SetFlags) (i : Nat) (a : mntopt_t)
    (hf : vfs_hasopt T (some opt) = some i) (ha : T[i]? = some a)
    (hb : (a.mo_flags.ignore && flags.noforceopt) = false)
    (hself : opt ∉ cancel_list a.mo_cancel) :
    vfs_setmntopt_nolock T opt arg flags =
      T.map (set_if opt arg flags (cancel_list a.mo_cancel)) := by
  obtain ⟨a2, ha2, hae, han⟩ := hasopt_some hf
  rw [ha] at ha2
  cases ha2
  have hi : i < T.length := hasopt_lt hf
  apply List.ext_getElem?
  intro k
  rw [setmntopt_found_get T opt arg flags i a hf ha hb, List.getElem?_map, store_slot_createopt]
  by_cases hki : i = k
  · subst hki
    rw [List.getElem?_set_self hi, ha]
    simp only [Option.map_some', Option.some.injEq]
    have hno : (cancel_list a.mo_cancel).any
        (fun c => decide (vfs_hasopt T (some c) = some i)) = false := by
      rw [List.any_eq_false]
      intro c hc hdec
      have hci : vfs_hasopt T (some c) = some i := by simpa using hdec
      have := ((hasopt_iff_of_unique hu ha _).mp hci).2
      rw [han] at this
      cases this
      exact hself hc
    simp only [hno, Bool.false_eq_true, if_false]
    unfold set_if
    rw [if_pos ⟨hae, han⟩]
  · rw [List.getElem?_set_ne hki]
    cases hs : T[k]? with
    | none => rfl
    | some s =>
      simp only [Option.map_some', Option.some.injEq]
      have hnot : ¬ (s.mo_flags.empty = false ∧ s.mo_name = some opt) := by
        intro h
        have := (hasopt_iff_of_unique hu hs _).mpr h
        rw [hf] at this
        cases this
        exact hki rfl
      unfold set_if
      rw [if_neg hnot]
      by_cases hany : (cancel_list a.mo_cancel).any
          (fun c => decide (vfs_hasopt T (some c) = some k)) = true
      · rw [if_pos hany]
        obtain ⟨c, hc, hdec⟩ := List.any_eq_true.mp hany
        have hck : vfs_hasopt T (some c) = some k := by simpa using hdec
        have := (hasopt_iff_of_unique hu hs _).mp hck
        rw [if_pos ⟨this.1, c, hc, this.2⟩]
      · rw [if_neg hany]
        have : ¬ (s.mo_flags.empty = false ∧ ∃ c ∈ cancel_list a.mo_cancel, s.mo_name = some c) := by
          rintro ⟨he, c, hc, hn⟩
          apply hany
          rw [List.any_eq_true]
          exact ⟨c, hc, by simpa using (hasopt_iff_of_unique hu hs _).mpr ⟨he, hn⟩⟩
        rw [if_neg this]

/-! ## Parsing a list of names and building the string again -/

theorem join_commas_tokens (names : List CStr)
    (h : ∀ n ∈ names, n ≠ [] ∧ ',' ∉ n) : opt_tokens (join_commas names) = names := by
  induction names with
  | nil => exact opt_tokens_nil
  | cons e es ih =>
    cases es with
    | nil =>
      exact opt_tokens_single e (h e (List.mem_cons_self _ _)).2 (h e (List.mem_cons_self _ _)).1
    | cons f fs =>
      rw [show join_commas (e :: f :: fs) = e ++ ',' :: join_commas (f :: fs) from rfl,
        opt_tokens_cons _ _ (h e (List.mem_cons_self _ _)).2,
        ih (fun n hn => h n (List.mem_cons_of_mem _ hn))]

theorem join_commas_no_nul (names : List CStr) (h : ∀ n ∈ names, NUL ∉ n) :
    NUL ∉ join_commas names := by
  induction names with
  | nil => simp [join_commas]
  | cons e es ih =>
    cases es with
    | nil => exact h e (List.mem_cons_self _ _)
    | cons f fs =>
      rw [show join_commas (e :: f :: fs) = e ++ ',' :: join_commas (f :: fs) from rfl]
      simp only [List.mem_append, List.mem_cons, not_or]
      exact ⟨h e (List.mem_cons_self _ _), by decide,
        ih (fun n hn => h n (List.mem_cons_of_mem _ hn))⟩

theorem foldl_tokens_names (names : List CStr) (h : ∀ n ∈ names, '=' ∉ n) (F : SetFlags)
    (U : mntopts_t) :
    names.foldl (fun T tok => vfs_setmntopt_nolock T (token_name tok) (token_value tok) F) U =
      names.foldl (fun T n => vfs_setmntopt_nolock T n none F) U := by
  induction names generalizing U with
  | nil => rfl
  | cons n ns ih =>
    have hn := h n (List.mem_cons_self _ _)
    rw [List.foldl_cons, List.foldl_cons, token_name_noeq n hn, token_value_noeq n hn,
      ih (fun x hx => h x (List.mem_cons_of_mem _ hx))]

theorem marked_keys {done : List CStr} {T U : mntopts_t}
    (hR : List.Forall₂ (slot_marked done) T U) :
    U.map (fun m => (m.mo_flags.empty, m.mo_name)) =
      T.map (fun m => (m.mo_flags.empty, m.mo_name)) := by
  induction hR with
  | nil => rfl
  | cons h _ ih =>
    rw [List.map_cons, List.map_cons, ih, h.1, h.2.1]

theorem set_if_marked (done cl : List CStr) (n : CStr) (F : SetFlags) (s0 s : mntopt_t)
    (hcl : ∀ c ∈ cl, c ∉ n :: done) (h : slot_marked done s0 s) :
    slot_marked (n :: done) s0 (set_if n none F cl s) := by
  obtain ⟨hn, he, hc, hi, hset⟩ := h
  unfold set_if
  by_cases h1 : s.mo_flags.empty = false ∧ s.mo_name = some n
  · rw [if_pos h1]
    have hf := store_slot_fields s none F
    refine ⟨by rw [hf.1, hn], by rw [hf.2.2.2.1, he], by rw [hf.2.1, hc],
      by rw [hf.2.2.2.2.2.2.1, hi], ?_⟩
    rw [if_pos ⟨by rw [← he]; exact h1.1, n, List.mem_cons_self _ _, by rw [← hn]; exact h1.2⟩]
    exact ⟨hf.2.2.2.2.1, by rw [hf.2.2.2.2.2.2.2]; rfl⟩
  · rw [if_neg h1]
    by_cases h2 : s.mo_flags.empty = false ∧ ∃ c ∈ cl, s.mo_name = some c
    · rw [if_pos h2]
      refine ⟨hn, he, hc, hi, ?_⟩
      have hnot : ¬ (s0.mo_flags.empty = false ∧ ∃ n' ∈ n :: done, s0.mo_name = some n') := by
        rintro ⟨_, n', hn', hs0⟩
        obtain ⟨_, c, hcm, hsc⟩ := h2
        rw [hn, hs0] at hsc
        cases hsc
        exact hcl n' hcm hn'
      rw [if_neg hnot]
      rfl
    · rw [if_neg h2]
      refine ⟨hn, he, hc, hi, ?_⟩
      have hiff : (s0.mo_flags.empty = false ∧ ∃ n' ∈ n :: done, s0.mo_name = some n') ↔
          (s0.mo_flags.empty = false ∧ ∃ n' ∈ done, s0.mo_name = some n') := by
        constructor
        · rintro ⟨h0, n', hn', hs0⟩
          rcases List.mem_cons.mp hn' with rfl | hd
          · exact absurd ⟨by rw [he]; exact h0, by rw [hn]; exact hs0⟩ h1
          · exact ⟨h0, n', hd, hs0⟩
        · rintro ⟨h0, n', hn', hs0⟩
          exact ⟨h0, n', List.mem_cons_of_mem _ hn', hs0⟩
      by_cases h3 : s0.mo_flags.empty = false ∧ ∃ n' ∈ done, s0.mo_name = some n'
      · rw [if_pos (hiff.mpr h3)]
        rw [if_pos h3] at hset
        exact hset
      · rw [if_neg (fun h => h3 (hiff.mp h))]
        rw [if_neg h3] at hset
        exact hset

theorem marked_step (T U : mntopts_t) (done : List CStr) (n : CStr) (F : SetFlags)
    (hu : unique_names T) (hR : List.Forall₂ (slot_marked done) T U)
    (hign : ∀ m ∈ T, m.mo_flags.ignore = false) (hmem : some n ∈ opt_names T)
    (hcan : ∀ m ∈ T, m.mo_flags.empty = false → m.mo_name = some n →
      ∀ c ∈ cancel_list m.mo_cancel, c ∉ n :: done) :
    List.Forall₂ (slot_marked (n :: done)) T (vfs_setmntopt_nolock U n none F) := by
  have hnames : opt_names U = opt_names T := opt_names_of_keys (marked_keys hR)
  have huU : unique_names U := by unfold unique_names; rw [hnames]; exact hu
  have hin : name_in U (some n) = true := name_in_iff.mpr (by rw [hnames]; exact hmem)
  cases hf : vfs_hasopt U (some n) with
  | none => rw [hasopt_eq_none.mp hf] at hin; cases hin
  | some i =>
    obtain ⟨a, ha, hae, han⟩ := hasopt_some hf
    have hiU : i < U.length := hasopt_lt hf
    have hiT : i < T.length := by rw [hR.length_eq]; exact hiU
    have hrel : slot_marked done T[i] a := by
      have := List.Forall₂.get hR hiT hiU
      simp only [List.get_eq_getElem] at this
      have hau : U[i] = a := by
        have := List.getElem?_eq_getElem hiU
        rw [ha] at this
        exact (Option.some.inj this).symm
      rw [hau] at this
      exact this
    obtain ⟨rn, re, rc, ri, _⟩ := hrel
    have hTi : T[i] ∈ T := List.getElem_mem hiT
    have hcl : ∀ c ∈ cancel_list a.mo_cancel, c ∉ n :: done := by
      rw [rc]
      exact hcan T[i] hTi (by rw [← re]; exact hae) (by rw [← rn]; exact han)
    have hb : (a.mo_flags.ignore && F.noforceopt) = false := by
      rw [ri, hign T[i] hTi]; rfl
    have hself : n ∉ cancel_list a.mo_cancel :=
      fun h => hcl n h (List.mem_cons_self _ _)
    rw [setmntopt_eq_map U huU n none F i a hf ha hb hself, List.forall₂_map_right_iff]
    exact hR.imp (fun s0 s h => set_if_marked done _ n F s0 s hcl h)

theorem cancel_forward_cons {T : mntopts_t} {done : List CStr} {n : CStr} {rest : List CStr}
    (h : cancel_forward T done (n :: rest) = true) :
    (∀ m ∈ T, m.mo_flags.empty = false → m.mo_name = some n →
      ∀ c ∈ cancel_list m.mo_cancel, c ∉ n :: done) ∧
    cancel_forward T (n :: done) rest = true := by
  unfold cancel_forward at h
  rw [Bool.and_eq_true] at h
  refine ⟨?_, h.2⟩
  intro m hm he hn c hc hmem
  have h1 := List.all_eq_true.mp h.1 m hm
  simp only [he, hn, ne_eq, not_true_eq_false, decide_False, Bool.or_self, Bool.false_or] at h1
  have h2 := List.all_eq_true.mp h1 c hc
  have : (n :: done).contains c = true := by
    rw [List.contains_iff_exists_mem_beq]
    exact ⟨c, hmem, by simp⟩
  rw [this] at h2
  cases h2

theorem marked_fold (T : mntopts_t) (rest : List CStr) (F : SetFlags)
    (hu : unique_names T) (hign : ∀ m ∈ T, m.mo_flags.ignore = false)
    (hmem : ∀ n ∈ rest, some n ∈ opt_names T) (done : List CStr) (U : mntopts_t)
    (hR : List.Forall₂ (slot_marked done) T U)
    (hcan : cancel_forward T done rest = true) :
    List.Forall₂ (slot_marked (rest.reverse ++ done)) T
      (rest.foldl (fun U n => vfs_setmntopt_nolock U n none F) U) := by
  induction rest generalizing done U with
  | nil => exact hR
  | cons n rest ih =>
    have hc := cancel_forward_cons hcan
    have hstep := marked_step T U done n F hu hR hign (hmem n (List.mem_cons_self _ _)) hc.1
    have := ih (fun x hx => hmem x (List.mem_cons_of_mem _ hx)) (n :: done) _ hstep hc.2
    rw [List.foldl_cons, List.reverse_cons, List.append_assoc]
    exact this

theorem marked_set_entries {done : List CStr} {T U : mntopts_t}
    (hR : List.Forall₂ (slot_marked done) T U) :
    set_entries U =
      ((opt_names T).filter (fun x => decide (x ∈ done.map some))).map
        (fun x => x.getD []) := by
  induction hR with
  | nil => rfl
  | @cons s0 s T U h _ ih =>
    obtain ⟨hn, he, _, _, hset⟩ := h
    rw [set_entries_cons, opt_names_cons, ih]
    by_cases hm : s0.mo_flags.empty = false ∧ ∃ n ∈ done, s0.mo_name = some n
    · rw [if_pos hm] at hset
      obtain ⟨h0, n, hnd, hs0⟩ := hm
      have hin : s0.mo_name ∈ done.map some := by
        rw [hs0]; exact List.mem_map.mpr ⟨n, hnd, rfl⟩
      have hent : opt_entry s = s0.mo_name.getD [] := by
        unfold opt_entry name_chars
        rw [hset.2, hn]
        simp
      simp only [hset.1, if_true, h0, Bool.false_eq_true, if_false]
      rw [List.filter_cons, if_pos (decide_eq_true hin), List.map_cons, hent]
    · rw [if_neg hm] at hset
      rw [hset]
      simp only [Bool.false_eq_true, if_false]
      by_cases h0 : s0.mo_flags.empty = true
      · simp [h0]
      · have h0f : s0.mo_flags.empty = false := by simpa using h0
        have hnin : s0.mo_name ∉ done.map some := by
          intro hin
          obtain ⟨n, hnd, hs0⟩ := List.mem_map.mp hin
          exact hm ⟨h0f, n, hnd, hs0.symm⟩
        simp only [h0f, Bool.false_eq_true, if_false]
        rw [List.filter_cons, if_neg (by simpa using hnin)]

theorem filter_mem_of_sublist {l s : List (Option CStr)} (hl : l.Nodup) (hs : s.Sublist l) :
    l.filter (fun x => decide (x ∈ s)) = s := by
  induction hs with
  | slnil => rfl
  | @cons s l a hsl ih =>
    have hnd := List.nodup_cons.mp hl
    have ha : a ∉ s := fun h => hnd.1 (hsl.subset h)
    rw [List.filter_cons, if_neg (by simpa using ha)]
    exact ih hnd.2
  | @cons₂ s l a hsl ih =>
    have hnd := List.nodup_cons.mp hl
    rw [List.filter_cons, if_pos (by simp)]
    congr 1
    rw [← ih hnd.2]
    apply List.filter_congr
    intro x hx
    have hxa : x ≠ a := fun h => hnd.1 (h ▸ hx)
    rw [ih hnd.2]
    simp [hxa]

theorem marked_refl (T : mntopts_t) (h : ∀ m ∈ T, m.mo_flags.set = false) :
    List.Forall₂ (slot_marked []) T T := by
  induction T with
  | nil => exact List.Forall₂.nil
  | cons m T ih =>
    refine List.Forall₂.cons ⟨rfl, rfl, rfl, rfl, ?_⟩
      (ih (fun x hx => h x (List.mem_cons_of_mem _ hx)))
    rw [if_neg (by simp)]
    exact h m (List.mem_cons_self _ _)

/-- C11 (as stated, refuted): the table holds the single option "x", not set, not
`MO_IGNORE`, without value, whose cancel list names "x" itself. The list ("x") meets the
conditions of the claim (there is no earlier name), but after `vfs_parsemntopts` on "x"
the option is not `MO_SET`, and `vfs_buildoptionstr` yields the empty string. -/
theorem parse_build_self_cancel :
    unique_names [⟨some "x".toList, some ["x".toList], none, MoFlags.zero, 0⟩]
    ∧ (∀ m ∈ [(⟨some "x".toList, some ["x".toList], none, MoFlags.zero, 0⟩ : mntopt_t)],
        m.mo_flags.set = false ∧ m.mo_flags.ignore = false ∧ m.mo_flags.hasvalue = false)
    ∧ vfs_buildoptionstr
        (vfs_parsemntopts [⟨some "x".toList, some ["x".toList], none, MoFlags.zero, 0⟩]
          (some ("x".toList ++ [NUL])) 0).1 100 = (none, [])
    ∧ vfs_buildoptionstr
        (vfs_parsemntopts [⟨some "x".toList, some ["x".toList], none, MoFlags.zero, 0⟩]
          (some ("x".toList ++ [NUL])) 0).1 100 ≠ (none, "x".toList) := by
  decide

/-- C11 (amended): let `T` have unique names, no slot `MO_SET` or `MO_IGNORE`; let
`names` be option names of `T` in slot order, each non-empty and free of `,`, `=` and
NUL, such that no name's cancel list contains the name itself or an earlier name of the
list. Then `vfs_parsemntopts` on the names joined by commas (either mode), followed by
`vfs_buildoptionstr` with room for that string and its terminator, returns 0 and yields
exactly that string. -/
theorem parse_build_roundtrip (T : mntopts_t) (names : List CStr) (tail : List Char)
    (create : Int) (len : Nat)
    (hu : unique_names T)
    (hclean : ∀ m ∈ T, m.mo_flags.set = false ∧ m.mo_flags.ignore = false)
    (horder : (names.map some).Sublist (opt_names T))
    (hsyn : ∀ n ∈ names, n ≠ [] ∧ ',' ∉ n ∧ '=' ∉ n ∧ NUL ∉ n)
    (hcan : cancel_forward T [] names = true)
    (hcap : (join_commas names).length + 1 ≤ len) :
    vfs_buildoptionstr
        (vfs_parsemntopts T (some (join_commas names ++ NUL :: tail)) create).1 len =
      (none, join_commas names) := by
  have hF := marked_fold T names ⟨true, false, false, decide (create ≠ 0)⟩ hu
    (fun m hm => (hclean m hm).2)
    (fun n hn => horder.subset (List.mem_map.mpr ⟨n, hn, rfl⟩)) [] T
    (marked_refl T (fun m hm => (hclean m hm).1)) hcan
  rw [parsemntopts_spec T _ tail create (join_commas_no_nul names (fun n hn => (hsyn n hn).2.2.2))]
  simp only [parse_by_tokens]
  rw [join_commas_tokens names (fun n hn => ⟨(hsyn n hn).1, (hsyn n hn).2.1⟩),
    foldl_tokens_names names (fun n hn => (hsyn n hn).2.2.1)]
  have hent : set_entries (names.foldl (fun U n => vfs_setmntopt_nolock U n none
      ⟨true, false, false, decide (create ≠ 0)⟩) T) = names := by
    rw [marked_set_entries hF]
    have hcongr : (opt_names T).filter
        (fun x => decide (x ∈ (names.reverse ++ []).map some)) =
        (opt_names T).filter (fun x => decide (x ∈ names.map some)) := by
      apply List.filter_congr
      intro x _
      simp
    rw [hcongr, filter_mem_of_sublist hu horder, List.map_map]
    simp [Function.comp_def]
  have hjoin : append_entries [] names = join_commas names :=
    append_entries_nil_eq_join names (fun n hn => (hsyn n hn).1)
  have := buildoptionstr_fits (names.foldl (fun U n => vfs_setmntopt_nolock U n none
      ⟨true, false, false, decide (create ≠ 0)⟩) T) len (by rw [hent, hjoin]; exact hcap)
  rw [this, hent, hjoin]

/-- Witness of C11 (amended): "ro,nosuid" on the generic prototype table. -/
theorem parse_build_roundtrip_witness :
    vfs_buildoptionstr
        (vfs_parsemntopts vfs_mntopts (some ("ro,nosuid".toList ++ NUL :: [])) 0).1 10 =
      (none, "ro,nosuid".toList) :=
  parse_build_roundtrip vfs_mntopts [MNTOPT_RO, MNTOPT_NOSUID] [] 0 10
    (by decide) (by decide) (by decide) (by decide) (by decide) (by decide)

/-! ## The file handle codec -/

theorem fid_store_getD (x i : Nat) (rest : List Nat) (h : i < 8) :
    (fid_store x ++ rest).getD i 0 = (x / 2 ^ (8 * i)) % 256 := by
  have hl : (fid_store x).length = 8 := by simp [fid_store]
  rw [List.getD_eq_getElem?_getD, List.getElem?_append_left (by omega)]
  unfold fid_store
  rw [List.getElem?_map, List.getElem?_range h]
  simp [Nat.shiftRight_eq_div_pow]

theorem fid_load_fold (a : List Nat) (x : Nat)
    (ha : ∀ i, i < 8 → a.getD i 0 = (x / 2 ^ (8 * i)) % 256) (k : Nat) (hk : k ≤ 8) :
    (List.range k).foldl (fun y i => y ||| ((a.getD i 0) <<< (8 * i)) % 2 ^ 64) 0 =
      x % 2 ^ (8 * k) := by
  induction k with
  | zero => simp [Nat.mod_one]
  | succ k ih =>
    rw [List.range_succ, List.foldl_append, ih (by omega)]
    simp only [List.foldl_cons, List.foldl_nil]
    rw [ha k (by omega)]
    have hb : (x / 2 ^ (8 * k)) % 256 < 256 := Nat.mod_lt _ (by norm_num)
    have hpos : 0 < 2 ^ (8 * k) := Nat.pow_pos (by norm_num)
    have hlt : ((x / 2 ^ (8 * k)) % 256) <<< (8 * k) < 2 ^ 64 := by
      rw [Nat.shiftLeft_eq]
      calc (x / 2 ^ (8 * k)) % 256 * 2 ^ (8 * k)
          < 256 * 2 ^ (8 * k) := Nat.mul_lt_mul_of_pos_right hb hpos
        _ = 2 ^ (8 * k + 8) := by rw [Nat.pow_add]; ring
        _ ≤ 2 ^ 64 := Nat.pow_le_pow_right (by norm_num) (by omega)
    rw [Nat.mod_eq_of_lt hlt, Nat.lor_comm, Nat.shiftLeft_eq, Nat.mul_comm,
      ← Nat.mul_add_lt_is_or (Nat.mod_lt _ hpos)]
    have : 2 ^ (8 * (k + 1)) = 2 ^ (8 * k) * 256 := by
      rw [show 8 * (k + 1) = 8 * k + 8 by ring, Nat.pow_add]
    rw [this, Nat.mod_mul]
    ring

theorem fid_load_store (x : Nat) (rest : List Nat) (hx : x < 2 ^ 64) :
    fid_load (fid_store x ++ rest) = x := by
  unfold fid_load
  rw [fid_load_fold _ x (fun i hi => fid_store_getD x i rest hi) 8 (Nat.le_refl _)]
  exact Nat.mod_eq_of_lt hx

theorem fid_store_length (x : Nat) : (fid_store x).length = 8 := by simp [fid_store]

theorem vptofh_ok (zp : znode_t) (fhlen : Int) (fhp : List Nat)
    (hlen : 16 ≤ size_t_of_int fhlen) :
    zfs_vfs_vptofh false zp fhlen fhp =
      (none, 16, fid_store zp.z_id ++ (fid_store (if zp.z_gen = 0 then 1 else zp.z_gen) ++
        fhp.drop 16)) := by
  unfold zfs_vfs_vptofh ZFS_ENTER sizeof_zfs_zfid_t
  rw [if_neg (by omega)]
  simp

/-- C17: for a node whose object id and generation are 64-bit values, `zfs_vfs_vptofh`
writes a handle exactly when the caller offers at least 16 bytes and the instance is not
marked unmounted. Byte `i` of that handle is bits `8i..8i+7` of the object id, byte `8+i`
is bits `8i..8i+7` of the generation with 0 replaced by 1 (`i = 0..7`), `*fhlenp` is 16,
and the two load loops of `zfs_vfs_fhtovp` applied to the handle give back exactly the
object id and the normalized generation. -/
theorem zfs_vfs_vptofh_codec (z_unmounted : Bool) (zp : znode_t) (fhlen : Int)
    (fhp : List Nat) (hid : zp.z_id < 2 ^ 64) (hgen : zp.z_gen < 2 ^ 64) :
    ((zfs_vfs_vptofh z_unmounted zp fhlen fhp).1 = none ↔
        16 ≤ size_t_of_int fhlen ∧ z_unmounted = false)
    ∧ ((zfs_vfs_vptofh z_unmounted zp fhlen fhp).1 = none →
        (∀ i, i < 8 →
          (zfs_vfs_vptofh z_unmounted zp fhlen fhp).2.2.getD i 0 =
            (zp.z_id / 2 ^ (8 * i)) % 256 ∧
          (zfs_vfs_vptofh z_unmounted zp fhlen fhp).2.2.getD (8 + i) 0 =
            ((if zp.z_gen = 0 then 1 else zp.z_gen) / 2 ^ (8 * i)) % 256)
        ∧ (zfs_vfs_vptofh z_unmounted zp fhlen fhp).2.1 = 16
        ∧ fid_load (zfs_vfs_vptofh z_unmounted zp fhlen fhp).2.2 = zp.z_id
        ∧ fid_load ((zfs_vfs_vptofh z_unmounted zp fhlen fhp).2.2.drop 8) =
            (if zp.z_gen = 0 then 1 else zp.z_gen)) := by
  have hiff : (zfs_vfs_vptofh z_unmounted zp fhlen fhp).1 = none ↔
      16 ≤ size_t_of_int fhlen ∧ z_unmounted = false := by
    unfold zfs_vfs_vptofh ZFS_ENTER sizeof_zfs_zfid_t
    by_cases hl : size_t_of_int fhlen < 16
    · simp [hl]
    · cases z_unmounted
      · simp [hl]; omega
      · simp [hl]
  refine ⟨hiff, ?_⟩
  intro hret
  obtain ⟨hlen, hu⟩ := hiff.mp hret
  subst hu
  have hg : (if zp.z_gen = 0 then 1 else zp.z_gen) < 2 ^ 64 := by
    split
    · norm_num
    · exact hgen
  rw [vptofh_ok zp fhlen fhp hlen]
  refine ⟨?_, rfl, fid_load_store _ _ hid, ?_⟩
  · intro i hi
    refine ⟨fid_store_getD _ i _ hi, ?_⟩
    simp only []
    rw [List.getD_eq_getElem?_getD,
      List.getElem?_append_right (by rw [fid_store_length]; omega), fid_store_length,
      show 8 + i - 8 = i by omega, ← List.getD_eq_getElem?_getD]
    exact fid_store_getD _ i _ hi
  · simp only []
    rw [List.drop_left' (fid_store_length _)]
    exact fid_load_store _ _ hg

/-- Witness of C17: object id `0x0102030405060708` and generation 0 in a buffer of 16
bytes: the bytes of the id go out lowest first, the generation goes out as 1. -/
theorem zfs_vfs_vptofh_codec_witness :
    zfs_vfs_vptofh false ⟨0x0102030405060708, 0, false⟩ 16 (List.replicate 16 0) =
      (none, 16, [8, 7, 6, 5, 4, 3, 2, 1, 1, 0, 0, 0, 0, 0, 0, 0])
    ∧ fid_load [8, 7, 6, 5, 4, 3, 2, 1, 1, 0, 0, 0, 0, 0, 0, 0] = 0x0102030405060708 := by
  have h := zfs_vfs_vptofh_codec false ⟨0x0102030405060708, 0, false⟩ 16
    (List.replicate 16 0) (by norm_num) (by norm_num)
  have hv : zfs_vfs_vptofh false ⟨0x0102030405060708, 0, false⟩ 16 (List.replicate 16 0) =
      (none, 16, [8, 7, 6, 5, 4, 3, 2, 1, 1, 0, 0, 0, 0, 0, 0, 0]) := by decide
  refine ⟨hv, ?_⟩
  have h3 := (h.2 (by rw [hv])).2.2.1
  rw [hv] at h3
  exact h3

theorem fhtovp_long (zfs_zget : Nat → Except Errno znode_t) (fhlen : Int) (fhp : List Nat)
    (hlen : 16 ≤ size_t_of_int fhlen) :
    zfs_vfs_fhtovp zfs_zget false fhlen fhp =
      match zfs_zget (fid_load fhp) with
      | Except.error e => (some e, none)
      | Except.ok zp =>
        if zp.z_unlinked || (if zp.z_gen = 0 then 1 else zp.z_gen) != fid_load (fhp.drop 8)
        then (some Errno.EINVAL, none) else (none, some zp) := by
  unfold zfs_vfs_fhtovp ZFS_ENTER sizeof_zfs_zfid_t
  simp only [Bool.false_eq_true, if_false]
  rw [if_neg (by omega)]

/-- C18 (as stated, refuted): on an instance that is marked unmounted `ZFS_ENTER` makes
`zfs_vfs_fhtovp` return `EIO` before it looks at the handle. Node 5 (generation 0, not
unlinked) is what the lookup of object 5 finds and its 16-byte handle decodes to object 5
and generation 1, yet no node is returned; and a 4-byte handle is answered with `EIO`,
not `EINVAL`. -/
theorem zfs_vfs_fhtovp_unmounted :
    (zfs_vfs_vptofh false ⟨5, 0, false⟩ 16 (List.replicate 16 0)).2.2 =
        [5, 0, 0, 0, 0, 0, 0, 0, 1, 0, 0, 0, 0, 0, 0, 0]
    ∧ fid_load [5, 0, 0, 0, 0, 0, 0, 0, 1, 0, 0, 0, 0, 0, 0, 0] = 5
    ∧ fid_load ([5, 0, 0, 0, 0, 0, 0, 0, 1, 0, 0, 0, 0, 0, 0, 0].drop 8) = 1
    ∧ zfs_vfs_fhtovp (fun n => if n = 5 then Except.ok ⟨5, 0, false⟩ else Except.error Errno.EINVAL)
        true 16 [5, 0, 0, 0, 0, 0, 0, 0, 1, 0, 0, 0, 0, 0, 0, 0] = (some Errno.EIO, none)
    ∧ zfs_vfs_fhtovp (fun n => if n = 5 then Except.ok ⟨5, 0, false⟩ else Except.error Errno.EINVAL)
        true 4 [5, 0, 0, 0] = (some Errno.EIO, none)
    ∧ zfs_vfs_fhtovp (fun n => if n = 5 then Except.ok ⟨5, 0, false⟩ else Except.error Errno.EINVAL)
        false 16 [5, 0, 0, 0, 0, 0, 0, 0, 1, 0, 0, 0, 0, 0, 0, 0] =
          (none, some ⟨5, 0, false⟩) := by
  refine ⟨by decide, by decide, by decide, rfl, rfl, by decide⟩

/-- C18 (amended): on an instance that is not marked unmounted, `zfs_vfs_fhtovp` on a
handle whose length is at least 16 returns a node exactly when the lookup of the decoded
object id finds it, it is not unlinked and the decoded generation equals its generation
with 0 read as 1; a lookup error is handed up, an unlinked node or a stale generation
gives `EINVAL`, and in each of these cases no node is returned. A shorter handle gives
`EINVAL` and no node. The handle that `zfs_vfs_vptofh` writes for a node that is not
unlinked and that the lookup of its id finds resolves back to that node, also when its
generation is 0. -/
theorem zfs_vfs_fhtovp_spec (zfs_zget : Nat → Except Errno znode_t) (fhlen : Int)
    (fhp : List Nat) :
    (16 ≤ size_t_of_int fhlen →
      (∀ zp, zfs_vfs_fhtovp zfs_zget false fhlen fhp = (none, some zp) ↔
          (zfs_zget (fid_load fhp) = Except.ok zp ∧ zp.z_unlinked = false ∧
            fid_load (fhp.drop 8) = (if zp.z_gen = 0 then 1 else zp.z_gen)))
      ∧ ((∀ zp, zfs_vfs_fhtovp zfs_zget false fhlen fhp ≠ (none, some zp)) →
          ∃ e, zfs_vfs_fhtovp zfs_zget false fhlen fhp = (some e, none))
      ∧ (∀ zp, zfs_zget (fid_load fhp) = Except.ok zp →
          (zp.z_unlinked = true ∨
            fid_load (fhp.drop 8) ≠ (if zp.z_gen = 0 then 1 else zp.z_gen)) →
          zfs_vfs_fhtovp zfs_zget false fhlen fhp = (some Errno.EINVAL, none))
      ∧ (∀ e, zfs_zget (fid_load fhp) = Except.error e →
          zfs_vfs_fhtovp zfs_zget false fhlen fhp = (some e, none)))
    ∧ (size_t_of_int fhlen < 16 →
        zfs_vfs_fhtovp zfs_zget false fhlen fhp = (some Errno.EINVAL, none))
    ∧ (∀ (zp : znode_t) (len : Int) (buf : List Nat),
        zp.z_id < 2 ^ 64 → zp.z_gen < 2 ^ 64 → zp.z_unlinked = false →
        zfs_zget zp.z_id = Except.ok zp → 16 ≤ size_t_of_int len →
        (zfs_vfs_vptofh false zp len buf).1 = none ∧
        zfs_vfs_fhtovp zfs_zget false (zfs_vfs_vptofh false zp len buf).2.1
          (zfs_vfs_vptofh false zp len buf).2.2 = (none, some zp)) := by
  have hmain : ∀ (l : Int) (h : List Nat), 16 ≤ size_t_of_int l →
      (∀ zp, zfs_vfs_fhtovp zfs_zget false l h = (none, some zp) ↔
          (zfs_zget (fid_load h) = Except.ok zp ∧ zp.z_unlinked = false ∧
            fid_load (h.drop 8) = (if zp.z_gen = 0 then 1 else zp.z_gen))) := by
    intro l h hl zp
    rw [fhtovp_long zfs_zget l h hl]
    cases hz : zfs_zget (fid_load h) with
    | error e => simp
    | ok z =>
      simp only []
      by_cases hc : (z.z_unlinked || (if z.z_gen = 0 then 1 else z.z_gen) != fid_load (h.drop 8))
          = true
      · rw [if_pos hc]
        constructor
        · intro hh; simp at hh
        · rintro ⟨hzz, hu, hg⟩
          have : z = zp := by injection hzz
          subst this
          rw [hu, hg] at hc
          simp at hc
      · rw [if_neg hc]
        simp only [Bool.or_eq_true, bne_iff_ne, ne_eq, not_or, Bool.not_eq_true, not_not] at hc
        constructor
        · intro hh
          have : z = zp := by
            have := congrArg Prod.snd hh
            simpa using this
          subst this
          exact ⟨rfl, hc.1, hc.2.symm⟩
        · rintro ⟨hzz, _, _⟩
          have : z = zp := by injection hzz
          subst this
          rfl
  refine ⟨?_, ?_, ?_⟩
  · intro hlen
    refine ⟨hmain fhlen fhp hlen, ?_, ?_, ?_⟩
    · intro hno
      rw [fhtovp_long zfs_zget fhlen fhp hlen] at hno ⊢
      cases hz : zfs_zget (fid_load fhp) with
      | error e => exact ⟨e, rfl⟩
      | ok z =>
        rw [hz] at hno
        simp only [] at hno ⊢
        by_cases hc : (z.z_unlinked ||
            (if z.z_gen = 0 then 1 else z.z_gen) != fid_load (fhp.drop 8)) = true
        · rw [if_pos hc]
          exact ⟨_, rfl⟩
        · rw [if_neg hc] at hno
          exact absurd rfl (hno z)
    · intro zp hz hbad
      rw [fhtovp_long zfs_zget fhlen fhp hlen, hz]
      simp only []
      rw [if_pos]
      rcases hbad with hu | hg
      · simp [hu]
      · simp only [Bool.or_eq_true, bne_iff_ne, ne_eq]
        exact Or.inr (fun h => hg h.symm)
    · intro e hz
      rw [fhtovp_long zfs_zget fhlen fhp hlen, hz]
  · intro hshort
    unfold zfs_vfs_fhtovp ZFS_ENTER sizeof_zfs_zfid_t
    simp only [Bool.false_eq_true, if_false]
    rw [if_pos hshort]
  · intro zp len buf hid hgen hu hz hlen
    have hg : (if zp.z_gen = 0 then 1 else zp.z_gen) < 2 ^ 64 := by
      split
      · norm_num
      · exact hgen
    rw [vptofh_ok zp len buf hlen]
    refine ⟨rfl, ?_⟩
    simp only []
    refine (hmain 16 _ (by decide) zp).mpr ⟨?_, hu, ?_⟩
    · rw [fid_load_store _ _ hid]; exact hz
    · rw [List.drop_left' (fid_store_length _)]
      exact fid_load_store _ _ hg

/-- Witness of C18 (amended): the instance holds node 5 with generation 0; the handle written for
it resolves back to it. -/
theorem zfs_vfs_fhtovp_spec_witness :
    zfs_vfs_fhtovp (fun n => if n = 5 then Except.ok ⟨5, 0, false⟩ else Except.error Errno.EINVAL)
      false (zfs_vfs_vptofh false ⟨5, 0, false⟩ 16 (List.replicate 16 0)).2.1
      (zfs_vfs_vptofh false ⟨5, 0, false⟩ 16 (List.replicate 16 0)).2.2 =
        (none, some ⟨5, 0, false⟩) :=
  ((zfs_vfs_fhtovp_spec
      (fun n => if n = 5 then Except.ok ⟨5, 0, false⟩ else Except.error Errno.EINVAL)
      16 []).2.2 ⟨5, 0, false⟩ 16 (List.replicate 16 0)
    (by norm_num) (by norm_num) rfl rfl (by decide)).2

/-! ## Registration that fails -/

theorem register_fold_error (env : store_env) (L : List (zfs_prop_t × callback_t))
    (e : Errno) (s : reg_state) :
    L.foldl (register_step env) (some e, s) = (some e, s) := by
  induction L with
  | nil => rfl
  | cons pc L ih => rw [List.foldl_cons]; exact ih

theorem register_fold_ok (env : store_env) (L : List (zfs_prop_t × callback_t)) :
    ∀ (s : reg_state), (∀ pc ∈ L, accepts env pc.1 = true) →
      ∃ s2, L.foldl (register_step env) (none, s) = (none, s2) ∧
        s2.trace = s.trace ++ L.flatMap (attempt_events env) ∧
        ∀ M : List (zfs_prop_t × callback_t), (∀ q ∈ L, q ∈ M) →
          s2.ds_prop_cbs.filter (fun x => decide (x ∉ M)) =
            s.ds_prop_cbs.filter (fun x => decide (x ∉ M)) := by
  induction L with
  | nil => intro s _; exact ⟨s, rfl, by simp, fun _ _ => rfl⟩
  | cons pc L ih =>
    intro s h
    have hpc := h pc (List.mem_cons_self _ _)
    unfold accepts at hpc
    rw [List.foldl_cons]
    cases ha : env.answer pc.1 with
    | error e => rw [ha] at hpc; cases hpc
    | ok v =>
      have hstep : register_step env (none, s) pc =
          (none, { zfsvfs := pc.2.call env s.zfsvfs v
                   ds_prop_cbs := if (pc.1, pc.2) ∈ s.ds_prop_cbs then s.ds_prop_cbs
                     else (pc.1, pc.2) :: s.ds_prop_cbs
                   trace := s.trace ++
                     [reg_event.subscribe pc.1 pc.2, reg_event.notify pc.2 v] }) := by
        unfold register_step dsl_prop_register
        simp only [ha]
      rw [hstep]
      obtain ⟨s2, h2, ht, hf⟩ := ih _ (fun q hq => h q (List.mem_cons_of_mem _ hq))
      refine ⟨s2, h2, ?_, ?_⟩
      · rw [ht, List.flatMap_cons]
        unfold attempt_events
        simp only [ha, List.append_assoc]
      · intro M hM
        rw [hf M (fun q hq => hM q (List.mem_cons_of_mem _ hq))]
        simp only []
        have hin : (pc.1, pc.2) ∈ M := hM pc (List.mem_cons_self _ _)
        split
        · rfl
        · rw [List.filter_cons, if_neg (by simpa using hin)]

theorem unregister_fold (L : List (zfs_prop_t × callback_t)) :
    ∀ (s : reg_state),
      (L.foldl (fun s pc => dsl_prop_unregister s pc.1 pc.2) s).trace =
          s.trace ++ L.map (fun pc => reg_event.unsubscribe pc.1 pc.2)
      ∧ (L.foldl (fun s pc => dsl_prop_unregister s pc.1 pc.2) s).ds_prop_cbs =
          s.ds_prop_cbs.filter (fun x => decide (x ∉ L))
      ∧ (L.foldl (fun s pc => dsl_prop_unregister s pc.1 pc.2) s).zfsvfs = s.zfsvfs := by
  induction L with
  | nil => intro s; simp
  | cons pc L ih =>
    intro s
    rw [List.foldl_cons]
    obtain ⟨h1, h2, h3⟩ := ih (dsl_prop_unregister s pc.1 pc.2)
    refine ⟨?_, ?_, ?_⟩
    · rw [h1]; simp [dsl_prop_unregister]
    · rw [h2]
      simp only [dsl_prop_unregister, List.filter_filter]
      apply List.filter_congr
      intro x _
      by_cases hx : x = (pc.1, pc.2) <;> by_cases hL : x ∈ L <;> simp [hx, hL]
    · rw [h3]; rfl

theorem filterMap_attempts (env : store_env) (L : List (zfs_prop_t × callback_t)) :
    (L.flatMap (attempt_events env)).filterMap subscription_of = L := by
  induction L with
  | nil => rfl
  | cons pc L ih =>
    rw [List.flatMap_cons, List.filterMap_append, ih]
    unfold attempt_events
    cases env.answer pc.1 <;> simp [subscription_of]

theorem filterMap_unsubscribes (L : List (zfs_prop_t × callback_t)) :
    (L.map (fun pc => reg_event.unsubscribe pc.1 pc.2)).filterMap subscription_of = [] := by
  induction L with
  | nil => rfl
  | cons pc L ih => simp [subscription_of]

theorem attempts_not_direct (env : store_env) (L : List (zfs_prop_t × callback_t)) :
    ∀ ev ∈ L.flatMap (attempt_events env), is_direct ev = false := by
  intro ev hev
  rw [List.mem_flatMap] at hev
  obtain ⟨pc, _, h⟩ := hev
  unfold attempt_events at h
  cases ha : env.answer pc.1 with
  | error e =>
    rw [ha] at h
    simp only [List.mem_singleton] at h
    rw [h]; rfl
  | ok v =>
    rw [ha] at h
    simp only [List.mem_cons, List.mem_singleton, List.not_mem_nil, or_false] at h
    rcases h with h | h <;> rw [h] <;> rfl

theorem register_failure (env : store_env) (st : reg_state) (k : Nat)
    (pc : zfs_prop_t × callback_t) (e : Errno) (hsnap : env.is_snapshot = false)
    (hpc : registrations[k]? = some pc)
    (hok : ∀ q ∈ registrations.take k, accepts env q.1 = true)
    (hfail : env.answer pc.1 = Except.error e) :
    (zfs_register_callbacks env st).1 = some e
    ∧ (zfs_register_callbacks env st).2.trace =
        st.trace ++ ((registrations.take (k + 1)).flatMap (attempt_events env) ++
          registrations.map (fun q => reg_event.unsubscribe q.1 q.2))
    ∧ (zfs_register_callbacks env st).2.ds_prop_cbs =
        st.ds_prop_cbs.filter (fun x => decide (x ∉ registrations)) := by
  have hk : k < registrations.length := by
    rcases Nat.lt_or_ge k registrations.length with h | h
    · exact h
    · rw [List.getElem?_eq_none h] at hpc; cases hpc
  have hget : registrations[k] = pc := by
    rw [List.getElem?_eq_getElem hk] at hpc
    exact Option.some.inj hpc
  have hsplit : registrations = registrations.take k ++ pc :: registrations.drop (k + 1) := by
    rw [← hget, ← List.drop_eq_getElem_cons hk, List.take_append_drop]
  have htake : registrations.take (k + 1) = registrations.take k ++ [pc] := by
    rw [List.take_succ, List.getElem?_eq_getElem hk, hget]; rfl
  obtain ⟨s2, hs2, ht2, hf2⟩ := register_fold_ok env (registrations.take k) st hok
  have hstep : register_step env (none, s2) pc =
      (some e, { s2 with trace := s2.trace ++ [reg_event.subscribe pc.1 pc.2] }) := by
    unfold register_step dsl_prop_register
    simp only [hfail]
  have hfold : registrations.foldl (register_step env) (none, st) =
      (some e, { s2 with trace := s2.trace ++ [reg_event.subscribe pc.1 pc.2] }) := by
    conv_lhs => rw [hsplit]
    rw [List.foldl_append, hs2, List.foldl_cons, hstep, register_fold_error]
  have hres : zfs_register_callbacks env st =
      (some e, registrations.foldl (fun s q => dsl_prop_unregister s q.1 q.2)
        { s2 with trace := s2.trace ++ [reg_event.subscribe pc.1 pc.2] }) := by
    unfold zfs_register_callbacks
    rw [if_neg (by simp [hsnap])]
    simp only [hfold]
  obtain ⟨h1, h2, _⟩ := unregister_fold registrations
    { s2 with trace := s2.trace ++ [reg_event.subscribe pc.1 pc.2] }
  rw [hres]
  refine ⟨rfl, ?_, ?_⟩
  · simp only []
    rw [h1, htake, List.flatMap_append]
    simp only [ht2, List.flatMap_cons, List.flatMap_nil, List.append_nil, List.append_assoc]
    unfold attempt_events
    simp only [hfail]
  · simp only []
    rw [h2]
    exact hf2 registrations (fun q hq => List.mem_of_mem_take hq)

/-- C19: with the store's subscriptions kept as an explicit set, let the object set not
be a snapshot, let the store accept the first `k` subscriptions that
`zfs_register_callbacks` makes and answer subscription `k` (to the key of `pc`) with the
error `e`. Then the function returns `e`; the subscription requests it makes are exactly
the first `k + 1` of its twelve, so none after the failing one; it calls no callback
directly (no stashed override is replayed); and on return none of the twelve
subscriptions is in the set: a set that held nothing else on entry is empty. -/
theorem zfs_register_callbacks_failure (env : store_env) (st : reg_state) (k : Nat)
    (pc : zfs_prop_t × callback_t) (e : Errno) (hsnap : env.is_snapshot = false)
    (hpc : registrations[k]? = some pc)
    (hok : ∀ q ∈ registrations.take k, accepts env q.1 = true)
    (hfail : env.answer pc.1 = Except.error e) :
    (zfs_register_callbacks env st).1 = some e
    ∧ (zfs_register_callbacks env st).2.trace =
        st.trace ++ (zfs_register_callbacks env st).2.trace.drop st.trace.length
    ∧ ((zfs_register_callbacks env st).2.trace.drop st.trace.length).filterMap
        subscription_of = registrations.take (k + 1)
    ∧ (∀ ev ∈ (zfs_register_callbacks env st).2.trace.drop st.trace.length,
        is_direct ev = false)
    ∧ (∀ q ∈ registrations, q ∉ (zfs_register_callbacks env st).2.ds_prop_cbs)
    ∧ ((∀ q ∈ st.ds_prop_cbs, q ∈ registrations) →
        (zfs_register_callbacks env st).2.ds_prop_cbs = []) := by
  obtain ⟨h1, h2, h3⟩ := register_failure env st k pc e hsnap hpc hok hfail
  have hdrop : (zfs_register_callbacks env st).2.trace.drop st.trace.length =
      (registrations.take (k + 1)).flatMap (attempt_events env) ++
        registrations.map (fun q => reg_event.unsubscribe q.1 q.2) := by
    rw [h2, List.drop_left]
  refine ⟨h1, ?_, ?_, ?_, ?_, ?_⟩
  · rw [hdrop]; exact h2
  · rw [hdrop, List.filterMap_append, filterMap_attempts, filterMap_unsubscribes,
      List.append_nil]
  · rw [hdrop]
    intro ev hev
    rcases List.mem_append.mp hev with h | h
    · exact attempts_not_direct env _ ev h
    · obtain ⟨q, _, hq⟩ := List.mem_map.mp h
      rw [← hq]; rfl
  · intro q hq hin
    rw [h3, List.mem_filter] at hin
    simpa [hq] using hin.2
  · intro hall
    rw [h3, List.filter_eq_nil_iff]
    intro q hq
    simpa using hall q hq

/-- Witness of C19: the store accepts the subscriptions for `atime` and `xattr` and
answers the one for `recordsize` with `EIO`. -/
theorem zfs_register_callbacks_failure_witness :
    (zfs_register_callbacks
        ⟨false, true, 512, 131072, fun p =>
          if p = zfs_prop_t.ZFS_PROP_RECORDSIZE then Except.error Errno.EIO else Except.ok 1⟩
        ⟨⟨⟨[], []⟩, vfs_mergeopttbl vfs_mntopts zfs_mntopts, 0, 0, 0, 0, 0, 0⟩, [], []⟩).1 =
      some Errno.EIO
    ∧ (zfs_register_callbacks
        ⟨false, true, 512, 131072, fun p =>
          if p = zfs_prop_t.ZFS_PROP_RECORDSIZE then Except.error Errno.EIO else Except.ok 1⟩
        ⟨⟨⟨[], []⟩, vfs_mergeopttbl vfs_mntopts zfs_mntopts, 0, 0, 0, 0, 0, 0⟩, [], []⟩
        ).2.ds_prop_cbs = [] := by
  have h := zfs_register_callbacks_failure
    ⟨false, true, 512, 131072, fun p =>
      if p = zfs_prop_t.ZFS_PROP_RECORDSIZE then Except.error Errno.EIO else Except.ok 1⟩
    ⟨⟨⟨[], []⟩, vfs_mergeopttbl vfs_mntopts zfs_mntopts, 0, 0, 0, 0, 0, 0⟩, [], []⟩
    2 (zfs_prop_t.ZFS_PROP_RECORDSIZE, callback_t.blksz) Errno.EIO rfl rfl (by decide) rfl
  exact ⟨h.1, h.2.2.2.2.2 (by simp)⟩

/-! ## Tables that have the slots of the merged prototypes -/

theorem hasopt_of_shape : ∀ (T M : mntopts_t), T.map slot_shape = M.map slot_shape →
    ∀ n, vfs_hasopt T n = vfs_hasopt M n := by
  intro T
  induction T with
  | nil =>
    intro M h n
    cases M with
    | nil => rfl
    | cons m M => simp at h
  | cons t T ih =>
    intro M h n
    cases M with
    | nil => simp at h
    | cons m M =>
      simp only [List.map_cons, List.cons.injEq] at h
      obtain ⟨hs, hr⟩ := h
      simp only [slot_shape, Prod.mk.injEq] at hs
      obtain ⟨hn, _, he⟩ := hs
      simp only [vfs_hasopt, hn, he, ih M hr n]

theorem opt_names_of_shape (T M : mntopts_t) (h : T.map slot_shape = M.map slot_shape) :
    opt_names T = opt_names M := by
  have key : ∀ X : mntopts_t, opt_names X =
      ((X.map slot_shape).filter (fun p => !p.2.2)).map (fun p => p.1) := by
    intro X
    induction X with
    | nil => rfl
    | cons x X ih =>
      unfold opt_names at ih ⊢
      simp only [List.map_cons, List.filter_cons, slot_shape]
      cases x.mo_flags.empty <;> simp [ih]
  rw [key T, key M, h]

theorem proto_unique {T : mntopts_t} (h : proto_shape T) : unique_names T := by
  unfold unique_names
  rw [opt_names_of_shape T _ h]
  decide

theorem proto_shape_map {T : mntopts_t} (h : proto_shape T) (f : mntopt_t → mntopt_t)
    (hf : ∀ s, slot_shape (f s) = slot_shape s) : proto_shape (T.map f) := by
  unfold proto_shape at h ⊢
  rw [← h, List.map_map]
  apply List.map_congr_left
  intro s _
  exact hf s

theorem slot_shape_clear (s : mntopt_t) : slot_shape (clear_slot s) = slot_shape s := rfl

theorem slot_shape_store (s : mntopt_t) (arg : Option CStr) :
    slot_shape (store_slot s arg SetFlags.zero) = slot_shape s := rfl

theorem slot_shape_toggle (a b : CStr) (s : mntopt_t) :
    slot_shape (toggle a b s) = slot_shape s := by
  unfold toggle
  split
  · rfl
  · split <;> rfl

theorem optionisset_hasopt : ∀ (T : mntopts_t) (n : CStr),
    (vfs_optionisset_nolock T n).1 =
      match vfs_hasopt T (some n) with
      | some i => (T.getD i default).mo_flags.set
      | none => false := by
  intro T n
  induction T with
  | nil => rfl
  | cons t T ih =>
    unfold vfs_optionisset_nolock vfs_hasopt
    by_cases he : t.mo_flags.empty = true
    · rw [if_pos he, if_pos he, ih]
      cases vfs_hasopt T (some n) <;> simp
    · rw [if_neg he, if_neg he]
      by_cases hn : t.mo_name = some n
      · rw [if_neg (by simpa using hn), if_pos hn]
        cases hs : t.mo_flags.set
        · simp [hs]
        · simp only [Bool.true_eq_false, if_false, List.getD_cons_zero, hs]
          split <;> rfl
      · rw [if_pos hn, if_neg hn, ih]
        cases vfs_hasopt T (some n) <;> simp

theorem toggle_eq (T : mntopts_t) (hp : proto_shape T) (a b : CStr) (hab : a ≠ b)
    (hpair : (vfs_hasopt (vfs_mergeopttbl vfs_mntopts zfs_mntopts) (some a)).bind
        (fun i => ((vfs_mergeopttbl vfs_mntopts zfs_mntopts).map slot_shape)[i]?) =
      some (some a, some [b], false)) :
    vfs_setmntopt_nolock (vfs_clearmntopt_nolock T b) a none SetFlags.zero =
      T.map (toggle a b) := by
  have hu := proto_unique hp
  rw [clearmntopt_eq_map T hu b]
  have hshape1 : ∀ s, slot_shape (clear_if b s) = slot_shape s := by
    intro s
    unfold clear_if
    split <;> rfl
  have hp1 : proto_shape (T.map (clear_if b)) := proto_shape_map hp _ hshape1
  have hu1 := proto_unique hp1
  cases hi : vfs_hasopt (vfs_mergeopttbl vfs_mntopts zfs_mntopts) (some a) with
  | none => rw [hi] at hpair; cases hpair
  | some i =>
    rw [hi] at hpair
    simp only [Option.some_bind] at hpair
    have hf : vfs_hasopt (T.map (clear_if b)) (some a) = some i := by
      rw [hasopt_of_shape _ _ hp1]; exact hi
    obtain ⟨a1, ha1, _, _⟩ := hasopt_some hf
    have hsh : slot_shape a1 = (some a, some [b], false) := by
      have h1 : ((T.map (clear_if b)).map slot_shape)[i]? = some (slot_shape a1) := by
        rw [List.getElem?_map, ha1]; rfl
      rw [hp1, hpair] at h1
      exact (Option.some.inj h1).symm
    simp only [slot_shape, Prod.mk.injEq] at hsh
    have hcl : cancel_list a1.mo_cancel = [b] := by rw [hsh.2.1]; rfl
    rw [setmntopt_eq_map _ hu1 a none SetFlags.zero i a1 hf ha1 (by simp [SetFlags.zero])
      (by rw [hcl]; simpa using hab), hcl, List.map_map]
    apply List.map_congr_left
    intro s _
    simp only [Function.comp]
    by_cases he : s.mo_flags.empty = false
    · by_cases hb : s.mo_name = some b
      · have hna : s.mo_name ≠ some a := by
          rw [hb]; intro h; exact hab (Option.some.inj h).symm
        have h1 : clear_if b s = clear_slot s := if_pos ⟨he, hb⟩
        have h2 : set_if a none SetFlags.zero [b] (clear_slot s) = clear_slot (clear_slot s) := by
          unfold set_if
          rw [if_neg (fun h => hna h.2), if_pos ⟨he, b, List.mem_singleton_self b, hb⟩]
        have h3 : toggle a b s = clear_slot s := by
          unfold toggle
          rw [if_neg (fun h => hna h.2), if_pos ⟨he, hb⟩]
        rw [h1, h2, h3]
        rfl
      · have h1 : clear_if b s = s := if_neg (fun h => hb h.2)
        rw [h1]
        unfold set_if toggle
        by_cases ha : s.mo_name = some a
        · rw [if_pos ⟨he, ha⟩, if_pos ⟨he, ha⟩]
        · have hnc : ¬(s.mo_flags.empty = false ∧ ∃ c ∈ [b], s.mo_name = some c) := by
            rintro ⟨_, c, hc, hsc⟩
            rw [List.mem_singleton] at hc
            rw [hc] at hsc
            exact hb hsc
          have hA : ¬(s.mo_flags.empty = false ∧ s.mo_name = some a) := fun h => ha h.2
          have hB : ¬(s.mo_flags.empty = false ∧ s.mo_name = some b) := fun h => hb h.2
          rw [if_neg hA, if_neg hnc, if_neg hB, if_neg hA]
    · have h1 : clear_if b s = s := if_neg (fun h => he h.1)
      rw [h1]
      unfold set_if toggle
      have hA : ¬(s.mo_flags.empty = false ∧ s.mo_name = some a) := fun h => he h.1
      have hB : ¬(s.mo_flags.empty = false ∧ s.mo_name = some b) := fun h => he h.1
      have hC : ¬(s.mo_flags.empty = false ∧ ∃ c ∈ [b], s.mo_name = some c) :=
        fun h => he h.1
      rw [if_neg hA, if_neg hC, if_neg hB, if_neg hA]

theorem isset_toggle (T : mntopts_t) (hp : proto_shape T) (a b : CStr) (hab : a ≠ b)
    (hpair : (vfs_hasopt (vfs_mergeopttbl vfs_mntopts zfs_mntopts) (some a)).bind
        (fun i => ((vfs_mergeopttbl vfs_mntopts zfs_mntopts).map slot_shape)[i]?) =
      some (some a, some [b], false)) (n : CStr) :
    (vfs_optionisset_nolock (T.map (toggle a b)) n).1 =
      if n = a then true else if n = b then false else (vfs_optionisset_nolock T n).1 := by
  have hp1 : proto_shape (T.map (toggle a b)) := proto_shape_map hp _ (slot_shape_toggle a b)
  rw [optionisset_hasopt, optionisset_hasopt, hasopt_of_shape _ _ hp1,
    ← hasopt_of_shape _ _ hp]
  cases hi : vfs_hasopt T (some n) with
  | none =>
    simp only []
    by_cases hna : n = a
    · subst hna
      rw [hasopt_of_shape _ _ hp] at hi
      rw [hi] at hpair
      cases hpair
    · rw [if_neg hna]
      split <;> rfl
  | some i =>
    obtain ⟨s, hs, he, hn⟩ := hasopt_some hi
    have hg1 : (T.map (toggle a b)).getD i default = toggle a b s := by
      rw [List.getD_eq_getElem?_getD, List.getElem?_map, hs]; rfl
    have hg0 : T.getD i default = s := by
      rw [List.getD_eq_getElem?_getD, hs]; rfl
    simp only [hg1, hg0]
    unfold toggle
    by_cases hna : n = a
    · subst hna
      rw [if_pos ⟨he, hn⟩, if_pos rfl]
      rfl
    · have h1 : s.mo_name ≠ some a := by
        rw [hn]; intro h; exact hna (Option.some.inj h)
      rw [if_neg (fun h => h1 h.2), if_neg hna]
      by_cases hnb : n = b
      · subst hnb
        rw [if_pos ⟨he, hn⟩, if_pos rfl]
        rfl
      · have h2 : s.mo_name ≠ some b := by
          rw [hn]; intro h; exact hnb (Option.some.inj h)
        rw [if_neg (fun h => h2 h.2), if_neg hnb]

/-! ## What a callback does to the table and to the mount flags -/

theorem vfs_flags_setflags (mp : mount) (g f : MntFlag) :
    vfs_flags (vfs_setflags mp g) f = if f = g then true else vfs_flags mp f := by
  unfold vfs_flags vfs_setflags
  by_cases hfg : f = g
  · subst hfg
    by_cases hin : f ∈ mp.mnt_flag <;> simp [hin]
  · by_cases hin : g ∈ mp.mnt_flag <;> simp [hin, hfg]

theorem vfs_flags_clearflags (mp : mount) (g f : MntFlag) :
    vfs_flags (vfs_clearflags mp g) f = if f = g then false else vfs_flags mp f := by
  unfold vfs_flags vfs_clearflags
  by_cases hfg : f = g
  · subst hfg; simp
  · simp [hfg]

theorem cb_pair_ok (c : callback_t) (v : Nat) (p : CStr × CStr) (h : cb_pair c v = some p) :
    p.1 ≠ p.2 ∧
    (vfs_hasopt (vfs_mergeopttbl vfs_mntopts zfs_mntopts) (some p.1)).bind
        (fun i => ((vfs_mergeopttbl vfs_mntopts zfs_mntopts).map slot_shape)[i]?) =
      some (some p.1, some [p.2], false) := by
  cases c <;> simp only [cb_pair, Option.some.injEq, reduceCtorEq] at h <;>
    (subst h; split <;> decide)

theorem cb_pair_names (c : callback_t) (v : Nat) (p : CStr × CStr) (h : cb_pair c v = some p) :
    cb_names c = [p.1, p.2] ∨ cb_names c = [p.2, p.1] := by
  cases c <;> simp only [cb_pair, Option.some.injEq, reduceCtorEq] at h <;>
    (subst h; split <;> simp [cb_names])

theorem cb_names_nil (c : callback_t) (v : Nat) (h : cb_pair c v = none) : cb_names c = [] := by
  cases c <;> simp only [cb_pair, reduceCtorEq] at h <;> rfl

theorem cb_table (env : store_env) (c : callback_t) (z : zfsvfs_t) (v : Nat) :
    (c.call env z v).vfs_mntopts =
      match cb_pair c v with
      | some p =>
        vfs_setmntopt_nolock (vfs_clearmntopt_nolock z.vfs_mntopts p.2) p.1 none SetFlags.zero
      | none => z.vfs_mntopts := by
  cases c <;> simp only [callback_t.call, cb_pair]
  · unfold atime_changed_cb; split <;> rfl
  · unfold xattr_changed_cb; split <;> rfl
  · rfl
  · unfold readonly_changed_cb; split <;> rfl
  · unfold devices_changed_cb; split <;> rfl
  · unfold setuid_changed_cb; split <;> rfl
  · unfold exec_changed_cb; split <;> rfl
  · unfold nbmand_changed_cb; split <;> rfl
  · rfl
  · rfl
  · rfl
  · rfl
  · unfold finderbrowse_changed_cb; split <;> rfl
  · unfold ignoreowner_changed_cb; split <;> rfl

theorem cb_flags (env : store_env) (c : callback_t) (z : zfsvfs_t) (v : Nat) (f : MntFlag) :
    vfs_flags (c.call env z v).z_vfs f =
      match cb_flag c v with
      | some p => if f = p.1 then p.2 else vfs_flags z.z_vfs f
      | none => vfs_flags z.z_vfs f := by
  cases c <;> simp only [callback_t.call, cb_flag]
  · unfold atime_changed_cb
    split
    · rename_i h
      simp only [vfs_setmntopt_on_mount, vfs_clearmntopt_on_mount]
      rw [show decide (v ≠ TRUE) = false by simp [h]]
      exact vfs_flags_clearflags z.z_vfs _ f
    · rename_i h
      simp only [vfs_setmntopt_on_mount, vfs_clearmntopt_on_mount]
      rw [show decide (v ≠ TRUE) = true by simp [h]]
      exact vfs_flags_setflags z.z_vfs _ f
  · unfold xattr_changed_cb
    split
    · rename_i h
      simp only [vfs_setmntopt, vfs_clearmntopt]
      rw [show decide (v ≠ TRUE) = false by simp [h]]
      exact vfs_flags_clearflags z.z_vfs _ f
    · rename_i h
      simp only [vfs_setmntopt, vfs_clearmntopt]
      rw [show decide (v ≠ TRUE) = true by simp [h]]
      exact vfs_flags_setflags z.z_vfs _ f
  · rfl
  · unfold readonly_changed_cb
    split
    · rename_i h
      simp only [vfs_setmntopt, vfs_clearmntopt]
      rw [show decide (v ≠ 0) = true by simp [h]]
      exact vfs_flags_setflags z.z_vfs _ f
    · rename_i h
      simp only [vfs_setmntopt, vfs_clearmntopt]
      rw [show decide (v ≠ 0) = false by simp [h]]
      exact vfs_flags_clearflags z.z_vfs _ f
  · unfold devices_changed_cb
    split
    · rename_i h
      simp only [vfs_setmntopt, vfs_clearmntopt]
      rw [show decide (v = FALSE) = true by simp [h]]
      exact vfs_flags_setflags z.z_vfs _ f
    · rename_i h
      simp only [vfs_setmntopt, vfs_clearmntopt]
      rw [show decide (v = FALSE) = false by simp [h]]
      exact vfs_flags_clearflags z.z_vfs _ f
  · unfold setuid_changed_cb
    split
    · rename_i h
      simp only [vfs_setmntopt, vfs_clearmntopt]
      rw [show decide (v = FALSE) = true by simp [h]]
      exact vfs_flags_setflags z.z_vfs _ f
    · rename_i h
      simp only [vfs_setmntopt, vfs_clearmntopt]
      rw [show decide (v = FALSE) = false by simp [h]]
      exact vfs_flags_clearflags z.z_vfs _ f
  · unfold exec_changed_cb
    split
    · rename_i h
      simp only [vfs_setmntopt, vfs_clearmntopt]
      rw [show decide (v = FALSE) = true by simp [h]]
      exact vfs_flags_setflags z.z_vfs _ f
    · rename_i h
      simp only [vfs_setmntopt, vfs_clearmntopt]
      rw [show decide (v = FALSE) = false by simp [h]]
      exact vfs_flags_clearflags z.z_vfs _ f
  · unfold nbmand_changed_cb; split <;> rfl
  · rfl
  · rfl
  · rfl
  · rfl
  · unfold finderbrowse_changed_cb
    split
    · rename_i h
      simp only [vfs_setmntopt, vfs_clearmntopt]
      rw [show decide (v ≠ TRUE) = false by simp [h]]
      exact vfs_flags_clearflags z.z_vfs _ f
    · rename_i h
      simp only [vfs_setmntopt, vfs_clearmntopt]
      rw [show decide (v ≠ TRUE) = true by simp [h]]
      exact vfs_flags_setflags z.z_vfs _ f
  · unfold ignoreowner_changed_cb
    split
    · rename_i h
      simp only [vfs_setmntopt, vfs_clearmntopt]
      rw [show decide (v ≠ 0) = true by simp [h]]
      exact vfs_flags_setflags z.z_vfs _ f
    · rename_i h
      simp only [vfs_setmntopt, vfs_clearmntopt]
      rw [show decide (v ≠ 0) = false by simp [h]]
      exact vfs_flags_clearflags z.z_vfs _ f

/-! ## The stashed overrides -/

theorem stash_readonly (env : store_env) (z : zfsvfs_t) :
    (stash_overrides env z).do_readonly =
        (vfs_optionisset z MNTOPT_RO || !env.spa_writeable || vfs_optionisset z MNTOPT_RW)
    ∧ (stash_overrides env z).readonly =
        (if (vfs_optionisset z MNTOPT_RO || !env.spa_writeable) = true then TRUE else FALSE) := by
  unfold stash_overrides
  simp only [apply_ite overrides.do_readonly, apply_ite overrides.readonly, ite_self]
  constructor
  · cases vfs_optionisset z MNTOPT_RO <;> cases env.spa_writeable <;>
      cases vfs_optionisset z MNTOPT_RW <;> rfl
  · cases vfs_optionisset z MNTOPT_RO <;> cases env.spa_writeable <;>
      cases vfs_optionisset z MNTOPT_RW <;> rfl

theorem stash_devices (env : store_env) (z : zfsvfs_t) :
    (stash_overrides env z).do_devices =
        (vfs_optionisset z MNTOPT_NOSUID || vfs_optionisset z MNTOPT_NODEVICES ||
          vfs_optionisset z MNTOPT_DEVICES)
    ∧ (stash_overrides env z).devices =
        (if (vfs_optionisset z MNTOPT_NOSUID || vfs_optionisset z MNTOPT_NODEVICES) = true
          then FALSE
          else if vfs_optionisset z MNTOPT_DEVICES = true then TRUE else FALSE) := by
  unfold stash_overrides
  simp only [apply_ite overrides.do_devices, apply_ite overrides.devices, ite_self]
  constructor
  · cases vfs_optionisset z MNTOPT_NOSUID <;> cases vfs_optionisset z MNTOPT_NODEVICES <;>
      cases vfs_optionisset z MNTOPT_DEVICES <;> rfl
  · cases vfs_optionisset z MNTOPT_NOSUID <;> cases vfs_optionisset z MNTOPT_NODEVICES <;>
      cases vfs_optionisset z MNTOPT_DEVICES <;> rfl

theorem stash_setuid (env : store_env) (z : zfsvfs_t) :
    (stash_overrides env z).do_setuid =
        (vfs_optionisset z MNTOPT_NOSUID || vfs_optionisset z MNTOPT_NOSETUID ||
          vfs_optionisset z MNTOPT_SETUID)
    ∧ (stash_overrides env z).setuid =
        (if (vfs_optionisset z MNTOPT_NOSUID || vfs_optionisset z MNTOPT_NOSETUID) = true
          then FALSE
          else if vfs_optionisset z MNTOPT_SETUID = true then TRUE else FALSE) := by
  unfold stash_overrides
  simp only [apply_ite overrides.do_setuid, apply_ite overrides.setuid, ite_self]
  constructor
  · cases vfs_optionisset z MNTOPT_NOSUID <;> cases vfs_optionisset z MNTOPT_NOSETUID <;>
      cases vfs_optionisset z MNTOPT_SETUID <;> rfl
  · cases vfs_optionisset z MNTOPT_NOSUID <;> cases vfs_optionisset z MNTOPT_NOSETUID <;>
      cases vfs_optionisset z MNTOPT_SETUID <;> rfl

theorem stash_exec (env : store_env) (z : zfsvfs_t) :
    (stash_overrides env z).do_exec =
        (vfs_optionisset z MNTOPT_NOEXEC || vfs_optionisset z MNTOPT_EXEC)
    ∧ (stash_overrides env z).exec =
        (if vfs_optionisset z MNTOPT_NOEXEC = true then FALSE
          else if vfs_optionisset z MNTOPT_EXEC = true then TRUE else FALSE) := by
  unfold stash_overrides
  simp only [apply_ite overrides.do_exec, apply_ite overrides.exec, ite_self]
  constructor
  · cases vfs_optionisset z MNTOPT_NOEXEC <;> cases vfs_optionisset z MNTOPT_EXEC <;> rfl
  · cases vfs_optionisset z MNTOPT_NOEXEC <;> cases vfs_optionisset z MNTOPT_EXEC <;> rfl

theorem stash_xattr (env : store_env) (z : zfsvfs_t) :
    (stash_overrides env z).do_xattr =
        (vfs_optionisset z MNTOPT_NOXATTR || vfs_optionisset z MNTOPT_XATTR)
    ∧ (stash_overrides env z).xattr =
        (if vfs_optionisset z MNTOPT_NOXATTR = true then FALSE
          else if vfs_optionisset z MNTOPT_XATTR = true then TRUE else FALSE) := by
  unfold stash_overrides
  simp only [apply_ite overrides.do_xattr, apply_ite overrides.xattr, ite_self]
  constructor
  · cases vfs_optionisset z MNTOPT_NOXATTR <;> cases vfs_optionisset z MNTOPT_XATTR <;> rfl
  · cases vfs_optionisset z MNTOPT_NOXATTR <;> cases vfs_optionisset z MNTOPT_XATTR <;> rfl

theorem stash_atime (env : store_env) (z : zfsvfs_t) :
    (stash_overrides env z).do_atime =
        (vfs_optionisset z MNTOPT_NOATIME || vfs_optionisset z MNTOPT_ATIME)
    ∧ (stash_overrides env z).atime =
        (if vfs_optionisset z MNTOPT_NOATIME = true then FALSE
          else if vfs_optionisset z MNTOPT_ATIME = true then TRUE else FALSE) := by
  unfold stash_overrides
  simp only [apply_ite overrides.do_atime, apply_ite overrides.atime, ite_self]
  constructor
  · cases vfs_optionisset z MNTOPT_NOATIME <;> cases vfs_optionisset z MNTOPT_ATIME <;> rfl
  · cases vfs_optionisset z MNTOPT_NOATIME <;> cases vfs_optionisset z MNTOPT_ATIME <;> rfl

/-! ## Callbacks on an instance with the merged prototype table -/

theorem cb_shape (env : store_env) (c : callback_t) (z : zfsvfs_t) (v : Nat)
    (hp : proto_shape z.vfs_mntopts) : proto_shape (c.call env z v).vfs_mntopts := by
  rw [cb_table]
  cases h : cb_pair c v with
  | none => exact hp
  | some p =>
    obtain ⟨hne, hpair⟩ := cb_pair_ok c v p h
    simp only []
    rw [toggle_eq _ hp p.1 p.2 hne hpair]
    exact proto_shape_map hp _ (slot_shape_toggle p.1 p.2)

theorem cb_isset (env : store_env) (c : callback_t) (z : zfsvfs_t) (v : Nat)
    (hp : proto_shape z.vfs_mntopts) (n : CStr) :
    vfs_optionisset (c.call env z v) n =
      match cb_pair c v with
      | some p => if n = p.1 then true else if n = p.2 then false else vfs_optionisset z n
      | none => vfs_optionisset z n := by
  unfold vfs_optionisset
  rw [cb_table]
  cases h : cb_pair c v with
  | none => rfl
  | some p =>
    obtain ⟨hne, hpair⟩ := cb_pair_ok c v p h
    simp only []
    rw [toggle_eq _ hp p.1 p.2 hne hpair, isset_toggle _ hp p.1 p.2 hne hpair]

theorem cb_isset_frame (env : store_env) (c : callback_t) (z : zfsvfs_t) (v : Nat)
    (hp : proto_shape z.vfs_mntopts) (n : CStr) (hn : n ∉ cb_names c) :
    vfs_optionisset (c.call env z v) n = vfs_optionisset z n := by
  rw [cb_isset env c z v hp n]
  cases h : cb_pair c v with
  | none => rfl
  | some p =>
    simp only []
    have h1 : n ≠ p.1 ∧ n ≠ p.2 := by
      rcases cb_pair_names c v p h with hh | hh <;> rw [hh] at hn <;>
        simp only [List.mem_cons, List.mem_singleton, List.not_mem_nil, or_false, not_or] at hn
      · exact hn
      · exact ⟨hn.2, hn.1⟩
    rw [if_neg h1.1, if_neg h1.2]

theorem cb_flagname_of (c : callback_t) (v : Nat) (p : MntFlag × Bool)
    (h : cb_flag c v = some p) : cb_flagname c = some p.1 := by
  cases c <;> simp only [cb_flag, Option.some.injEq, reduceCtorEq] at h <;>
    (subst h; rfl)

theorem cb_flags_frame (env : store_env) (c : callback_t) (z : zfsvfs_t) (v : Nat)
    (f : MntFlag) (hf : cb_flagname c ≠ some f) :
    vfs_flags (c.call env z v).z_vfs f = vfs_flags z.z_vfs f := by
  rw [cb_flags env c z v f]
  cases h : cb_flag c v with
  | none => rfl
  | some p =>
    simp only []
    rw [if_neg]
    intro hfp
    apply hf
    rw [cb_flagname_of c v p h, hfp]

/-! ## Registration and replay on an instance with the merged prototype table -/

theorem call_direct_zfsvfs (env : store_env) (d : Bool) (c : callback_t) (v : Nat)
    (st : reg_state) :
    (call_direct env d c v st).zfsvfs = if d = true then c.call env st.zfsvfs v else st.zfsvfs := by
  unfold call_direct
  split <;> rfl

theorem replay_eq_fold (env : store_env) (o : overrides) (st : reg_state) :
    replay_overrides env o st =
      (replay_list o).foldl
        (fun s (t : Bool × callback_t × Nat) => call_direct env t.1 t.2.1 t.2.2 s) st := rfl

theorem direct_fold_inv (env : store_env) (L : List (Bool × callback_t × Nat)) :
    ∀ st : reg_state, proto_shape st.zfsvfs.vfs_mntopts →
      proto_shape
        (L.foldl (fun s (t : Bool × callback_t × Nat) => call_direct env t.1 t.2.1 t.2.2 s)
          st).zfsvfs.vfs_mntopts
      ∧ (∀ n, (∀ c ∈ L.map (fun t => t.2.1), n ∉ cb_names c) →
          vfs_optionisset
            (L.foldl (fun s (t : Bool × callback_t × Nat) => call_direct env t.1 t.2.1 t.2.2 s)
              st).zfsvfs n = vfs_optionisset st.zfsvfs n)
      ∧ (∀ f, (∀ c ∈ L.map (fun t => t.2.1), cb_flagname c ≠ some f) →
          vfs_flags
            (L.foldl (fun s (t : Bool × callback_t × Nat) => call_direct env t.1 t.2.1 t.2.2 s)
              st).zfsvfs.z_vfs f = vfs_flags st.zfsvfs.z_vfs f) := by
  induction L with
  | nil => intro st hp; exact ⟨hp, fun _ _ => rfl, fun _ _ => rfl⟩
  | cons t L ih =>
    intro st hp
    rw [List.foldl_cons]
    have hz := call_direct_zfsvfs env t.1 t.2.1 t.2.2 st
    have hp1 : proto_shape (call_direct env t.1 t.2.1 t.2.2 st).zfsvfs.vfs_mntopts := by
      rw [hz]
      split
      · exact cb_shape env _ _ _ hp
      · exact hp
    obtain ⟨i1, i2, i3⟩ := ih _ hp1
    refine ⟨i1, ?_, ?_⟩
    · intro n hn
      rw [i2 n (fun c hc => hn c (by rw [List.map_cons]; exact List.mem_cons_of_mem _ hc)), hz]
      split
      · exact cb_isset_frame env _ _ _ hp n
          (hn _ (by rw [List.map_cons]; exact List.mem_cons_self _ _))
      · rfl
    · intro f hf
      rw [i3 f (fun c hc => hf c (by rw [List.map_cons]; exact List.mem_cons_of_mem _ hc)), hz]
      split
      · exact cb_flags_frame env _ _ _ f
          (hf _ (by rw [List.map_cons]; exact List.mem_cons_self _ _))
      · rfl

theorem register_fold_inv (env : store_env) (L : List (zfs_prop_t × callback_t)) :
    ∀ acc : Option Errno × reg_state, proto_shape acc.2.zfsvfs.vfs_mntopts →
      proto_shape (L.foldl (register_step env) acc).2.zfsvfs.vfs_mntopts
      ∧ (∀ n, (∀ c ∈ L.map Prod.snd, n ∉ cb_names c) →
          vfs_optionisset (L.foldl (register_step env) acc).2.zfsvfs n =
            vfs_optionisset acc.2.zfsvfs n) := by
  induction L with
  | nil => intro acc hp; exact ⟨hp, fun _ _ => rfl⟩
  | cons q L ih =>
    intro acc hp
    rw [List.foldl_cons]
    have hz : (register_step env acc q).2.zfsvfs = acc.2.zfsvfs ∨
        ∃ v, (register_step env acc q).2.zfsvfs = q.2.call env acc.2.zfsvfs v := by
      unfold register_step
      cases acc.1 with
      | some e => exact Or.inl rfl
      | none =>
        simp only []
        unfold dsl_prop_register
        cases env.answer q.1 with
        | error e => exact Or.inl rfl
        | ok v => exact Or.inr ⟨v, rfl⟩
    have hp1 : proto_shape (register_step env acc q).2.zfsvfs.vfs_mntopts := by
      rcases hz with h | ⟨v, h⟩
      · rw [h]; exact hp
      · rw [h]; exact cb_shape env _ _ _ hp
    obtain ⟨i1, i2⟩ := ih _ hp1
    refine ⟨i1, ?_⟩
    intro n hn
    rw [i2 n (fun c hc => hn c (by rw [List.map_cons]; exact List.mem_cons_of_mem _ hc))]
    rcases hz with h | ⟨v, h⟩
    · rw [h]
    · rw [h]
      exact cb_isset_frame env _ _ _ hp n
        (hn _ (by rw [List.map_cons]; exact List.mem_cons_self _ _))

theorem replay_names (env : store_env) (o : overrides) (st : reg_state)
    (hp : proto_shape st.zfsvfs.vfs_mntopts) (L1 L2 : List (Bool × callback_t × Nat))
    (d : Bool) (c : callback_t) (v : Nat) (a b : CStr)
    (hL : replay_list o = L1 ++ (d, c, v) :: L2) (hd : d = true)
    (hpair : cb_pair c v = some (a, b)) (cs : List callback_t)
    (hcs : L2.map (fun t => t.2.1) = cs)
    (hfr : ∀ c2 ∈ cs, a ∉ cb_names c2 ∧ b ∉ cb_names c2) :
    vfs_optionisset (replay_overrides env o st).zfsvfs a = true
    ∧ vfs_optionisset (replay_overrides env o st).zfsvfs b = false := by
  rw [replay_eq_fold, hL, List.foldl_append, List.foldl_cons]
  obtain ⟨hp1, _, _⟩ := direct_fold_inv env L1 st hp
  have hz := call_direct_zfsvfs env d c v
    (L1.foldl (fun s (t : Bool × callback_t × Nat) => call_direct env t.1 t.2.1 t.2.2 s) st)
  rw [if_pos hd] at hz
  have hp2 := cb_shape env c _ v hp1
  rw [← hz] at hp2
  obtain ⟨_, i2, _⟩ := direct_fold_inv env L2 _ hp2
  obtain ⟨hne, _⟩ := cb_pair_ok c v (a, b) hpair
  rw [i2 a (by rw [hcs]; exact fun c2 h2 => (hfr c2 h2).1),
    i2 b (by rw [hcs]; exact fun c2 h2 => (hfr c2 h2).2), hz,
    cb_isset env c _ v hp1 a, cb_isset env c _ v hp1 b, hpair]
  have hba : b ≠ a := fun h => hne h.symm
  exact ⟨by simp, by simp [hba]⟩

theorem replay_flag (env : store_env) (o : overrides) (st : reg_state)
    (hp : proto_shape st.zfsvfs.vfs_mntopts) (L1 L2 : List (Bool × callback_t × Nat))
    (d : Bool) (c : callback_t) (v : Nat) (f : MntFlag) (val : Bool)
    (hL : replay_list o = L1 ++ (d, c, v) :: L2) (hd : d = true)
    (hflag : cb_flag c v = some (f, val)) (cs : List callback_t)
    (hcs : L2.map (fun t => t.2.1) = cs)
    (hfr : ∀ c2 ∈ cs, cb_flagname c2 ≠ some f) :
    vfs_flags (replay_overrides env o st).zfsvfs.z_vfs f = val := by
  rw [replay_eq_fold, hL, List.foldl_append, List.foldl_cons]
  obtain ⟨hp1, _, _⟩ := direct_fold_inv env L1 st hp
  have hz := call_direct_zfsvfs env d c v
    (L1.foldl (fun s (t : Bool × callback_t × Nat) => call_direct env t.1 t.2.1 t.2.2 s) st)
  rw [if_pos hd] at hz
  have hp2 := cb_shape env c _ v hp1
  rw [← hz] at hp2
  obtain ⟨_, _, i3⟩ := direct_fold_inv env L2 _ hp2
  rw [i3 f (by rw [hcs]; exact hfr), hz, cb_flags env c _ v f, hflag]
  simp

theorem replay_target (env : store_env) (o : overrides) (st : reg_state)
    (hp : proto_shape st.zfsvfs.vfs_mntopts) (L1 L2 : List (Bool × callback_t × Nat))
    (d : Bool) (c : callback_t) (v : Nat) (a b : CStr) (f : MntFlag) (val : Bool)
    (hL : replay_list o = L1 ++ (d, c, v) :: L2) (hd : d = true)
    (hpair : cb_pair c v = some (a, b)) (hflag : cb_flag c v = some (f, val))
    (cs : List callback_t) (hcs : L2.map (fun t => t.2.1) = cs)
    (hfr : ∀ c2 ∈ cs, a ∉ cb_names c2 ∧ b ∉ cb_names c2 ∧ cb_flagname c2 ≠ some f) :
    vfs_optionisset (replay_overrides env o st).zfsvfs a = true
    ∧ vfs_optionisset (replay_overrides env o st).zfsvfs b = false
    ∧ vfs_flags (replay_overrides env o st).zfsvfs.z_vfs f = val := by
  obtain ⟨h1, h2⟩ := replay_names env o st hp L1 L2 d c v a b hL hd hpair cs hcs
    (fun c2 h => ⟨(hfr c2 h).1, (hfr c2 h).2.1⟩)
  exact ⟨h1, h2, replay_flag env o st hp L1 L2 d c v f val hL hd hflag cs hcs
    (fun c2 h => (hfr c2 h).2.2)⟩

theorem replay_untouched (env : store_env) (o : overrides) (st : reg_state)
    (hp : proto_shape st.zfsvfs.vfs_mntopts) (n : CStr)
    (h : ∀ c ∈ [callback_t.readonly, callback_t.setuid, callback_t.exec, callback_t.devices,
      callback_t.xattr, callback_t.atime, callback_t.finderbrowse, callback_t.ignoreowner,
      callback_t.nbmand], n ∉ cb_names c) :
    vfs_optionisset (replay_overrides env o st).zfsvfs n = vfs_optionisset st.zfsvfs n :=
  (direct_fold_inv env (replay_list o) st hp).2.1 n h

theorem register_all_ok (env : store_env) (st : reg_state)
    (hsnap : env.is_snapshot = false) (hshape : proto_shape st.zfsvfs.vfs_mntopts)
    (hall : ∀ q ∈ registrations, accepts env q.1 = true) :
    ∃ s2, zfs_register_callbacks env st =
        (none, replay_overrides env (stash_overrides env st.zfsvfs) s2)
      ∧ proto_shape s2.zfsvfs.vfs_mntopts
      ∧ (∀ n, (∀ c ∈ registrations.map Prod.snd, n ∉ cb_names c) →
          vfs_optionisset s2.zfsvfs n = vfs_optionisset st.zfsvfs n) := by
  obtain ⟨s2, hs2, _, _⟩ := register_fold_ok env registrations st hall
  obtain ⟨i1, i2⟩ := register_fold_inv env registrations (none, st) hshape
  rw [hs2] at i1 i2
  refine ⟨s2, ?_, i1, i2⟩
  unfold zfs_register_callbacks
  rw [if_neg (by simp [hsnap])]
  simp only [hs2]

/-- C20: on an instance whose option table has the slots of the merged prototype tables,
when the object set is not a snapshot and the store accepts every subscription,
`zfs_register_callbacks` returns 0 and each temporary override wins, whatever persisted
values the store delivered to the callbacks during registration: for "ro"/"rw",
"exec"/"noexec", "xattr"/"noxattr", "atime"/"noatime", and, when "nosuid" is not SET on
entry, "devices"/"nodevices" and "setuid"/"nosetuid", if one option of the pair is SET on
entry and its opposite is not (for "rw": and the pool is writable), then on return that
option is SET, its opposite is not SET and the mount flag of the pair (`MNT_RDONLY`,
`MNT_NOEXEC`, `MNT_NOUSERXATTR`, `MNT_NOATIME`, `MNT_NODEV`, `MNT_NOSUID`) is on for the
negative option and off for the positive one. -/
theorem zfs_register_callbacks_overrides (env : store_env) (st : reg_state)
    (hsnap : env.is_snapshot = false) (hshape : proto_shape st.zfsvfs.vfs_mntopts)
    (hall : ∀ q ∈ registrations, accepts env q.1 = true) :
    (zfs_register_callbacks env st).1 = none
    ∧ override_holds st.zfsvfs (zfs_register_callbacks env st).2.zfsvfs
        MNTOPT_RO MNTOPT_RW MntFlag.MNT_RDONLY true
    ∧ (env.spa_writeable = true →
        override_holds st.zfsvfs (zfs_register_callbacks env st).2.zfsvfs
          MNTOPT_RW MNTOPT_RO MntFlag.MNT_RDONLY false)
    ∧ override_holds st.zfsvfs (zfs_register_callbacks env st).2.zfsvfs
        MNTOPT_EXEC MNTOPT_NOEXEC MntFlag.MNT_NOEXEC false
    ∧ override_holds st.zfsvfs (zfs_register_callbacks env st).2.zfsvfs
        MNTOPT_NOEXEC MNTOPT_EXEC MntFlag.MNT_NOEXEC true
    ∧ override_holds st.zfsvfs (zfs_register_callbacks env st).2.zfsvfs
        MNTOPT_XATTR MNTOPT_NOXATTR MntFlag.MNT_NOUSERXATTR false
    ∧ override_holds st.zfsvfs (zfs_register_callbacks env st).2.zfsvfs
        MNTOPT_NOXATTR MNTOPT_XATTR MntFlag.MNT_NOUSERXATTR true
    ∧ override_holds st.zfsvfs (zfs_register_callbacks env st).2.zfsvfs
        MNTOPT_ATIME MNTOPT_NOATIME MntFlag.MNT_NOATIME false
    ∧ override_holds st.zfsvfs (zfs_register_callbacks env st).2.zfsvfs
        MNTOPT_NOATIME MNTOPT_ATIME MntFlag.MNT_NOATIME true
    ∧ (vfs_optionisset st.zfsvfs MNTOPT_NOSUID = false →
        override_holds st.zfsvfs (zfs_register_callbacks env st).2.zfsvfs
          MNTOPT_DEVICES MNTOPT_NODEVICES MntFlag.MNT_NODEV false
        ∧ override_holds st.zfsvfs (zfs_register_callbacks env st).2.zfsvfs
          MNTOPT_NODEVICES MNTOPT_DEVICES MntFlag.MNT_NODEV true
        ∧ override_holds st.zfsvfs (zfs_register_callbacks env st).2.zfsvfs
          MNTOPT_SETUID MNTOPT_NOSETUID MntFlag.MNT_NOSUID false
        ∧ override_holds st.zfsvfs (zfs_register_callbacks env st).2.zfsvfs
          MNTOPT_NOSETUID MNTOPT_SETUID MntFlag.MNT_NOSUID true) := by
  obtain ⟨s2, hres, hp2, hfr2⟩ := register_all_ok env st hsnap hshape hall
  obtain ⟨o, ho⟩ : ∃ o, o = stash_overrides env st.zfsvfs := ⟨_, rfl⟩
  rw [hres, ← ho]
  simp only []
  have hro := stash_readonly env st.zfsvfs
  have hdev := stash_devices env st.zfsvfs
  have hsu := stash_setuid env st.zfsvfs
  have hex := stash_exec env st.zfsvfs
  have hxa := stash_xattr env st.zfsvfs
  have hat := stash_atime env st.zfsvfs
  rw [← ho] at hro hdev hsu hex hxa hat
  refine ⟨trivial, ?_, ?_, ?_, ?_, ?_, ?_, ?_, ?_, ?_⟩
  · intro h1 _
    rw [h1] at hro
    exact replay_target env o s2 hp2 [] _ o.do_readonly callback_t.readonly o.readonly
      MNTOPT_RO MNTOPT_RW MntFlag.MNT_RDONLY true rfl (by rw [hro.1]; rfl)
      (by rw [hro.2]; rfl) (by rw [hro.2]; rfl)
      [callback_t.setuid, callback_t.exec, callback_t.devices, callback_t.xattr,
        callback_t.atime, callback_t.finderbrowse, callback_t.ignoreowner, callback_t.nbmand]
      rfl (by decide)
  · intro hw h1 h2
    rw [h1, h2, hw] at hro
    exact replay_target env o s2 hp2 [] _ o.do_readonly callback_t.readonly o.readonly
      MNTOPT_RW MNTOPT_RO MntFlag.MNT_RDONLY false rfl (by rw [hro.1]; rfl)
      (by rw [hro.2]; rfl) (by rw [hro.2]; rfl)
      [callback_t.setuid, callback_t.exec, callback_t.devices, callback_t.xattr,
        callback_t.atime, callback_t.finderbrowse, callback_t.ignoreowner, callback_t.nbmand]
      rfl (by decide)
  · intro h1 h2
    rw [h1, h2] at hex
    exact replay_target env o s2 hp2 ((replay_list o).take 2) ((replay_list o).drop 3)
      o.do_exec callback_t.exec o.exec
      MNTOPT_EXEC MNTOPT_NOEXEC MntFlag.MNT_NOEXEC false rfl (by rw [hex.1]; rfl)
      (by rw [hex.2]; rfl) (by rw [hex.2]; rfl)
      [callback_t.devices, callback_t.xattr, callback_t.atime, callback_t.finderbrowse, callback_t.ignoreowner, callback_t.nbmand]
      rfl (by decide)
  · intro h1 h2
    rw [h1] at hex
    exact replay_target env o s2 hp2 ((replay_list o).take 2) ((replay_list o).drop 3)
      o.do_exec callback_t.exec o.exec
      MNTOPT_NOEXEC MNTOPT_EXEC MntFlag.MNT_NOEXEC true rfl (by rw [hex.1]; rfl)
      (by rw [hex.2]; rfl) (by rw [hex.2]; rfl)
      [callback_t.devices, callback_t.xattr, callback_t.atime, callback_t.finderbrowse, callback_t.ignoreowner, callback_t.nbmand]
      rfl (by decide)
  · intro h1 h2
    rw [h1, h2] at hxa
    exact replay_target env o s2 hp2 ((replay_list o).take 4) ((replay_list o).drop 5)
      o.do_xattr callback_t.xattr o.xattr
      MNTOPT_XATTR MNTOPT_NOXATTR MntFlag.MNT_NOUSERXATTR false rfl (by rw [hxa.1]; rfl)
      (by rw [hxa.2]; rfl) (by rw [hxa.2]; rfl)
      [callback_t.atime, callback_t.finderbrowse, callback_t.ignoreowner, callback_t.nbmand]
      rfl (by decide)
  · intro h1 h2
    rw [h1] at hxa
    exact replay_target env o s2 hp2 ((replay_list o).take 4) ((replay_list o).drop 5)
      o.do_xattr callback_t.xattr o.xattr
      MNTOPT_NOXATTR MNTOPT_XATTR MntFlag.MNT_NOUSERXATTR true rfl (by rw [hxa.1]; rfl)
      (by rw [hxa.2]; rfl) (by rw [hxa.2]; rfl)
      [callback_t.atime, callback_t.finderbrowse, callback_t.ignoreowner, callback_t.nbmand]
      rfl (by decide)
  · intro h1 h2
    rw [h1, h2] at hat
    have hn1 : vfs_optionisset (replay_overrides env o s2).zfsvfs MNTOPT_ATIME = true := by
      rw [replay_untouched env o s2 hp2 MNTOPT_ATIME (by decide), hfr2 MNTOPT_ATIME (by decide)]
      exact h1
    have hn2 : vfs_optionisset (replay_overrides env o s2).zfsvfs MNTOPT_NOATIME = false := by
      rw [replay_untouched env o s2 hp2 MNTOPT_NOATIME (by decide), hfr2 MNTOPT_NOATIME (by decide)]
      exact h2
    exact ⟨hn1, hn2, replay_flag env o s2 hp2 ((replay_list o).take 5)
      ((replay_list o).drop 6) o.do_atime callback_t.atime o.atime MntFlag.MNT_NOATIME false
      rfl (by rw [hat.1]; rfl) (by rw [hat.2]; rfl)
      [callback_t.finderbrowse, callback_t.ignoreowner, callback_t.nbmand] rfl (by decide)⟩
  · intro h1 h2
    rw [h1] at hat
    have hn1 : vfs_optionisset (replay_overrides env o s2).zfsvfs MNTOPT_NOATIME = true := by
      rw [replay_untouched env o s2 hp2 MNTOPT_NOATIME (by decide), hfr2 MNTOPT_NOATIME (by decide)]
      exact h1
    have hn2 : vfs_optionisset (replay_overrides env o s2).zfsvfs MNTOPT_ATIME = false := by
      rw [replay_untouched env o s2 hp2 MNTOPT_ATIME (by decide), hfr2 MNTOPT_ATIME (by decide)]
      exact h2
    exact ⟨hn1, hn2, replay_flag env o s2 hp2 ((replay_list o).take 5)
      ((replay_list o).drop 6) o.do_atime callback_t.atime o.atime MntFlag.MNT_NOATIME true
      rfl (by rw [hat.1]; rfl) (by rw [hat.2]; rfl)
      [callback_t.finderbrowse, callback_t.ignoreowner, callback_t.nbmand] rfl (by decide)⟩
  · intro hns
    rw [hns] at hdev hsu
    refine ⟨?_, ?_, ?_, ?_⟩
    · intro h1 h2
      rw [h1, h2] at hdev
      exact replay_target env o s2 hp2 ((replay_list o).take 3) ((replay_list o).drop 4)
        o.do_devices callback_t.devices o.devices
        MNTOPT_DEVICES MNTOPT_NODEVICES MntFlag.MNT_NODEV false rfl (by rw [hdev.1]; rfl)
        (by rw [hdev.2]; rfl) (by rw [hdev.2]; rfl)
        [callback_t.xattr, callback_t.atime, callback_t.finderbrowse, callback_t.ignoreowner, callback_t.nbmand]
        rfl (by decide)
    · intro h1 h2
      rw [h1] at hdev
      exact replay_target env o s2 hp2 ((replay_list o).take 3) ((replay_list o).drop 4)
        o.do_devices callback_t.devices o.devices
        MNTOPT_NODEVICES MNTOPT_DEVICES MntFlag.MNT_NODEV true rfl (by rw [hdev.1]; rfl)
        (by rw [hdev.2]; rfl) (by rw [hdev.2]; rfl)
        [callback_t.xattr, callback_t.atime, callback_t.finderbrowse, callback_t.ignoreowner, callback_t.nbmand]
        rfl (by decide)
    · intro h1 h2
      rw [h1, h2] at hsu
      exact replay_target env o s2 hp2 ((replay_list o).take 1) ((replay_list o).drop 2)
        o.do_setuid callback_t.setuid o.setuid
        MNTOPT_SETUID MNTOPT_NOSETUID MntFlag.MNT_NOSUID false rfl (by rw [hsu.1]; rfl)
        (by rw [hsu.2]; rfl) (by rw [hsu.2]; rfl)
        [callback_t.exec, callback_t.devices, callback_t.xattr, callback_t.atime, callback_t.finderbrowse, callback_t.ignoreowner, callback_t.nbmand]
        rfl (by decide)
    · intro h1 h2
      rw [h1] at hsu
      exact replay_target env o s2 hp2 ((replay_list o).take 1) ((replay_list o).drop 2)
        o.do_setuid callback_t.setuid o.setuid
        MNTOPT_NOSETUID MNTOPT_SETUID MntFlag.MNT_NOSUID true rfl (by rw [hsu.1]; rfl)
        (by rw [hsu.2]; rfl) (by rw [hsu.2]; rfl)
        [callback_t.exec, callback_t.devices, callback_t.xattr, callback_t.atime, callback_t.finderbrowse, callback_t.ignoreowner, callback_t.nbmand]
        rfl (by decide)

/-- Witness of C20: the mount options "ro,noatime" were parsed into the merged prototype
table and the store delivers 0 for every property (so `readonly` is off in the store): on
return "ro" is SET, "rw" is not and `MNT_RDONLY` is on. -/
theorem zfs_register_callbacks_overrides_witness :
    vfs_optionisset
        (zfs_register_callbacks ⟨false, true, 512, 131072, fun _ => Except.ok 0⟩
          ⟨⟨⟨[], []⟩, (vfs_parsemntopts (vfs_mergeopttbl vfs_mntopts zfs_mntopts)
              (some "ro,noatime".toList) 0).1, 0, 0, 0, 0, 0, 0⟩, [], []⟩).2.zfsvfs
        MNTOPT_RO = true
    ∧ vfs_optionisset
        (zfs_register_callbacks ⟨false, true, 512, 131072, fun _ => Except.ok 0⟩
          ⟨⟨⟨[], []⟩, (vfs_parsemntopts (vfs_mergeopttbl vfs_mntopts zfs_mntopts)
              (some "ro,noatime".toList) 0).1, 0, 0, 0, 0, 0, 0⟩, [], []⟩).2.zfsvfs
        MNTOPT_RW = false
    ∧ vfs_flags
        (zfs_register_callbacks ⟨false, true, 512, 131072, fun _ => Except.ok 0⟩
          ⟨⟨⟨[], []⟩, (vfs_parsemntopts (vfs_mergeopttbl vfs_mntopts zfs_mntopts)
              (some "ro,noatime".toList) 0).1, 0, 0, 0, 0, 0, 0⟩, [], []⟩).2.zfsvfs.z_vfs
        MntFlag.MNT_RDONLY = true :=
  (zfs_register_callbacks_overrides ⟨false, true, 512, 131072, fun _ => Except.ok 0⟩
    ⟨⟨⟨[], []⟩, (vfs_parsemntopts (vfs_mergeopttbl vfs_mntopts zfs_mntopts)
        (some "ro,noatime".toList) 0).1, 0, 0, 0, 0, 0, 0⟩, [], []⟩
    rfl (by decide) (by decide)).2.1 (by decide) (by decide)

/-! ## The callbacks one by one -/

theorem atime_table_untouched (z : zfsvfs_t) (v : Nat) :
    (atime_changed_cb z v).vfs_mntopts = z.vfs_mntopts := by
  unfold atime_changed_cb
  split <;> rfl

/-- C23 (evaluation of the code): the instance has the merged prototype table with nothing
set. `atime_changed_cb` with 1 sets `z_atime` and clears `MNT_NOATIME`, and with 0 clears
`z_atime` and sets `MNT_NOATIME`, but in the option table of the instance neither "atime"
nor "noatime" becomes SET: the table is the one on entry, because the callback hands
`zfsvfs->z_vfs` to `vfs_clearmntopt` and `vfs_setmntopt`. `xattr_changed_cb`, which hands
them `zfsvfs`, sets "xattr" in the same table. -/
theorem atime_changed_cb_skips_instance_table :
    (atime_changed_cb ⟨⟨[], []⟩, vfs_mergeopttbl vfs_mntopts zfs_mntopts, 0, 0, 0, 0, 0, 0⟩
        1).z_atime = 1
    ∧ vfs_flags (atime_changed_cb
        ⟨⟨[], []⟩, vfs_mergeopttbl vfs_mntopts zfs_mntopts, 0, 0, 0, 0, 0, 0⟩ 1).z_vfs
        MntFlag.MNT_NOATIME = false
    ∧ vfs_optionisset (atime_changed_cb
        ⟨⟨[], []⟩, vfs_mergeopttbl vfs_mntopts zfs_mntopts, 0, 0, 0, 0, 0, 0⟩ 1)
        MNTOPT_ATIME = false
    ∧ (atime_changed_cb ⟨⟨[], []⟩, vfs_mergeopttbl vfs_mntopts zfs_mntopts, 0, 0, 0, 0, 0, 0⟩
        1).vfs_mntopts = vfs_mergeopttbl vfs_mntopts zfs_mntopts
    ∧ vfs_flags (atime_changed_cb
        ⟨⟨[], []⟩, vfs_mergeopttbl vfs_mntopts zfs_mntopts, 0, 0, 0, 0, 0, 0⟩ 0).z_vfs
        MntFlag.MNT_NOATIME = true
    ∧ vfs_optionisset (atime_changed_cb
        ⟨⟨[], []⟩, vfs_mergeopttbl vfs_mntopts zfs_mntopts, 0, 0, 0, 0, 0, 0⟩ 0)
        MNTOPT_NOATIME = false
    ∧ vfs_optionisset (xattr_changed_cb
        ⟨⟨[], []⟩, vfs_mergeopttbl vfs_mntopts zfs_mntopts, 0, 0, 0, 0, 0, 0⟩ 1)
        MNTOPT_XATTR = true := by
  refine ⟨by decide, by decide, by decide, by decide, by decide, by decide, by decide⟩

/-- C30 (as stated, refuted): on the instance with the merged prototype table and nothing
set, `xattr_changed_cb` and `atime_changed_cb` called with 2 do not leave the state that
they leave when called with 1: with 2 they take the branch for "off" (`MNT_NOUSERXATTR`
and "noxattr" are set, `z_atime` is 0 and `MNT_NOATIME` is set). -/
theorem boolean_callbacks_value_two :
    xattr_changed_cb ⟨⟨[], []⟩, vfs_mergeopttbl vfs_mntopts zfs_mntopts, 0, 0, 0, 0, 0, 0⟩ 2 ≠
      xattr_changed_cb ⟨⟨[], []⟩, vfs_mergeopttbl vfs_mntopts zfs_mntopts, 0, 0, 0, 0, 0, 0⟩ 1
    ∧ vfs_flags (xattr_changed_cb
        ⟨⟨[], []⟩, vfs_mergeopttbl vfs_mntopts zfs_mntopts, 0, 0, 0, 0, 0, 0⟩ 2).z_vfs
        MntFlag.MNT_NOUSERXATTR = true
    ∧ vfs_optionisset (xattr_changed_cb
        ⟨⟨[], []⟩, vfs_mergeopttbl vfs_mntopts zfs_mntopts, 0, 0, 0, 0, 0, 0⟩ 2)
        MNTOPT_NOXATTR = true
    ∧ vfs_flags (xattr_changed_cb
        ⟨⟨[], []⟩, vfs_mergeopttbl vfs_mntopts zfs_mntopts, 0, 0, 0, 0, 0, 0⟩ 1).z_vfs
        MntFlag.MNT_NOUSERXATTR = false
    ∧ atime_changed_cb ⟨⟨[], []⟩, vfs_mergeopttbl vfs_mntopts zfs_mntopts, 0, 0, 0, 0, 0, 0⟩ 2 ≠
      atime_changed_cb ⟨⟨[], []⟩, vfs_mergeopttbl vfs_mntopts zfs_mntopts, 0, 0, 0, 0, 0, 0⟩ 1
    ∧ (atime_changed_cb ⟨⟨[], []⟩, vfs_mergeopttbl vfs_mntopts zfs_mntopts, 0, 0, 0, 0, 0, 0⟩
        2).z_atime = 0
    ∧ (atime_changed_cb ⟨⟨[], []⟩, vfs_mergeopttbl vfs_mntopts zfs_mntopts, 0, 0, 0, 0, 0, 0⟩
        1).z_atime = 1 := by
  refine ⟨by decide, by decide, by decide, by decide, by decide, by decide, by decide⟩

/-- C30 (amended): for every instance and every `newval` other than 0, each of
`readonly_changed_cb`, `devices_changed_cb`, `setuid_changed_cb` and `exec_changed_cb`
leaves the instance in the state that the same callback leaves when called with 1.
`atime_changed_cb` and `xattr_changed_cb` compare `newval` with `TRUE`: called with any
value other than 1 they leave the state that they leave when called with 0. -/
theorem boolean_callbacks_nonzero (z : zfsvfs_t) (newval : Nat) :
    (newval ≠ 0 →
      readonly_changed_cb z newval = readonly_changed_cb z 1
      ∧ devices_changed_cb z newval = devices_changed_cb z 1
      ∧ setuid_changed_cb z newval = setuid_changed_cb z 1
      ∧ exec_changed_cb z newval = exec_changed_cb z 1)
    ∧ (newval ≠ 1 →
      atime_changed_cb z newval = atime_changed_cb z 0
      ∧ xattr_changed_cb z newval = xattr_changed_cb z 0) := by
  constructor
  · intro h
    have h1 : ¬ newval = FALSE := h
    have h2 : ¬ (1 : Nat) = FALSE := by decide
    refine ⟨?_, ?_, ?_, ?_⟩
    · unfold readonly_changed_cb
      rw [if_pos h, if_pos (by decide)]
    · unfold devices_changed_cb
      rw [if_neg h1, if_neg h2]
    · unfold setuid_changed_cb
      rw [if_neg h1, if_neg h2]
    · unfold exec_changed_cb
      rw [if_neg h1, if_neg h2]
  · intro h
    have h1 : ¬ newval = TRUE := h
    have h2 : ¬ (0 : Nat) = TRUE := by decide
    refine ⟨?_, ?_⟩
    · unfold atime_changed_cb
      rw [if_neg h1, if_neg h2]
    · unfold xattr_changed_cb
      rw [if_neg h1, if_neg h2]

/-- Witness of C30 (amended): the value 2 on the instance with the merged prototype
table. -/
theorem boolean_callbacks_nonzero_witness :
    readonly_changed_cb ⟨⟨[], []⟩, vfs_mergeopttbl vfs_mntopts zfs_mntopts, 0, 0, 0, 0, 0, 0⟩ 2 =
      readonly_changed_cb ⟨⟨[], []⟩, vfs_mergeopttbl vfs_mntopts zfs_mntopts, 0, 0, 0, 0, 0, 0⟩ 1
    ∧ xattr_changed_cb ⟨⟨[], []⟩, vfs_mergeopttbl vfs_mntopts zfs_mntopts, 0, 0, 0, 0, 0, 0⟩ 2 =
      xattr_changed_cb ⟨⟨[], []⟩, vfs_mergeopttbl vfs_mntopts zfs_mntopts, 0, 0, 0, 0, 0, 0⟩ 0 :=
  ⟨((boolean_callbacks_nonzero
      ⟨⟨[], []⟩, vfs_mergeopttbl vfs_mntopts zfs_mntopts, 0, 0, 0, 0, 0, 0⟩ 2).1
      (by decide)).1,
    ((boolean_callbacks_nonzero
      ⟨⟨[], []⟩, vfs_mergeopttbl vfs_mntopts zfs_mntopts, 0, 0, 0, 0, 0, 0⟩ 2).2
      (by decide)).2⟩

/-! ## The contract of the boolean property callbacks -/

theorem toggle_idem (a b : CStr) (s : mntopt_t) :
    toggle a b (toggle a b s) = toggle a b s := by
  unfold toggle
  by_cases hA : s.mo_flags.empty = false ∧ s.mo_name = some a
  · rw [if_pos hA]
    have hA2 : (store_slot s none SetFlags.zero).mo_flags.empty = false ∧
        (store_slot s none SetFlags.zero).mo_name = some a := hA
    rw [if_pos hA2]
    rfl
  · rw [if_neg hA]
    by_cases hB : s.mo_flags.empty = false ∧ s.mo_name = some b
    · rw [if_pos hB]
      have hA2 : ¬((clear_slot s).mo_flags.empty = false ∧ (clear_slot s).mo_name = some a) :=
        hA
      have hB2 : (clear_slot s).mo_flags.empty = false ∧ (clear_slot s).mo_name = some b := hB
      rw [if_neg hA2, if_pos hB2]
      rfl
    · rw [if_neg hB, if_neg hA, if_neg hB]

theorem toggle_other (a b : CStr) (s : mntopt_t) (ha : s.mo_name ≠ some a)
    (hb : s.mo_name ≠ some b) : toggle a b s = s := by
  unfold toggle
  rw [if_neg (fun h => ha h.2), if_neg (fun h => hb h.2)]

theorem setflags_idem (mp : mount) (f : MntFlag) :
    vfs_setflags (vfs_setflags mp f) f = vfs_setflags mp f := by
  unfold vfs_setflags
  by_cases h : f ∈ mp.mnt_flag <;> simp [h]

theorem clearflags_idem (mp : mount) (f : MntFlag) :
    vfs_clearflags (vfs_clearflags mp f) f = vfs_clearflags mp f := by
  unfold vfs_clearflags
  simp [List.filter_filter]

theorem pair_apply_eq (setflag : Bool) (flag : MntFlag) (a b : CStr) (z : zfsvfs_t)
    (hp : proto_shape z.vfs_mntopts) (hab : a ≠ b)
    (hpair : (vfs_hasopt (vfs_mergeopttbl vfs_mntopts zfs_mntopts) (some a)).bind
        (fun i => ((vfs_mergeopttbl vfs_mntopts zfs_mntopts).map slot_shape)[i]?) =
      some (some a, some [b], false)) :
    pair_apply setflag flag a b z =
      { z with z_vfs := if setflag then vfs_setflags z.z_vfs flag
                        else vfs_clearflags z.z_vfs flag
               vfs_mntopts := z.vfs_mntopts.map (toggle a b) } := by
  unfold pair_apply vfs_setmntopt vfs_clearmntopt
  simp only []
  rw [toggle_eq _ hp a b hab hpair]

theorem pair_apply_contract (setflag : Bool) (flag : MntFlag) (a b : CStr) (z : zfsvfs_t)
    (hp : proto_shape z.vfs_mntopts) (hab : a ≠ b)
    (hpair : (vfs_hasopt (vfs_mergeopttbl vfs_mntopts zfs_mntopts) (some a)).bind
        (fun i => ((vfs_mergeopttbl vfs_mntopts zfs_mntopts).map slot_shape)[i]?) =
      some (some a, some [b], false)) :
    vfs_flags (pair_apply setflag flag a b z).z_vfs flag = setflag
    ∧ vfs_optionisset (pair_apply setflag flag a b z) a = true
    ∧ vfs_optionisset (pair_apply setflag flag a b z) b = false
    ∧ only_pair_changed z (pair_apply setflag flag a b z) a b flag
    ∧ pair_apply setflag flag a b (pair_apply setflag flag a b z) =
        pair_apply setflag flag a b z := by
  have heq := pair_apply_eq setflag flag a b z hp hab hpair
  have hp1 : proto_shape (pair_apply setflag flag a b z).vfs_mntopts := by
    rw [heq]
    exact proto_shape_map hp _ (slot_shape_toggle a b)
  have hset : ∀ n, vfs_optionisset (pair_apply setflag flag a b z) n =
      if n = a then true else if n = b then false else vfs_optionisset z n := by
    intro n
    rw [heq]
    exact isset_toggle _ hp a b hab hpair n
  have hfl : ∀ f, vfs_flags (pair_apply setflag flag a b z).z_vfs f =
      if f = flag then setflag else vfs_flags z.z_vfs f := by
    intro f
    rw [heq]
    simp only []
    cases setflag
    · simp only [Bool.false_eq_true, if_false]
      exact vfs_flags_clearflags z.z_vfs flag f
    · simp only [if_true]
      exact vfs_flags_setflags z.z_vfs flag f
  refine ⟨?_, ?_, ?_, ?_, ?_⟩
  · rw [hfl, if_pos rfl]
  · rw [hset, if_pos rfl]
  · rw [hset, if_neg (fun h => hab h.symm), if_pos rfl]
  · refine ⟨?_, ?_, ?_, ?_, ?_, ?_, ?_, ?_, ?_, ?_, ?_⟩
    · rw [heq]; simp
    · intro i s hs ha hb
      rw [heq]
      simp only [List.getElem?_map, hs, Option.map_some', toggle_other a b s ha hb]
    · intro n hna hnb
      rw [hset, if_neg hna, if_neg hnb]
    · intro f hf
      rw [hfl, if_neg hf]
    · rw [heq]
      cases setflag <;> rfl
    all_goals (rw [heq])
  · rw [pair_apply_eq setflag flag a b _ hp1 hab hpair, heq]
    simp only [List.map_map]
    have hT : (toggle a b ∘ toggle a b) = toggle a b := by
      funext s; exact toggle_idem a b s
    rw [hT]
    cases setflag
    · simp only [Bool.false_eq_true, if_false, clearflags_idem]
    · simp only [if_true, setflags_idem]

theorem only_pair_changed_swap {z z1 : zfsvfs_t} {a b : CStr} {flag : MntFlag}
    (h : only_pair_changed z z1 a b flag) : only_pair_changed z z1 b a flag := by
  obtain ⟨h1, h2, h3, h4⟩ := h
  exact ⟨h1, fun i s hs hb ha => h2 i s hs ha hb, fun n hb ha => h3 n ha hb, h4⟩

theorem callback_contract_of_pair (cb : zfsvfs_t → Nat → zfsvfs_t) (flag : MntFlag)
    (opt1 opt0 : CStr) (flag_on : Bool) (z : zfsvfs_t) (hp : proto_shape z.vfs_mntopts)
    (h1 : ∀ y, cb y 1 = pair_apply flag_on flag opt1 opt0 y)
    (h0 : ∀ y, cb y 0 = pair_apply (!flag_on) flag opt0 opt1 y)
    (hne : opt1 ≠ opt0)
    (hp1 : (vfs_hasopt (vfs_mergeopttbl vfs_mntopts zfs_mntopts) (some opt1)).bind
        (fun i => ((vfs_mergeopttbl vfs_mntopts zfs_mntopts).map slot_shape)[i]?) =
      some (some opt1, some [opt0], false))
    (hp0 : (vfs_hasopt (vfs_mergeopttbl vfs_mntopts zfs_mntopts) (some opt0)).bind
        (fun i => ((vfs_mergeopttbl vfs_mntopts zfs_mntopts).map slot_shape)[i]?) =
      some (some opt0, some [opt1], false)) :
    callback_contract cb flag opt1 opt0 flag_on z := by
  unfold callback_contract
  obtain ⟨a1, a2, a3, a4, a5⟩ := pair_apply_contract flag_on flag opt1 opt0 z hp hne hp1
  obtain ⟨b1, b2, b3, b4, b5⟩ :=
    pair_apply_contract (!flag_on) flag opt0 opt1 z hp (fun h => hne h.symm) hp0
  refine ⟨⟨?_, ?_, ?_, ?_, ?_⟩, ⟨?_, ?_, ?_, ?_, ?_⟩⟩
  · rw [h1]; exact a1
  · rw [h1]; exact a2
  · rw [h1]; exact a3
  · rw [h1]; exact a4
  · rw [h1, h1]; exact a5
  · rw [h0]; exact b1
  · rw [h0]; exact b2
  · rw [h0]; exact b3
  · rw [h0]; exact only_pair_changed_swap b4
  · rw [h0, h0]; exact b5

/-- C22: on every instance whose option table has the slots of the merged prototype
tables, each of `readonly_changed_cb`, `devices_changed_cb`, `setuid_changed_cb`,
`exec_changed_cb` and `xattr_changed_cb`, called with 0 or with 1, leaves its mount flag
(`MNT_RDONLY`, `MNT_NODEV`, `MNT_NOSUID`, `MNT_NOEXEC`, `MNT_NOUSERXATTR`) matching the
value, the option of its pair that matches the value SET and the opposing option not SET,
every other option, every other mount flag and every other field as it was, and a second
call with the same value changes nothing. -/
theorem property_callbacks_contract (z : zfsvfs_t) (hp : proto_shape z.vfs_mntopts) :
    callback_contract readonly_changed_cb MntFlag.MNT_RDONLY MNTOPT_RO MNTOPT_RW true z
    ∧ callback_contract devices_changed_cb MntFlag.MNT_NODEV MNTOPT_DEVICES MNTOPT_NODEVICES
        false z
    ∧ callback_contract setuid_changed_cb MntFlag.MNT_NOSUID MNTOPT_SETUID MNTOPT_NOSETUID
        false z
    ∧ callback_contract exec_changed_cb MntFlag.MNT_NOEXEC MNTOPT_EXEC MNTOPT_NOEXEC false z
    ∧ callback_contract xattr_changed_cb MntFlag.MNT_NOUSERXATTR MNTOPT_XATTR MNTOPT_NOXATTR
        false z := by
  refine ⟨?_, ?_, ?_, ?_, ?_⟩
  · exact callback_contract_of_pair readonly_changed_cb MntFlag.MNT_RDONLY MNTOPT_RO MNTOPT_RW true z hp
      (fun _ => rfl) (fun _ => rfl) (by decide) (by decide) (by decide)
  · exact callback_contract_of_pair devices_changed_cb MntFlag.MNT_NODEV MNTOPT_DEVICES MNTOPT_NODEVICES false z hp
      (fun _ => rfl) (fun _ => rfl) (by decide) (by decide) (by decide)
  · exact callback_contract_of_pair setuid_changed_cb MntFlag.MNT_NOSUID MNTOPT_SETUID MNTOPT_NOSETUID false z hp
      (fun _ => rfl) (fun _ => rfl) (by decide) (by decide) (by decide)
  · exact callback_contract_of_pair exec_changed_cb MntFlag.MNT_NOEXEC MNTOPT_EXEC MNTOPT_NOEXEC false z hp
      (fun _ => rfl) (fun _ => rfl) (by decide) (by decide) (by decide)
  · exact callback_contract_of_pair xattr_changed_cb MntFlag.MNT_NOUSERXATTR MNTOPT_XATTR MNTOPT_NOXATTR false z hp
      (fun _ => rfl) (fun _ => rfl) (by decide) (by decide) (by decide)

/-- Witness of C22: the instance with the merged prototype table and "rw" set; after
`readonly_changed_cb` with 1, "ro" is SET, "rw" is not and `MNT_RDONLY` is on. -/
theorem property_callbacks_contract_witness :
    vfs_flags (readonly_changed_cb
        ⟨⟨[], []⟩, vfs_setmntopt_nolock (vfs_mergeopttbl vfs_mntopts zfs_mntopts) MNTOPT_RW none
          SetFlags.zero, 0, 0, 0, 0, 0, 0⟩ 1).z_vfs MntFlag.MNT_RDONLY = true
    ∧ vfs_optionisset (readonly_changed_cb
        ⟨⟨[], []⟩, vfs_setmntopt_nolock (vfs_mergeopttbl vfs_mntopts zfs_mntopts) MNTOPT_RW none
          SetFlags.zero, 0, 0, 0, 0, 0, 0⟩ 1) MNTOPT_RO = true
    ∧ vfs_optionisset (readonly_changed_cb
        ⟨⟨[], []⟩, vfs_setmntopt_nolock (vfs_mergeopttbl vfs_mntopts zfs_mntopts) MNTOPT_RW none
          SetFlags.zero, 0, 0, 0, 0, 0, 0⟩ 1) MNTOPT_RW = false :=
  ⟨(property_callbacks_contract
      ⟨⟨[], []⟩, vfs_setmntopt_nolock (vfs_mergeopttbl vfs_mntopts zfs_mntopts) MNTOPT_RW none
        SetFlags.zero, 0, 0, 0, 0, 0, 0⟩ (by decide)).1.1.1,
    (property_callbacks_contract
      ⟨⟨[], []⟩, vfs_setmntopt_nolock (vfs_mergeopttbl vfs_mntopts zfs_mntopts) MNTOPT_RW none
        SetFlags.zero, 0, 0, 0, 0, 0, 0⟩ (by decide)).1.1.2.1,
    (property_callbacks_contract
      ⟨⟨[], []⟩, vfs_setmntopt_nolock (vfs_mergeopttbl vfs_mntopts zfs_mntopts) MNTOPT_RW none
        SetFlags.zero, 0, 0, 0, 0, 0, 0⟩ (by decide)).1.1.2.2.1⟩

/-! ## The nbmand setting -/

theorem stash_nbmand (env : store_env) (z : zfsvfs_t) : (stash_overrides env z).nbmand = 0 := by
  unfold stash_overrides
  simp only [apply_ite overrides.nbmand, ite_self]
  rfl

theorem nbmand_cb_field (z : zfsvfs_t) : (nbmand_changed_cb z 0).z_nbmand = FALSE := rfl

theorem replay_last (env : store_env) (o : overrides) (st : reg_state) :
    ∃ s8 : reg_state, (replay_overrides env o st).zfsvfs = nbmand_changed_cb s8.zfsvfs o.nbmand :=
  ⟨_, rfl⟩

theorem register_step_subs (env : store_env) (acc : Option Errno × reg_state)
    (q : zfs_prop_t × callback_t) :
    (∀ x ∈ (register_step env acc q).2.ds_prop_cbs, x ∈ acc.2.ds_prop_cbs ∨ x = q)
    ∧ ∃ evs, (register_step env acc q).2.trace = acc.2.trace ++ evs ∧
        ∀ ev ∈ evs, ∀ p c, ev = reg_event.subscribe p c → (p, c) = q := by
  unfold register_step
  cases acc.1 with
  | some e => exact ⟨fun x hx => Or.inl hx, [], by simp, by simp⟩
  | none =>
    simp only []
    unfold dsl_prop_register
    cases env.answer q.1 with
    | error e =>
      refine ⟨fun x hx => Or.inl hx, [reg_event.subscribe q.1 q.2], rfl, ?_⟩
      intro ev hev p c hpc
      rw [List.mem_singleton] at hev
      rw [hpc] at hev
      injection hev with h1 h2
      rw [h1, h2]
    | ok v =>
      refine ⟨?_, [reg_event.subscribe q.1 q.2, reg_event.notify q.2 v], rfl, ?_⟩
      · intro x hx
        simp only [] at hx
        split at hx
        · exact Or.inl hx
        · rcases List.mem_cons.mp hx with h | h
          · exact Or.inr h
          · exact Or.inl h
      · intro ev hev p c hpc
        rw [hpc] at hev
        simp only [List.mem_cons, List.mem_singleton, List.not_mem_nil, or_false,
          reduceCtorEq] at hev
        injection hev with h1 h2
        rw [h1, h2]

theorem register_fold_subs (env : store_env) (L : List (zfs_prop_t × callback_t)) :
    ∀ acc : Option Errno × reg_state,
      (∀ x ∈ (L.foldl (register_step env) acc).2.ds_prop_cbs, x ∈ acc.2.ds_prop_cbs ∨ x ∈ L)
      ∧ ∃ evs, (L.foldl (register_step env) acc).2.trace = acc.2.trace ++ evs ∧
          ∀ ev ∈ evs, ∀ p c, ev = reg_event.subscribe p c → (p, c) ∈ L := by
  induction L with
  | nil => intro acc; exact ⟨fun x hx => Or.inl hx, [], by simp, by simp⟩
  | cons q L ih =>
    intro acc
    rw [List.foldl_cons]
    obtain ⟨a1, evs1, a2, a3⟩ := register_step_subs env acc q
    obtain ⟨b1, evs2, b2, b3⟩ := ih (register_step env acc q)
    refine ⟨?_, evs1 ++ evs2, ?_, ?_⟩
    · intro x hx
      rcases b1 x hx with h | h
      · rcases a1 x h with h2 | h2
        · exact Or.inl h2
        · exact Or.inr (h2 ▸ List.mem_cons_self _ _)
      · exact Or.inr (List.mem_cons_of_mem _ h)
    · rw [b2, a2, List.append_assoc]
    · intro ev hev p c hpc
      rcases List.mem_append.mp hev with h | h
      · rw [a3 ev h p c hpc]; exact List.mem_cons_self _ _
      · exact List.mem_cons_of_mem _ (b3 ev h p c hpc)

theorem direct_fold_subs (env : store_env) (L : List (Bool × callback_t × Nat)) :
    ∀ st : reg_state,
      (L.foldl (fun s (t : Bool × callback_t × Nat) => call_direct env t.1 t.2.1 t.2.2 s)
        st).ds_prop_cbs = st.ds_prop_cbs
      ∧ ∃ evs,
          (L.foldl (fun s (t : Bool × callback_t × Nat) => call_direct env t.1 t.2.1 t.2.2 s)
            st).trace = st.trace ++ evs ∧ ∀ ev ∈ evs, is_direct ev = true := by
  induction L with
  | nil => intro st; exact ⟨rfl, [], by simp, by simp⟩
  | cons t L ih =>
    intro st
    rw [List.foldl_cons]
    obtain ⟨b1, evs2, b2, b3⟩ := ih (call_direct env t.1 t.2.1 t.2.2 st)
    have hstep : (call_direct env t.1 t.2.1 t.2.2 st).ds_prop_cbs = st.ds_prop_cbs ∧
        ∃ evs, (call_direct env t.1 t.2.1 t.2.2 st).trace = st.trace ++ evs ∧
          ∀ ev ∈ evs, is_direct ev = true := by
      unfold call_direct
      split
      · refine ⟨rfl, [reg_event.direct t.2.1 t.2.2], rfl, ?_⟩
        intro ev hev
        rw [List.mem_singleton] at hev
        rw [hev]; rfl
      · exact ⟨rfl, [], by simp, by simp⟩
    obtain ⟨a1, evs1, a2, a3⟩ := hstep
    refine ⟨by rw [b1, a1], evs1 ++ evs2, by rw [b2, a2, List.append_assoc], ?_⟩
    intro ev hev
    rcases List.mem_append.mp hev with h | h
    · exact a3 ev h
    · exact b3 ev h

/-- C21 (evaluation of the code): the mount option "nbmand" was parsed into the merged
prototype table, so on entry "nbmand" is SET and "nonbmand" is not; the store accepts
every subscription. `zfs_register_callbacks` returns 0, yet on return `z_nbmand` is 0
(`FALSE`), "nbmand" is not SET and "nonbmand" is SET: the block that reads the override
is compiled for `__LINUX__` only, and `nbmand_changed_cb(zfsvfs, nbmand)` is called with
the initial 0. -/
theorem zfs_register_callbacks_nbmand_lost :
    vfs_optionisset
        ⟨⟨[], []⟩, (vfs_parsemntopts (vfs_mergeopttbl vfs_mntopts zfs_mntopts)
          (some "nbmand".toList) 0).1, 0, 0, 0, 0, 0, 0⟩ MNTOPT_NBMAND = true
    ∧ vfs_optionisset
        ⟨⟨[], []⟩, (vfs_parsemntopts (vfs_mergeopttbl vfs_mntopts zfs_mntopts)
          (some "nbmand".toList) 0).1, 0, 0, 0, 0, 0, 0⟩ MNTOPT_NONBMAND = false
    ∧ (zfs_register_callbacks ⟨false, true, 512, 131072, fun _ => Except.ok 1⟩
        ⟨⟨⟨[], []⟩, (vfs_parsemntopts (vfs_mergeopttbl vfs_mntopts zfs_mntopts)
            (some "nbmand".toList) 0).1, 0, 0, 0, 0, 0, 0⟩, [], []⟩).1 = none
    ∧ (zfs_register_callbacks ⟨false, true, 512, 131072, fun _ => Except.ok 1⟩
        ⟨⟨⟨[], []⟩, (vfs_parsemntopts (vfs_mergeopttbl vfs_mntopts zfs_mntopts)
            (some "nbmand".toList) 0).1, 0, 0, 0, 0, 0, 0⟩, [], []⟩).2.zfsvfs.z_nbmand = 0
    ∧ vfs_optionisset
        (zfs_register_callbacks ⟨false, true, 512, 131072, fun _ => Except.ok 1⟩
          ⟨⟨⟨[], []⟩, (vfs_parsemntopts (vfs_mergeopttbl vfs_mntopts zfs_mntopts)
              (some "nbmand".toList) 0).1, 0, 0, 0, 0, 0, 0⟩, [], []⟩).2.zfsvfs
        MNTOPT_NBMAND = false
    ∧ vfs_optionisset
        (zfs_register_callbacks ⟨false, true, 512, 131072, fun _ => Except.ok 1⟩
          ⟨⟨⟨[], []⟩, (vfs_parsemntopts (vfs_mergeopttbl vfs_mntopts zfs_mntopts)
              (some "nbmand".toList) 0).1, 0, 0, 0, 0, 0, 0⟩, [], []⟩).2.zfsvfs
        MNTOPT_NONBMAND = true := by
  refine ⟨by decide, by decide, by decide, by decide, by decide, by decide⟩

/-- What the code does with nbmand on every input: on an instance whose option table has
the slots of the merged prototype tables, when the object set is not a snapshot and the
store accepts every subscription,
`zfs_register_callbacks` returns 0 and the nbmand setting is resolved to off whatever was
SET on entry and whatever the store holds: `z_nbmand` is `FALSE`, "nonbmand" is SET and
"nbmand" is not SET on return. The nbmand callback is never subscribed: the function
requests no subscription for it and adds none to the set. -/
theorem zfs_register_callbacks_nbmand (env : store_env) (st : reg_state)
    (hsnap : env.is_snapshot = false) (hshape : proto_shape st.zfsvfs.vfs_mntopts)
    (hall : ∀ q ∈ registrations, accepts env q.1 = true) :
    (zfs_register_callbacks env st).1 = none
    ∧ (zfs_register_callbacks env st).2.zfsvfs.z_nbmand = FALSE
    ∧ vfs_optionisset (zfs_register_callbacks env st).2.zfsvfs MNTOPT_NONBMAND = true
    ∧ vfs_optionisset (zfs_register_callbacks env st).2.zfsvfs MNTOPT_NBMAND = false
    ∧ (∀ p, (p, callback_t.nbmand) ∈ (zfs_register_callbacks env st).2.ds_prop_cbs →
        (p, callback_t.nbmand) ∈ st.ds_prop_cbs)
    ∧ (∀ p, reg_event.subscribe p callback_t.nbmand ∉
        (zfs_register_callbacks env st).2.trace.drop st.trace.length) := by
  obtain ⟨s2, hs2, _, _⟩ := register_fold_ok env registrations st hall
  obtain ⟨hp2, _⟩ := register_fold_inv env registrations (none, st) hshape
  obtain ⟨hsub, evs1, htr1, hev1⟩ := register_fold_subs env registrations (none, st)
  rw [hs2] at hp2 hsub htr1
  simp only [] at hp2 hsub htr1
  have hres : zfs_register_callbacks env st =
      (none, replay_overrides env (stash_overrides env st.zfsvfs) s2) := by
    unfold zfs_register_callbacks
    rw [if_neg (by simp [hsnap])]
    simp only [hs2]
  obtain ⟨o, ho⟩ : ∃ o, o = stash_overrides env st.zfsvfs := ⟨_, rfl⟩
  have hnb : o.nbmand = 0 := by rw [ho]; exact stash_nbmand env st.zfsvfs
  obtain ⟨hsub2, evs2, htr2, hev2⟩ := direct_fold_subs env (replay_list o) s2
  rw [← replay_eq_fold] at hsub2 htr2
  rw [hres, ← ho]
  simp only []
  have hnames := replay_names env o s2 hp2 ((replay_list o).take 8) [] true callback_t.nbmand
    o.nbmand MNTOPT_NONBMAND MNTOPT_NBMAND rfl rfl (by rw [hnb]; rfl) [] rfl (by simp)
  have hno : ∀ q ∈ registrations, q.2 ≠ callback_t.nbmand := by decide
  refine ⟨trivial, ?_, hnames.1, hnames.2, ?_, ?_⟩
  · obtain ⟨s8, h8⟩ := replay_last env o s2
    rw [h8, hnb]
    exact nbmand_cb_field s8.zfsvfs
  · intro p hp
    rw [hsub2] at hp
    rcases hsub _ hp with h | h
    · exact h
    · exact absurd rfl (hno _ h)
  · intro p hp
    rw [htr2, htr1, List.append_assoc, List.drop_left] at hp
    rcases List.mem_append.mp hp with h | h
    · exact absurd rfl (hno _ (hev1 _ h p callback_t.nbmand rfl))
    · have := hev2 _ h
      simp [is_direct] at this

/-- An instance of the above: "nbmand" was parsed into the merged prototype table; on
return "nonbmand" is SET and "nbmand" is not. -/
theorem zfs_register_callbacks_nbmand_witness :
    vfs_optionisset
        (zfs_register_callbacks ⟨false, true, 512, 131072, fun _ => Except.ok 1⟩
          ⟨⟨⟨[], []⟩, (vfs_parsemntopts (vfs_mergeopttbl vfs_mntopts zfs_mntopts)
              (some "nbmand".toList) 0).1, 0, 0, 0, 0, 0, 0⟩, [], []⟩).2.zfsvfs
        MNTOPT_NONBMAND = true
    ∧ vfs_optionisset
        (zfs_register_callbacks ⟨false, true, 512, 131072, fun _ => Except.ok 1⟩
          ⟨⟨⟨[], []⟩, (vfs_parsemntopts (vfs_mergeopttbl vfs_mntopts zfs_mntopts)
              (some "nbmand".toList) 0).1, 0, 0, 0, 0, 0, 0⟩, [], []⟩).2.zfsvfs
        MNTOPT_NBMAND = false :=
  ⟨(zfs_register_callbacks_nbmand ⟨false, true, 512, 131072, fun _ => Except.ok 1⟩
      ⟨⟨⟨[], []⟩, (vfs_parsemntopts (vfs_mergeopttbl vfs_mntopts zfs_mntopts)
          (some "nbmand".toList) 0).1, 0, 0, 0, 0, 0, 0⟩, [], []⟩
      rfl (by decide) (by decide)).2.2.1,
    (zfs_register_callbacks_nbmand ⟨false, true, 512, 131072, fun _ => Except.ok 1⟩
      ⟨⟨⟨[], []⟩, (vfs_parsemntopts (vfs_mergeopttbl vfs_mntopts zfs_mntopts)
          (some "nbmand".toList) 0).1, 0, 0, 0, 0, 0, 0⟩, [], []⟩
      rfl (by decide) (by decide)).2.2.2.1⟩

/-! ## Opposing options are never both set -/

theorem setmntopt_effect (T : mntopts_t) (hT : unique_names T) (opt : CStr)
    (arg : Option CStr) (flags : SetFlags) :
    vfs_setmntopt_nolock T opt arg flags = T ∨
    ∃ k e new, T[k]? = some e ∧ (e.mo_flags.empty = false → e.mo_name = some opt) ∧
      new.mo_flags.empty = false ∧ new.mo_name = some opt ∧ new.mo_cancel = e.mo_cancel ∧
      unique_names (T.set k new) ∧
      vfs_setmntopt_nolock T opt arg flags =
        (cancel_list e.mo_cancel).foldl vfs_clearmntopt_nolock (T.set k new) := by
  cases hf : vfs_hasopt T (some opt) with
  | some i =>
    obtain ⟨a, ha, hae, han⟩ := hasopt_some hf
    rw [setmntopt_found T opt arg flags i a hf ha]
    split
    · exact Or.inl rfl
    · have hfields := store_slot_fields a arg { flags with createopt := false }
      refine Or.inr ⟨i, a, store_slot a arg { flags with createopt := false }, ha,
        fun _ => han, by rw [hfields.2.2.2.1]; exact hae, by rw [hfields.1]; exact han,
        hfields.2.1, ?_, rfl⟩
      unfold unique_names
      rw [opt_names_set_same ha hfields.2.2.2.1 hfields.1]
      exact hT
  | none =>
    unfold vfs_setmntopt_nolock
    simp only [hf, Option.isSome_none, Bool.and_false, Bool.false_eq_true, if_false]
    cases hs : vfs_setmntopt_slot T opt flags.createopt with
    | none => exact Or.inl rfl
    | some k =>
      obtain ⟨e, hk, hec, hen⟩ := setmntopt_slot_some hs
      have hnot : some opt ∉ opt_names T := by
        have := hasopt_eq_none.mp hf
        rw [← Bool.not_eq_true, name_in_iff] at this
        exact this
      have hee : e.mo_flags.empty = true := by
        cases hx : e.mo_flags.empty with
        | true => rfl
        | false =>
          exfalso
          exact hnot (mem_opt_names.mpr ⟨e, List.getElem?_mem hk, hx, hen hx⟩)
      have hget : T.getD k default = e := by simp [hk]
      have hcr : (create_slot e opt arg).mo_flags.empty = false := by
        unfold create_slot; cases arg <;> rfl
      have hci : (create_slot e opt arg).mo_flags.ignore = false := by
        unfold create_slot; cases arg <;> rfl
      have hcn : (create_slot e opt arg).mo_name = some opt := rfl
      have hu1 : unique_names (T.set k (create_slot e opt arg)) := by
        unfold unique_names
        rw [(opt_names_set_create hk hee hcr).nodup_iff, hcn]
        exact List.nodup_cons.mpr ⟨hnot, hT⟩
      have hkl : k < T.length := (List.getElem?_eq_some_iff.mp hk).1
      have hset : (T.set k (create_slot e opt arg))[k]? = some (create_slot e opt arg) :=
        List.getElem?_set_self hkl
      have hfields := store_slot_fields (create_slot e opt arg) arg flags
      have hu2 : unique_names (T.set k (store_slot (create_slot e opt arg) arg flags)) := by
        have := opt_names_set_same (b := store_slot (create_slot e opt arg) arg flags)
          hset hfields.2.2.2.1 hfields.1
        rw [List.set_set] at this
        unfold unique_names
        rw [this]
        exact hu1
      simp only [hget, hee, if_true, hci, Bool.false_and, Bool.false_eq_true, if_false]
      have himp : e.mo_flags.empty = false → e.mo_name = some opt := by
        intro h
        rw [hee] at h
        cases h
      refine Or.inr ⟨k, e, store_slot (create_slot e opt arg) arg flags, hk,
        himp, by rw [hfields.2.2.2.1]; exact hcr,
        by rw [hfields.1]; rfl, by rw [hfields.2.1]; rfl, hu2, ?_⟩
      have hc : (store_slot (create_slot e opt arg) arg flags).mo_cancel = e.mo_cancel := by
        rw [hfields.2.1]; rfl
      rw [hc]
      cases e.mo_cancel <;> rfl

theorem fold_clear_slot (cl : List CStr) (T : mntopts_t) (m : Nat) (s : mntopt_t)
    (hs : T[m]? = some s) :
    ∃ s1, (cl.foldl vfs_clearmntopt_nolock T)[m]? = some s1 ∧
      (s1 = s ∨ s1 = clear_slot s) ∧
      ((∃ c ∈ cl, vfs_hasopt T (some c) = some m) → s1 = clear_slot s) := by
  rw [clearmntopt_fold_get, hs]
  simp only [Option.map_some']
  by_cases h : cl.any (fun c => decide (vfs_hasopt T (some c) = some m)) = true
  · rw [if_pos h]
    exact ⟨_, rfl, Or.inr rfl, fun _ => rfl⟩
  · rw [if_neg h]
    refine ⟨_, rfl, Or.inl rfl, ?_⟩
    rintro ⟨c, hc, hcm⟩
    exfalso
    apply h
    rw [List.any_eq_true]
    exact ⟨c, hc, by simpa using hcm⟩

theorem same_or_cleared {s s1 : mntopt_t} (h : s1 = s ∨ s1 = clear_slot s) :
    s1.mo_flags.empty = s.mo_flags.empty ∧ s1.mo_name = s.mo_name ∧
      s1.mo_cancel = s.mo_cancel ∧ (s1.mo_flags.set = true → s.mo_flags.set = true) := by
  rcases h with h | h
  · rw [h]; exact ⟨rfl, rfl, rfl, id⟩
  · rw [h]
    refine ⟨rfl, rfl, rfl, ?_⟩
    intro hh
    cases hh

theorem excl_inv_clear (A B : CStr) (i j : Nat) (T : mntopts_t) (h : excl_inv A B i j T)
    (c : CStr) : excl_inv A B i j (vfs_clearmntopt_nolock T c) := by
  obtain ⟨hu, a, b, hi, hj, hae, hbe, han, hbn, hac, hbc, hset⟩ := h
  have huc : unique_names (vfs_clearmntopt_nolock T c) := by
    unfold unique_names
    rw [opt_names_clearmntopt]
    exact hu
  obtain ⟨a1, ha1, hsa, _⟩ := fold_clear_slot [c] T i a hi
  obtain ⟨b1, hb1, hsb, _⟩ := fold_clear_slot [c] T j b hj
  obtain ⟨fa1, fa2, fa3, fa4⟩ := same_or_cleared hsa
  obtain ⟨fb1, fb2, fb3, fb4⟩ := same_or_cleared hsb
  refine ⟨huc, a1, b1, ha1, hb1, by rw [fa1, hae], by rw [fb1, hbe], by rw [fa2, han],
    by rw [fb2, hbn], by rw [fa3]; exact hac, by rw [fb3]; exact hbc, ?_⟩
  exact fun hh => hset ⟨fa4 hh.1, fb4 hh.2⟩

theorem excl_inv_set (A B : CStr) (hAB : A ≠ B) (i j : Nat) (T : mntopts_t)
    (h : excl_inv A B i j T) (opt : CStr) (arg : Option CStr) (flags : SetFlags) :
    excl_inv A B i j (vfs_setmntopt_nolock T opt arg flags) := by
  have h0 := h
  obtain ⟨hu, a, b, hi, hj, hae, hbe, han, hbn, hac, hbc, hset⟩ := h
  have hu2 := unique_names_setmntopt T hu opt arg flags
  have hij : i ≠ j := by
    intro hij
    rw [hij, hj] at hi
    have hab : b = a := Option.some.inj hi
    rw [hab, han] at hbn
    exact hAB (Option.some.inj hbn)
  rcases setmntopt_effect T hu opt arg flags with heq | ⟨k, e, new, hk, hen, hne, hnn, hnc, hu1, heq⟩
  · rw [heq]; exact h0
  · rw [heq]
    rw [heq] at hu2
    have hkl : k < T.length := (List.getElem?_eq_some_iff.mp hk).1
    by_cases hki : k = i
    · subst hki
      have hea : e = a := by rw [hk] at hi; exact Option.some.inj hi
      subst hea
      have hoptA : opt = A := by
        have := hen hae
        rw [han] at this
        exact (Option.some.inj this).symm
      have h1i : (T.set k new)[k]? = some new := List.getElem?_set_self hkl
      have h1j : (T.set k new)[j]? = some b := by
        rw [List.getElem?_set_ne hij]; exact hj
      have hBj : vfs_hasopt (T.set k new) (some B) = some j := by
        rw [← hbn]; exact hasopt_of_unique hu1 h1j hbe
      obtain ⟨a1, ha1, hsa, _⟩ := fold_clear_slot (cancel_list e.mo_cancel) _ k new h1i
      obtain ⟨b1, hb1, _, hcb⟩ := fold_clear_slot (cancel_list e.mo_cancel) _ j b h1j
      have hb1c : b1 = clear_slot b := hcb ⟨B, hac, hBj⟩
      obtain ⟨fa1, fa2, fa3, _⟩ := same_or_cleared hsa
      refine ⟨hu2, a1, b1, ha1, hb1, by rw [fa1, hne], by rw [hb1c]; exact hbe,
        by rw [fa2, hnn, hoptA], by rw [hb1c]; exact hbn, by rw [fa3, hnc]; exact hac,
        by rw [hb1c]; exact hbc, ?_⟩
      rintro ⟨_, hb⟩
      rw [hb1c] at hb
      cases hb
    · by_cases hkj : k = j
      · subst hkj
        have heb : e = b := by rw [hk] at hj; exact Option.some.inj hj
        subst heb
        have hoptB : opt = B := by
          have := hen hbe
          rw [hbn] at this
          exact (Option.some.inj this).symm
        have h1j : (T.set k new)[k]? = some new := List.getElem?_set_self hkl
        have h1i : (T.set k new)[i]? = some a := by
          rw [List.getElem?_set_ne hki]; exact hi
        have hAi : vfs_hasopt (T.set k new) (some A) = some i := by
          rw [← han]; exact hasopt_of_unique hu1 h1i hae
        obtain ⟨b1, hb1, hsb, _⟩ := fold_clear_slot (cancel_list e.mo_cancel) _ k new h1j
        obtain ⟨a1, ha1, _, hca⟩ := fold_clear_slot (cancel_list e.mo_cancel) _ i a h1i
        have ha1c : a1 = clear_slot a := hca ⟨A, hbc, hAi⟩
        obtain ⟨fb1, fb2, fb3, _⟩ := same_or_cleared hsb
        refine ⟨hu2, a1, b1, ha1, hb1, by rw [ha1c]; exact hae, by rw [fb1, hne],
          by rw [ha1c]; exact han, by rw [fb2, hnn, hoptB], by rw [ha1c]; exact hac,
          by rw [fb3, hnc]; exact hbc, ?_⟩
        rintro ⟨ha, _⟩
        rw [ha1c] at ha
        cases ha
      · have h1i : (T.set k new)[i]? = some a := by
          rw [List.getElem?_set_ne hki]; exact hi
        have h1j : (T.set k new)[j]? = some b := by
          rw [List.getElem?_set_ne hkj]; exact hj
        obtain ⟨a1, ha1, hsa, _⟩ := fold_clear_slot (cancel_list e.mo_cancel) _ i a h1i
        obtain ⟨b1, hb1, hsb, _⟩ := fold_clear_slot (cancel_list e.mo_cancel) _ j b h1j
        obtain ⟨fa1, fa2, fa3, fa4⟩ := same_or_cleared hsa
        obtain ⟨fb1, fb2, fb3, fb4⟩ := same_or_cleared hsb
        refine ⟨hu2, a1, b1, ha1, hb1, by rw [fa1, hae], by rw [fb1, hbe], by rw [fa2, han],
          by rw [fb2, hbn], by rw [fa3]; exact hac, by rw [fb3]; exact hbc, ?_⟩
        exact fun hh => hset ⟨fa4 hh.1, fb4 hh.2⟩

theorem excl_inv_parse_loop (A B : CStr) (hAB : A ≠ B) (i j : Nat) (fuel : Nat)
    (mops : mntopts_t) (buf : List Char) (s : Nat) (setflg : SetFlags) (create : Int)
    (h : excl_inv A B i j mops) :
    excl_inv A B i j (vfs_parsemntopts_loop fuel mops buf s setflg create).1 := by
  induction fuel generalizing mops buf s setflg with
  | zero => exact h
  | succ fuel ih =>
    unfold vfs_parsemntopts_loop
    split
    · exact h
    · exact ih _ _ _ _ (excl_inv_set A B hAB i j mops h _ _ _)

theorem excl_inv_run (A B : CStr) (hAB : A ≠ B) (i j : Nat) (T : mntopts_t)
    (h : excl_inv A B i j T) (c : table_call) : excl_inv A B i j (table_call.run T c) := by
  cases c with
  | set opt arg flags => exact excl_inv_set A B hAB i j T h opt arg flags
  | clear opt => exact excl_inv_clear A B i j T h opt
  | parse osp create =>
    unfold table_call.run vfs_parsemntopts
    cases osp with
    | none => exact h
    | some buf => exact excl_inv_parse_loop A B hAB i j _ T buf 0 _ create h

theorem excl_inv_fold (A B : CStr) (hAB : A ≠ B) (i j : Nat) (calls : List table_call) :
    ∀ T : mntopts_t, excl_inv A B i j T → excl_inv A B i j (calls.foldl table_call.run T) := by
  induction calls with
  | nil => intro T h; exact h
  | cons c calls ih =>
    intro T h
    rw [List.foldl_cons]
    exact ih _ (excl_inv_run A B hAB i j T h c)

theorem opt_cancels_slot {T : mntopts_t} {A B : CStr} (h : opt_cancels T A B = true) :
    ∃ i a, vfs_hasopt T (some A) = some i ∧ T[i]? = some a ∧ a.mo_flags.empty = false ∧
      a.mo_name = some A ∧ B ∈ cancel_list a.mo_cancel := by
  unfold opt_cancels at h
  cases hi : vfs_hasopt T (some A) with
  | none => rw [hi] at h; cases h
  | some i =>
    rw [hi] at h
    obtain ⟨a, ha, hae, han⟩ := hasopt_some hi
    have hg : T.getD i default = a := by
      rw [List.getD_eq_getElem?_getD, ha]; rfl
    simp only [hg, decide_eq_true_eq] at h
    exact ⟨i, a, rfl, ha, hae, han, h⟩

theorem isset_of_slot {T : mntopts_t} (hu : unique_names T) {i : Nat} {a : mntopt_t}
    {A : CStr} (ha : T[i]? = some a) (hae : a.mo_flags.empty = false)
    (han : a.mo_name = some A) : (vfs_optionisset_nolock T A).1 = a.mo_flags.set := by
  have hi : vfs_hasopt T (some A) = some i := by
    rw [← han]; exact hasopt_of_unique hu ha hae
  rw [optionisset_hasopt, hi]
  simp only []
  rw [List.getD_eq_getElem?_getD, ha]
  rfl

/-- C29: in a table with unique names let `A` and `B` be two distinct options that are in
the table and name each other in their cancel lists, not both SET. Then after every finite
sequence of calls of `vfs_setmntopt_nolock`, `vfs_clearmntopt_nolock` and
`vfs_parsemntopts`, whatever their arguments and flags, `A` and `B` are not both SET. The
pairs ro/rw, suid/nosuid, devices/nodevices, setuid/nosetuid, nbmand/nonbmand,
exec/noexec, atime/noatime and xattr/noxattr of the prototype tables are such pairs in
the merged prototype table, whose names are unique. -/
theorem opposing_options_exclusive (T : mntopts_t) (hu : unique_names T) (A B : CStr)
    (hAB : A ≠ B) (hA : opt_cancels T A B = true) (hB : opt_cancels T B A = true)
    (h0 : ¬((vfs_optionisset_nolock T A).1 = true ∧ (vfs_optionisset_nolock T B).1 = true))
    (calls : List table_call) :
    ¬((vfs_optionisset_nolock (calls.foldl table_call.run T) A).1 = true ∧
        (vfs_optionisset_nolock (calls.foldl table_call.run T) B).1 = true)
    ∧ unique_names (vfs_mergeopttbl vfs_mntopts zfs_mntopts)
    ∧ (∀ p ∈ opposing_pairs, p.1 ≠ p.2 ∧
        opt_cancels (vfs_mergeopttbl vfs_mntopts zfs_mntopts) p.1 p.2 = true ∧
        opt_cancels (vfs_mergeopttbl vfs_mntopts zfs_mntopts) p.2 p.1 = true) := by
  refine ⟨?_, by decide, by decide⟩
  obtain ⟨i, a, _, hi, hae, han, hac⟩ := opt_cancels_slot hA
  obtain ⟨j, b, _, hj, hbe, hbn, hbc⟩ := opt_cancels_slot hB
  have hinv : excl_inv A B i j T := by
    refine ⟨hu, a, b, hi, hj, hae, hbe, han, hbn, hac, hbc, ?_⟩
    rw [← isset_of_slot hu hi hae han, ← isset_of_slot hu hj hbe hbn]
    exact h0
  obtain ⟨hu2, a2, b2, hi2, hj2, hae2, hbe2, han2, hbn2, _, _, hset2⟩ :=
    excl_inv_fold A B hAB i j calls T hinv
  rw [isset_of_slot hu2 hi2 hae2 han2, isset_of_slot hu2 hj2 hbe2 hbn2]
  exact hset2

/-- Witness of C29: "ro" and "rw" in the merged prototype table, after parsing "rw,ro",
setting "rw" with an argument, clearing "nosuid" and parsing "ro,rw,foo=1" with `create`
set. -/
theorem opposing_options_exclusive_witness :
    ¬((vfs_optionisset_nolock
          ([table_call.parse (some ("rw,ro".toList ++ [NUL])) 0,
            table_call.set MNTOPT_RW (some "1".toList) ⟨false, true, false, true⟩,
            table_call.clear MNTOPT_NOSUID,
            table_call.parse (some ("ro,rw,foo=1".toList ++ [NUL])) 1].foldl table_call.run
            (vfs_mergeopttbl vfs_mntopts zfs_mntopts)) MNTOPT_RO).1 = true ∧
        (vfs_optionisset_nolock
          ([table_call.parse (some ("rw,ro".toList ++ [NUL])) 0,
            table_call.set MNTOPT_RW (some "1".toList) ⟨false, true, false, true⟩,
            table_call.clear MNTOPT_NOSUID,
            table_call.parse (some ("ro,rw,foo=1".toList ++ [NUL])) 1].foldl table_call.run
            (vfs_mergeopttbl vfs_mntopts zfs_mntopts)) MNTOPT_RW).1 = true) :=
  (opposing_options_exclusive (vfs_mergeopttbl vfs_mntopts zfs_mntopts) (by decide)
    MNTOPT_RO MNTOPT_RW (by decide) (by decide) (by decide) (by decide)
    [table_call.parse (some ("rw,ro".toList ++ [NUL])) 0,
      table_call.set MNTOPT_RW (some "1".toList) ⟨false, true, false, true⟩,
      table_call.clear MNTOPT_NOSUID,
      table_call.parse (some ("ro,rw,foo=1".toList ++ [NUL])) 1]).1

/-! ## Teardown, suspend and resume -/

theorem teardown_suspend_eio (env : life_env) (s : zfs_instance)
    (h1 : s.z_teardown_lock = krwlock_t.unheld)
    (h2 : s.z_teardown_inactive_lock = krwlock_t.unheld)
    (hc : s.z_unmounted = true ∨ s.z_os = none) :
    zfsvfs_teardown env s false =
      outcome.ret (some Errno.EIO,
        if s.z_log.isSome = true then
          { s with z_log := none, events := s.events ++ [life_event.zil_close] }
        else s) := by
  unfold zfsvfs_teardown
  rw [h1]
  simp only [rw_enter_writer]
  have hcond : (s.z_unmounted || s.z_os.isNone) = true := by
    rcases hc with h | h
    · rw [h]; rfl
    · rw [h]; simp
  cases hlog : s.z_log.isSome
  · simp only [Bool.false_eq_true, if_false, h2, rw_enter_writer, Bool.not_false,
      Bool.true_and, hcond, if_true, rw_exit]
    congr 2
    cases s
    simp only [zfs_instance.mk.injEq] at *
    simp [h1, h2]
  · simp only [if_true, h2, rw_enter_writer, Bool.not_false, Bool.true_and, hcond, rw_exit]

theorem teardown_error_is_race (env : life_env) (s : zfs_instance) (unmounting : Bool)
    (e : Errno) (s1 : zfs_instance)
    (h : zfsvfs_teardown env s unmounting = outcome.ret (some e, s1)) :
    e = Errno.EIO ∧ unmounting = false ∧ (s.z_unmounted = true ∨ s.z_os = none) := by
  obtain ⟨reg, fmt, z_os, z_log, z_unm, ver, snap, zn, tl, il, own, usr, alloc, ev⟩ := s
  cases tl <;> cases il <;> cases z_log <;> cases unmounting <;> cases z_unm <;>
    cases z_os <;>
    simp only [zfsvfs_teardown, rw_enter_writer, rw_exit, Option.isSome_none,
      Option.isSome_some, Option.isNone_none, Option.isNone_some, Bool.false_eq_true,
      if_false, if_true, Bool.not_false, Bool.not_true, Bool.true_and, Bool.false_and,
      Bool.or_false, Bool.or_true, Bool.false_or, Bool.true_or, outcome.ret.injEq,
      Prod.mk.injEq, Option.some.injEq, reduceCtorEq, false_and, and_false] at h <;>
    first
    | exact ⟨h.1.symm, rfl, Or.inl rfl⟩
    | exact ⟨h.1.symm, rfl, Or.inr rfl⟩
    | (split at h <;> simp at h)

theorem suspend_error_is_race (env : life_env) (s : zfs_instance) (e : Errno)
    (s1 : zfs_instance) (h : zfs_suspend_fs env s = outcome.ret (some e, s1)) :
    zfsvfs_teardown env s false = outcome.ret (some e, s1) := by
  unfold zfs_suspend_fs at h
  split at h
  · cases h
  · cases h
  · rename_i err s2 heq
    simp only [outcome.ret.injEq, Prod.mk.injEq, Option.some.injEq] at h
    rw [heq, h.1, h.2]
  · split at h
    · cases h
    · cases h

theorem verify_unregister_stops (L : List (zfs_prop_t × callback_t)) :
    L.foldl verify_unregister outcome.stops = outcome.stops := by
  induction L with
  | nil => rfl
  | cons a L ih => simpa [List.foldl_cons, verify_unregister] using ih

theorem verify_unregister_blocks (L : List (zfs_prop_t × callback_t)) :
    L.foldl verify_unregister outcome.blocks = outcome.blocks := by
  induction L with
  | nil => rfl
  | cons a L ih => simpa [List.foldl_cons, verify_unregister] using ih

theorem unregister_fold_ret (L : List (zfs_prop_t × callback_t)) :
    ∀ st st1 : reg_state, L.foldl verify_unregister (outcome.ret st) = outcome.ret st1 →
      st1.zfsvfs = st.zfsvfs ∧ (∀ pc ∈ L, pc ∉ st1.ds_prop_cbs) ∧
      (∀ pc, pc ∈ st1.ds_prop_cbs → pc ∈ st.ds_prop_cbs) := by
  induction L with
  | nil =>
    intro st st1 h
    simp only [List.foldl_nil, outcome.ret.injEq] at h
    subst h
    exact ⟨rfl, fun pc hpc => absurd hpc (List.not_mem_nil _), fun _ h => h⟩
  | cons a L ih =>
    intro st st1 h
    rw [List.foldl_cons] at h
    by_cases ha : a ∈ st.ds_prop_cbs
    · have hstep : verify_unregister (outcome.ret st) a
          = outcome.ret (dsl_prop_unregister st a.1 a.2) := by
        simp only [verify_unregister, if_pos ha]
      rw [hstep] at h
      obtain ⟨hz, hout, hsub⟩ := ih _ _ h
      have hsub2 : ∀ pc, pc ∈ st1.ds_prop_cbs → pc ∈ st.ds_prop_cbs ∧ pc ≠ a := by
        intro pc hpc
        have := hsub pc hpc
        simp only [dsl_prop_unregister, List.mem_filter, decide_eq_true_eq] at this
        exact this
      refine ⟨hz, ?_, fun pc hpc => (hsub2 pc hpc).1⟩
      intro pc hpc
      rcases List.mem_cons.1 hpc with rfl | hpc
      · intro hin
        exact (hsub2 _ hin).2 rfl
      · exact hout pc hpc
    · have hstep : verify_unregister (outcome.ret st) a = outcome.stops := by
        simp only [verify_unregister, if_neg ha]
      rw [hstep, verify_unregister_stops] at h
      cases h

theorem unregister_fold_returns (L : List (zfs_prop_t × callback_t)) :
    ∀ st : reg_state, L.Nodup → (∀ pc ∈ L, pc ∈ st.ds_prop_cbs) →
      ∃ st1, L.foldl verify_unregister (outcome.ret st) = outcome.ret st1 := by
  induction L with
  | nil => intro st _ _; exact ⟨st, rfl⟩
  | cons a L ih =>
    intro st hnd hall
    have ha : a ∈ st.ds_prop_cbs := hall a (List.mem_cons_self _ _)
    have hstep : verify_unregister (outcome.ret st) a
        = outcome.ret (dsl_prop_unregister st a.1 a.2) := by
      simp only [verify_unregister, if_pos ha]
    rw [List.foldl_cons, hstep]
    apply ih _ (List.nodup_cons.1 hnd).2
    intro pc hpc
    simp only [dsl_prop_unregister, List.mem_filter, decide_eq_true_eq]
    refine ⟨hall pc (List.mem_cons_of_mem _ hpc), ?_⟩
    intro heq
    apply (List.nodup_cons.1 hnd).1
    rw [← show pc = a from heq]
    exact hpc

theorem registrations_nodup : registrations.Nodup := by decide

theorem unregister_callbacks_ret (env : life_env) (s s1 : zfs_instance)
    (h : zfs_unregister_callbacks env s = outcome.ret s1) :
    ∃ st, s1 = { s with reg := st } ∧ st.zfsvfs = s.reg.zfsvfs ∧
      (env.store.is_snapshot = false → ∀ pc ∈ registrations, pc ∉ st.ds_prop_cbs) ∧
      (∀ pc, pc ∈ st.ds_prop_cbs → pc ∈ s.reg.ds_prop_cbs) := by
  unfold zfs_unregister_callbacks at h
  cases hos : s.z_os with
  | none => simp only [hos] at h; cases h
  | some os =>
    simp only [hos] at h
    cases hsnap : env.store.is_snapshot
    · simp only [hsnap, Bool.not_false, if_true] at h
      cases hf : registrations.foldl verify_unregister (outcome.ret s.reg) with
      | ret st =>
        simp only [hf, outcome.ret.injEq] at h
        obtain ⟨hz, hout, hsub⟩ := unregister_fold_ret _ _ _ hf
        exact ⟨st, h.symm, hz, fun _ => hout, hsub⟩
      | blocks => simp only [hf] at h; cases h
      | stops => simp only [hf] at h; cases h
    · simp only [hsnap, Bool.not_true, Bool.false_eq_true, if_false, outcome.ret.injEq] at h
      refine ⟨s.reg, ?_, rfl, ?_, fun _ hh => hh⟩
      · subst h
        cases s
        simp only [zfs_instance.mk.injEq, true_and, and_true] at hos ⊢
        exact hos
      · intro hh
        cases hh

theorem unregister_callbacks_returns (env : life_env) (s : zfs_instance) (os : Nat)
    (hos : s.z_os = some os)
    (hreg : env.store.is_snapshot = false → ∀ pc ∈ registrations, pc ∈ s.reg.ds_prop_cbs) :
    ∃ s1, zfs_unregister_callbacks env s = outcome.ret s1 := by
  unfold zfs_unregister_callbacks
  simp only [hos]
  cases hsnap : env.store.is_snapshot
  · obtain ⟨st, hst⟩ := unregister_fold_returns registrations s.reg registrations_nodup
      (hreg hsnap)
    simp only [Bool.not_false, if_true, hst]
    exact ⟨_, rfl⟩
  · simp only [Bool.not_true, Bool.false_eq_true, if_false]
    exact ⟨_, rfl⟩


theorem teardown_ret (env : life_env) (s : zfs_instance) (unmounting : Bool)
    (r : Option Errno) (s1 : zfs_instance)
    (h : zfsvfs_teardown env s unmounting = outcome.ret (r, s1)) :
    (s.z_teardown_lock = krwlock_t.unheld ∧ s.z_teardown_inactive_lock = krwlock_t.unheld) ∧
    (s1.z_os = s.z_os ∧ s1.os_owned = s.os_owned ∧ s1.os_user_ptr = s.os_user_ptr ∧
      s1.allocated = s.allocated ∧ s1.z_log = none ∧ s1.reg.zfsvfs = s.reg.zfsvfs ∧
      (∀ os, life_event.disown os ∈ s1.events → life_event.disown os ∈ s.events) ∧
      (∀ pc, pc ∈ s1.reg.ds_prop_cbs → pc ∈ s.reg.ds_prop_cbs)) ∧
    ((r = some Errno.EIO ∧ unmounting = false ∧ (s.z_unmounted = true ∨ s.z_os = none) ∧
        s1.z_teardown_lock = krwlock_t.unheld ∧
        s1.z_teardown_inactive_lock = krwlock_t.unheld ∧
        s1.z_unmounted = s.z_unmounted ∧ s1.reg = s.reg) ∨
     (r = none ∧ ¬ (unmounting = false ∧ (s.z_unmounted = true ∨ s.z_os = none)) ∧
        s1.z_unmounted = (unmounting || s.z_unmounted) ∧
        s1.z_teardown_lock
          = (if unmounting = true then krwlock_t.unheld else krwlock_t.write_held) ∧
        s1.z_teardown_inactive_lock
          = (if unmounting = true then krwlock_t.unheld else krwlock_t.write_held) ∧
        (s.z_os = none → s1.reg = s.reg) ∧
        (s.z_os ≠ none → env.store.is_snapshot = false →
          ∀ pc ∈ registrations, pc ∉ s1.reg.ds_prop_cbs))) := by
  obtain ⟨reg, fmt, z_os, z_log, z_unm, ver, snap, zn, tl, il, own, usr, alloc, ev⟩ := s
  cases tl <;> cases il <;> cases z_log <;> cases unmounting <;> cases z_unm <;>
    cases z_os <;>
    simp only [zfsvfs_teardown, rw_enter_writer, rw_exit, Option.isSome_none,
      Option.isSome_some, Option.isNone_none, Option.isNone_some, Bool.false_eq_true,
      if_false, if_true, Bool.not_false, Bool.not_true, Bool.true_and, Bool.false_and,
      Bool.or_false, Bool.or_true, Bool.false_or, Bool.true_or, outcome.ret.injEq,
      Prod.mk.injEq, reduceCtorEq] at h <;>
    first
    | (obtain ⟨hr, hs⟩ := h
       subst hr hs
       simp)
    | (split at h
       · cases h
       · cases h
       · rename_i s2 heq
         obtain ⟨st, hst, hz, hout, hsub⟩ := unregister_callbacks_ret env _ _ heq
         subst hst
         simp only [outcome.ret.injEq, Prod.mk.injEq] at h
         obtain ⟨hr, hs⟩ := h
         subst hr hs
         refine ⟨⟨rfl, rfl⟩, ⟨?_, ?_, ?_, ?_, ?_, ?_, ?_, ?_⟩, Or.inr ⟨rfl, ?_, ?_, ?_, ?_, ?_, ?_⟩⟩ <;>
           simp only [apply_ite zfs_instance.events, apply_ite zfs_instance.reg,
             apply_ite zfs_instance.z_os, apply_ite zfs_instance.os_owned,
             apply_ite zfs_instance.os_user_ptr, apply_ite zfs_instance.allocated,
             apply_ite zfs_instance.z_log, apply_ite zfs_instance.z_unmounted,
             apply_ite zfs_instance.z_teardown_lock,
             apply_ite zfs_instance.z_teardown_inactive_lock, ite_self] <;>
           first
           | rfl
           | exact hz
           | exact hsub
           | exact fun _ => hout
           | (intro os hos
              split_ifs at hos <;> simpa using hos)
           | simp)

theorem unregister_callbacks_not_blocks (env : life_env) (s : zfs_instance) :
    zfs_unregister_callbacks env s ≠ outcome.blocks := by
  unfold zfs_unregister_callbacks
  cases s.z_os with
  | none => simp
  | some os =>
    simp only
    split_ifs
    · cases hf : registrations.foldl verify_unregister (outcome.ret s.reg) with
      | ret st => simp
      | stops => simp
      | blocks =>
        exfalso
        have key : ∀ (L : List (zfs_prop_t × callback_t)) (acc : outcome reg_state),
            acc ≠ outcome.blocks → L.foldl verify_unregister acc ≠ outcome.blocks := by
          intro L
          induction L with
          | nil => intro acc h; exact h
          | cons a L ih =>
            intro acc h
            rw [List.foldl_cons]
            apply ih
            cases acc with
            | ret st => simp only [verify_unregister]; split_ifs <;> simp
            | blocks => exact absurd rfl h
            | stops => simp [verify_unregister]
        exact key _ _ (by simp) hf
    · simp

theorem unregister_callbacks_stops (env : life_env) (s : zfs_instance)
    (h : zfs_unregister_callbacks env s = outcome.stops) :
    s.z_os = none ∨
      (env.store.is_snapshot = false ∧ ∃ pc ∈ registrations, pc ∉ s.reg.ds_prop_cbs) := by
  cases hos : s.z_os with
  | none => exact Or.inl rfl
  | some os =>
    right
    by_contra hcon
    obtain ⟨s2, hs2⟩ := unregister_callbacks_returns env s os hos (by
      intro hsnap pc hpc
      by_contra hn
      exact hcon ⟨hsnap, pc, hpc, hn⟩)
    rw [hs2] at h
    cases h

theorem teardown_returns (env : life_env) (s : zfs_instance) (unmounting : Bool)
    (h1 : s.z_teardown_lock = krwlock_t.unheld)
    (h2 : s.z_teardown_inactive_lock = krwlock_t.unheld)
    (hreg : s.z_os ≠ none → (unmounting = true ∨ s.z_unmounted = false) →
      env.store.is_snapshot = false → ∀ pc ∈ registrations, pc ∈ s.reg.ds_prop_cbs) :
    ∃ r s1, zfsvfs_teardown env s unmounting = outcome.ret (r, s1) := by
  obtain ⟨reg, fmt, z_os, z_log, z_unm, ver, snap, zn, tl, il, own, usr, alloc, ev⟩ := s
  simp only at h1 h2 hreg
  subst h1 h2
  cases z_log <;> cases unmounting <;> cases z_unm <;> cases z_os <;>
    simp only [zfsvfs_teardown, rw_enter_writer, rw_exit, Option.isSome_none,
      Option.isSome_some, Option.isNone_none, Option.isNone_some, Bool.false_eq_true,
      if_false, if_true, Bool.not_false, Bool.not_true, Bool.true_and, Bool.false_and,
      Bool.or_false, Bool.or_true, Bool.false_or, Bool.true_or] <;>
    first
    | exact ⟨_, _, rfl⟩
    | (split
       · rename_i heq
         exact absurd heq (unregister_callbacks_not_blocks env _)
       · rename_i heq
         rcases unregister_callbacks_stops env _ heq with h | ⟨hsnap, pc, hpc, hn⟩
         · cases h
         · exact absurd (hreg (by simp) (by simp) hsnap pc hpc) hn
       · exact ⟨_, _, rfl⟩)

/-! ## A suspend that finds the instance unmounted or without its store -/

/-- C24: `zfsvfs_teardown(zfsvfs, B_FALSE)` and `zfs_suspend_fs`, entered with both locks
free, return `EIO` exactly when the instance is marked unmounted or `z_os` is `NULL`,
and they return no other error. In that case both return the same state: the two locks
are free again, `z_unmounted` and `z_os` are as on entry, the subscriptions and the record
of the calls to the store about them are as on entry (nothing is unregistered), the
ownership of the store is as on entry, and the only call into the store is the `zil_close`
of an open log. -/
theorem zfsvfs_teardown_race (env : life_env) (s : zfs_instance)
    (h1 : s.z_teardown_lock = krwlock_t.unheld)
    (h2 : s.z_teardown_inactive_lock = krwlock_t.unheld) :
    ((∃ s1, zfsvfs_teardown env s false = outcome.ret (some Errno.EIO, s1))
        ↔ (s.z_unmounted = true ∨ s.z_os = none)) ∧
    ((∃ s1, zfs_suspend_fs env s = outcome.ret (some Errno.EIO, s1))
        ↔ (s.z_unmounted = true ∨ s.z_os = none)) ∧
    (∀ e s1, zfsvfs_teardown env s false = outcome.ret (some e, s1) ∨
        zfs_suspend_fs env s = outcome.ret (some e, s1) → e = Errno.EIO) ∧
    ((s.z_unmounted = true ∨ s.z_os = none) →
      ∃ s1, zfsvfs_teardown env s false = outcome.ret (some Errno.EIO, s1) ∧
        zfs_suspend_fs env s = outcome.ret (some Errno.EIO, s1) ∧
        s1.z_teardown_lock = krwlock_t.unheld ∧
        s1.z_teardown_inactive_lock = krwlock_t.unheld ∧
        s1.z_unmounted = s.z_unmounted ∧ s1.z_os = s.z_os ∧
        s1.reg = s.reg ∧ s1.os_owned = s.os_owned ∧
        s1.events
          = s.events ++ (if s.z_log.isSome = true then [life_event.zil_close] else [])) := by
  have hback : (s.z_unmounted = true ∨ s.z_os = none) →
      zfs_suspend_fs env s = zfsvfs_teardown env s false := by
    intro hc
    unfold zfs_suspend_fs
    rw [teardown_suspend_eio env s h1 h2 hc]
  refine ⟨⟨?_, ?_⟩, ⟨?_, ?_⟩, ?_, ?_⟩
  · rintro ⟨s1, hs1⟩
    exact (teardown_error_is_race env s false _ s1 hs1).2.2
  · intro hc
    exact ⟨_, teardown_suspend_eio env s h1 h2 hc⟩
  · rintro ⟨s1, hs1⟩
    exact (teardown_error_is_race env s false _ s1
      (suspend_error_is_race env s _ s1 hs1)).2.2
  · intro hc
    rw [hback hc]
    exact ⟨_, teardown_suspend_eio env s h1 h2 hc⟩
  · rintro e s1 (h | h)
    · exact (teardown_error_is_race env s false e s1 h).1
    · exact (teardown_error_is_race env s false e s1
        (suspend_error_is_race env s e s1 h)).1
  · intro hc
    refine ⟨_, teardown_suspend_eio env s h1 h2 hc, ?_, ?_⟩
    · rw [hback hc]
      exact teardown_suspend_eio env s h1 h2 hc
    · cases hlog : s.z_log.isSome
      · simp [h1, h2]
      · simp [h1, h2]

/-- Witness of C24: an instance with the store 7 attached that is marked unmounted. -/
theorem zfsvfs_teardown_race_witness :
    ∃ s1, zfs_suspend_fs
        ⟨⟨false, true, 512, 131072, fun _ => Except.ok 1⟩, false, Except.ok 7, Except.ok 5,
          Except.ok 3, fun _ => none, 5, fun _ => true, none⟩
        { zfsvfs_zalloc with z_os := some 7, z_unmounted := true, os_owned := [7] }
          = outcome.ret (some Errno.EIO, s1) ∧
      s1.z_teardown_lock = krwlock_t.unheld ∧ s1.z_os = some 7 ∧ s1.os_owned = [7] :=
  match (zfsvfs_teardown_race
      ⟨⟨false, true, 512, 131072, fun _ => Except.ok 1⟩, false, Except.ok 7, Except.ok 5,
        Except.ok 3, fun _ => none, 5, fun _ => true, none⟩
      { zfsvfs_zalloc with z_os := some 7, z_unmounted := true, os_owned := [7] }
      rfl rfl).2.2.2 (Or.inl rfl) with
  | ⟨s1, _, h, hl, _, _, hos, _, hown, _⟩ => ⟨s1, h, hl, hos, hown⟩

/-! ## The lock protocol of teardown and resume -/

theorem zfsvfs_setup_frame (env : life_env) (s : zfs_instance) (m : Bool) :
    (zfsvfs_setup env s m).2.z_teardown_lock = s.z_teardown_lock ∧
    (zfsvfs_setup env s m).2.z_teardown_inactive_lock = s.z_teardown_inactive_lock ∧
    (zfsvfs_setup env s m).1 = (zfs_register_callbacks env.store s.reg).1 := by
  unfold zfsvfs_setup
  cases h : (zfs_register_callbacks env.store s.reg).1 <;> simp [h]

theorem resume_bail_locks (s : zfs_instance) (err r : Option Errno) (s1 : zfs_instance)
    (h : zfs_resume_fs_bail s err = outcome.ret (r, s1)) :
    r = err ∧ s1.z_teardown_lock = rw_exit s.z_teardown_lock ∧
      s1.z_teardown_inactive_lock = rw_exit s.z_teardown_inactive_lock ∧
      s1.z_os = s.z_os ∧ s1.reg = s.reg ∧ s1.z_version = s.z_version := by
  simp only [zfs_resume_fs_bail, outcome.ret.injEq, Prod.mk.injEq] at h
  obtain ⟨hr, hs⟩ := h
  subst hr hs
  simp

theorem resume_ret (env : life_env) (s : zfs_instance) (r : Option Errno)
    (s1 : zfs_instance) (h : zfs_resume_fs env s = outcome.ret (r, s1)) :
    s1.z_teardown_lock = rw_exit s.z_teardown_lock ∧
      s1.z_teardown_inactive_lock = rw_exit s.z_teardown_inactive_lock := by
  unfold zfs_resume_fs at h
  cases hown : env.dmu_objset_own with
  | error e =>
    simp only [hown] at h
    have := resume_bail_locks _ _ _ _ h
    exact ⟨this.2.1, this.2.2.1⟩
  | ok os =>
    simp only [hown] at h
    cases hv : env.zfs_get_zplprop_version with
    | error e =>
      simp only [hv] at h
      have := resume_bail_locks _ _ _ _ h
      exact ⟨this.2.1, this.2.2.1⟩
    | ok v =>
      simp only [hv] at h
      split_ifs at h with hc
      · have := resume_bail_locks _ _ _ _ h
        exact ⟨this.2.1, this.2.2.1⟩
      · split at h
        · have := resume_bail_locks _ _ _ _ h
          exact ⟨this.2.1, this.2.2.1⟩
        · split at h
          · cases h
          · rename_i s2 heq
            have := resume_bail_locks _ _ _ _ h
            have hf := zfsvfs_setup_frame env
              { s with z_os := some os, os_owned := os :: s.os_owned,
                       events := s.events ++ [life_event.own os], z_version := v } false
            rw [heq] at hf
            simp only at hf this
            exact ⟨by rw [this.2.1, hf.1], by rw [this.2.2.1, hf.2.1]⟩

theorem resume_not_blocks (env : life_env) (s : zfs_instance) :
    zfs_resume_fs env s ≠ outcome.blocks := by
  unfold zfs_resume_fs zfs_resume_fs_bail
  cases env.dmu_objset_own with
  | error e => simp
  | ok os =>
    cases env.zfs_get_zplprop_version with
    | error e => simp
    | ok v =>
      simp only
      split_ifs
      · simp
      · split
        · simp
        · split <;> simp

theorem resume_stops (env : life_env) (s : zfs_instance)
    (h : zfs_resume_fs env s = outcome.stops) :
    ∃ e, (zfs_register_callbacks env.store s.reg).1 = some e := by
  unfold zfs_resume_fs zfs_resume_fs_bail at h
  cases hown : env.dmu_objset_own with
  | error e => simp [hown] at h
  | ok os =>
    cases hv : env.zfs_get_zplprop_version with
    | error e => simp [hown, hv] at h
    | ok v =>
      simp only [hown, hv] at h
      split_ifs at h with hc
      split at h
      · cases h
      · split at h
        · rename_i e s2 heq
          have hf := zfsvfs_setup_frame env
            { s with z_os := some os, os_owned := os :: s.os_owned,
                     events := s.events ++ [life_event.own os], z_version := v } false
          rw [heq] at hf
          exact ⟨e, hf.2.2.symm⟩
        · cases h

/-- The lock protocol on the paths that return. Whenever `zfsvfs_teardown` returns, it
holds both locks for writing exactly when it was called for a suspend and returns 0, and
otherwise both locks
are free. A teardown for unmount returns nothing but 0, with the instance marked
unmounted and both locks free, and entered with both locks free it does return (the
`VERIFY`s of `zfs_unregister_callbacks` hold when the twelve subscriptions of an attached
store that is not a snapshot are there). `zfs_resume_fs`, entered with both locks held for
writing, never waits, and has both locks free whenever it returns: it returns the error of
a failed reopen, of a failed read of the version, of a failed lookup of `ZFS_SA_ATTRS` at a
version from `ZPL_VERSION_SA` on, and of a failed `sa_setup`; it returns 0 when these and
the registration of the callbacks succeed; the only way not to return is the
`VERIFY(zfsvfs_setup(zfsvfs, B_FALSE) == 0)` with a failing registration. -/
theorem lifecycle_lock_protocol (env : life_env) (s : zfs_instance) :
    (∀ unmounting r s1, zfsvfs_teardown env s unmounting = outcome.ret (r, s1) →
      ((s1.z_teardown_lock = krwlock_t.write_held ∧
          s1.z_teardown_inactive_lock = krwlock_t.write_held)
        ↔ (unmounting = false ∧ r = none)) ∧
      (¬ (unmounting = false ∧ r = none) →
        s1.z_teardown_lock = krwlock_t.unheld ∧
          s1.z_teardown_inactive_lock = krwlock_t.unheld)) ∧
    (∀ r s1, zfsvfs_teardown env s true = outcome.ret (r, s1) →
      r = none ∧ s1.z_unmounted = true ∧ s1.z_teardown_lock = krwlock_t.unheld ∧
        s1.z_teardown_inactive_lock = krwlock_t.unheld) ∧
    (s.z_teardown_lock = krwlock_t.unheld → s.z_teardown_inactive_lock = krwlock_t.unheld →
      (s.z_os ≠ none → env.store.is_snapshot = false →
        ∀ pc ∈ registrations, pc ∈ s.reg.ds_prop_cbs) →
      (∃ s1, zfsvfs_teardown env s true = outcome.ret (none, s1)) ∧
      (∃ r s1, zfsvfs_teardown env s false = outcome.ret (r, s1))) ∧
    (s.z_teardown_lock = krwlock_t.write_held →
      s.z_teardown_inactive_lock = krwlock_t.write_held →
      zfs_resume_fs env s ≠ outcome.blocks ∧
      (∀ r s1, zfs_resume_fs env s = outcome.ret (r, s1) →
        s1.z_teardown_lock = krwlock_t.unheld ∧
          s1.z_teardown_inactive_lock = krwlock_t.unheld) ∧
      (∀ e, env.dmu_objset_own = Except.error e →
        ∃ s1, zfs_resume_fs env s = outcome.ret (some e, s1)) ∧
      (∀ os e, env.dmu_objset_own = Except.ok os →
        env.zfs_get_zplprop_version = Except.error e →
        ∃ s1, zfs_resume_fs env s = outcome.ret (some e, s1)) ∧
      (∀ os v e, env.dmu_objset_own = Except.ok os →
        env.zfs_get_zplprop_version = Except.ok v →
        env.zap_lookup_sa_attrs = Except.error e → env.ZPL_VERSION_SA ≤ v →
        ∃ s1, zfs_resume_fs env s = outcome.ret (some e, s1)) ∧
      (∀ os v obj e, env.dmu_objset_own = Except.ok os →
        env.zfs_get_zplprop_version = Except.ok v →
        (env.zap_lookup_sa_attrs = Except.ok obj ∨
          (∃ e0, env.zap_lookup_sa_attrs = Except.error e0) ∧ v < env.ZPL_VERSION_SA ∧
            obj = 0) →
        env.sa_setup obj = some e →
        ∃ s1, zfs_resume_fs env s = outcome.ret (some e, s1)) ∧
      (∀ os v obj, env.dmu_objset_own = Except.ok os →
        env.zfs_get_zplprop_version = Except.ok v →
        (env.zap_lookup_sa_attrs = Except.ok obj ∨
          (∃ e0, env.zap_lookup_sa_attrs = Except.error e0) ∧ v < env.ZPL_VERSION_SA ∧
            obj = 0) →
        env.sa_setup obj = none →
        (zfs_register_callbacks env.store s.reg).1 = none →
        ∃ s1, zfs_resume_fs env s = outcome.ret (none, s1)) ∧
      (zfs_resume_fs env s = outcome.stops →
        ∃ e, (zfs_register_callbacks env.store s.reg).1 = some e)) := by
  refine ⟨?_, ?_, ?_, ?_⟩
  · intro unmounting r s1 h
    obtain ⟨_, _, hcase⟩ := teardown_ret env s unmounting r s1 h
    rcases hcase with ⟨hr, hu, _, hl1, hl2, _⟩ | ⟨hr, _, _, hl1, hl2, _⟩
    · subst hr hu
      rw [hl1, hl2]
      simp
    · subst hr
      rw [hl1, hl2]
      cases unmounting <;> simp
  · intro r s1 h
    obtain ⟨_, _, hcase⟩ := teardown_ret env s true r s1 h
    rcases hcase with ⟨_, hu, _⟩ | ⟨hr, _, hunm, hl1, hl2, _⟩
    · cases hu
    · exact ⟨hr, by simpa using hunm, by simpa using hl1, by simpa using hl2⟩
  · intro h1 h2 hreg
    constructor
    · obtain ⟨r, s1, h⟩ := teardown_returns env s true h1 h2 (fun ho _ => hreg ho)
      obtain ⟨_, _, hcase⟩ := teardown_ret env s true r s1 h
      rcases hcase with ⟨_, hu, _⟩ | ⟨hr, _⟩
      · cases hu
      · subst hr
        exact ⟨s1, h⟩
    · exact teardown_returns env s false h1 h2 (fun ho _ => hreg ho)
  · intro h1 h2
    refine ⟨resume_not_blocks env s, ?_, ?_, ?_, ?_, ?_, ?_, resume_stops env s⟩
    · intro r s1 h
      have := resume_ret env s r s1 h
      rw [h1, h2] at this
      exact this
    · intro e hown
      unfold zfs_resume_fs zfs_resume_fs_bail
      rw [hown]
      exact ⟨_, rfl⟩
    · intro os e hown hv
      unfold zfs_resume_fs zfs_resume_fs_bail
      rw [hown, hv]
      exact ⟨_, rfl⟩
    · intro os v e hown hv hsa hge
      unfold zfs_resume_fs zfs_resume_fs_bail
      rw [hown, hv, hsa]
      simp only [Option.isSome_some, Bool.true_and, ge_iff_le, decide_eq_true_eq, if_pos hge]
      exact ⟨_, rfl⟩
    · intro os v obj e hown hv hsa hsetup
      unfold zfs_resume_fs zfs_resume_fs_bail
      rw [hown, hv]
      rcases hsa with hsa | ⟨⟨e0, hsa⟩, hlt, hobj⟩
      · rw [hsa]
        simp only [Option.isSome_none, Bool.false_and, Bool.false_eq_true, if_false, hsetup]
        exact ⟨_, rfl⟩
      · subst hobj
        rw [hsa]
        simp only [Option.isSome_some, Bool.true_and, ge_iff_le, decide_eq_true_eq,
          if_neg (Nat.not_le.2 hlt), hsetup]
        exact ⟨_, rfl⟩
    · intro os v obj hown hv hsa hsetup hregs
      have hf := zfsvfs_setup_frame env
        { s with z_os := some os, os_owned := os :: s.os_owned,
                 events := s.events ++ [life_event.own os], z_version := v } false
      simp only at hf
      rw [hregs] at hf
      unfold zfs_resume_fs zfs_resume_fs_bail
      rw [hown, hv]
      rcases hsa with hsa | ⟨⟨e0, hsa⟩, hlt, hobj⟩
      · rw [hsa]
        simp only [Option.isSome_none, Bool.false_and, Bool.false_eq_true, if_false, hsetup]
        cases hz : zfsvfs_setup env
          { s with z_os := some os, os_owned := os :: s.os_owned,
                   events := s.events ++ [life_event.own os], z_version := v } false with
        | mk a b =>
          rw [hz] at hf
          simp only at hf
          rw [hf.2.2]
          exact ⟨_, rfl⟩
      · subst hobj
        rw [hsa]
        simp only [Option.isSome_some, Bool.true_and, ge_iff_le, decide_eq_true_eq,
          if_neg (Nat.not_le.2 hlt), hsetup]
        cases hz : zfsvfs_setup env
          { s with z_os := some os, os_owned := os :: s.os_owned,
                   events := s.events ++ [life_event.own os], z_version := v } false with
        | mk a b =>
          rw [hz] at hf
          simp only at hf
          rw [hf.2.2]
          exact ⟨_, rfl⟩

/-- An instance of the above: an attached instance with its twelve subscriptions and both
locks free is torn down for unmount, and an instance held by a suspend is resumed with a reopen that
fails with `EIO`. -/
theorem lifecycle_lock_protocol_witness :
    (∃ s1, zfsvfs_teardown
        ⟨⟨false, true, 512, 131072, fun _ => Except.ok 1⟩, false, Except.ok 7, Except.ok 5,
          Except.ok 3, fun _ => none, 5, fun _ => true, none⟩
        { zfsvfs_zalloc with
          z_os := some 7, z_log := some 7, os_owned := [7], os_user_ptr := some 7
          reg := { zfsvfs_zalloc.reg with ds_prop_cbs := registrations } } true
          = outcome.ret (none, s1)) ∧
    (∃ s1, zfs_resume_fs
        ⟨⟨false, true, 512, 131072, fun _ => Except.ok 1⟩, false, Except.error Errno.EIO,
          Except.ok 5, Except.ok 3, fun _ => none, 5, fun _ => true, none⟩
        { zfsvfs_zalloc with
          z_os := some 7, z_teardown_lock := krwlock_t.write_held
          z_teardown_inactive_lock := krwlock_t.write_held }
          = outcome.ret (some Errno.EIO, s1)) :=
  ⟨((lifecycle_lock_protocol
      ⟨⟨false, true, 512, 131072, fun _ => Except.ok 1⟩, false, Except.ok 7, Except.ok 5,
        Except.ok 3, fun _ => none, 5, fun _ => true, none⟩
      { zfsvfs_zalloc with
        z_os := some 7, z_log := some 7, os_owned := [7], os_user_ptr := some 7
        reg := { zfsvfs_zalloc.reg with ds_prop_cbs := registrations } }).2.2.1
      rfl rfl (fun _ _ _ hpc => hpc)).1,
   ((lifecycle_lock_protocol
      ⟨⟨false, true, 512, 131072, fun _ => Except.ok 1⟩, false, Except.error Errno.EIO,
        Except.ok 5, Except.ok 3, fun _ => none, 5, fun _ => true, none⟩
      { zfsvfs_zalloc with
        z_os := some 7, z_teardown_lock := krwlock_t.write_held
        z_teardown_inactive_lock := krwlock_t.write_held }).2.2.2
      rfl rfl).2.2.1 Errno.EIO rfl⟩

/-! ## A resume whose reopen of the store fails -/

theorem suspend_ok (env : life_env) (s0 s : zfs_instance)
    (h : zfs_suspend_fs env s0 = outcome.ret (none, s)) :
    ∃ s1 os, zfsvfs_teardown env s0 false = outcome.ret (none, s1) ∧ s1.z_os = some os ∧
      s = dmu_objset_disown s1 os := by
  unfold zfs_suspend_fs at h
  split at h
  · cases h
  · cases h
  · simp at h
  · rename_i s1 heq
    split at h
    · cases h
    · rename_i os hos
      simp only [outcome.ret.injEq, Prod.mk.injEq, true_and] at h
      exact ⟨s1, os, heq, hos, h.symm⟩

theorem unmount_detached (env : life_env) (s : zfs_instance)
    (h1 : s.z_teardown_lock = krwlock_t.unheld)
    (h2 : s.z_teardown_inactive_lock = krwlock_t.unheld) (hos : s.z_os = none) :
    ∃ s1, zfsvfs_teardown env s true = outcome.ret (none, s1) ∧ s1.z_unmounted = true ∧
      s1.z_os = none ∧ s1.reg = s.reg ∧ s1.os_owned = s.os_owned ∧
      s1.z_teardown_lock = krwlock_t.unheld ∧
      s1.z_teardown_inactive_lock = krwlock_t.unheld ∧
      (∀ os, life_event.disown os ∈ s1.events → life_event.disown os ∈ s.events) := by
  obtain ⟨r, s1, h⟩ := teardown_returns env s true h1 h2
    (fun hne => absurd hos hne)
  obtain ⟨_, ⟨hz, hown, _, _, _, _, hev, _⟩, hcase⟩ := teardown_ret env s true r s1 h
  rcases hcase with ⟨_, hu, _⟩ | ⟨hr, _, hunm, hl1, hl2, hreg, _⟩
  · cases hu
  · subst hr
    exact ⟨s1, h, by simpa using hunm, by rw [hz, hos], hreg hos, hown, by simpa using hl1,
      by simpa using hl2, hev⟩

/-- C26: an instance `s` left by a successful `zfs_suspend_fs` of a store that is not a
snapshot is resumed, and `dmu_objset_own` fails with `e`. Then `zfs_resume_fs` returns `e`
with `z_os` `NULL`, none of the twelve subscriptions registered (no subscription at all
when the instance had no other on entry to the suspend) and both locks free. From that
state `zfs_suspend_fs` returns `EIO` with both locks free; `zfsvfs_teardown` for unmount
returns 0 with the instance marked unmounted, the subscriptions and the record of the
calls about them untouched, and nothing disowned; and `zfs_vfs_unmount` (when `vflush`
succeeds) returns 0 without disowning a store. -/
theorem zfs_resume_fs_reopen_failure (env0 env env2 env3 : life_env) (s0 s : zfs_instance)
    (e : Errno) (hsnap : env0.store.is_snapshot = false)
    (hs : zfs_suspend_fs env0 s0 = outcome.ret (none, s))
    (hown : env.dmu_objset_own = Except.error e) :
    ∃ s1, zfs_resume_fs env s = outcome.ret (some e, s1) ∧ s1.z_os = none ∧
      (∀ pc ∈ registrations, pc ∉ s1.reg.ds_prop_cbs) ∧
      ((∀ pc ∈ s0.reg.ds_prop_cbs, pc ∈ registrations) → s1.reg.ds_prop_cbs = []) ∧
      s1.z_teardown_lock = krwlock_t.unheld ∧
      s1.z_teardown_inactive_lock = krwlock_t.unheld ∧
      (∃ s2, zfs_suspend_fs env2 s1 = outcome.ret (some Errno.EIO, s2) ∧
        s2.z_teardown_lock = krwlock_t.unheld ∧
        s2.z_teardown_inactive_lock = krwlock_t.unheld) ∧
      (∃ s3, zfsvfs_teardown env3 s1 true = outcome.ret (none, s3) ∧
        s3.z_unmounted = true ∧ s3.reg = s1.reg ∧ s3.os_owned = s1.os_owned ∧
        (∀ os, life_event.disown os ∈ s3.events → life_event.disown os ∈ s1.events)) ∧
      (env3.vflush = none →
        ∃ s4, zfs_vfs_unmount env3 s1 = outcome.ret (none, s4) ∧
          s4.z_unmounted = true ∧ s4.reg = s1.reg ∧ s4.os_owned = s1.os_owned ∧
          (∀ os, life_event.disown os ∈ s4.events → life_event.disown os ∈ s1.events)) := by
  obtain ⟨t, os, ht, htos, hst⟩ := suspend_ok env0 s0 s hs
  obtain ⟨_, ⟨hz, _, _, _, _, _, _, hsub⟩, hcase⟩ := teardown_ret env0 s0 false none t ht
  have hlocks : t.z_teardown_lock = krwlock_t.write_held ∧
      t.z_teardown_inactive_lock = krwlock_t.write_held ∧
      ∀ pc ∈ registrations, pc ∉ t.reg.ds_prop_cbs := by
    rcases hcase with ⟨hr, _⟩ | ⟨_, _, _, hl1, hl2, _, hout⟩
    · cases hr
    · refine ⟨by simpa using hl1, by simpa using hl2, hout ?_ hsnap⟩
      rw [← hz, htos]
      simp
  obtain ⟨hl1, hl2, hout⟩ := hlocks
  have hs1 : zfs_resume_fs env s = outcome.ret (some e,
      { s with z_os := none, z_teardown_inactive_lock := krwlock_t.unheld,
               z_teardown_lock := krwlock_t.unheld }) := by
    unfold zfs_resume_fs zfs_resume_fs_bail
    rw [hown]
    simp only [hst, dmu_objset_disown, hl1, hl2, rw_exit]
  have hreg : s.reg = t.reg := by rw [hst]; rfl
  have e1 := teardown_suspend_eio env2
    { s with z_os := none, z_teardown_inactive_lock := krwlock_t.unheld,
             z_teardown_lock := krwlock_t.unheld } rfl rfl (Or.inr rfl)
  obtain ⟨s3, h3, hunm3, hos3, hreg3, hown3, _, _, hev3⟩ := unmount_detached env3
    { s with z_os := none, z_teardown_inactive_lock := krwlock_t.unheld,
             z_teardown_lock := krwlock_t.unheld } rfl rfl rfl
  refine ⟨_, hs1, rfl, ?_, ?_, rfl, rfl, ?_, ?_, ?_⟩
  · intro pc hpc
    simp only [hreg]
    exact hout pc hpc
  · intro hall
    simp only [hreg]
    apply List.eq_nil_iff_forall_not_mem.2
    intro pc hpc
    exact hout pc (hall pc (hsub pc hpc)) hpc
  · have hsus : zfs_suspend_fs env2
        { s with z_os := none, z_teardown_inactive_lock := krwlock_t.unheld,
                 z_teardown_lock := krwlock_t.unheld }
        = zfsvfs_teardown env2
          { s with z_os := none, z_teardown_inactive_lock := krwlock_t.unheld,
                   z_teardown_lock := krwlock_t.unheld } false := by
      unfold zfs_suspend_fs
      rw [e1]
    refine ⟨_, hsus.trans e1, ?_, ?_⟩
    · split_ifs <;> rfl
    · split_ifs <;> rfl
  · exact ⟨s3, h3, hunm3, hreg3, hown3, hev3⟩
  · intro hv
    refine ⟨{ s3 with allocated := false }, ?_, hunm3, hreg3, hown3, hev3⟩
    unfold zfs_vfs_unmount
    rw [hv, h3]
    simp only [hos3]

/-- Witness of C26: the instance with the store 7 attached and its twelve subscriptions
is suspended; the resume cannot reopen the store (`EIO`). -/
theorem zfs_resume_fs_reopen_failure_witness :
    ∃ s1, zfs_resume_fs
      ⟨⟨false, true, 512, 131072, fun _ => Except.ok 1⟩, false, Except.error Errno.EIO,
        Except.ok 5, Except.ok 3, fun _ => none, 5, fun _ => true, none⟩
      { zfsvfs_zalloc with
        z_os := some 7, os_user_ptr := some 7
        z_teardown_lock := krwlock_t.write_held
        z_teardown_inactive_lock := krwlock_t.write_held
        events := [life_event.zil_close, life_event.evict_dbufs, life_event.disown 7]
        reg := { zfsvfs_zalloc.reg with
          trace := registrations.map (fun pc => reg_event.unsubscribe pc.1 pc.2) } } = outcome.ret (some Errno.EIO, s1) ∧ s1.z_os = none ∧ s1.reg.ds_prop_cbs = [] ∧
      (∃ s2, zfs_suspend_fs
        ⟨⟨false, true, 512, 131072, fun _ => Except.ok 1⟩, false, Except.ok 7, Except.ok 5,
        Except.ok 3, fun _ => none, 5, fun _ => true, none⟩ s1
          = outcome.ret (some Errno.EIO, s2)) ∧
      (∃ s4, zfs_vfs_unmount
        ⟨⟨false, true, 512, 131072, fun _ => Except.ok 1⟩, false, Except.ok 7, Except.ok 5,
        Except.ok 3, fun _ => none, 5, fun _ => true, none⟩ s1
          = outcome.ret (none, s4) ∧ s4.os_owned = s1.os_owned) :=
  match zfs_resume_fs_reopen_failure
      ⟨⟨false, true, 512, 131072, fun _ => Except.ok 1⟩, false, Except.ok 7, Except.ok 5,
        Except.ok 3, fun _ => none, 5, fun _ => true, none⟩
      ⟨⟨false, true, 512, 131072, fun _ => Except.ok 1⟩, false, Except.error Errno.EIO,
        Except.ok 5, Except.ok 3, fun _ => none, 5, fun _ => true, none⟩
      ⟨⟨false, true, 512, 131072, fun _ => Except.ok 1⟩, false, Except.ok 7, Except.ok 5,
        Except.ok 3, fun _ => none, 5, fun _ => true, none⟩
      ⟨⟨false, true, 512, 131072, fun _ => Except.ok 1⟩, false, Except.ok 7, Except.ok 5,
        Except.ok 3, fun _ => none, 5, fun _ => true, none⟩
      { zfsvfs_zalloc with
        z_os := some 7, z_log := some 7, os_owned := [7], os_user_ptr := some 7
        reg := { zfsvfs_zalloc.reg with ds_prop_cbs := registrations } }
      { zfsvfs_zalloc with
        z_os := some 7, os_user_ptr := some 7
        z_teardown_lock := krwlock_t.write_held
        z_teardown_inactive_lock := krwlock_t.write_held
        events := [life_event.zil_close, life_event.evict_dbufs, life_event.disown 7]
        reg := { zfsvfs_zalloc.reg with
          trace := registrations.map (fun pc => reg_event.unsubscribe pc.1 pc.2) } }
      Errno.EIO rfl rfl rfl with
  | ⟨s1, h, hos, _, hnil, _, _, ⟨s2, h2, _⟩, _, hu⟩ =>
    ⟨s1, h, hos, hnil (fun _ hpc => hpc), ⟨s2, h2⟩,
      match hu rfl with
      | ⟨s4, h4, _, _, hown, _⟩ => ⟨s4, h4, hown⟩⟩

/-! ## Failures of the construction at mount -/

theorem zfsvfs_create_out_released (s : zfs_instance) (os : Nat) (error : Errno)
    (h : s.os_owned = [os]) :
    (zfsvfs_create_out s os error).error = some error ∧
    (zfsvfs_create_out s os error).zfvp = zfvp_t.null ∧
    (zfsvfs_create_out s os error).zfsvfs.os_owned = [] ∧
    (zfsvfs_create_out s os error).zfsvfs.allocated = false ∧
    life_event.disown os ∈ (zfsvfs_create_out s os error).zfsvfs.events := by
  simp [zfsvfs_create_out, dmu_objset_disown, h]

theorem zfsvfs_create_unsupported (env : mount_env) (os v : Nat)
    (hown : env.life.dmu_objset_own = Except.ok os)
    (hv : env.life.zfs_get_zplprop_version = Except.ok v)
    (hgt : v > env.zpl_version_supported) :
    (zfsvfs_create env).error = some Errno.ENOTSUP ∧
    (zfsvfs_create env).zfvp = zfvp_t.null ∧
    (zfsvfs_create env).zfsvfs.os_owned = [] ∧
    (zfsvfs_create env).zfsvfs.allocated = false := by
  unfold zfsvfs_create
  rw [hown, hv]
  simp only [if_pos hgt]
  simp [zfsvfs_create_out, dmu_objset_disown, zfsvfs_zalloc]

theorem zfsvfs_create_failure (env : mount_env) (os : Nat) (e : Errno)
    (hown : env.life.dmu_objset_own = Except.ok os)
    (h : (zfsvfs_create env).error = some e) :
    ((zfsvfs_create env).zfvp = zfvp_t.null ∧
      (zfsvfs_create env).zfsvfs.os_owned = [] ∧
      (zfsvfs_create env).zfsvfs.allocated = false ∧
      life_event.disown os ∈ (zfsvfs_create env).zfsvfs.events) ∨
    (env.life.zap_lookup_sa_attrs = Except.error e ∧
      (∃ v, env.life.zfs_get_zplprop_version = Except.ok v ∧ env.USE_SA v = true) ∧
      (zfsvfs_create env).zfvp = zfvp_t.unassigned ∧
      (zfsvfs_create env).zfsvfs.os_owned = [os] ∧
      (zfsvfs_create env).zfsvfs.allocated = true ∧
      life_event.disown os ∉ (zfsvfs_create env).zfsvfs.events) := by
  revert h
  unfold zfsvfs_create
  rw [hown]
  simp only
  repeat' split
  all_goals first
    | (intro _
       left
       simp [zfsvfs_create_out, dmu_objset_disown, zfsvfs_zalloc]
       done)
    | (intro h
       simp at h
       done)
    | (rename_i heq _
       intro h
       simp only [create_result.mk.injEq, Option.some.injEq] at h
       right
       simp only [apply_ite zfs_instance.z_version, apply_ite zfs_instance.fmt, ite_self] at heq
       split_ifs at heq with hsa
       rw [← h]
       refine ⟨heq, ⟨_, by assumption, hsa⟩, ?_⟩
       simp [zfsvfs_zalloc])

/-- C27 (evaluation of the code): the store opens as object set 7 with version 5, which
the pool supports and which uses system attributes, and the lookup of `ZFS_SA_ATTRS` fails
with `ENOENT`. `zfsvfs_create` returns `ENOENT` by `return (error)`, not by `goto out`:
the instance still owns the store, its memory is still allocated, nothing was disowned and
`*zfvp` was not assigned; `zfs_domount` returns the error at once and releases nothing
either. When instead the next lookup (`ZFS_ROOT_OBJ`) fails, the store is disowned and the
instance released. -/
theorem zfsvfs_create_sa_lookup_keeps_store :
    (fun (r : create_result) =>
        r.error = some ENOENT ∧ r.zfvp = zfvp_t.unassigned ∧ r.zfsvfs.os_owned = [7] ∧
        r.zfsvfs.allocated = true ∧ life_event.disown 7 ∉ r.zfsvfs.events)
      (zfsvfs_create
        ⟨⟨⟨false, true, 512, 131072, fun _ => Except.ok 1⟩, false, Except.ok 7, Except.ok 5,
          Except.error ENOENT, fun _ => none, 5, fun _ => true, none⟩,
        5, Except.ok 0, Except.ok 0, Except.ok 0, fun v => decide (3 ≤ v),
        fun v => decide (5 ≤ v), Except.ok 1, Except.ok 2, Except.error ENOENT,
        Except.error ENOENT, Except.error ENOENT, Except.error ENOENT, 1, 1, 2, 2,
        Except.ok 1⟩)
    ∧ (fun (r : Option Errno × zfs_instance) =>
        r.1 = some ENOENT ∧ r.2.os_owned = [7] ∧ r.2.allocated = true ∧
        life_event.disown 7 ∉ r.2.events)
      (zfs_domount
        ⟨⟨⟨false, true, 512, 131072, fun _ => Except.ok 1⟩, false, Except.ok 7, Except.ok 5,
          Except.error ENOENT, fun _ => none, 5, fun _ => true, none⟩,
        5, Except.ok 0, Except.ok 0, Except.ok 0, fun v => decide (3 ≤ v),
        fun v => decide (5 ≤ v), Except.ok 1, Except.ok 2, Except.error ENOENT,
        Except.error ENOENT, Except.error ENOENT, Except.error ENOENT, 1, 1, 2, 2,
        Except.ok 1⟩
        ⟨[], []⟩ [])
    ∧ (fun (r : create_result) =>
        r.error = some ENOENT ∧ r.zfvp = zfvp_t.null ∧ r.zfsvfs.os_owned = [] ∧
        r.zfsvfs.allocated = false ∧ life_event.disown 7 ∈ r.zfsvfs.events)
      (zfsvfs_create
        ⟨⟨⟨false, true, 512, 131072, fun _ => Except.ok 1⟩, false, Except.ok 7, Except.ok 5,
          Except.ok 3, fun _ => none, 5, fun _ => true, none⟩,
        5, Except.ok 0, Except.ok 0, Except.ok 0, fun v => decide (3 ≤ v),
        fun v => decide (5 ≤ v), Except.error ENOENT, Except.ok 2, Except.error ENOENT,
        Except.error ENOENT, Except.error ENOENT, Except.error ENOENT, 1, 1, 2, 2,
        Except.ok 1⟩) := by
  refine ⟨by decide, by decide, by decide⟩

/-! ## A version that the pool does not support -/

/-- C28 (evaluation of the code): the store reports version 6 and the pool supports
version 5. At mount, `zfsvfs_create` returns `ENOTSUP` with `*zfvp` `NULL`. At resume,
`zfs_resume_fs` of a suspended instance (both locks held for writing, version 5 before)
returns 0: the instance is attached to the store again with `z_version` 6, its twelve
subscriptions registered and both locks free. `zfs_resume_fs` reads the version and
compares it with nothing. -/
theorem zfs_resume_fs_accepts_unsupported_version :
    (fun (r : create_result) =>
        r.error = some Errno.ENOTSUP ∧ r.zfvp = zfvp_t.null ∧ r.zfsvfs.allocated = false)
      (zfsvfs_create
        ⟨⟨⟨false, true, 512, 131072, fun _ => Except.ok 1⟩, false, Except.ok 7, Except.ok 6,
          Except.ok 3, fun _ => none, 5, fun _ => true, none⟩,
        5, Except.ok 0, Except.ok 0, Except.ok 0, fun v => decide (3 ≤ v),
        fun v => decide (5 ≤ v), Except.ok 1, Except.ok 2, Except.error ENOENT,
        Except.error ENOENT, Except.error ENOENT, Except.error ENOENT, 1, 1, 2, 2,
        Except.ok 1⟩)
    ∧ ∃ s1, zfs_resume_fs
        (⟨⟨⟨false, true, 512, 131072, fun _ => Except.ok 1⟩, false, Except.ok 7, Except.ok 6,
          Except.ok 3, fun _ => none, 5, fun _ => true, none⟩,
        5, Except.ok 0, Except.ok 0, Except.ok 0, fun v => decide (3 ≤ v),
        fun v => decide (5 ≤ v), Except.ok 1, Except.ok 2, Except.error ENOENT,
        Except.error ENOENT, Except.error ENOENT, Except.error ENOENT, 1, 1, 2, 2,
        Except.ok 1⟩ : mount_env).life
        { zfsvfs_zalloc with
          z_os := some 7, os_user_ptr := some 7, z_version := 5
          z_teardown_lock := krwlock_t.write_held
          z_teardown_inactive_lock := krwlock_t.write_held
          events := [life_event.zil_close, life_event.evict_dbufs, life_event.disown 7]
          reg := { zfsvfs_zalloc.reg with
            trace := registrations.map (fun pc => reg_event.unsubscribe pc.1 pc.2) } } = outcome.ret (none, s1) ∧
      s1.z_version = 6 ∧ s1.z_os = some 7 ∧ s1.os_owned = [7] ∧ s1.z_log = some 7 ∧
      s1.reg.ds_prop_cbs.length = 12 ∧
      s1.z_teardown_lock = krwlock_t.unheld ∧
      s1.z_teardown_inactive_lock = krwlock_t.unheld :=
  ⟨by decide, _, rfl, rfl, rfl, rfl, rfl, rfl, rfl, rfl⟩

/-! ## Copying a table in kernel memory -/

theorem kmem_ext_refl (h : kmem) : kmem_ext h h := ⟨le_refl _, fun _ _ => rfl, rfl⟩

theorem kmem_ext_trans (h h1 h2 : kmem) (a : kmem_ext h h1) (b : kmem_ext h1 h2) :
    kmem_ext h h2 :=
  ⟨le_trans a.1 b.1,
    fun p hp => (b.2.1 p (lt_of_lt_of_le hp a.1)).trans (a.2.1 p hp),
    b.2.2.trans a.2.2⟩

theorem kmem_alloc_spec (h : kmem) (b : kmem_block) :
    kmem_ext h (kmem_alloc h b).1 ∧ (kmem_alloc h b).2 = h.next ∧
    (kmem_alloc h b).1.next = h.next + 1 ∧ (kmem_alloc h b).1.mem h.next = some b := by
  refine ⟨⟨Nat.le_succ _, ?_, rfl⟩, rfl, rfl, ?_⟩
  · intro p hp
    simp only [kmem_alloc]
    exact Function.update_noteq (Nat.ne_of_lt hp) _ _
  · simp only [kmem_alloc, Function.update_same]

theorem kmem_store_ext (h0 h : kmem) (a : Nat) (b : kmem_block) (he : kmem_ext h0 h)
    (ha : h0.next ≤ a) : kmem_ext h0 (kmem_store h a b) := by
  refine ⟨he.1, ?_, he.2.2⟩
  intro p hp
  simp only [kmem_store]
  rw [Function.update_noteq (Nat.ne_of_lt (lt_of_lt_of_le hp ha))]
  exact he.2.1 p hp

theorem kmem_str_congr (h h1 : kmem) (p : Nat) (e : h1.mem p = h.mem p) :
    kmem_str h1 p = kmem_str h p := by
  unfold kmem_str
  rw [e]

theorem kmem_ptrs_congr (h h1 : kmem) (p : Nat) (e : h1.mem p = h.mem p) :
    kmem_ptrs h1 p = kmem_ptrs h p := by
  unfold kmem_ptrs
  rw [e]

theorem kmem_opts_congr (h h1 : kmem) (p : Nat) (e : h1.mem p = h.mem p) :
    kmem_opts h1 p = kmem_opts h p := by
  unfold kmem_opts
  rw [e]

theorem map_kmem_str_congr (h h1 : kmem) (l : List Nat)
    (e : ∀ p ∈ l, h1.mem p = h.mem p) : l.map (kmem_str h1) = l.map (kmem_str h) :=
  List.map_congr_left (fun p hp => kmem_str_congr h h1 p (e p hp))

theorem until_null_some (ds : List Nat) (k : Nat) :
    until_null (ds.map some ++ List.replicate (k + 1) none) = ds := by
  induction ds with
  | nil => simp [List.replicate_succ, until_null]
  | cons d ds ih =>
    show d :: until_null (ds.map some ++ List.replicate (k + 1) none) = d :: ds
    rw [ih]

theorem cancel_congr (h h1 : kmem) (moc : Option Nat)
    (e : ∀ a ∈ cancel_addrs h moc, h1.mem a = h.mem a) :
    cancel_val h1 moc = cancel_val h moc ∧ cancel_addrs h1 moc = cancel_addrs h moc := by
  cases moc with
  | none => exact ⟨rfl, rfl⟩
  | some p =>
    simp only [cancel_addrs, List.mem_cons, forall_eq_or_imp] at e
    have hp := kmem_ptrs_congr h h1 p e.1
    simp only [cancel_val, cancel_addrs, Option.map_some', hp, Option.some.injEq,
      List.cons.injEq, true_and, and_true]
    exact map_kmem_str_congr h h1 _ e.2

theorem slot_congr (h h1 : kmem) (m : mntopt_mem)
    (e : ∀ a ∈ slot_addrs h m, h1.mem a = h.mem a) :
    slot_val h1 m = slot_val h m ∧ slot_addrs h1 m = slot_addrs h m := by
  simp only [slot_addrs, List.mem_append, Option.mem_toList, Option.mem_def] at e
  have hc := cancel_congr h h1 m.mo_cancel (fun a ha => e a (Or.inl (Or.inr ha)))
  have hn : m.mo_name.map (kmem_str h1) = m.mo_name.map (kmem_str h) := by
    cases hm : m.mo_name with
    | none => rfl
    | some p =>
      simp only [Option.map_some', Option.some.injEq]
      exact kmem_str_congr h h1 p (e p (Or.inl (Or.inl hm)))
  have ha : m.mo_arg.map (kmem_str h1) = m.mo_arg.map (kmem_str h) := by
    cases hm : m.mo_arg with
    | none => rfl
    | some p =>
      simp only [Option.map_some', Option.some.injEq]
      exact kmem_str_congr h h1 p (e p (Or.inr hm))
  simp only [slot_val, slot_addrs, hc.1, hc.2, hn, ha, and_self]

theorem copycancel_loop_spec (srcs : List Nat) :
    ∀ h : kmem, (∀ p ∈ srcs, p < h.next) →
      kmem_ext h (copycancel_loop h srcs).1 ∧
      ∃ ds : List Nat, (copycancel_loop h srcs).2 = ds.map some ∧
        (∀ d ∈ ds, h.next ≤ d ∧ d < (copycancel_loop h srcs).1.next) ∧
        ds.map (kmem_str (copycancel_loop h srcs).1) = srcs.map (kmem_str h) ∧
        ds.Nodup := by
  induction srcs with
  | nil =>
    intro h _
    exact ⟨kmem_ext_refl h, [], rfl, fun d hd => absurd hd (List.not_mem_nil _), rfl,
      List.nodup_nil⟩
  | cons sp rest ih =>
    intro h hin
    have hal := kmem_alloc_spec h (kmem_block.chars (kmem_str h sp))
    obtain ⟨hext1, haddr, hnext, hmem⟩ := hal
    have hrest : ∀ p ∈ rest, p < (kmem_strcpy h sp).1.next := by
      intro p hp
      have := hin p (List.mem_cons_of_mem _ hp)
      simp only [kmem_strcpy, hnext]
      omega
    obtain ⟨hext2, ds, hds, hfresh, hstr, hnd⟩ := ih (kmem_strcpy h sp).1 hrest
    have hnext1 : (kmem_strcpy h sp).1.next = h.next + 1 := hnext
    refine ⟨kmem_ext_trans _ _ _ hext1 hext2, h.next :: ds, ?_, ?_, ?_,
      List.nodup_cons.2 ⟨fun hmem => by have := (hfresh _ hmem).1; omega, hnd⟩⟩
    · simp only [copycancel_loop, List.map_cons, hds]
      rw [show (kmem_strcpy h sp).2 = h.next from haddr]
    · intro d hd
      simp only [copycancel_loop]
      rcases List.mem_cons.1 hd with rfl | hd
      · exact ⟨le_refl _, lt_of_lt_of_le (by omega) hext2.1⟩
      · have := hfresh d hd
        exact ⟨by omega, this.2⟩
    · simp only [copycancel_loop, List.map_cons]
      rw [hstr]
      congr 1
      · rw [kmem_str_congr (kmem_strcpy h sp).1 _ h.next (hext2.2.1 h.next (by omega))]
        unfold kmem_str
        rw [show (kmem_strcpy h sp).1.mem h.next = _ from hmem]
        rfl
      · exact map_kmem_str_congr h _ rest
          (fun p hp => hext1.2.1 p (hin p (List.mem_cons_of_mem _ hp)))

theorem kmem_store_read (h : kmem) (a : Nat) (b : kmem_block) :
    (kmem_store h a b).mem a = some b ∧ (kmem_store h a b).next = h.next ∧
    (kmem_store h a b).freed = h.freed ∧
    ∀ p, p ≠ a → (kmem_store h a b).mem p = h.mem p := by
  refine ⟨by simp [kmem_store], rfl, rfl, ?_⟩
  intro p hp
  simp only [kmem_store]
  exact Function.update_noteq hp _ _

theorem copycancelopt_mem_spec (h : kmem) (moc : Option Nat)
    (hin : ∀ a ∈ cancel_addrs h moc, a < h.next) :
    kmem_ext h (vfs_copycancelopt_extend_mem h moc 0).1 ∧
    cancel_val (vfs_copycancelopt_extend_mem h moc 0).1
        (vfs_copycancelopt_extend_mem h moc 0).2
      = vfs_copycancelopt_extend (cancel_val h moc) 0 ∧
    (∀ a ∈ cancel_addrs (vfs_copycancelopt_extend_mem h moc 0).1
        (vfs_copycancelopt_extend_mem h moc 0).2,
      h.next ≤ a ∧ a < (vfs_copycancelopt_extend_mem h moc 0).1.next) ∧
    (cancel_addrs (vfs_copycancelopt_extend_mem h moc 0).1
        (vfs_copycancelopt_extend_mem h moc 0).2).Nodup := by
  have hcount : cancel_count (cancel_val h moc) = (cancel_ptrs h moc).length := by
    cases moc <;> simp [cancel_val, cancel_ptrs, cancel_count]
  have hlist : cancel_list (cancel_val h moc) = (cancel_ptrs h moc).map (kmem_str h) := by
    cases moc <;> simp [cancel_val, cancel_ptrs, cancel_list]
  have hsrc : ∀ p ∈ cancel_ptrs h moc, p < h.next := by
    intro p hp
    cases moc with
    | none => simp [cancel_ptrs] at hp
    | some q => exact hin p (List.mem_cons_of_mem _ hp)
  by_cases h0 : (cancel_ptrs h moc).length + 0 = 0
  · have hr : vfs_copycancelopt_extend_mem h moc 0 = (h, none) := by
      simp only [vfs_copycancelopt_extend_mem, if_pos h0]
    rw [hr]
    refine ⟨kmem_ext_refl h, ?_, fun a ha => by simp [cancel_addrs] at ha,
      by simp [cancel_addrs]⟩
    simp only [vfs_copycancelopt_extend, hcount, if_pos h0]
    rfl
  · obtain ⟨hext1, haddr, hnext, -⟩ := kmem_alloc_spec h
      (kmem_block.ptrs (List.replicate ((cancel_ptrs h moc).length + 0 + 1) none))
    generalize hA : kmem_alloc h
      (kmem_block.ptrs (List.replicate ((cancel_ptrs h moc).length + 0 + 1) none)) = A
      at hext1 haddr hnext
    obtain ⟨hext2, ds, hds, hfresh, hstr, hnd⟩ := copycancel_loop_spec (cancel_ptrs h moc)
      A.1 (fun p hp => by have := hsrc p hp; omega)
    generalize hQ : copycancel_loop A.1 (cancel_ptrs h moc) = Q at hext2 hds hfresh hstr
    have hr : vfs_copycancelopt_extend_mem h moc 0
        = (kmem_store Q.1 h.next (kmem_block.ptrs (Q.2 ++ List.replicate (0 + 1) none)),
            some h.next) := by
      simp only [vfs_copycancelopt_extend_mem, if_neg h0, hA, hQ, haddr]
    obtain ⟨hsame, hsnext, -, hother⟩ := kmem_store_read Q.1 h.next
      (kmem_block.ptrs (Q.2 ++ List.replicate (0 + 1) none))
    have hptrs : until_null (kmem_ptrs
        (kmem_store Q.1 h.next (kmem_block.ptrs (Q.2 ++ List.replicate (0 + 1) none)))
        h.next) = ds := by
      unfold kmem_ptrs
      rw [hsame, hds]
      exact until_null_some ds 0
    rw [hr]
    refine ⟨kmem_store_ext h Q.1 _ _ (kmem_ext_trans _ _ _ hext1 hext2) (le_refl _), ?_, ?_,
      ?_⟩
    · have hval : vfs_copycancelopt_extend (cancel_val h moc) 0
          = some ((cancel_ptrs h moc).map (kmem_str h)) := by
        simp only [vfs_copycancelopt_extend, hcount, if_neg h0, hlist]
      rw [hval]
      simp only [cancel_val, Option.map_some', hptrs, Option.some.injEq]
      rw [map_kmem_str_congr Q.1 _ ds (fun d hd =>
        hother d (by have := hfresh d hd; omega)), hstr]
      exact map_kmem_str_congr h _ _ (fun p hp => hext1.2.1 p (hsrc p hp))
    · intro a ha
      simp only [cancel_addrs, hptrs, List.mem_cons] at ha
      rw [hsnext]
      rcases ha with rfl | ha
      · exact ⟨le_refl _, lt_of_lt_of_le (by omega) hext2.1⟩
      · have := hfresh a ha
        exact ⟨by omega, this.2⟩
    · simp only [cancel_addrs, hptrs]
      exact List.nodup_cons.2 ⟨fun hmem => by have := (hfresh _ hmem).1; omega, hnd⟩

theorem copyopt_str_spec (h : kmem) (o : Option Nat) (hin : ∀ p, o = some p → p < h.next) :
    kmem_ext h (copyopt_str h o).1 ∧
    (copyopt_str h o).2.map (kmem_str (copyopt_str h o).1) = o.map (kmem_str h) ∧
    ∀ a, (copyopt_str h o).2 = some a → h.next ≤ a ∧ a < (copyopt_str h o).1.next := by
  cases o with
  | none => exact ⟨kmem_ext_refl h, rfl, fun a ha => by cases ha⟩
  | some sp =>
    obtain ⟨hext, haddr, hnext, hmem⟩ := kmem_alloc_spec h (kmem_block.chars (kmem_str h sp))
    refine ⟨hext, ?_, ?_⟩
    · simp only [copyopt_str, Option.map_some', Option.some.injEq]
      rw [show (kmem_strcpy h sp).2 = h.next from haddr]
      unfold kmem_str
      rw [show (kmem_strcpy h sp).1.mem h.next = _ from hmem]
      rfl
    · intro a ha
      simp only [copyopt_str, Option.some.injEq] at ha
      subst ha
      simp only [copyopt_str]
      rw [show (kmem_strcpy h sp).2 = h.next from haddr,
        show (kmem_strcpy h sp).1.next = h.next + 1 from hnext]
      omega

theorem copyopt_mem_spec (h : kmem) (s : mntopt_mem)
    (hin : ∀ a ∈ slot_addrs h s, a < h.next) :
    kmem_ext h (vfs_copyopt_mem h s).1 ∧
    slot_val (vfs_copyopt_mem h s).1 (vfs_copyopt_mem h s).2 = vfs_copyopt (slot_val h s) ∧
    (∀ a ∈ slot_addrs (vfs_copyopt_mem h s).1 (vfs_copyopt_mem h s).2,
      h.next ≤ a ∧ a < (vfs_copyopt_mem h s).1.next) ∧
    (slot_addrs (vfs_copyopt_mem h s).1 (vfs_copyopt_mem h s).2).Nodup := by
  simp only [slot_addrs, List.mem_append, Option.mem_toList, Option.mem_def] at hin
  obtain ⟨hNext, hNval, hNfresh⟩ := copyopt_str_spec h s.mo_name
    (fun p hp => hin p (Or.inl (Or.inl hp)))
  generalize hN : copyopt_str h s.mo_name = N at hNext hNval hNfresh
  have hcin : ∀ a ∈ cancel_addrs N.1 s.mo_cancel, a < N.1.next := by
    have hc := cancel_congr h N.1 s.mo_cancel
      (fun a ha => hNext.2.1 a (hin a (Or.inl (Or.inr ha))))
    rw [hc.2]
    intro a ha
    exact lt_of_lt_of_le (hin a (Or.inl (Or.inr ha))) hNext.1
  obtain ⟨hCext, hCval, hCfresh, hCnd⟩ := copycancelopt_mem_spec N.1 s.mo_cancel hcin
  generalize hC : vfs_copycancelopt_extend_mem N.1 s.mo_cancel 0 = C
    at hCext hCval hCfresh hCnd
  have hhC : kmem_ext h C.1 := kmem_ext_trans _ _ _ hNext hCext
  obtain ⟨hAext, hAval, hAfresh⟩ := copyopt_str_spec C.1 s.mo_arg
    (fun p hp => lt_of_lt_of_le (hin p (Or.inr hp)) hhC.1)
  generalize hA : copyopt_str C.1 s.mo_arg = A at hAext hAval hAfresh
  have hr : vfs_copyopt_mem h s
      = (A.1, { mo_flags := s.mo_flags, mo_data := s.mo_data, mo_name := N.2,
                mo_cancel := C.2, mo_arg := A.2 }) := by
    simp only [vfs_copyopt_mem, hN, hC, hA]
  rw [hr]
  have hNA : kmem_ext N.1 A.1 := kmem_ext_trans _ _ _ hCext hAext
  have hcA := cancel_congr C.1 A.1 C.2
    (fun a ha => hAext.2.1 a (hCfresh a ha).2)
  refine ⟨kmem_ext_trans _ _ _ hhC hAext, ?_, ?_, ?_⟩
  · simp only [slot_val, vfs_copyopt, mntopt_t.mk.injEq, and_true]
    refine ⟨?_, ?_, ?_⟩
    · rw [← hNval]
      cases hn2 : N.2 with
      | none => rfl
      | some a =>
        simp only [Option.map_some', Option.some.injEq]
        exact kmem_str_congr N.1 A.1 a (hNA.2.1 a (hNfresh a hn2).2)
    · rw [hcA.1, hCval]
      congr 1
      exact (cancel_congr h N.1 s.mo_cancel
        (fun a ha => hNext.2.1 a (hin a (Or.inl (Or.inr ha))))).1
    · rw [hAval]
      cases hm : s.mo_arg with
      | none => rfl
      | some p =>
        simp only [Option.map_some', Option.some.injEq]
        exact kmem_str_congr h C.1 p (hhC.2.1 p (hin p (Or.inr hm)))
  · intro a ha
    simp only [slot_addrs, List.mem_append, Option.mem_toList, Option.mem_def] at ha
    rcases ha with (ha | ha) | ha
    · have := hNfresh a ha
      exact ⟨this.1, lt_of_lt_of_le this.2 hNA.1⟩
    · rw [hcA.2] at ha
      have := hCfresh a ha
      exact ⟨le_trans hNext.1 this.1, lt_of_lt_of_le this.2 hAext.1⟩
    · have := hAfresh a ha
      exact ⟨le_trans hhC.1 this.1, this.2⟩
  · simp only [slot_addrs, hcA.2]
    have hto : ∀ o : Option Nat, o.toList.Nodup := by
      intro o
      cases o <;> simp
    rw [List.nodup_append, List.nodup_append]
    refine ⟨⟨hto _, hCnd, ?_⟩, hto _, ?_⟩
    · intro a ha hb
      simp only [Option.mem_toList, Option.mem_def] at ha
      have h1 := hNfresh a ha
      have h2 := hCfresh a hb
      omega
    · intro a ha hb
      simp only [Option.mem_toList, Option.mem_def] at hb
      have h3 := hAfresh a hb
      rcases List.mem_append.1 ha with ha | ha
      · simp only [Option.mem_toList, Option.mem_def] at ha
        have h1 := hNfresh a ha
        have := hCext.1
        omega
      · have h2 := hCfresh a ha
        omega

theorem copyopt_loop_spec (srcs : List mntopt_mem) :
    ∀ h : kmem, (∀ s ∈ srcs, ∀ a ∈ slot_addrs h s, a < h.next) →
      kmem_ext h (copyopt_loop h srcs).1 ∧
      (copyopt_loop h srcs).2.length = srcs.length ∧
      (copyopt_loop h srcs).2.map (slot_val (copyopt_loop h srcs).1)
        = srcs.map (fun s => vfs_copyopt (slot_val h s)) ∧
      (∀ d ∈ (copyopt_loop h srcs).2, ∀ a ∈ slot_addrs (copyopt_loop h srcs).1 d,
        h.next ≤ a ∧ a < (copyopt_loop h srcs).1.next) ∧
      ((copyopt_loop h srcs).2.flatMap (slot_addrs (copyopt_loop h srcs).1)).Nodup := by
  induction srcs with
  | nil =>
    intro h _
    exact ⟨kmem_ext_refl h, rfl, rfl, fun d hd => absurd hd (List.not_mem_nil _),
      List.nodup_nil⟩
  | cons s rest ih =>
    intro h hin
    obtain ⟨hext1, hval1, hfresh1, hnd1⟩ := copyopt_mem_spec h s
      (hin s (List.mem_cons_self _ _))
    generalize hR : vfs_copyopt_mem h s = R at hext1 hval1 hfresh1 hnd1
    have hframe : ∀ s1 ∈ rest, slot_val R.1 s1 = slot_val h s1 ∧
        slot_addrs R.1 s1 = slot_addrs h s1 := fun s1 hs1 =>
      slot_congr h R.1 s1 (fun a ha => hext1.2.1 a (hin s1 (List.mem_cons_of_mem _ hs1) a ha))
    obtain ⟨hext2, hlen, hval2, hfresh2, hnd2⟩ := ih R.1 (by
      intro s1 hs1 a ha
      rw [(hframe s1 hs1).2] at ha
      exact lt_of_lt_of_le (hin s1 (List.mem_cons_of_mem _ hs1) a ha) hext1.1)
    generalize hQ : copyopt_loop R.1 rest = Q at hext2 hlen hval2 hfresh2 hnd2
    have hr : copyopt_loop h (s :: rest) = (Q.1, R.2 :: Q.2) := by
      simp only [copyopt_loop, hR, hQ]
    rw [hr]
    have hhead := slot_congr R.1 Q.1 R.2 (fun a ha => hext2.2.1 a (hfresh1 a ha).2)
    refine ⟨kmem_ext_trans _ _ _ hext1 hext2, by simp [hlen], ?_, ?_, ?_⟩
    · simp only [List.map_cons, hhead.1, hval1, hval2, List.cons.injEq, true_and]
      exact List.map_congr_left (fun s1 hs1 => by rw [(hframe s1 hs1).1])
    · intro d hd a ha
      rcases List.mem_cons.1 hd with rfl | hd
      · rw [hhead.2] at ha
        have := hfresh1 a ha
        exact ⟨this.1, lt_of_lt_of_le this.2 hext2.1⟩
      · have := hfresh2 d hd a ha
        exact ⟨le_trans hext1.1 this.1, this.2⟩
    · rw [List.flatMap_cons, List.nodup_append, hhead.2]
      refine ⟨hnd1, hnd2, ?_⟩
      intro a ha hb
      obtain ⟨d, hd, had⟩ := List.mem_flatMap.1 hb
      have h1 := hfresh1 a ha
      have h2 := hfresh2 d hd a had
      omega

theorem free_fold_spec (L : List Nat) :
    ∀ h : kmem, (L.foldl kmem_free h).mem = h.mem ∧ (L.foldl kmem_free h).next = h.next ∧
      ∀ a, a ∈ (L.foldl kmem_free h).freed ↔ a ∈ L ∨ a ∈ h.freed := by
  induction L with
  | nil => intro h; simp
  | cons p L ih =>
    intro h
    obtain ⟨h1, h2, h3⟩ := ih (kmem_free h p)
    refine ⟨h1, h2, ?_⟩
    intro a
    rw [List.foldl_cons, h3]
    simp only [kmem_free, List.mem_cons]
    tauto

theorem freecancelopt_spec (h : kmem) (moc : Option Nat) :
    (vfs_freecancelopt_mem h moc).mem = h.mem ∧ (vfs_freecancelopt_mem h moc).next = h.next ∧
      ∀ a, a ∈ (vfs_freecancelopt_mem h moc).freed ↔ a ∈ cancel_addrs h moc ∨ a ∈ h.freed := by
  cases moc with
  | none => simp [vfs_freecancelopt_mem, cancel_addrs]
  | some p =>
    obtain ⟨h1, h2, h3⟩ := free_fold_spec (until_null (kmem_ptrs h p)) h
    refine ⟨h1, h2, ?_⟩
    intro a
    simp only [vfs_freecancelopt_mem, kmem_free, cancel_addrs, List.mem_cons, h3]
    tauto

theorem kmem_free_ptr_spec (h : kmem) (o : Option Nat) :
    (kmem_free_ptr h o).mem = h.mem ∧ (kmem_free_ptr h o).next = h.next ∧
    ∀ a, a ∈ (kmem_free_ptr h o).freed ↔ o = some a ∨ a ∈ h.freed := by
  cases o with
  | none => simp [kmem_free_ptr]
  | some p =>
    refine ⟨rfl, rfl, ?_⟩
    intro a
    simp only [kmem_free_ptr, kmem_free, List.mem_cons, Option.some.injEq]
    constructor
    · rintro (rfl | h1)
      · exact Or.inl rfl
      · exact Or.inr h1
    · rintro (rfl | h1)
      · exact Or.inl rfl
      · exact Or.inr h1

theorem freeopt_spec (h : kmem) (mop : mntopt_mem) :
    (vfs_freeopt_mem h mop).mem = h.mem ∧ (vfs_freeopt_mem h mop).next = h.next ∧
      ∀ a, a ∈ (vfs_freeopt_mem h mop).freed ↔ a ∈ slot_addrs h mop ∨ a ∈ h.freed := by
  obtain ⟨n1, n2, n3⟩ := kmem_free_ptr_spec h mop.mo_name
  generalize hN : kmem_free_ptr h mop.mo_name = N at n1 n2 n3
  obtain ⟨c1, c2, c3⟩ := freecancelopt_spec N mop.mo_cancel
  generalize hC : vfs_freecancelopt_mem N mop.mo_cancel = C at c1 c2 c3
  obtain ⟨a1, a2, a3⟩ := kmem_free_ptr_spec C mop.mo_arg
  have hr : vfs_freeopt_mem h mop = kmem_free_ptr C mop.mo_arg := by
    simp only [vfs_freeopt_mem, hN, hC]
  rw [hr]
  have hca : cancel_addrs N mop.mo_cancel = cancel_addrs h mop.mo_cancel :=
    (cancel_congr h N mop.mo_cancel (fun a _ => by rw [n1])).2
  refine ⟨by rw [a1, c1, n1], by rw [a2, c2, n2], ?_⟩
  intro a
  rw [a3, c3, n3, hca]
  simp only [slot_addrs, List.mem_append, Option.mem_toList, Option.mem_def]
  tauto

theorem freeopt_fold_spec (L : List mntopt_mem) :
    ∀ h : kmem, (L.foldl vfs_freeopt_mem h).mem = h.mem ∧
      (L.foldl vfs_freeopt_mem h).next = h.next ∧
      ∀ a, a ∈ (L.foldl vfs_freeopt_mem h).freed ↔
        a ∈ L.flatMap (slot_addrs h) ∨ a ∈ h.freed := by
  induction L with
  | nil => intro h; simp
  | cons m L ih =>
    intro h
    obtain ⟨f1, f2, f3⟩ := freeopt_spec h m
    obtain ⟨h1, h2, h3⟩ := ih (vfs_freeopt_mem h m)
    refine ⟨by rw [List.foldl_cons, h1, f1], by rw [List.foldl_cons, h2, f2], ?_⟩
    intro a
    have hfl : L.flatMap (slot_addrs (vfs_freeopt_mem h m)) = L.flatMap (slot_addrs h) := by
      congr 1
      funext s
      exact (slot_congr h _ s (fun a _ => by rw [f1])).2
    rw [List.foldl_cons, h3, f3, hfl, List.flatMap_cons, List.mem_append]
    tauto

theorem freeopttbl_spec (h : kmem) (mp : mntopts_mem) :
    (vfs_freeopttbl_mem h mp).1.mem = h.mem ∧ (vfs_freeopttbl_mem h mp).1.next = h.next ∧
    (∀ a, a ∈ (vfs_freeopttbl_mem h mp).1.freed ↔ a ∈ table_addrs h mp ∨ a ∈ h.freed) ∧
    (vfs_freeopttbl_mem h mp).2.mo_count = 0 ∧
    table_slots (vfs_freeopttbl_mem h mp).1 (vfs_freeopttbl_mem h mp).2 = [] ∧
    table_addrs (vfs_freeopttbl_mem h mp).1 (vfs_freeopttbl_mem h mp).2 = [] := by
  obtain ⟨f1, f2, f3⟩ := freeopt_fold_spec (table_slots h mp) h
  by_cases hc : mp.mo_count = 0
  · have hs : table_slots h mp = [] := by
      unfold table_slots
      cases mp.mo_list <;> simp [hc]
    have hr : vfs_freeopttbl_mem h mp = (h, mp) := by
      simp only [vfs_freeopttbl_mem, hs, List.foldl_nil, hc, ne_eq, not_true_eq_false,
        if_false]
    rw [hr]
    refine ⟨rfl, rfl, ?_, hc, hs, by simp [table_addrs, hc]⟩
    intro a
    simp [table_addrs, hc]
  · have hr : vfs_freeopttbl_mem h mp
        = (kmem_free_ptr ((table_slots h mp).foldl vfs_freeopt_mem h) mp.mo_list,
            { mo_list := none, mo_count := 0 }) := by
      simp only [vfs_freeopttbl_mem, ne_eq, hc, not_false_eq_true, if_true]
    obtain ⟨o1, o2, o3⟩ := kmem_free_ptr_spec ((table_slots h mp).foldl vfs_freeopt_mem h)
      mp.mo_list
    rw [hr]
    refine ⟨by rw [o1, f1], by rw [o2, f2], ?_, rfl, rfl, by simp [table_addrs]⟩
    intro a
    rw [o3, f3]
    simp only [table_addrs, if_neg hc]
    cases hl : mp.mo_list with
    | none =>
      have hs : table_slots h mp = [] := by
        unfold table_slots
        rw [hl]
      simp [hs]
    | some l =>
      simp only [Option.some.injEq, List.mem_cons]
      constructor
      · rintro (rfl | h1 | h1)
        · exact Or.inl (Or.inl rfl)
        · exact Or.inl (Or.inr h1)
        · exact Or.inr h1
      · rintro ((rfl | h1) | h1)
        · exact Or.inl rfl
        · exact Or.inr (Or.inl h1)
        · exact Or.inr (Or.inr h1)

theorem table_slots_zero (h : kmem) (t : mntopts_mem) (hc : t.mo_count = 0) :
    table_slots h t = [] := by
  unfold table_slots
  cases t.mo_list <;> simp [hc]

theorem table_congr (h h1 : kmem) (t : mntopts_mem)
    (e : ∀ a ∈ table_addrs h t, h1.mem a = h.mem a) :
    table_slots h1 t = table_slots h t ∧ table_val h1 t = table_val h t ∧
    table_addrs h1 t = table_addrs h t := by
  by_cases hc : t.mo_count = 0
  · simp [table_val, table_addrs, table_slots_zero _ t hc, hc]
  · cases hl : t.mo_list with
    | none => simp [table_val, table_addrs, table_slots, hl]
    | some l =>
      simp only [table_addrs, if_neg hc, hl, List.mem_cons, forall_eq_or_imp,
        List.mem_flatMap] at e
      have hslots : table_slots h1 t = table_slots h t := by
        simp only [table_slots, hl, kmem_opts_congr h h1 l e.1]
      have hsl : ∀ s ∈ table_slots h t, slot_val h1 s = slot_val h s ∧
          slot_addrs h1 s = slot_addrs h s := fun s hs =>
        slot_congr h h1 s (fun a ha => e.2 a ⟨s, hs, ha⟩)
      refine ⟨hslots, ?_, ?_⟩
      · simp only [table_val, hslots]
        exact List.map_congr_left (fun s hs => (hsl s hs).1)
      · simp only [table_addrs, if_neg hc, hl, hslots, List.cons.injEq, true_and]
        have : ∀ (L : List mntopt_mem), (∀ s ∈ L, slot_addrs h1 s = slot_addrs h s) →
            L.flatMap (slot_addrs h1) = L.flatMap (slot_addrs h) := by
          intro L
          induction L with
          | nil => intro _; rfl
          | cons s L ih =>
            intro hL
            rw [List.flatMap_cons, List.flatMap_cons, hL s (List.mem_cons_self _ _),
              ih (fun s1 hs1 => hL s1 (List.mem_cons_of_mem _ hs1))]
        exact this _ (fun s hs => (hsl s hs).2)

theorem slot_addrs_in_table (h : kmem) (t : mntopts_mem) (s : mntopt_mem)
    (hs : s ∈ table_slots h t) (a : Nat) (ha : a ∈ slot_addrs h s) :
    a ∈ table_addrs h t := by
  have hc : t.mo_count ≠ 0 := by
    intro hc
    rw [table_slots_zero h t hc] at hs
    exact absurd hs (List.not_mem_nil _)
  cases hl : t.mo_list with
  | none => simp [table_slots, hl] at hs
  | some l =>
    simp only [table_addrs, if_neg hc, hl, List.mem_cons, List.mem_flatMap]
    exact Or.inr ⟨s, hs, ha⟩

theorem slot_val_placeholder (h : kmem) :
    slot_val h empty_placeholder_mem = empty_placeholder ∧
    slot_addrs h empty_placeholder_mem = [] := ⟨rfl, rfl⟩

theorem copy_phase (F : kmem) (src : List mntopt_mem) (n extra : Nat)
    (hin : ∀ s ∈ src, ∀ a ∈ slot_addrs F s, a < F.next) (hn : n = src.length + extra)
    (hne : n ≠ 0) (z : kmem_block) :
    kmem_ext F (kmem_store (copyopt_loop (kmem_alloc F z).1 src).1 (kmem_alloc F z).2
      (kmem_block.opts ((copyopt_loop (kmem_alloc F z).1 src).2
        ++ List.replicate extra empty_placeholder_mem))) ∧
    table_slots (kmem_store (copyopt_loop (kmem_alloc F z).1 src).1 (kmem_alloc F z).2
      (kmem_block.opts ((copyopt_loop (kmem_alloc F z).1 src).2
        ++ List.replicate extra empty_placeholder_mem)))
      { mo_list := some (kmem_alloc F z).2, mo_count := n }
      = (copyopt_loop (kmem_alloc F z).1 src).2
        ++ List.replicate extra empty_placeholder_mem ∧
    table_val (kmem_store (copyopt_loop (kmem_alloc F z).1 src).1 (kmem_alloc F z).2
      (kmem_block.opts ((copyopt_loop (kmem_alloc F z).1 src).2
        ++ List.replicate extra empty_placeholder_mem)))
      { mo_list := some (kmem_alloc F z).2, mo_count := n }
      = src.map (fun s => vfs_copyopt (slot_val F s))
        ++ List.replicate extra empty_placeholder ∧
    (∀ a ∈ table_addrs (kmem_store (copyopt_loop (kmem_alloc F z).1 src).1 (kmem_alloc F z).2
      (kmem_block.opts ((copyopt_loop (kmem_alloc F z).1 src).2
        ++ List.replicate extra empty_placeholder_mem)))
      { mo_list := some (kmem_alloc F z).2, mo_count := n },
      F.next ≤ a ∧ a < (kmem_store (copyopt_loop (kmem_alloc F z).1 src).1
        (kmem_alloc F z).2
        (kmem_block.opts ((copyopt_loop (kmem_alloc F z).1 src).2
          ++ List.replicate extra empty_placeholder_mem))).next) ∧
    (table_addrs (kmem_store (copyopt_loop (kmem_alloc F z).1 src).1 (kmem_alloc F z).2
      (kmem_block.opts ((copyopt_loop (kmem_alloc F z).1 src).2
        ++ List.replicate extra empty_placeholder_mem)))
      { mo_list := some (kmem_alloc F z).2, mo_count := n }).Nodup := by
  obtain ⟨hext1, haddr, hnext, -⟩ := kmem_alloc_spec F z
  generalize hA : kmem_alloc F z = A at hext1 haddr hnext
  have hframe : ∀ s ∈ src, slot_val A.1 s = slot_val F s ∧ slot_addrs A.1 s = slot_addrs F s :=
    fun s hs => slot_congr F A.1 s (fun a ha => hext1.2.1 a (hin s hs a ha))
  obtain ⟨hext2, hlen, hval, hfresh, hnd⟩ := copyopt_loop_spec src A.1 (by
    intro s hs a ha
    rw [(hframe s hs).2] at ha
    exact lt_of_lt_of_le (hin s hs a ha) hext1.1)
  generalize hQ : copyopt_loop A.1 src = Q at hext2 hlen hval hfresh hnd
  obtain ⟨hsame, hsnext, -, hother⟩ := kmem_store_read Q.1 A.2
    (kmem_block.opts (Q.2 ++ List.replicate extra empty_placeholder_mem))
  generalize hH : kmem_store Q.1 A.2
    (kmem_block.opts (Q.2 ++ List.replicate extra empty_placeholder_mem)) = H
    at hsame hsnext hother
  have hext : kmem_ext F H := by
    rw [← hH]
    exact kmem_store_ext F Q.1 _ _ (kmem_ext_trans _ _ _ hext1 hext2) (by omega)
  have hslots : table_slots H { mo_list := some A.2, mo_count := n }
      = Q.2 ++ List.replicate extra empty_placeholder_mem := by
    simp only [table_slots, kmem_opts, hsame]
    apply List.take_of_length_le
    simp [hlen, hn]
  have hQs : ∀ d ∈ Q.2, slot_val H d = slot_val Q.1 d ∧ slot_addrs H d = slot_addrs Q.1 d :=
    fun d hd => slot_congr Q.1 H d (fun a ha =>
      hother a (by have := hfresh d hd a ha; omega))
  have hflat : (Q.2 ++ List.replicate extra empty_placeholder_mem).flatMap (slot_addrs H)
      = Q.2.flatMap (slot_addrs Q.1) := by
    have e1 : ∀ (L : List mntopt_mem), (∀ d ∈ L, slot_addrs H d = slot_addrs Q.1 d) →
        L.flatMap (slot_addrs H) = L.flatMap (slot_addrs Q.1) := by
      intro L
      induction L with
      | nil => intro _; rfl
      | cons d L ih =>
        intro hL
        rw [List.flatMap_cons, List.flatMap_cons, hL d (List.mem_cons_self _ _),
          ih (fun d1 hd1 => hL d1 (List.mem_cons_of_mem _ hd1))]
    have e2 : ∀ k : Nat, (List.replicate k empty_placeholder_mem).flatMap (slot_addrs H)
        = [] := by
      intro k
      induction k with
      | zero => rfl
      | succ k ih =>
        rw [List.replicate_succ, List.flatMap_cons, ih, (slot_val_placeholder H).2]
        rfl
    rw [List.flatMap_append, e2, List.append_nil]
    exact e1 _ (fun d hd => (hQs d hd).2)
  refine ⟨hext, hslots, ?_, ?_, ?_⟩
  · simp only [table_val, hslots, List.map_append, List.map_replicate,
      (slot_val_placeholder H).1]
    congr 1
    rw [List.map_congr_left (fun d hd => (hQs d hd).1), hval]
    exact List.map_congr_left (fun s hs => by rw [(hframe s hs).1])
  · intro a ha
    simp only [table_addrs, if_neg hne, hslots, List.mem_cons, List.mem_flatMap,
      List.mem_append, List.mem_replicate] at ha
    rw [hsnext]
    rcases ha with rfl | ⟨d, hd | hd, had⟩
    · exact ⟨by omega, lt_of_lt_of_le (by omega) hext2.1⟩
    · rw [(hQs d hd).2] at had
      have := hfresh d hd a had
      exact ⟨by omega, this.2⟩
    · rw [hd.2] at had
      simp [slot_addrs, cancel_addrs, empty_placeholder_mem] at had
  · simp only [table_addrs, if_neg hne, hslots, hflat]
    refine List.nodup_cons.2 ⟨?_, hnd⟩
    intro hmem
    obtain ⟨d, hd, had⟩ := List.mem_flatMap.1 hmem
    have := hfresh d hd _ had
    omega

theorem copyopttbl_mem_some (h : kmem) (src dmo : mntopts_mem) (extra : Nat)
    (hsrc : table_ok h src) :
    (vfs_copyopttbl_extend_mem h (some src) dmo extra).2.mo_count = src.mo_count + extra ∧
    (table_slots (vfs_copyopttbl_extend_mem h (some src) dmo extra).1
        (vfs_copyopttbl_extend_mem h (some src) dmo extra).2).length
      = src.mo_count + extra ∧
    table_val (vfs_copyopttbl_extend_mem h (some src) dmo extra).1
        (vfs_copyopttbl_extend_mem h (some src) dmo extra).2
      = (table_val h src).map vfs_copyopt ++ List.replicate extra empty_placeholder ∧
    (∀ a ∈ table_addrs (vfs_copyopttbl_extend_mem h (some src) dmo extra).1
        (vfs_copyopttbl_extend_mem h (some src) dmo extra).2,
      h.next ≤ a ∧ a < (vfs_copyopttbl_extend_mem h (some src) dmo extra).1.next) ∧
    h.next ≤ (vfs_copyopttbl_extend_mem h (some src) dmo extra).1.next ∧
    (∀ p, p < h.next → (vfs_copyopttbl_extend_mem h (some src) dmo extra).1.mem p = h.mem p) ∧
    (∀ a, a ∈ (vfs_copyopttbl_extend_mem h (some src) dmo extra).1.freed ↔
      a ∈ table_addrs h dmo ∨ a ∈ h.freed) ∧
    (table_addrs (vfs_copyopttbl_extend_mem h (some src) dmo extra).1
        (vfs_copyopttbl_extend_mem h (some src) dmo extra).2).Nodup := by
  obtain ⟨f1, f2, f3, f4, f5, f6⟩ := freeopttbl_spec h dmo
  generalize hF : vfs_freeopttbl_mem h dmo = F at f1 f2 f3 f4 f5 f6
  obtain ⟨t1, t2, t3⟩ := table_congr h F.1 src (fun a _ => by rw [f1])
  by_cases hc0 : src.mo_count + extra = 0
  · have hr : vfs_copyopttbl_extend_mem h (some src) dmo extra = F := by
      simp only [vfs_copyopttbl_extend_mem, hF, if_pos hc0]
    have hcnt : src.mo_count = 0 := by omega
    have hex : extra = 0 := by omega
    rw [hr]
    refine ⟨by rw [f4, hc0], by rw [f5, hc0]; rfl, ?_, ?_, by rw [f2],
      fun p _ => by rw [f1], f3, by rw [f6]; exact List.nodup_nil⟩
    · simp [table_val, f5, table_slots_zero h src hcnt, hex]
    · rw [f6]
      intro a ha
      exact absurd ha (List.not_mem_nil _)
  · have hin : ∀ s ∈ table_slots h src, ∀ a ∈ slot_addrs F.1 s, a < F.1.next := by
      intro s hs a ha
      rw [(slot_congr h F.1 s (fun a _ => by rw [f1])).2] at ha
      rw [f2]
      exact (hsrc.2 a (slot_addrs_in_table h src s hs a ha)).1
    have hsl : ∀ z, table_slots (kmem_alloc F.1 z).1 src = table_slots h src := by
      intro z
      rw [← t1]
      refine (table_congr F.1 _ src (fun a ha => ?_)).1
      refine (kmem_alloc_spec F.1 z).1.2.1 a ?_
      rw [t3] at ha
      rw [f2]
      exact (hsrc.2 a ha).1
    have hr : vfs_copyopttbl_extend_mem h (some src) dmo extra
        = (kmem_store (copyopt_loop (kmem_alloc F.1 (kmem_block.opts (List.replicate
            (src.mo_count + extra) ⟨none, none, none, MoFlags.zero, 0⟩))).1
              (table_slots h src)).1
            (kmem_alloc F.1 (kmem_block.opts (List.replicate
            (src.mo_count + extra) ⟨none, none, none, MoFlags.zero, 0⟩))).2
            (kmem_block.opts ((copyopt_loop (kmem_alloc F.1 (kmem_block.opts
              (List.replicate (src.mo_count + extra)
                ⟨none, none, none, MoFlags.zero, 0⟩))).1 (table_slots h src)).2
              ++ List.replicate extra empty_placeholder_mem)),
          { mo_list := some (kmem_alloc F.1 (kmem_block.opts (List.replicate
            (src.mo_count + extra) ⟨none, none, none, MoFlags.zero, 0⟩))).2,
            mo_count := src.mo_count + extra }) := by
      simp only [vfs_copyopttbl_extend_mem, hF, if_neg hc0, hsl]
    obtain ⟨c1, c2, c3, c4, c5⟩ := copy_phase F.1 (table_slots h src) (src.mo_count + extra)
      extra hin (by rw [hsrc.1]) hc0 (kmem_block.opts (List.replicate
            (src.mo_count + extra) ⟨none, none, none, MoFlags.zero, 0⟩))
    rw [hr]
    refine ⟨rfl, by rw [c2, ← c2, c2]; simp [(copyopt_loop_spec _ _ (by
        intro s hs a ha
        have hx := (kmem_alloc_spec F.1 (kmem_block.opts (List.replicate
            (src.mo_count + extra) ⟨none, none, none, MoFlags.zero, 0⟩))).1
        rw [(slot_congr F.1 _ s (fun a ha => hx.2.1 a (hin s hs a ha))).2] at ha
        exact lt_of_lt_of_le (hin s hs a ha) hx.1)).2.1, hsrc.1], ?_, ?_, ?_, ?_, ?_, c5⟩
    · rw [c3]
      congr 1
      simp only [table_val, List.map_map]
      exact List.map_congr_left (fun s hs => by
        simp only [Function.comp]
        rw [(slot_congr h F.1 s (fun a _ => by rw [f1])).1])
    · intro a ha
      have := c4 a ha
      rw [f2] at this
      exact this
    · rw [← f2]
      exact c1.1
    · intro p hp
      rw [c1.2.1 p (by rw [f2]; exact hp), f1]
    · intro a
      rw [c1.2.2]
      exact f3 a

theorem copyopttbl_mem_none (h : kmem) (dmo : mntopts_mem) (extra : Nat) :
    (vfs_copyopttbl_extend_mem h none dmo extra).2.mo_count = extra ∧
    (table_slots (vfs_copyopttbl_extend_mem h none dmo extra).1
        (vfs_copyopttbl_extend_mem h none dmo extra).2).length = extra ∧
    table_val (vfs_copyopttbl_extend_mem h none dmo extra).1
        (vfs_copyopttbl_extend_mem h none dmo extra).2
      = List.replicate extra empty_placeholder ∧
    (∀ a ∈ table_addrs (vfs_copyopttbl_extend_mem h none dmo extra).1
        (vfs_copyopttbl_extend_mem h none dmo extra).2,
      h.next ≤ a ∧ a < (vfs_copyopttbl_extend_mem h none dmo extra).1.next) ∧
    (∀ p, p < h.next → (vfs_copyopttbl_extend_mem h none dmo extra).1.mem p = h.mem p) ∧
    (∀ a, a ∈ (vfs_copyopttbl_extend_mem h none dmo extra).1.freed ↔
      a ∈ table_addrs h dmo ∨ a ∈ h.freed) ∧
    (table_addrs (vfs_copyopttbl_extend_mem h none dmo extra).1
        (vfs_copyopttbl_extend_mem h none dmo extra).2).Nodup := by
  obtain ⟨f1, f2, f3, f4, f5, f6⟩ := freeopttbl_spec h dmo
  generalize hF : vfs_freeopttbl_mem h dmo = F at f1 f2 f3 f4 f5 f6
  by_cases hc0 : 0 + extra = 0
  · have hr : vfs_copyopttbl_extend_mem h none dmo extra = F := by
      simp only [vfs_copyopttbl_extend_mem, hF, if_pos hc0]
    have hex : extra = 0 := by omega
    rw [hr]
    refine ⟨by rw [f4, hex], by rw [f5, hex]; rfl, ?_, ?_, fun p _ => by rw [f1], f3,
      by rw [f6]; exact List.nodup_nil⟩
    · simp [table_val, f5, hex]
    · rw [f6]
      intro a ha
      exact absurd ha (List.not_mem_nil _)
  · have hr : vfs_copyopttbl_extend_mem h none dmo extra
        = (kmem_store (copyopt_loop (kmem_alloc F.1 (kmem_block.opts (List.replicate
            (0 + extra) ⟨none, none, none, MoFlags.zero, 0⟩))).1 []).1
            (kmem_alloc F.1 (kmem_block.opts (List.replicate
            (0 + extra) ⟨none, none, none, MoFlags.zero, 0⟩))).2
            (kmem_block.opts ((copyopt_loop (kmem_alloc F.1 (kmem_block.opts
              (List.replicate (0 + extra) ⟨none, none, none, MoFlags.zero, 0⟩))).1 []).2
              ++ List.replicate extra empty_placeholder_mem)),
          { mo_list := some (kmem_alloc F.1 (kmem_block.opts (List.replicate
            (0 + extra) ⟨none, none, none, MoFlags.zero, 0⟩))).2,
            mo_count := 0 + extra }) := by
      simp only [vfs_copyopttbl_extend_mem, hF, if_neg hc0]
    obtain ⟨c1, c2, c3, c4, c5⟩ := copy_phase F.1 [] (0 + extra) extra
      (fun s hs => absurd hs (List.not_mem_nil _)) (by simp) hc0
      (kmem_block.opts (List.replicate (0 + extra) ⟨none, none, none, MoFlags.zero, 0⟩))
    rw [hr]
    refine ⟨by simp, by rw [c2]; simp [copyopt_loop], ?_, ?_, ?_, ?_, c5⟩
    · rw [c3]
      simp
    · intro a ha
      have := c4 a ha
      rw [f2] at this
      exact this
    · intro p hp
      rw [c1.2.1 p (by rw [f2]; exact hp), f1]
    · intro a
      rw [c1.2.2]
      exact f3 a

/-- C15: the source table `src` and the destination struct `dmo` lie in kernel memory `h`
(every released address was handed out before, the blocks of `src` are handed out and not
released, those of `dmo` are handed out, and `src` shares no block with `dmo`). Then
`vfs_copyopttbl_extend(src, dmo, extra)` leaves in `dmo` a table of `|src| + extra` slots
that are, read as values, the slots of `src` in order (same name, flags, argument, data
and cancel names) followed by `extra` `MO_EMPTY` placeholders with nothing else in them,
which is what the function on values gives. The copies are independent: every block of the
new table was handed out during the call and is not released, so none is a block of
`src`, and no two pointers of the new table share a block. The source is unchanged: no block handed out before the call is written, `src`
reads as before and its blocks are still not released. What `dmo` held before is
discarded: every block of the old table is released. A `NULL` source gives exactly `extra`
placeholders, in a table of fresh blocks, and releases the old table as well. -/
theorem vfs_copyopttbl_extend_mem_spec (h : kmem) (src dmo : mntopts_mem) (extra : Nat)
    (hk : ∀ a ∈ h.freed, a < h.next) (hsrc : table_ok h src)
    (hdmo : ∀ a ∈ table_addrs h dmo, a < h.next)
    (hsep : ∀ a ∈ table_addrs h src, a ∉ table_addrs h dmo) :
    ((table_val (vfs_copyopttbl_extend_mem h (some src) dmo extra).1 (vfs_copyopttbl_extend_mem h (some src) dmo extra).2).length = (table_val h src).length + extra ∧
      (vfs_copyopttbl_extend_mem h (some src) dmo extra).2.mo_count = src.mo_count + extra ∧
      (table_val (vfs_copyopttbl_extend_mem h (some src) dmo extra).1 (vfs_copyopttbl_extend_mem h (some src) dmo extra).2).take (table_val h src).length
        = (table_val h src).map vfs_copyopt ∧
      (∀ m, (vfs_copyopt m).mo_name = m.mo_name ∧ (vfs_copyopt m).mo_flags = m.mo_flags ∧
        (vfs_copyopt m).mo_arg = m.mo_arg ∧ (vfs_copyopt m).mo_data = m.mo_data ∧
        cancel_list (vfs_copyopt m).mo_cancel = cancel_list m.mo_cancel) ∧
      (table_val (vfs_copyopttbl_extend_mem h (some src) dmo extra).1 (vfs_copyopttbl_extend_mem h (some src) dmo extra).2).drop (table_val h src).length
        = List.replicate extra ⟨none, none, none, MO_EMPTY, 0⟩ ∧
      table_val (vfs_copyopttbl_extend_mem h (some src) dmo extra).1 (vfs_copyopttbl_extend_mem h (some src) dmo extra).2
        = vfs_copyopttbl_extend (some (table_val h src)) (table_val h dmo) extra ∧
      table_ok (vfs_copyopttbl_extend_mem h (some src) dmo extra).1 (vfs_copyopttbl_extend_mem h (some src) dmo extra).2) ∧
    ((∀ a ∈ table_addrs (vfs_copyopttbl_extend_mem h (some src) dmo extra).1 (vfs_copyopttbl_extend_mem h (some src) dmo extra).2,
        h.next ≤ a ∧ a ∉ table_addrs h src ∧ a ∉ table_addrs (vfs_copyopttbl_extend_mem h (some src) dmo extra).1 src) ∧
      (table_addrs (vfs_copyopttbl_extend_mem h (some src) dmo extra).1 (vfs_copyopttbl_extend_mem h (some src) dmo extra).2).Nodup) ∧
    ((∀ p, p < h.next → (vfs_copyopttbl_extend_mem h (some src) dmo extra).1.mem p = h.mem p) ∧ table_val (vfs_copyopttbl_extend_mem h (some src) dmo extra).1 src = table_val h src ∧
      table_addrs (vfs_copyopttbl_extend_mem h (some src) dmo extra).1 src = table_addrs h src ∧ table_ok (vfs_copyopttbl_extend_mem h (some src) dmo extra).1 src) ∧
    (∀ a ∈ table_addrs h dmo, a ∈ (vfs_copyopttbl_extend_mem h (some src) dmo extra).1.freed) ∧
    (table_val (vfs_copyopttbl_extend_mem h none dmo extra).1 (vfs_copyopttbl_extend_mem h none dmo extra).2 = List.replicate extra ⟨none, none, none, MO_EMPTY, 0⟩ ∧
      table_val (vfs_copyopttbl_extend_mem h none dmo extra).1 (vfs_copyopttbl_extend_mem h none dmo extra).2 = vfs_copyopttbl_extend none (table_val h dmo) extra ∧
      (vfs_copyopttbl_extend_mem h none dmo extra).2.mo_count = extra ∧ table_ok (vfs_copyopttbl_extend_mem h none dmo extra).1 (vfs_copyopttbl_extend_mem h none dmo extra).2 ∧
      (∀ a ∈ table_addrs (vfs_copyopttbl_extend_mem h none dmo extra).1 (vfs_copyopttbl_extend_mem h none dmo extra).2, h.next ≤ a) ∧
      (∀ a ∈ table_addrs h dmo, a ∈ (vfs_copyopttbl_extend_mem h none dmo extra).1.freed)) := by
  obtain ⟨s1, s2, s3, s4, s5, s6, s7, s8⟩ := copyopttbl_mem_some h src dmo extra hsrc
  obtain ⟨n1, n2, n3, n4, n5, n6, -⟩ := copyopttbl_mem_none h dmo extra
  have hph : empty_placeholder = ⟨none, none, none, MO_EMPTY, 0⟩ := rfl
  have hlen : (table_val h src).length = src.mo_count := by
    simp only [table_val, List.length_map, hsrc.1]
  have hfresh : ∀ a, h.next ≤ a → a ∉ table_addrs h dmo ∧ a ∉ h.freed := by
    intro a ha
    exact ⟨fun hin => by have := hdmo a hin; omega, fun hin => by have := hk a hin; omega⟩
  obtain ⟨t1, t2, t3⟩ := table_congr h (vfs_copyopttbl_extend_mem h (some src) dmo extra).1 src (fun a ha => s6 a (hsrc.2 a ha).1)
  refine ⟨⟨?_, s1, ?_, copyopt_fields, ?_, ?_, ⟨s2.trans s1.symm, ?_⟩⟩, ⟨?_, s8⟩,
    ⟨s6, t2, t3, ⟨?_, ?_⟩⟩, ?_,
    ⟨?_, ?_, n1, ⟨n2.trans n1.symm, ?_⟩, ?_, ?_⟩⟩
  · rw [s3]
    simp
  · rw [s3, List.take_left' (by simp)]
  · rw [s3, List.drop_left' (by simp), hph]
  · rw [s3, copyopttbl_extend_some]
  · intro a ha
    have := s4 a ha
    refine ⟨this.2, ?_⟩
    rw [s7]
    intro hin
    rcases hin with hin | hin
    · exact (hfresh a this.1).1 hin
    · exact (hfresh a this.1).2 hin
  · intro a ha
    have := s4 a ha
    have hns : a ∉ table_addrs h src := fun hin => by
      have := (hsrc.2 a hin).1
      omega
    exact ⟨this.1, hns, by rw [t3]; exact hns⟩
  · rw [t1, hsrc.1]
  · intro a ha
    rw [t3] at ha
    refine ⟨lt_of_lt_of_le (hsrc.2 a ha).1 s5, ?_⟩
    rw [s7]
    intro hin
    rcases hin with hin | hin
    · exact hsep a ha hin
    · exact (hsrc.2 a ha).2 hin
  · intro a ha
    exact (s7 a).2 (Or.inl ha)
  · rw [n3, hph]
  · rw [n3, copyopttbl_extend_none]
  · intro a ha
    have := n4 a ha
    refine ⟨this.2, ?_⟩
    rw [n6]
    intro hin
    rcases hin with hin | hin
    · exact (hfresh a this.1).1 hin
    · exact (hfresh a this.1).2 hin
  · intro a ha
    exact (n4 a ha).1
  · intro a ha
    exact (n6 a).2 (Or.inl ha)

/-- Witness of C15: the memory holds the source table ("ro" cancelling "rw", and an EMPTY
slot) in the blocks 0 to 4 and an old destination table ("old") in the blocks 5 and 6; the
source is copied with one extra slot. -/
theorem vfs_copyopttbl_extend_mem_spec_witness :
    table_val
        (vfs_copyopttbl_extend_mem
          ⟨fun a => [kmem_block.chars "ro".toList, kmem_block.ptrs [some 2, none],
              kmem_block.chars "rw".toList, kmem_block.chars "x".toList,
              kmem_block.opts [⟨some 0, some 1, some 3, MO_HASVALUE, 0⟩,
                ⟨none, none, none, MO_EMPTY, 0⟩],
              kmem_block.chars "old".toList,
              kmem_block.opts [⟨some 5, none, none, MoFlags.zero, 0⟩]][a]?, 7, []⟩
          (some ⟨some 4, 2⟩) ⟨some 6, 1⟩ 1).1
        (vfs_copyopttbl_extend_mem
          ⟨fun a => [kmem_block.chars "ro".toList, kmem_block.ptrs [some 2, none],
              kmem_block.chars "rw".toList, kmem_block.chars "x".toList,
              kmem_block.opts [⟨some 0, some 1, some 3, MO_HASVALUE, 0⟩,
                ⟨none, none, none, MO_EMPTY, 0⟩],
              kmem_block.chars "old".toList,
              kmem_block.opts [⟨some 5, none, none, MoFlags.zero, 0⟩]][a]?, 7, []⟩
          (some ⟨some 4, 2⟩) ⟨some 6, 1⟩ 1).2
      = [⟨some "ro".toList, some ["rw".toList], some "x".toList, MO_HASVALUE, 0⟩,
          ⟨none, none, none, MO_EMPTY, 0⟩, ⟨none, none, none, MO_EMPTY, 0⟩]
    ∧ ∀ a ∈ table_addrs
        (vfs_copyopttbl_extend_mem
          ⟨fun a => [kmem_block.chars "ro".toList, kmem_block.ptrs [some 2, none],
              kmem_block.chars "rw".toList, kmem_block.chars "x".toList,
              kmem_block.opts [⟨some 0, some 1, some 3, MO_HASVALUE, 0⟩,
                ⟨none, none, none, MO_EMPTY, 0⟩],
              kmem_block.chars "old".toList,
              kmem_block.opts [⟨some 5, none, none, MoFlags.zero, 0⟩]][a]?, 7, []⟩
          (some ⟨some 4, 2⟩) ⟨some 6, 1⟩ 1).1
        (vfs_copyopttbl_extend_mem
          ⟨fun a => [kmem_block.chars "ro".toList, kmem_block.ptrs [some 2, none],
              kmem_block.chars "rw".toList, kmem_block.chars "x".toList,
              kmem_block.opts [⟨some 0, some 1, some 3, MO_HASVALUE, 0⟩,
                ⟨none, none, none, MO_EMPTY, 0⟩],
              kmem_block.chars "old".toList,
              kmem_block.opts [⟨some 5, none, none, MoFlags.zero, 0⟩]][a]?, 7, []⟩
          (some ⟨some 4, 2⟩) ⟨some 6, 1⟩ 1).2,
        7 ≤ a :=
  match vfs_copyopttbl_extend_mem_spec
      ⟨fun a => [kmem_block.chars "ro".toList, kmem_block.ptrs [some 2, none],
          kmem_block.chars "rw".toList, kmem_block.chars "x".toList,
          kmem_block.opts [⟨some 0, some 1, some 3, MO_HASVALUE, 0⟩,
            ⟨none, none, none, MO_EMPTY, 0⟩],
          kmem_block.chars "old".toList,
          kmem_block.opts [⟨some 5, none, none, MoFlags.zero, 0⟩]][a]?, 7, []⟩
      ⟨some 4, 2⟩ ⟨some 6, 1⟩ 1
      (by decide) ⟨rfl, by decide⟩ (by decide) (by decide) with
  | ⟨⟨_, _, _, _, _, hv, _⟩, ⟨hf, _⟩, _, _, _⟩ =>
    ⟨hv.trans (by decide), fun a ha => (hf a ha).1⟩

/-! ## An unmount after a resume that failed past the reopen -/

/-- C25 (evaluation of the code): the instance with the store 7 attached, its twelve
subscriptions registered and both locks free is suspended (`zfs_suspend_fs` returns 0
holding both locks) and resumed; the reopen succeeds and the read of the version fails with
`EIO`. `zfs_resume_fs` returns `EIO` with both locks free, `z_os` still set, the instance
not marked unmounted and no subscription registered. The teardown for unmount of that
instance does not return 0: it reaches `zfs_unregister_callbacks`, whose first
`VERIFY(dsl_prop_unregister(...) == 0)` fails, and so does `zfs_vfs_unmount`. Likewise
`zfs_resume_fs` does not return when the reopen and the SA setup succeed and the
registration of the callbacks in `zfsvfs_setup` fails: its `VERIFY` stops the kernel with
both locks held. -/
theorem zfsvfs_teardown_unmount_after_failed_resume :
    ∃ s s1,
      zfs_suspend_fs
        ⟨⟨false, true, 512, 131072, fun _ => Except.ok 1⟩, false, Except.ok 7, Except.ok 5,
          Except.ok 3, fun _ => none, 5, fun _ => true, none⟩
        { zfsvfs_zalloc with
          z_os := some 7, z_log := some 7, os_owned := [7], os_user_ptr := some 7
          reg := { zfsvfs_zalloc.reg with ds_prop_cbs := registrations } }
        = outcome.ret (none, s) ∧
      s.z_teardown_lock = krwlock_t.write_held ∧
      s.z_teardown_inactive_lock = krwlock_t.write_held ∧
      zfs_resume_fs
        ⟨⟨false, true, 512, 131072, fun _ => Except.ok 1⟩, false, Except.ok 7,
          Except.error Errno.EIO, Except.ok 3, fun _ => none, 5, fun _ => true, none⟩ s
        = outcome.ret (some Errno.EIO, s1) ∧
      s1.z_teardown_lock = krwlock_t.unheld ∧
      s1.z_teardown_inactive_lock = krwlock_t.unheld ∧
      s1.z_os = some 7 ∧ s1.z_unmounted = false ∧ s1.reg.ds_prop_cbs = [] ∧
      zfsvfs_teardown
        ⟨⟨false, true, 512, 131072, fun _ => Except.ok 1⟩, false, Except.ok 7, Except.ok 5,
          Except.ok 3, fun _ => none, 5, fun _ => true, none⟩ s1 true = outcome.stops ∧
      zfs_vfs_unmount
        ⟨⟨false, true, 512, 131072, fun _ => Except.ok 1⟩, false, Except.ok 7, Except.ok 5,
          Except.ok 3, fun _ => none, 5, fun _ => true, none⟩ s1 = outcome.stops ∧
      zfs_resume_fs
        ⟨⟨false, true, 512, 131072, fun _ => Except.error Errno.EIO⟩, false, Except.ok 7,
          Except.ok 5, Except.ok 3, fun _ => none, 5, fun _ => true, none⟩ s
        = outcome.stops :=
  ⟨_, _, rfl, rfl, rfl, rfl, rfl, rfl, rfl, rfl, rfl, rfl, rfl, rfl⟩

end ZfsVfsops
